import Mathlib

/-!
Lyapunov-exponent engine: a shallow embedding of `main.cpp`.

The C++ program computes with `double`.  Every definition below is written
against an explicit record `Arith α` of the primitive operations the source
applies to doubles (`+ - * /`, unary minus, `fabs`, `floor`, `log`, `atan`,
the comparison `<`, the conversion of an integer, and literals).  No law is
assumed about these operations, so a theorem stated for every `Arith α` is a
statement about the expression that the code evaluates, operation by
operation.  Where a claim speaks of exact arithmetic the record is
instantiated by `Arith.ofField`, the operations of a linearly ordered field.

Machine integers (`int32_t`, `uint32_t`) are `Int`/`Nat` with explicit
wrap-around where the source can overflow.
-/

namespace Lyapunov

/-! ## Primitive double operations -/

/-- The primitive operations on `double` used by the source.  `trigSin` and
`trigCos` are the functions that the map variants reach under the names
`fastsin` and `fastcos`; `Arith.srcTrig` installs the polynomial of the source
for them. -/
structure Arith (α : Type) where
  add : α → α → α
  sub : α → α → α
  mul : α → α → α
  div : α → α → α
  neg : α → α
  fabs : α → α
  floor : α → α
  log : α → α
  atan : α → α
  trigSin : α → α
  trigCos : α → α
  /-- Conversion of an integer value to `double`. -/
  ofInt : Int → α
  /-- A decimal literal of the source text. -/
  lit : ℚ → α
  /-- The comparison `a < b`; the source's `a > b` is `lt b a`. -/
  lt : α → α → Bool
  /-- The comparison `a <= b`; the source's `a >= b` is `le b a`. -/
  le : α → α → Bool
  /-- The conversion `int32_t(a)` of a double to an integer: truncation toward
  zero (undefined in the source when the result does not fit). -/
  trunc : α → Int

/-- Truncation toward zero of an element of a linearly ordered field. -/
def truncZero {α : Type} [LinearOrderedField α] [FloorRing α] (a : α) : Int :=
  if 0 ≤ a then Int.floor a else Int.ceil a

/-- Exact arithmetic: the operations of a linearly ordered field, with the
four transcendental functions supplied by the caller. -/
def Arith.ofField {α : Type} [LinearOrderedField α] [FloorRing α]
    (sn cs atn lg : α → α) : Arith α where
  add := fun a b => a + b
  sub := fun a b => a - b
  mul := fun a b => a * b
  div := fun a b => a / b
  neg := fun a => -a
  fabs := fun a => |a|
  floor := fun a => ((Int.floor a : Int) : α)
  log := lg
  atan := atn
  trigSin := sn
  trigCos := cs
  ofInt := fun z => (z : α)
  lit := fun q => (q : α)
  lt := fun a b => decide (a < b)
  le := fun a b => decide (a ≤ b)
  trunc := truncZero

/-- The constant `M_PI` of `math.h`: the double nearest to pi, as the exact
rational it denotes. -/
def M_PI : ℚ := 884279719003555 / 281474976710656

/-- `const double PI05=0.5*M_PI;` -/
def PI05 {α : Type} (A : Arith α) : α := A.mul (A.lit (1/2)) (A.lit M_PI)

/-- `fastsin` (main.cpp 498-520): range reduction to `-pi..pi`, then an odd
polynomial of degree 11 in Horner form. -/
def fastsin {α : Type} (A : Arith α) (x0 : α) : α :=
  let x :=
    if A.lt x0 (A.neg (A.lit 3.14159265)) then
      let d := A.div (A.sub (A.lit 3.14159265) x0) (A.lit 6.28318531)
      A.add x0 (A.mul (A.floor d) (A.lit 6.28318531))
    else if A.lt (A.lit 3.14159265) x0 then
      let d := A.div (A.add x0 (A.lit 3.14159265)) (A.lit 6.28318531)
      A.sub x0 (A.mul (A.floor d) (A.lit 6.28318531))
    else x0
  let x2 := A.mul x x
  A.mul
    (A.add (A.mul
      (A.sub (A.mul
        (A.add (A.mul
          (A.sub (A.mul
            (A.add (A.mul (A.neg (A.lit 2.05342856289746600727e-08)) x2)
              (A.lit 2.70405218307799040084e-06)) x2)
            (A.lit 1.98125763417806681909e-04)) x2)
          (A.lit 8.33255814755188010464e-03)) x2)
        (A.lit 1.66665772196961623983e-01)) x2)
      (A.lit 9.99999707044156546685e-01))
    x

/-- `fastcos` (main.cpp 522-524). -/
def fastcos {α : Type} (A : Arith α) (x : α) : α := fastsin A (A.add x (PI05 A))

/-- The arithmetic `A` with the source's own `fastsin`/`fastcos` installed as
its trigonometric pair. -/
def Arith.srcTrig {α : Type} (A : Arith α) : Arith α :=
  { A with trigSin := fastsin A, trigCos := fastcos A }

/-! ## Map functions -/

/-- `enum { WAS_F=1, WAS_ABL };` -/
def WAS_F : Int := 1

/-- `enum { WAS_F=1, WAS_ABL };` -/
def WAS_ABL : Int := 2

/-- The class hierarchy below `struct Function` as a closed variant type.  Each
constructor carries the data members that the evaluation reads: `b`, `b2` of
`FunctionII` and its subclasses, the two child pointers and role selectors of
`FunctionMetaDet`, the four section bounds and two child pointers of
`FunctionMetaABSC`.  A child pointer is modelled by the child object itself
(evaluating through a null child is undefined in the source). -/
inductive Function (α : Type) where
  | I : Function α
  | II (b b2 : α) : Function α
  | SICO (b b2 : α) : Function α
  | III (b b2 : α) : Function α
  | VII (b b2 : α) : Function α
  | IX (b b2 : α) : Function α
  | X (b b2 : α) : Function α
  | LSIN (b b2 : α) : Function α
  | ATAN (b b2 : α) : Function α
  | MetaDet (b b2 : α) (f abl : Function α) (fwas ablwas : Int) : Function α
  | MetaABSC (b b2 : α) (I0MIN I1MIN I0MAX I1MAX : α) (fint fext : Function α) :
      Function α

/-! ### The nine plain variants

Three entry points per class: `eval(x,r,fx)` (value only, here `eval`),
`eval(x,r,fx,abl)` (value and derivative, here `eval2`) and
`evalabl(x,r,abl)` (derivative only). -/

/-- `FunctionI::eval(x,r,fx)`: `fx=r*x*(1-x)`. -/
def FunctionI.eval {α : Type} (A : Arith α) (x r : α) : α :=
  A.mul (A.mul r x) (A.sub (A.ofInt 1) x)

/-- `FunctionI::eval(x,r,fx,abl)`. -/
def FunctionI.eval2 {α : Type} (A : Arith α) (x r : α) : α × α :=
  let rx := A.mul r x
  (A.mul rx (A.sub (A.ofInt 1) x), A.sub (A.sub r rx) rx)

/-- `FunctionI::evalabl`. -/
def FunctionI.evalabl {α : Type} (A : Arith α) (x r : α) : α :=
  let rx := A.mul r x
  A.sub (A.sub r rx) rx

/-- `FunctionII::eval(x,r,fx)`: `si=fastsin(x+r); fx=b*si*si`. -/
def FunctionII.eval {α : Type} (A : Arith α) (b : α) (x r : α) : α :=
  let si := A.trigSin (A.add x r)
  A.mul (A.mul b si) si

/-- `FunctionII::eval(x,r,fx,abl)`. -/
def FunctionII.eval2 {α : Type} (A : Arith α) (b b2 : α) (x r : α) : α × α :=
  let xr := A.add x r
  let si := A.trigSin xr
  (A.mul (A.mul b si) si, A.mul (A.mul b2 si) (A.trigCos xr))

/-- `FunctionII::evalabl`; also what `FunctionMetaDet` and `FunctionMetaABSC`
inherit, since neither overrides `evalabl`. -/
def FunctionII.evalabl {α : Type} (A : Arith α) (b2 : α) (x r : α) : α :=
  let xr := A.add x r
  A.mul (A.mul b2 (A.trigSin xr)) (A.trigCos xr)

/-- `FunctionSICO::eval(x,r,fx)`. -/
def FunctionSICO.eval {α : Type} (A : Arith α) (b : α) (x r : α) : α :=
  A.mul b (A.trigSin (A.add x (A.mul r (A.trigCos (A.add x r)))))

/-- `FunctionSICO::eval(x,r,fx,abl)`. -/
def FunctionSICO.eval2 {α : Type} (A : Arith α) (b : α) (x r : α) : α × α :=
  let xr := A.add x r
  let xrc := A.add x (A.mul r (A.trigCos xr))
  (A.mul b (A.trigSin xrc),
   A.mul (A.mul b (A.sub (A.ofInt 1) (A.mul r (A.trigSin xr)))) (A.trigCos xrc))

/-- `FunctionSICO::evalabl`. -/
def FunctionSICO.evalabl {α : Type} (A : Arith α) (b : α) (x r : α) : α :=
  let xr := A.add x r
  let xrc := A.add x (A.mul r (A.trigCos xr))
  A.mul (A.mul b (A.sub (A.ofInt 1) (A.mul r (A.trigSin xr)))) (A.trigCos xrc)

/-- `FunctionIII::eval(x,r,fx)`. -/
def FunctionIII.eval {α : Type} (A : Arith α) (b : α) (x r : α) : α :=
  A.mul (A.mul b (A.trigSin (A.add x r))) (A.trigSin (A.sub x r))

/-- `FunctionIII::eval(x,r,fx,abl)`. -/
def FunctionIII.eval2 {α : Type} (A : Arith α) (b : α) (x r : α) : α × α :=
  (A.mul (A.mul b (A.trigSin (A.add x r))) (A.trigSin (A.sub x r)),
   A.mul b (A.trigSin (A.add x x)))

/-- `FunctionIII::evalabl`. -/
def FunctionIII.evalabl {α : Type} (A : Arith α) (b : α) (x _r : α) : α :=
  A.mul b (A.trigSin (A.add x x))

/-- `FunctionVII::eval(x,r,fx)`. -/
def FunctionVII.eval {α : Type} (A : Arith α) (b : α) (x r : α) : α :=
  let si := A.trigSin (A.add x r)
  A.mul (A.mul b si) si

/-- `FunctionVII::eval(x,r,fx,abl)`: the detached derivative `r-2rx`. -/
def FunctionVII.eval2 {α : Type} (A : Arith α) (b : α) (x r : α) : α × α :=
  let si := A.trigSin (A.add x r)
  let rx := A.mul r x
  (A.mul (A.mul b si) si, A.sub (A.sub r rx) rx)

/-- `FunctionVII::evalabl`. -/
def FunctionVII.evalabl {α : Type} (A : Arith α) (x r : α) : α :=
  let rx := A.mul r x
  A.sub (A.sub r rx) rx

/-- `FunctionIX::eval(x,r,fx)`. -/
def FunctionIX.eval {α : Type} (A : Arith α) (b : α) (x r : α) : α :=
  let si := A.trigSin (A.add (A.mul b x) r)
  A.add (A.mul b (A.trigSin (A.add x r))) (A.mul (A.mul b si) si)

/-- `FunctionIX::eval(x,r,fx,abl)`. -/
def FunctionIX.eval2 {α : Type} (A : Arith α) (b : α) (x r : α) : α × α :=
  let si := A.trigSin (A.add (A.mul b x) r)
  let si2 := A.trigSin (A.add x (A.mul r b))
  (A.add (A.mul b (A.trigSin (A.add x r))) (A.mul (A.mul b si) si),
   A.sub (A.mul si2 si2) (A.mul r x))

/-- `FunctionIX::evalabl`. -/
def FunctionIX.evalabl {α : Type} (A : Arith α) (b : α) (x r : α) : α :=
  let si2 := A.trigSin (A.add x (A.mul r b))
  A.sub (A.mul si2 si2) (A.mul r x)

/-- `FunctionX::eval(x,r,fx)`. -/
def FunctionX.eval {α : Type} (A : Arith α) (b : α) (x r : α) : α :=
  let si := A.trigSin (A.sub x r)
  let si2 := A.trigSin (A.add (A.add x r) r)
  A.add (A.mul (A.mul r si) si) (A.mul (A.mul (A.mul b si2) si2) si2)

/-- `FunctionX::evalabl`. -/
def FunctionX.evalabl {α : Type} (A : Arith α) (b : α) (x r : α) : α :=
  let rx := A.mul r x
  let si3 := A.trigSin (A.sub rx b)
  let si4 := A.mul si3 si3
  A.sub rx (A.mul (A.mul b si4) si4)

/-- `FunctionX::eval(x,r,fx,abl)`. -/
def FunctionX.eval2 {α : Type} (A : Arith α) (b : α) (x r : α) : α × α :=
  let si := A.trigSin (A.sub x r)
  let si2 := A.trigSin (A.add (A.add x r) r)
  let rx := A.mul r x
  let si3 := A.trigSin (A.sub rx b)
  let si4 := A.mul si3 si3
  (A.add (A.mul (A.mul r si) si) (A.mul (A.mul (A.mul b si2) si2) si2),
   A.sub rx (A.mul (A.mul b si4) si4))

/-- `FunctionLSIN::eval(x,r,fx)`. -/
def FunctionLSIN.eval {α : Type} (A : Arith α) (b : α) (x r : α) : α :=
  A.mul (A.mul r (A.trigSin x))
    (A.sub (A.ofInt 1) (A.mul b (A.trigSin (A.add x r))))

/-- `FunctionLSIN::evalabl`: `abl=-r*(b*fastsin(x+x+r)-fastcos(x))`. -/
def FunctionLSIN.evalabl {α : Type} (A : Arith α) (b : α) (x r : α) : α :=
  A.mul (A.neg r)
    (A.sub (A.mul b (A.trigSin (A.add (A.add x x) r))) (A.trigCos x))

/-- `FunctionLSIN::eval(x,r,fx,abl)`. -/
def FunctionLSIN.eval2 {α : Type} (A : Arith α) (b : α) (x r : α) : α × α :=
  (A.mul (A.mul r (A.trigSin x))
     (A.sub (A.ofInt 1) (A.mul b (A.trigSin (A.add x r)))),
   A.mul (A.neg r)
     (A.sub (A.mul b (A.trigSin (A.add (A.add x x) r))) (A.trigCos x)))

/-- `FunctionATAN::eval(x,r,fx)`. -/
def FunctionATAN.eval {α : Type} (A : Arith α) (b : α) (x r : α) : α :=
  let xr := A.add x r
  A.mul b (A.atan (A.mul xr (A.trigSin xr)))

/-- `FunctionATAN::evalabl`. -/
def FunctionATAN.evalabl {α : Type} (A : Arith α) (b : α) (x r : α) : α :=
  let xr := A.add x r
  let si := A.trigSin xr
  let xsi := A.mul xr si
  A.div (A.mul b (A.add si (A.mul xr (A.trigCos xr))))
    (A.add (A.ofInt 1) (A.mul xsi xsi))

/-- `FunctionATAN::eval(x,r,fx,abl)`. -/
def FunctionATAN.eval2 {α : Type} (A : Arith α) (b : α) (x r : α) : α × α :=
  let xr := A.add x r
  let si := A.trigSin xr
  let xsi := A.mul xr si
  (A.mul b (A.atan xsi),
   A.div (A.mul b (A.add si (A.mul xr (A.trigCos xr))))
     (A.add (A.ofInt 1) (A.mul xsi xsi)))

/-! ### Virtual dispatch -/

/-- `evalabl(x,r,abl)` under virtual dispatch.  The nine plain classes override
it; `FunctionMetaDet` and `FunctionMetaABSC` do not, so a call on them runs
`FunctionII::evalabl` on their own `b2`. -/
def Function.evalabl {α : Type} (A : Arith α) : Function α → α → α → α
  | .I, x, r => FunctionI.evalabl A x r
  | .II _ b2, x, r => FunctionII.evalabl A b2 x r
  | .SICO b _, x, r => FunctionSICO.evalabl A b x r
  | .III b _, x, r => FunctionIII.evalabl A b x r
  | .VII _ _, x, r => FunctionVII.evalabl A x r
  | .IX b _, x, r => FunctionIX.evalabl A b x r
  | .X b _, x, r => FunctionX.evalabl A b x r
  | .LSIN b _, x, r => FunctionLSIN.evalabl A b x r
  | .ATAN b _, x, r => FunctionATAN.evalabl A b x r
  | .MetaDet _ b2 _ _ _ _, x, r => FunctionII.evalabl A b2 x r
  | .MetaABSC _ b2 _ _ _ _ _ _, x, r => FunctionII.evalabl A b2 x r

mutual

/-- `eval(x,r,fx)` under virtual dispatch (value only).
`FunctionMetaDet::eval` (978-982): `if (fwas==WAS_F) f->eval(x,r,fx); else
f->eval(x,r,tmp,fx);`.  `FunctionMetaABSC::eval` (1086-1091):
`if ((x > I0MAX) || (x < I0MIN)) fext->eval(x,r,fx); else fint->eval(x,r,fx);`. -/
def Function.eval {α : Type} (A : Arith α) : Function α → α → α → α
  | .I, x, r => FunctionI.eval A x r
  | .II b _, x, r => FunctionII.eval A b x r
  | .SICO b _, x, r => FunctionSICO.eval A b x r
  | .III b _, x, r => FunctionIII.eval A b x r
  | .VII b _, x, r => FunctionVII.eval A b x r
  | .IX b _, x, r => FunctionIX.eval A b x r
  | .X b _, x, r => FunctionX.eval A b x r
  | .LSIN b _, x, r => FunctionLSIN.eval A b x r
  | .ATAN b _, x, r => FunctionATAN.eval A b x r
  | .MetaDet _ _ f _ fwas _, x, r =>
      if fwas = WAS_F then Function.eval A f x r else (Function.eval2 A f x r).2
  | .MetaABSC _ _ I0MIN _ I0MAX _ fint fext, x, r =>
      if A.lt I0MAX x || A.lt x I0MIN then Function.eval A fext x r
      else Function.eval A fint x r

/-- `eval(x,r,fx,abl)` under virtual dispatch (value and derivative).
`FunctionMetaDet::eval` (984-988): `if (fwas==WAS_F) f->eval(x,r,fx); else
f->evalabl(x,r,fx); if (ablwas==WAS_F) abl->eval(x,r,ab); else
abl->evalabl(x,r,ab);`.  `FunctionMetaABSC::eval` (1093-1098):
`if ((x > I1MAX) || (x < I1MIN)) fext->eval(x,r,fx,abl); else
fint->eval(x,r,fx,abl);`. -/
def Function.eval2 {α : Type} (A : Arith α) : Function α → α → α → α × α
  | .I, x, r => FunctionI.eval2 A x r
  | .II b b2, x, r => FunctionII.eval2 A b b2 x r
  | .SICO b _, x, r => FunctionSICO.eval2 A b x r
  | .III b _, x, r => FunctionIII.eval2 A b x r
  | .VII b _, x, r => FunctionVII.eval2 A b x r
  | .IX b _, x, r => FunctionIX.eval2 A b x r
  | .X b _, x, r => FunctionX.eval2 A b x r
  | .LSIN b _, x, r => FunctionLSIN.eval2 A b x r
  | .ATAN b _, x, r => FunctionATAN.eval2 A b x r
  | .MetaDet _ _ f abl fwas ablwas, x, r =>
      (if fwas = WAS_F then Function.eval A f x r else Function.evalabl A f x r,
       if ablwas = WAS_F then Function.eval A abl x r
       else Function.evalabl A abl x r)
  | .MetaABSC _ _ _ I1MIN _ I1MAX fint fext, x, r =>
      if A.lt I1MAX x || A.lt x I1MIN then Function.eval2 A fext x r
      else Function.eval2 A fint x r

end

/-- `set_b(d)` under virtual dispatch.  `Function::set_b` does nothing
(`FunctionI`); `FunctionII::set_b` is `b=d; b2=d+d;` and is inherited by the
plain subclasses; the two meta classes forward to their children and leave
their own `b`, `b2` alone. -/
def Function.set_b {α : Type} (A : Arith α) : Function α → α → Function α
  | .I, _ => .I
  | .II _ _, d => .II d (A.add d d)
  | .SICO _ _, d => .SICO d (A.add d d)
  | .III _ _, d => .III d (A.add d d)
  | .VII _ _, d => .VII d (A.add d d)
  | .IX _ _, d => .IX d (A.add d d)
  | .X _ _, d => .X d (A.add d d)
  | .LSIN _ _, d => .LSIN d (A.add d d)
  | .ATAN _ _, d => .ATAN d (A.add d d)
  | .MetaDet b b2 f abl fwas ablwas, d =>
      .MetaDet b b2 (Function.set_b A f d) (Function.set_b A abl d) fwas ablwas
  | .MetaABSC b b2 i0min i1min i0max i1max fint fext, d =>
      .MetaABSC b b2 i0min i1min i0max i1max (Function.set_b A fint d)
        (Function.set_b A fext d)

/-- The nine classes that are neither composed nor piecewise. -/
def Function.isPlain {α : Type} : Function α → Bool
  | .MetaDet _ _ _ _ _ _ => false
  | .MetaABSC _ _ _ _ _ _ _ _ => false
  | _ => true

/-- `FunctionMetaDet::setF(p,a)`: `f=p; fwas=a;` (a member of
`FunctionMetaDet` only; other objects are returned as they are). -/
def Function.setF {α : Type} : Function α → Function α → Int → Function α
  | .MetaDet b b2 _ abl _ ablwas, p, a => .MetaDet b b2 p abl a ablwas
  | g, _, _ => g

/-- `FunctionMetaDet::setAbl(p,a)`: `abl=p; ablwas=a;` (a member of
`FunctionMetaDet` only; other objects are returned as they are). -/
def Function.setAbl {α : Type} : Function α → Function α → Int → Function α
  | .MetaDet b b2 f _ fwas _, p, a => .MetaDet b b2 f p fwas a
  | g, _, _ => g

/-- The condition under which the value-only evaluation and the value output of
the two-output evaluation of an object agree at `x` by the design of the
classes: a plain object always; a `FunctionMetaDet` when it takes its value
from the child's value (`fwas == WAS_F`) or from a plain child; a
`FunctionMetaABSC` when `x` is put on the same side by the section `I0MIN,
I0MAX` of the value-only form and by the section `I1MIN, I1MAX` of the
two-output form, and the child selected there meets the condition. -/
def Function.valueCoherent {α : Type} (A : Arith α) : Function α → α → Bool
  | .MetaDet _ _ f _ fwas _, _ => decide (fwas = WAS_F) || f.isPlain
  | .MetaABSC _ _ I0MIN I1MIN I0MAX I1MAX fint fext, x =>
      ((A.lt I0MAX x || A.lt x I0MIN) == (A.lt I1MAX x || A.lt x I1MIN)) &&
      (if A.lt I1MAX x || A.lt x I1MIN then Function.valueCoherent A fext x
       else Function.valueCoherent A fint x)
  | _, _ => true

/-! ## The field and its sampling pass -/

/-- `struct Point32_t { double x,y; };` -/
structure Point32_t (α : Type) where
  x : α
  y : α

/-- The data members of `struct Ljapunow` that the sampling pass and the
setters read or write.  `fkt` is the object behind the pointer `fkt` (the model
covers fields whose function has been installed); `seqlen` is a natural number
(the source only ever stores 0 or a string length below 256 in it);
`sequence` is the array `char sequence[256]` as a map from index to stored
byte; `exps` is the heap buffer behind `exps`, a list of its cells (a write
beyond its end, undefined in the source, is dropped). -/
structure Ljapunow (α : Type) where
  fkt : Function α
  lenx : Int
  leny : Int
  iter0 : Int
  iter1 : Int
  seqlen : Nat
  iter0h : Int
  iter1h : Int
  iter1d : Int
  INViter1d : α
  sequence : Nat → Int
  exps : List α
  x0 : α
  upperleft : Point32_t α
  lowerleft : Point32_t α
  lowerright : Point32_t α

/-- Reduction of an integer to the value range of `int32_t` (two's
complement). -/
def toInt32 (z : Int) : Int := (z + 2147483648) % 4294967296 - 2147483648

/-- Conversion of an integer to `uint32_t`. -/
def toUInt32 (z : Int) : Nat := (z % 4294967296).toNat

/-- `Ljapunow::setiter` (1563-1568): `iter0h=(i0 >> 1); iter1h=(i1 >> 1);
iter1d=(iter1h << 1); INViter1d=1.0; INViter1d /= iter1d;`. -/
def Ljapunow.setiter {α : Type} (A : Arith α) (L : Ljapunow α) (i0 i1 : Int) :
    Ljapunow α :=
  let iter1h := i1 >>> (1 : Nat)
  let iter1d := toInt32 (iter1h * 2)
  { L with
    iter0 := i0, iter0h := i0 >>> (1 : Nat),
    iter1 := i1, iter1h := iter1h,
    iter1d := iter1d,
    INViter1d := A.div (A.lit 1) (A.ofInt iter1d) }

/-- The macro `SEQPOSINC(POS)`: `POS++; if (POS>=seqlen) POS=0;`. -/
def SEQPOSINC (seqlen : Nat) (pos : Nat) : Nat :=
  if pos + 1 ≥ seqlen then 0 else pos + 1

/-- An assignment `AB[i]=v` to the local array `double AB[16]`.  The array is a
map from index to content; what a read at an index that was never assigned
returns is whatever the map passed to `calc` holds there. -/
def setAB {α : Type} (AB : Int → α) (i : Int) (v : α) : Int → α :=
  fun j => if j = i then v else AB j

/-- Ghost record of one call of the map function: the phase, the sequence
position that selected the control parameter, and the two arguments. -/
structure EvalRec (α : Type) where
  measuring : Bool
  seqpos : Nat
  x : α
  r : α

/-- The per-pixel variables of `calc` (`px`, `seqpos`, `lambda`) together with
two ghost logs that the source does not keep: `evals`, one record per call of
`fkt->eval` in call order, and `prods`, the value `ab=fabs(abl1*abl2)` of every
measuring micro-pair in order. -/
structure PixelState (α : Type) where
  px : α
  seqpos : Nat
  lambda : α
  evals : List (EvalRec α)
  prods : List α

/-- Body of the settling loop (1530-1535). -/
def settleStep {α : Type} (A : Arith α) (L : Ljapunow α) (AB : Int → α)
    (st : PixelState α) : PixelState α :=
  let r1 := AB (L.sequence st.seqpos)
  let tmp := L.fkt.eval A st.px r1
  let pos1 := SEQPOSINC L.seqlen st.seqpos
  let r2 := AB (L.sequence pos1)
  let px := L.fkt.eval A tmp r2
  let pos2 := SEQPOSINC L.seqlen pos1
  { st with
    px := px, seqpos := pos2,
    evals := st.evals ++ [⟨false, st.seqpos, st.px, r1⟩, ⟨false, pos1, tmp, r2⟩] }

/-- Body of the measuring loop (1539-1546). -/
def measureStep {α : Type} (A : Arith α) (L : Ljapunow α) (AB : Int → α)
    (st : PixelState α) : PixelState α :=
  let r1 := AB (L.sequence st.seqpos)
  let e1 := L.fkt.eval2 A st.px r1
  let pos1 := SEQPOSINC L.seqlen st.seqpos
  let r2 := AB (L.sequence pos1)
  let e2 := L.fkt.eval2 A e1.1 r2
  let pos2 := SEQPOSINC L.seqlen pos1
  let ab := A.fabs (A.mul e1.2 e2.2)
  { px := e2.1, seqpos := pos2,
    lambda := if A.lt (A.lit 1E-300) ab then A.add st.lambda (A.log ab)
              else st.lambda,
    evals := st.evals ++ [⟨true, st.seqpos, st.px, r1⟩, ⟨true, pos1, e1.1, r2⟩],
    prods := st.prods ++ [ab] }

/-- A loop that runs its body `n` times. -/
def loopN {σ : Type} (body : σ → σ) : Nat → σ → σ
  | 0, s => s
  | n + 1, s => loopN body n (body s)

/-- The computation of one pixel (1526-1546): `px=x0; seqpos=0;`, the settling
loop `for(int32_t i=0;i<iter0h;i++)`, `lambda = 0.0;`, the measuring loop
`for(uint32_t i=0;i<iter1h;i++)` (whose bound is compared as unsigned).  The
value that `lambda` has before its assignment is never read; the initial state
holds `0.0` for it. -/
def pixel {α : Type} (A : Arith α) (L : Ljapunow α) (AB : Int → α) :
    PixelState α :=
  let s0 : PixelState α :=
    { px := L.x0, seqpos := 0, lambda := A.lit 0, evals := [], prods := [] }
  let s1 := loopN (settleStep A L AB) L.iter0h.toNat s0
  let s2 := { s1 with lambda := A.lit 0 }
  loopN (measureStep A L AB) (toUInt32 L.iter1h) s2

/-- The value that `calc` stores for a pixel: `lambda * INViter1d`. -/
def pixelExp {α : Type} (A : Arith α) (L : Ljapunow α) (AB : Int → α) : α :=
  A.mul (pixel A L AB).lambda L.INViter1d

/-- The variables that the row and column loops of `calc` carry: the buffer
`exps`, the running index `offset` (a `uint32_t`) and the local array `AB`;
`rows` is a ghost log of the row numbers for which the loop body ran. -/
structure CalcState (α : Type) where
  exps : List α
  offset : Nat
  AB : Int → α
  rows : List Nat

/-- Body of the column loop (1525-1552) after the pixel has been computed:
`exps[offset]=lambda * INViter1d; offset++; AB[0]+=vx.x; AB[1]+=vx.y;`. -/
def colStep {α : Type} (A : Arith α) (L : Ljapunow α) (vx : Point32_t α)
    (cs : CalcState α) : CalcState α :=
  let AB1 := setAB cs.AB 0 (A.add (cs.AB 0) vx.x)
  { cs with
    exps := cs.exps.set cs.offset (pixelExp A L cs.AB),
    offset := (cs.offset + 1) % 4294967296,
    AB := setAB AB1 1 (A.add (AB1 1) vx.y) }

/-- The row loop `for(uint32_t y=start;y<=ende;y++)` (1512-1553).  The counter
is unsigned and the bound is converted to unsigned for the comparison.  Each
test of the loop condition uses one unit of `fuel`; `none` means that the fuel
ran out before the loop ended. -/
def rowLoop {α : Type} (A : Arith α) (L : Ljapunow α) (vx vy : Point32_t α)
    (endeU : Nat) : Nat → Nat → CalcState α → Option (CalcState α)
  | 0, _, _ => none
  | fuel + 1, y, cs =>
      if y ≤ endeU then
        let AB0 := setAB cs.AB 0
          (A.add L.lowerleft.x (A.mul (A.ofInt (y : Int)) vy.x))
        let AB1 := setAB AB0 1
          (A.add L.lowerleft.y (A.mul (A.ofInt (y : Int)) vy.y))
        let cs1 := loopN (colStep A L vx) L.lenx.toNat
          { cs with AB := AB1, rows := cs.rows ++ [y] }
        rowLoop A L vx vy endeU fuel ((y + 1) % 4294967296) cs1
      else some cs

/-- The basis vector `vx` of `calc` (1504): one column step. -/
def calcVx {α : Type} (A : Arith α) (L : Ljapunow α) : Point32_t α :=
  ⟨A.div (A.sub L.lowerright.x L.lowerleft.x) (A.ofInt L.lenx),
   A.div (A.sub L.lowerright.y L.lowerleft.y) (A.ofInt L.lenx)⟩

/-- The basis vector `vy` of `calc` (1505): one row step. -/
def calcVy {α : Type} (A : Arith α) (L : Ljapunow α) : Point32_t α :=
  ⟨A.div (A.sub L.upperleft.x L.lowerleft.x) (A.ofInt L.leny),
   A.div (A.sub L.upperleft.y L.lowerleft.y) (A.ofInt L.leny)⟩

/-- The clamping of a requested row at the head of `calc` (1495-1500):
`if (v<0) v=0; if (v>=leny) v=leny-1;`. -/
def calcClamp (leny v : Int) : Int :=
  let v := if v < 0 then 0 else v
  if v ≥ leny then toInt32 (leny - 1) else v

/-- The part of `Ljapunow::calc` (1490-1553) before its `return`: clamping of
the two requests, the basis vectors, `offset=start*lenx` and the row loop.
`AB` is the initial content of the uninitialised local array.  The progress
message and its clock reads are left out. -/
def calcLoop {α : Type} (A : Arith α) (L : Ljapunow α) (AB : Int → α)
    (fuel : Nat) (astart aende : Int) : Option (CalcState α) :=
  let start := calcClamp L.leny astart
  let ende := calcClamp L.leny aende
  let offset := toUInt32 (toInt32 (start * L.lenx))
  rowLoop A L (calcVx A L) (calcVy A L) (toUInt32 ende) fuel (toUInt32 start)
    { exps := L.exps, offset := offset, AB := AB, rows := [] }

/-- `Ljapunow::calc(astart,aende)` (1490-1556): the returned `int32_t` (always
1) and the field after the call, or `none` when `fuel` loop tests do not
suffice. -/
def Ljapunow.calc {α : Type} (A : Arith α) (L : Ljapunow α) (AB : Int → α)
    (fuel : Nat) (astart aende : Int) : Option (Int × Ljapunow α) :=
  match calcLoop A L AB fuel astart aende with
  | none => none
  | some cs => some (1, { L with exps := cs.exps })

/-! ### Closed description of the sampled point -/

/-- The local array `AB` holding `a` in cell 0, `b` in cell 1 and the content
`junk` left by the caller in every other cell. -/
def mkAB {α : Type} (a b : α) (junk : Int → α) : Int → α :=
  fun j => if j = 0 then a else if j = 1 then b else junk j

/-- The result of applying `t += v` to `a`, `n` times. -/
def addN {α : Type} (A : Arith α) (a v : α) (n : Nat) : α :=
  loopN (fun t => A.add t v) n a

/-- The content of `AB` when `calc` computes the pixel in column `x` of row
`y`: the row start `lowerleft + y*vy`, advanced `x` times by `vx`. -/
def sampleAB {α : Type} (A : Arith α) (L : Ljapunow α) (junk : Int → α)
    (x y : Nat) : Int → α :=
  mkAB
    (addN A (A.add L.lowerleft.x (A.mul (A.ofInt (y : Int)) (calcVy A L).x))
      (calcVx A L).x x)
    (addN A (A.add L.lowerleft.y (A.mul (A.ofInt (y : Int)) (calcVy A L).y))
      (calcVx A L).y x)
    junk

/-- The field has a grid that `calc` can address: sizes within `int32_t` with
at least one row, a cell count `lenx*leny` that fits `int32_t`, and a buffer of
exactly that many cells. -/
def Ljapunow.gridOK {α : Type} (L : Ljapunow α) : Prop :=
  0 ≤ L.lenx ∧ 1 ≤ L.leny ∧ L.leny < 2147483648 ∧
  L.lenx * L.leny < 2147483648 ∧ L.exps.length = (L.lenx * L.leny).toNat

instance Ljapunow.gridOK.decidable {α : Type} (L : Ljapunow α) :
    Decidable L.gridOK := by
  unfold Ljapunow.gridOK
  infer_instance

/-- A small field for concrete evaluations: the logistic map `FunctionI`, the
sequence `AB`, `x0 = 0.5`, 50 settling and 100 measuring iterations, the unit
square as window and a grid of 4 by 4 cells, all holding `0.0`. -/
def sampleField {α : Type} (A : Arith α) : Ljapunow α where
  fkt := .I
  lenx := 4
  leny := 4
  iter0 := 50
  iter1 := 100
  seqlen := 2
  iter0h := 25
  iter1h := 50
  iter1d := 100
  INViter1d := A.div (A.lit 1) (A.ofInt 100)
  sequence := fun i => if i = 0 then 0 else if i = 1 then 1 else 0
  exps := List.replicate 16 (A.lit 0)
  x0 := A.lit 0.5
  upperleft := ⟨A.lit 0, A.lit 1⟩
  lowerleft := ⟨A.lit 0, A.lit 0⟩
  lowerright := ⟨A.lit 1, A.lit 0⟩

/-! ## Evaluation counts of a pixel -/

/-- Number of logged map evaluations of the settling phase. -/
def settleCount {α : Type} (st : PixelState α) : Nat :=
  st.evals.countP (fun e => !e.measuring)

/-- Number of logged map evaluations of the measuring phase. -/
def measureCount {α : Type} (st : PixelState α) : Nat :=
  st.evals.countP (fun e => e.measuring)

/-! ## Sequence positions of a pixel -/

/-- Every element of a list satisfies `P` at its index, counted from `s`. -/
def AllIdx {β : Type} (P : Nat → β → Prop) : Nat → List β → Prop
  | _, [] => True
  | s, e :: l => P s e ∧ AllIdx P (s + 1) l

/-- The selection rule that `calc` applies at every map evaluation: the record
at index `k` was made at sequence position `k mod seqlen` with the control
parameter `AB[sequence[k mod seqlen]]`. -/
def PosRule {α : Type} (L : Ljapunow α) (AB : Int → α) (k : Nat)
    (e : EvalRec α) : Prop :=
  e.seqpos = k % L.seqlen ∧ e.r = AB (L.sequence (k % L.seqlen))

/-- Invariant of both pixel loops for the sequence position. -/
def PosInv {α : Type} (L : Ljapunow α) (AB : Int → α) (st : PixelState α) :
    Prop :=
  st.seqpos = st.evals.length % L.seqlen ∧ AllIdx (PosRule L AB) 0 st.evals

/-! ## Phases, trajectory and accumulated sum of a pixel -/

/-- The value output of the map function at a logged evaluation: the one-output
form in the settling phase, the first output of the two-output form in the
measuring phase. -/
def outOf {α : Type} (A : Arith α) (fkt : Function α) (e : EvalRec α) : α :=
  if e.measuring then (fkt.eval2 A e.x e.r).1 else fkt.eval A e.x e.r

/-- A log is a trajectory from `x`: the first evaluation receives `x`, every
later one the value output of its predecessor. -/
def Traj {α : Type} (A : Arith α) (fkt : Function α) : α → List (EvalRec α) → Prop
  | _, [] => True
  | x, e :: l => e.x = x ∧ Traj A fkt (outOf A fkt e) l

/-- The value that a trajectory log hands on after its last evaluation. -/
def trajEnd {α : Type} (A : Arith α) (fkt : Function α) : α → List (EvalRec α) → α
  | x, [] => x
  | _, e :: l => trajEnd A fkt (outOf A fkt e) l

/-- The products `fabs(abl1*abl2)` of the derivative outputs of consecutive
pairs of logged evaluations. -/
def pairProds {α : Type} (A : Arith α) (fkt : Function α) :
    List (EvalRec α) → List α
  | e1 :: e2 :: rest =>
      A.fabs (A.mul (fkt.eval2 A e1.x e1.r).2 (fkt.eval2 A e2.x e2.r).2)
        :: pairProds A fkt rest
  | _ => []

/-- One accumulation step: `if (ab > 1E-300) lambda += log(ab);`. -/
def logAccum {α : Type} (A : Arith α) (s ab : α) : α :=
  if A.lt (A.lit 1E-300) ab then A.add s (A.log ab) else s

/-- Invariant of both pixel loops for the trajectory value. -/
def TrajInv {α : Type} (A : Arith α) (L : Ljapunow α) (st : PixelState α) :
    Prop :=
  Traj A L.fkt L.x0 st.evals ∧ st.px = trajEnd A L.fkt L.x0 st.evals

/-- Invariant of the settling loop after `i` iterations: `2*i` records, none of
them a measuring record. -/
def SettlePhase {α : Type} (i : Nat) (st : PixelState α) : Prop :=
  st.evals.length = 2 * i ∧ ∀ e ∈ st.evals, e.measuring = false

/-- Invariant of the measuring loop after `i` iterations, `n0` settling
iterations having gone before: `2*n0 + 2*i` records, and the record at index `k`
is a measuring record exactly when `2*n0 ≤ k`. -/
def MeasurePhase {α : Type} (n0 i : Nat) (st : PixelState α) : Prop :=
  st.evals.length = 2 * n0 + 2 * i ∧
  AllIdx (fun k e => e.measuring = decide (2 * n0 ≤ k)) 0 st.evals

/-- Invariant of the pixel loops for the accumulated sum, after `i` measuring
iterations: the log holds `2*i` measuring records, `prods` are the products of
their derivative outputs pair by pair, and `lambda` is the fold of the
accumulation step over `prods`, starting from `0.0`. -/
def SumInv {α : Type} (A : Arith α) (L : Ljapunow α) (i : Nat)
    (st : PixelState α) : Prop :=
  (st.evals.filter (fun e => e.measuring)).length = 2 * i ∧
  st.prods = pairProds A L.fkt (st.evals.filter (fun e => e.measuring)) ∧
  st.lambda = st.prods.foldl (logAccum A) (A.lit 0)

/-- `FunctionMetaABSC::setsections(a,b,c,d)`: `I0MIN=a; I0MAX=b; I1MIN=c;
I1MAX=d;` (a member of `FunctionMetaABSC` only; other objects are returned as
they are). -/
def Function.setsections {α : Type} : Function α → α → α → α → α → Function α
  | .MetaABSC b b2 _ _ _ _ fint fext, a, bb, c, d =>
      .MetaABSC b b2 a c bb d fint fext
  | g, _, _, _, _ => g

/-! ## Parameter sweep -/

/-- The data members of `struct IterDouble`. -/
structure IterDouble (α : Type) where
  anz : Int
  nr : Int
  wert : α
  delta : α
  l : α
  r : α

/-- The constructor `IterDouble::IterDouble(a,b,an)` (558-564): `l=a; r=b;
anz=an; if (an==1) delta=b-a; else delta=(b-a)/(an-1); wert=l; nr=0;`. -/
def IterDouble.ctor {α : Type} (A : Arith α) (a b : α) (an : Int) : IterDouble α where
  l := a
  r := b
  anz := an
  delta := if an = 1 then A.sub b a
           else A.div (A.sub b a) (A.ofInt (toInt32 (an - 1)))
  wert := a
  nr := 0

/-- `IterDouble::iterStart` (566-570): `wert=l; nr=1; return 1;`.  The result is
the returned value and the object after the call. -/
def IterDouble.iterStart {α : Type} (S : IterDouble α) : Int × IterDouble α :=
  (1, { S with wert := S.l, nr := 1 })

/-- `IterDouble::iterWeiter` (572-577): `wert+=delta; nr++; if (nr>anz) return
0; return 1;`. -/
def IterDouble.iterWeiter {α : Type} (A : Arith α) (S : IterDouble α) :
    Int × IterDouble α :=
  let S1 : IterDouble α :=
    { S with wert := A.add S.wert S.delta, nr := toInt32 (S.nr + 1) }
  (if S1.nr > S1.anz then 0 else 1, S1)

/-- The sweep object after `k` further calls of `iterWeiter`. -/
def IterDouble.after {α : Type} (A : Arith α) (S : IterDouble α) (k : Nat) :
    IterDouble α :=
  loopN (fun T => (T.iterWeiter A).2) k S

/-- The classes that carry a shape parameter `b`: every class below
`FunctionII`; `FunctionI` has none. -/
def Function.hasParam {α : Type} : Function α → Bool
  | .I => false
  | _ => true

/-- `iterStart` under virtual dispatch, applied to an object whose member
`iterb` is null (`none`) or points to the sweep object given.  The result is the
returned value, the function object and the sweep object after the call.
`FunctionI::iterStart` is `return 1;`.  `FunctionII::iterStart` (672-677),
inherited by the plain subclasses and repeated by `FunctionSICO`, is
`if (!iterb) return 0; if (iterb->iterStart()<=0) return 0; set_b(iterb->wert);
return 1;`; the two meta classes (950-956, 1057-1064) apply `set_b` to both
children instead, which is what `set_b` does on them. -/
def Function.iterStart {α : Type} (A : Arith α) (f : Function α)
    (iterb : Option (IterDouble α)) :
    Int × Function α × Option (IterDouble α) :=
  match f, iterb with
  | .I, it => (1, .I, it)
  | g, none => (0, g, none)
  | g, some S =>
      let res := S.iterStart
      if res.1 ≤ 0 then (0, g, some res.2)
      else (1, g.set_b A res.2.wert, some res.2)

/-- `iterWeiter` under virtual dispatch, on the same terms as `iterStart`.
`FunctionI` declares `iterWeitloer`, not `iterWeiter`, so a call on it runs
`Function::iterWeiter`, `return 0;`.  `FunctionII::iterWeiter` (679-688) is
`if (!iterb) return 0; if (iterb->iterWeiter()) { set_b(iterb->wert); return 1; }
return 0;`, and likewise for the other classes. -/
def Function.iterWeiter {α : Type} (A : Arith α) (f : Function α)
    (iterb : Option (IterDouble α)) :
    Int × Function α × Option (IterDouble α) :=
  match f, iterb with
  | .I, it => (0, .I, it)
  | g, none => (0, g, none)
  | g, some S =>
      let res := S.iterWeiter A
      if res.1 ≠ 0 then (1, g.set_b A res.2.wert, some res.2)
      else (0, g, some res.2)

/-! ## Grid size -/

/-- The expression `((v >> 2) << 2)` of `setlen` on an `int32_t`. -/
def setlenDim (v : Int) : Int := toInt32 ((v >>> (2 : Nat)) * 4)

/-- `Ljapunow::setlen(xl,yl)` (1611-1616): `if (exps) delete[] exps;
lenx=((xl >> 2) << 2); leny=((yl >> 2) << 2); exps=new double[lenx*leny];`.
`fresh` is the content of the cells of the new, uninitialised buffer.  The
result is `none` when the cell count is negative, where `new` throws. -/
def Ljapunow.setlen {α : Type} (L : Ljapunow α) (fresh : Nat → α)
    (xl yl : Int) : Option (Ljapunow α) :=
  let lenx := setlenDim xl
  let leny := setlenDim yl
  let n := toInt32 (lenx * leny)
  if n < 0 then none
  else some { L with lenx := lenx, leny := leny,
                     exps := (List.range n.toNat).map fresh }

/-! ## Colour intervals -/

/-- `const int32_t MAXINTANZ=32;` -/
def MAXINTANZ : Nat := 32

/-- `const int32_t ID_FAERBUNG_INTERVALL=2;` -/
def ID_FAERBUNG_INTERVALL : Int := 2

/-- The three output channels `r`, `g`, `b` that the `farbe` functions write
through their reference parameters. -/
structure RGB where
  r : Int
  g : Int
  b : Int

/-- The data members of `struct ColIntv`. -/
structure ColIntv (α : Type) where
  gl : α
  gr : α
  breite : α
  lr : Int
  lg : Int
  lb : Int
  rr : Int
  rg : Int
  rb : Int
  dr : Int
  dg : Int
  db : Int

/-- The constructor `ColIntv() { gr=gl=breite=0; }`; `junk` holds what the nine
integer members, which it does not set, contain. -/
def ColIntv.ctor {α : Type} (A : Arith α) (junk : ColIntv α) : ColIntv α :=
  { junk with gl := A.ofInt 0, gr := A.ofInt 0, breite := A.ofInt 0 }

/-- `setgrenzel(w) { gl=w; breite=gr-gl; }` -/
def ColIntv.setgrenzel {α : Type} (A : Arith α) (p : ColIntv α) (w : α) :
    ColIntv α :=
  { p with gl := w, breite := A.sub p.gr w }

/-- `setgrenzer(w) { gr=w; breite=gr-gl; }` -/
def ColIntv.setgrenzer {α : Type} (A : Arith α) (p : ColIntv α) (w : α) :
    ColIntv α :=
  { p with gr := w, breite := A.sub w p.gl }

/-- `ColIntv::precalc` (1253-1255): `dr=rr-lr; dg= rg-lg; db=rb-lb;`. -/
def ColIntv.precalc {α : Type} (p : ColIntv α) : ColIntv α :=
  { p with dr := toInt32 (p.rr - p.lr), dg := toInt32 (p.rg - p.lg),
           db := toInt32 (p.rb - p.lb) }

/-- `ColIntv::setfarbel` (1269-1272): `lr=ar; lg=ag; lb=ab; dr=rr-lr;
precalc();`. -/
def ColIntv.setfarbel {α : Type} (p : ColIntv α) (ar ag ab : Int) : ColIntv α :=
  ColIntv.precalc { p with lr := ar, lg := ag, lb := ab, dr := toInt32 (p.rr - ar) }

/-- `ColIntv::setfarber` (1274-1277): `rr=ar; rg=ag; rb=ab; precalc();`. -/
def ColIntv.setfarber {α : Type} (p : ColIntv α) (ar ag ab : Int) : ColIntv α :=
  ColIntv.precalc { p with rr := ar, rg := ag, rb := ab }

/-- `ColIntv::farbe(w,r,g,b)` (1257-1267): `if ((w>=gl)&&(w<gr)) { wg=(w-gl)/
breite; r=lr+int32_t(wg*dr); g=lg+int32_t(wg*dg); b=lb+int32_t(wg*db); return
1; } return 0;`.  `out` is what the three reference parameters hold at the call;
the result is the returned value and what they hold afterwards. -/
def ColIntv.farbe {α : Type} (A : Arith α) (p : ColIntv α) (w : α) (out : RGB) :
    Int × RGB :=
  if A.le p.gl w && A.lt w p.gr then
    let wg := A.div (A.sub w p.gl) p.breite
    (1, { r := toInt32 (p.lr + A.trunc (A.mul wg (A.ofInt p.dr))),
          g := toInt32 (p.lg + A.trunc (A.mul wg (A.ofInt p.dg))),
          b := toInt32 (p.lb + A.trunc (A.mul wg (A.ofInt p.db))) })
  else (0, out)

/-- The data members of `struct IntervalColoring`.  `ints` is the list of the
objects behind the pointers `ints[0]`, ..., `ints[intanz-1]`, in this order, and
the member `intanz` is its length: the source reads and writes the array
`ints[MAXINTANZ]` only through `intanz`. -/
structure IntervalColoring (α : Type) where
  id : Int
  ints : List (ColIntv α)
  mingl : α
  maxgl : α
  lr : Int
  lg : Int
  lb : Int
  rr : Int
  rg : Int
  rb : Int
  minwert : α
  maxwert : α

/-- The member `intanz`. -/
def IntervalColoring.intanz {α : Type} (C : IntervalColoring α) : Nat :=
  C.ints.length

/-- The constructor `IntervalColoring() { intanz=0; mingl=maxgl=0;
id=ID_FAERBUNG_INTERVALL; }`; `junk` holds what the members that it does not
set contain. -/
def IntervalColoring.ctor {α : Type} (A : Arith α) (junk : IntervalColoring α) :
    IntervalColoring α :=
  { junk with ints := [], mingl := A.ofInt 0, maxgl := A.ofInt 0,
              id := ID_FAERBUNG_INTERVALL }

/-- `IntervalColoring::clear` (1357-1362): the stored objects are deleted and
`intanz=0`. -/
def IntervalColoring.clear {α : Type} (C : IntervalColoring α) :
    IntervalColoring α :=
  { C with ints := [] }

/-- `IntervalColoring::setfarbel(ar,ag,ab) { lr=ar; lg=ag; lb=ab; }` -/
def IntervalColoring.setfarbel {α : Type} (C : IntervalColoring α)
    (ar ag ab : Int) : IntervalColoring α :=
  { C with lr := ar, lg := ag, lb := ab }

/-- `IntervalColoring::setfarber(ar,ag,ab) { rr=ar; rg=ag; rb=ab; }` -/
def IntervalColoring.setfarber {α : Type} (C : IntervalColoring α)
    (ar ag ab : Int) : IntervalColoring α :=
  { C with rr := ar, rg := ag, rb := ab }

/-- `IntervalColoring::Addintervall(p)` (1329-1339): `if (intanz<MAXINTANZ) {
ints[intanz]=p; intanz++; if ((p->gl<mingl)||(intanz==1)) mingl=p->gl;
if ((p->gr>maxgl)||(intanz==1)) maxgl=p->gr; return 1; } return 0;`.  The
result is the returned value and the object after the call. -/
def IntervalColoring.Addintervall {α : Type} (A : Arith α)
    (C : IntervalColoring α) (p : ColIntv α) : Int × IntervalColoring α :=
  if C.intanz < MAXINTANZ then
    (1, { C with
          ints := C.ints ++ [p],
          mingl := if A.lt p.gl C.mingl || decide (C.intanz + 1 = 1) then p.gl
                   else C.mingl,
          maxgl := if A.lt C.maxgl p.gr || decide (C.intanz + 1 = 1) then p.gr
                   else C.maxgl })
  else (0, C)

/-- The loop `for(i=0;i<intanz;i++) if (ints[i]->farbe(w,r,g,b) > 0) return 1;`
of `IntervalColoring::farbe` and the `return 0;` after it, over the stored
intervals still to be visited. -/
def IntervalColoring.scan {α : Type} (A : Arith α) (w : α) :
    List (ColIntv α) → RGB → Int × RGB
  | [], out => (0, out)
  | p :: ps, out =>
      if (p.farbe A w out).1 > 0 then (1, (p.farbe A w out).2)
      else IntervalColoring.scan A w ps (p.farbe A w out).2

/-- `IntervalColoring::farbe(w,r,g,b)` (1341-1355): `if (w<mingl) { r=lr; g=lg;
b=lb; return 1; } if (w>maxgl) { r=rr; g=rg; b=rb; return 1; }`, then the loop
over the stored intervals. -/
def IntervalColoring.farbe {α : Type} (A : Arith α) (C : IntervalColoring α)
    (w : α) (out : RGB) : Int × RGB :=
  if A.lt w C.mingl then (1, { r := C.lr, g := C.lg, b := C.lb })
  else if A.lt C.maxgl w then (1, { r := C.rr, g := C.rg, b := C.rb })
  else IntervalColoring.scan A w C.ints out

/-- The object after a sequence of `Addintervall` calls, whatever they
return. -/
def IntervalColoring.addAll {α : Type} (A : Arith α) (C : IntervalColoring α)
    (ps : List (ColIntv α)) : IntervalColoring α :=
  ps.foldl (fun D p => (D.Addintervall A p).2) C

/-! ### Description of the colour of an interval -/

/-- The range test of `ColIntv::farbe`: `(w>=gl)&&(w<gr)`. -/
def ColIntv.contains {α : Type} (A : Arith α) (p : ColIntv α) (w : α) : Bool :=
  A.le p.gl w && A.lt w p.gr

/-- The colour that `ColIntv::farbe` writes for a `w` in range. -/
def ColIntv.colourAt {α : Type} (A : Arith α) (p : ColIntv α) (w : α) : RGB :=
  { r := toInt32 (p.lr + A.trunc (A.mul (A.div (A.sub w p.gl) p.breite)
          (A.ofInt p.dr))),
    g := toInt32 (p.lg + A.trunc (A.mul (A.div (A.sub w p.gl) p.breite)
          (A.ofInt p.dg))),
    b := toInt32 (p.lb + A.trunc (A.mul (A.div (A.sub w p.gl) p.breite)
          (A.ofInt p.db))) }

/-- The members that the setters keep in step: `breite = gr - gl` and the three
channel differences `right - left`. -/
def ColIntv.Configured {α : Type} (A : Arith α) (p : ColIntv α) : Prop :=
  p.breite = A.sub p.gr p.gl ∧ p.dr = toInt32 (p.rr - p.lr) ∧
  p.dg = toInt32 (p.rg - p.lg) ∧ p.db = toInt32 (p.rb - p.lb)

/-- An integer within the range of `int32_t`. -/
def inInt32 (z : Int) : Prop := -2147483648 ≤ z ∧ z < 2147483648

/-- The six channels of an interval and the three differences `right - left`
are within `int32_t`, so that no integer operation of `precalc` and `farbe`
overflows. -/
def ColIntv.rgbOK {α : Type} (p : ColIntv α) : Prop :=
  inInt32 p.lr ∧ inInt32 p.lg ∧ inInt32 p.lb ∧
  inInt32 p.rr ∧ inInt32 p.rg ∧ inInt32 p.rb ∧
  inInt32 (p.rr - p.lr) ∧ inInt32 (p.rg - p.lg) ∧ inInt32 (p.rb - p.lb)

/-- One call of a setter of `ColIntv`. -/
inductive ColIntvCall (α : Type) where
  | grenzel (w : α) : ColIntvCall α
  | grenzer (w : α) : ColIntvCall α
  | farbel (r g b : Int) : ColIntvCall α
  | farber (r g b : Int) : ColIntvCall α

/-- The call sets a bound. -/
def ColIntvCall.isBound {α : Type} : ColIntvCall α → Bool
  | .grenzel _ => true
  | .grenzer _ => true
  | _ => false

/-- The object after one setter call. -/
def ColIntv.call {α : Type} (A : Arith α) (p : ColIntv α) : ColIntvCall α → ColIntv α
  | .grenzel w => p.setgrenzel A w
  | .grenzer w => p.setgrenzer A w
  | .farbel r g b => p.setfarbel r g b
  | .farber r g b => p.setfarber r g b

/-- The object after a sequence of setter calls. -/
def ColIntv.calls {α : Type} (A : Arith α) (p : ColIntv α)
    (cs : List (ColIntvCall α)) : ColIntv α :=
  cs.foldl (ColIntv.call A) p

/-- The extremes of the stored intervals: `mingl` is the left bound of a stored
interval and not above any stored left bound, `maxgl` is the right bound of a
stored interval and not below any stored right bound. -/
def IntervalColoring.MinMax {α : Type} [LinearOrderedField α]
    (C : IntervalColoring α) : Prop :=
  (∃ p ∈ C.ints, C.mingl = p.gl) ∧ (∀ p ∈ C.ints, C.mingl ≤ p.gl) ∧
  (∃ p ∈ C.ints, C.maxgl = p.gr) ∧ (∀ p ∈ C.ints, p.gr ≤ C.maxgl)

/-- A freshly constructed interval whose integer members hold 0. -/
def ColIntv.blank {α : Type} (A : Arith α) : ColIntv α :=
  ColIntv.ctor A
    { gl := A.ofInt 0, gr := A.ofInt 0, breite := A.ofInt 0,
      lr := 0, lg := 0, lb := 0, rr := 0, rg := 0, rb := 0,
      dr := 0, dg := 0, db := 0 }

/-- A small interval for concrete evaluations: the range from 0 to 1, black on
the left, white on the right, configured through the four setters. -/
def sampleInterval {α : Type} (A : Arith α) : ColIntv α :=
  ((((ColIntv.blank A).setgrenzel A (A.lit 0)).setgrenzer A (A.lit 1)).setfarbel
    0 0 0).setfarber 255 255 255

/-- A small colouring for concrete evaluations: blue below, red above, and the
sample interval as its only interval. -/
def sampleColoring {α : Type} (A : Arith α) : IntervalColoring α :=
  ((((IntervalColoring.ctor A
      { id := 0, ints := [], mingl := A.ofInt 0, maxgl := A.ofInt 0,
        lr := 0, lg := 0, lb := 0, rr := 0, rg := 0, rb := 0,
        minwert := A.ofInt 0, maxwert := A.ofInt 0 }).setfarbel 0 0 255).setfarber
      255 0 0).Addintervall A (sampleInterval A)).2

/-- A second small interval for concrete evaluations: the sample interval moved
to the range from 2 to 3 through the two bound setters. -/
def sampleInterval2 {α : Type} (A : Arith α) : ColIntv α :=
  ((sampleInterval A).setgrenzer A (A.lit 3)).setgrenzel A (A.lit 2)

/-! ## The window: geometry operations -/

/-- `Ljapunow::setPosition` (1836-1847): the six coordinates are stored. -/
def Ljapunow.setPosition {α : Type} (L : Ljapunow α)
    (lolex loley lorix loriy uplex upley : α) : Ljapunow α :=
  { L with lowerleft := ⟨lolex, loley⟩, lowerright := ⟨lorix, loriy⟩,
           upperleft := ⟨uplex, upley⟩ }

/-- The point `lowerleft + px*vx + (leny-py)*vy` that `centerPixel` and `crop`
compute for a pixel `(px, py)`, with the expression of the source:
`lowerleft.x + px*vx.x + (leny-py)*vy.x` and the same in `y`; `leny-py` is an
`int32_t` difference. -/
def Ljapunow.pixelPoint {α : Type} (A : Arith α) (L : Ljapunow α) (px py : Int) :
    Point32_t α :=
  ⟨A.add (A.add L.lowerleft.x (A.mul (A.ofInt px) (calcVx A L).x))
      (A.mul (A.ofInt (toInt32 (L.leny - py))) (calcVy A L).x),
   A.add (A.add L.lowerleft.y (A.mul (A.ofInt px) (calcVx A L).y))
      (A.mul (A.ofInt (toInt32 (L.leny - py))) (calcVy A L).y)⟩

/-- The point `M` of `centerPixel` (1707-1708):
`lowerleft + 0.5*(lowerright-lowerleft) + 0.5*(upperleft-lowerleft)`. -/
def Ljapunow.centerM {α : Type} (A : Arith α) (L : Ljapunow α) : Point32_t α :=
  ⟨A.add (A.add L.lowerleft.x (A.mul (A.lit (1/2)) (A.sub L.lowerright.x L.lowerleft.x)))
      (A.mul (A.lit (1/2)) (A.sub L.upperleft.x L.lowerleft.x)),
   A.add (A.add L.lowerleft.y (A.mul (A.lit (1/2)) (A.sub L.lowerright.y L.lowerleft.y)))
      (A.mul (A.lit (1/2)) (A.sub L.upperleft.y L.lowerleft.y))⟩

/-- `Ljapunow::centerPixel(px,py)` (1705-1723): with `M` and `PX` as above,
every corner `c` becomes `c + PX - M`, component by component. -/
def Ljapunow.centerPixel {α : Type} (A : Arith α) (L : Ljapunow α) (px py : Int) :
    Ljapunow α :=
  let M := L.centerM A
  let PX := L.pixelPoint A px py
  { L with
    lowerleft := ⟨A.sub (A.add L.lowerleft.x PX.x) M.x,
                  A.sub (A.add L.lowerleft.y PX.y) M.y⟩,
    lowerright := ⟨A.sub (A.add L.lowerright.x PX.x) M.x,
                   A.sub (A.add L.lowerright.y PX.y) M.y⟩,
    upperleft := ⟨A.sub (A.add L.upperleft.x PX.x) M.x,
                  A.sub (A.add L.upperleft.y PX.y) M.y⟩ }

/-- `Ljapunow::crop(pulneux,pulneuy,porneux,porneuy)` (1761-1783): the new
lower-left corner is the point of pixel `(pulneux, pulneuy)`, the new
lower-right corner that of `(porneux, pulneuy)` and the new upper-left corner
that of `(pulneux, porneuy)`. -/
def Ljapunow.crop {α : Type} (A : Arith α) (L : Ljapunow α)
    (pulneux pulneuy porneux porneuy : Int) : Ljapunow α :=
  { L with
    lowerleft := L.pixelPoint A pulneux pulneuy,
    lowerright := L.pixelPoint A porneux pulneuy,
    upperleft := L.pixelPoint A pulneux porneuy }

/-- The point `M` of `stretch` and `rot`: `M.x = 0.5*(lowerright.x+upperleft.x)`
and the same in `y`. -/
def Ljapunow.midM {α : Type} (A : Arith α) (L : Ljapunow α) : Point32_t α :=
  ⟨A.mul (A.lit (1/2)) (A.add L.lowerright.x L.upperleft.x),
   A.mul (A.lit (1/2)) (A.add L.lowerright.y L.upperleft.y)⟩

/-- One corner under `stretch`: `M.x + (c.x-M.x)*fx`, `M.y + (c.y-M.y)*fy`. -/
def stretchPoint {α : Type} (A : Arith α) (M c : Point32_t α) (fx fy : α) :
    Point32_t α :=
  ⟨A.add M.x (A.mul (A.sub c.x M.x) fx), A.add M.y (A.mul (A.sub c.y M.y) fy)⟩

/-- `Ljapunow::stretch(fx,fy)` (1785-1807). -/
def Ljapunow.stretch {α : Type} (A : Arith α) (L : Ljapunow α) (fx fy : α) :
    Ljapunow α :=
  { L with
    lowerleft := stretchPoint A (L.midM A) L.lowerleft fx fy,
    lowerright := stretchPoint A (L.midM A) L.lowerright fx fy,
    upperleft := stretchPoint A (L.midM A) L.upperleft fx fy }

/-- The angle of `rot`: `double w=deg*2.0*M_PI/360.0;`. -/
def rotAngle {α : Type} (A : Arith α) (deg : Int) : α :=
  A.div (A.mul (A.mul (A.ofInt deg) (A.lit 2)) (A.lit M_PI)) (A.lit 360)

/-- One corner under `rot`: `(c.x-M.x)*cosa-sina*(c.y-M.y)+M.x` and
`(c.x-M.x)*sina+cosa*(c.y-M.y)+M.y`. -/
def rotPoint {α : Type} (A : Arith α) (M c : Point32_t α) (cosa sina : α) :
    Point32_t α :=
  ⟨A.add (A.sub (A.mul (A.sub c.x M.x) cosa) (A.mul sina (A.sub c.y M.y))) M.x,
   A.add (A.add (A.mul (A.sub c.x M.x) sina) (A.mul cosa (A.sub c.y M.y))) M.y⟩

/-- `Ljapunow::rot(deg)` (1809-1834), with `cosa=fastcos(w)`,
`sina=fastsin(w)`. -/
def Ljapunow.rot {α : Type} (A : Arith α) (L : Ljapunow α) (deg : Int) :
    Ljapunow α :=
  let cosa := fastcos A (rotAngle A deg)
  let sina := fastsin A (rotAngle A deg)
  { L with
    lowerleft := rotPoint A (L.midM A) L.lowerleft cosa sina,
    lowerright := rotPoint A (L.midM A) L.lowerright cosa sina,
    upperleft := rotPoint A (L.midM A) L.upperleft cosa sina }

/-- The point `lowerleft + row*vy + col*vx` that the sampling pass holds in
`AB[0]`, `AB[1]` at column `col` of row `row`, written for integer
coordinates. -/
def Ljapunow.samplePoint {α : Type} (A : Arith α) (L : Ljapunow α) (col row : Int) :
    Point32_t α :=
  ⟨A.add (A.add L.lowerleft.x (A.mul (A.ofInt row) (calcVy A L).x))
      (A.mul (A.ofInt col) (calcVx A L).x),
   A.add (A.add L.lowerleft.y (A.mul (A.ofInt row) (calcVy A L).y))
      (A.mul (A.ofInt col) (calcVx A L).y)⟩

/-- The sample field with a window that is not parallel to the axes: corners
`(0,0)`, `(1,1)` and `(-1,1)`. -/
def sampleTilted {α : Type} (A : Arith α) : Ljapunow α :=
  (sampleField A).setPosition (A.lit 0) (A.lit 0) (A.lit 1) (A.lit 1)
    (A.lit (-1)) (A.lit 1)

/-! ## The alternation sequence -/

/-- One character under `upper` (486-489).  A `char` is its byte value.  The
first line maps `a`..`z` (97..122) to `A`..`Z`; the three lines that follow
compare `s[i]` with two-byte character constants of the source text (values
50102, 50108, 50084, which no single byte has) and would store the low byte of
another two-byte constant (150, 156, 132). -/
def upperChar (c : Nat) : Nat :=
  let c1 := if 97 ≤ c ∧ c ≤ 122 then c - 97 + 65 else c
  let c2 := if c1 = 50102 then 150 else c1
  let c3 := if c2 = 50108 then 156 else c2
  if c3 = 50084 then 132 else c3

/-- `upper(s)` (484-494) on the characters of a string. -/
def upper (s : List Nat) : List Nat := s.map upperChar

/-- The loop of `setSequence` (1853-1861) over the characters from index `i`
on: `A` stores 0, `B` stores 1, any other character ends the call.  The result
tells whether the loop ran to its end, and holds the array `sequence`. -/
def setSequenceLoop : List Nat → Nat → (Nat → Int) → Bool × (Nat → Int)
  | [], _, seq => (true, seq)
  | c :: cs, i, seq =>
      if c = 65 then setSequenceLoop cs (i + 1) (fun j => if j = i then 0 else seq j)
      else if c = 66 then
        setSequenceLoop cs (i + 1) (fun j => if j = i then 1 else seq j)
      else (false, seq)

/-- `Ljapunow::setSequence(s)` (1849-1862): `s[255]=0; upper(s);
seqlen=strlen(s);`, then the loop, which sets `seqlen=0` when it meets a
character other than `A` and `B`.  `s` is the list of the characters of the
string before its terminator. -/
def Ljapunow.setSequence {α : Type} (L : Ljapunow α) (s : List Nat) : Ljapunow α :=
  let t := upper (s.take 255)
  let r := setSequenceLoop t 0 L.sequence
  { L with seqlen := if r.1 then t.length else 0, sequence := r.2 }

/-- `Ljapunow::getSequence(s)` (1677-1682): the characters
`s[i]='A'+sequence[i]` for `i < seqlen`. -/
def Ljapunow.getSequence {α : Type} (L : Ljapunow α) : List Nat :=
  (List.range L.seqlen).map (fun i => ((65 + L.sequence i) % 256).toNat)

/-- The character is one of `a`, `b`, `A`, `B`. -/
def isAB (c : Nat) : Prop := c = 97 ∨ c = 98 ∨ c = 65 ∨ c = 66

instance isAB.decidable (c : Nat) : Decidable (isAB c) := by
  unfold isAB
  infer_instance

/-- The symbol that `setSequence` stores for one of the four letters. -/
def symbolOf (c : Nat) : Int := if c = 65 ∨ c = 97 then 0 else 1

/-! ## Construction, loading and tiling -/

/-- The constructor `Ljapunow::Ljapunow()` (1472-1482): `lenx=leny=600;
iter0=50; iter1=100; iter1d=100; iter1h=50; iter0h=50; INViter1d=1.0;
INViter1d /= iter1d; x0=0.5; seqlen=0; exps=0;`.  The null pointer `exps` is
the buffer without cells.  `junk` holds what the members that the constructor
does not set contain (`sequence` and the three corners); its `fkt` stands for
the function that `setFunction` installs, the constructor storing `NULL`. -/
def Ljapunow.ctor {α : Type} (A : Arith α) (junk : Ljapunow α) : Ljapunow α :=
  { junk with
    lenx := 600, leny := 600, iter0 := 50, iter1 := 100,
    iter1d := 100, iter1h := 50, iter0h := 50,
    INViter1d := A.div (A.lit 1) (A.ofInt 100),
    x0 := A.lit (1/2), seqlen := 0, exps := [] }

/-- `void setFunction(Function *f) { fkt=f; }` -/
def Ljapunow.setFunction {α : Type} (L : Ljapunow α) (f : Function α) :
    Ljapunow α :=
  { L with fkt := f }

/-- The values that `loadpar` reads from a complete parameter file. -/
structure ParFile (α : Type) where
  fkt : Function α
  lenx : Int
  leny : Int
  iter0 : Int
  iter1 : Int
  x0 : α
  sequenz : List Nat
  ol : Point32_t α
  ul : Point32_t α
  ur : Point32_t α

/-- The writes of a call of `Ljapunow::loadpar` (1371-1446) that returns 1 on
a record holding each of the eleven keys once, given the values `p` of the
record: `setFunction`, `x0`, the three corners and `setSequence` as their keys
are met, then `setlen(tlenx,tleny)` and `setiter(tmpiter0,tmpiter1)`.  The
whole function, with its reading loop and its failing returns, is
`Ljapunow.loadparLines`. -/
def Ljapunow.loadpar {α : Type} (A : Arith α) (L : Ljapunow α) (fresh : Nat → α)
    (p : ParFile α) : Option (Ljapunow α) :=
  let L1 : Ljapunow α :=
    { L with fkt := p.fkt, x0 := p.x0, upperleft := p.ol, lowerleft := p.ul,
             lowerright := p.ur }
  match (L1.setSequence p.sequenz).setlen fresh p.lenx p.leny with
  | none => none
  | some L2 => some (L2.setiter A p.iter0 p.iter1)

/-- A loop over a list whose body can fail to return. -/
def loopOpt {σ β : Type} (f : σ → β → Option σ) : List β → σ → Option σ
  | [], s => some s
  | b :: bs, s =>
      match f s b with
      | none => none
      | some s1 => loopOpt f bs s1

/-- Three corners of a window. -/
structure Window (α : Type) where
  lowerleft : Point32_t α
  lowerright : Point32_t α
  upperleft : Point32_t α

/-- The assignment of three corners to the field. -/
def Ljapunow.install {α : Type} (L : Ljapunow α) (w : Window α) : Ljapunow α :=
  { L with lowerleft := w.lowerleft, lowerright := w.lowerright,
           upperleft := w.upperleft }

/-- The corners of the field. -/
def Ljapunow.window {α : Type} (L : Ljapunow α) : Window α :=
  ⟨L.lowerleft, L.lowerright, L.upperleft⟩

/-- The vector `vx` of `tile` (1736): `(lowerright-lowerleft)/anzx`. -/
def tileVx {α : Type} (A : Arith α) (L : Ljapunow α) (anzx : Int) : Point32_t α :=
  ⟨A.div (A.sub L.lowerright.x L.lowerleft.x) (A.ofInt anzx),
   A.div (A.sub L.lowerright.y L.lowerleft.y) (A.ofInt anzx)⟩

/-- The vector `vy` of `tile` (1737): `(upperleft-lowerleft)/anzy`. -/
def tileVy {α : Type} (A : Arith α) (L : Ljapunow α) (anzy : Int) : Point32_t α :=
  ⟨A.div (A.sub L.upperleft.x L.lowerleft.x) (A.ofInt anzy),
   A.div (A.sub L.upperleft.y L.lowerleft.y) (A.ofInt anzy)⟩

/-- The corners that `tile` assigns for the loop counters `x`, `y`
(1744-1749): `siclowerleft + x*vx + y*vy`, `siclowerleft + (x+1)*vx + y*vy`,
`siclowerleft + x*vx + (y+1)*vy`.  The counters stay below `anzx`, `anzy`, so
`x+1` and `y+1` do not overflow. -/
def tileWindow {α : Type} (A : Arith α) (sic vx vy : Point32_t α) (x y : Nat) :
    Window α :=
  { lowerleft :=
      ⟨A.add (A.add sic.x (A.mul (A.ofInt (x : Int)) vx.x))
          (A.mul (A.ofInt (y : Int)) vy.x),
       A.add (A.add sic.y (A.mul (A.ofInt (x : Int)) vx.y))
          (A.mul (A.ofInt (y : Int)) vy.y)⟩,
    lowerright :=
      ⟨A.add (A.add sic.x (A.mul (A.ofInt ((x : Int) + 1)) vx.x))
          (A.mul (A.ofInt (y : Int)) vy.x),
       A.add (A.add sic.y (A.mul (A.ofInt ((x : Int) + 1)) vx.y))
          (A.mul (A.ofInt (y : Int)) vy.y)⟩,
    upperleft :=
      ⟨A.add (A.add sic.x (A.mul (A.ofInt (x : Int)) vx.x))
          (A.mul (A.ofInt ((y : Int) + 1)) vy.x),
       A.add (A.add sic.y (A.mul (A.ofInt (x : Int)) vx.y))
          (A.mul (A.ofInt ((y : Int) + 1)) vy.y)⟩ }

/-- Body of the inner loop of `tile` (1743-1757): the corners of the tile are
assigned and `calc(0,leny-1)` runs.  The files written by `savepar` and
`savebmp` are left out; the second component is a ghost log of the windows
that were assigned, in order. -/
def tileStep {α : Type} (A : Arith α) (AB : Int → α) (fuel : Nat)
    (sic vx vy : Point32_t α) (x : Nat) (st : Ljapunow α × List (Window α))
    (y : Nat) : Option (Ljapunow α × List (Window α)) :=
  let w := tileWindow A sic vx vy x y
  match (st.1.install w).calc A AB fuel 0 (toInt32 (st.1.leny - 1)) with
  | none => none
  | some r => some (r.2, st.2 ++ [w])

/-- `Ljapunow::tile(fnprefix,anzx,anzy)` (1725-1759): the loops
`for(x=0;x<anzx;x++) for(y=0;y<anzy;y++)`.  The result is the field after the
call and the log of the assigned windows, or `none` when a `calc` does not
return within `fuel` loop tests. -/
def Ljapunow.tile {α : Type} (A : Arith α) (L : Ljapunow α) (AB : Int → α)
    (fuel : Nat) (anzx anzy : Int) : Option (Ljapunow α × List (Window α)) :=
  loopOpt
    (fun st x =>
      loopOpt (tileStep A AB fuel L.lowerleft (tileVx A L anzx) (tileVy A L anzy) x)
        (List.range anzy.toNat) st)
    (List.range anzx.toNat) (L, [])

/-- The buffer holds as many cells as `setlen` requests from `new`: the
`int32_t` product `lenx*leny`. -/
def Ljapunow.BufferOK {α : Type} (L : Ljapunow α) : Prop :=
  (L.exps.length : Int) = toInt32 (L.lenx * L.leny)

/-- The windows that `tile` assigns, in the order of its two loops, for the
counter values `xs` of the outer and `ys` of the inner loop. -/
def tileLog {α : Type} (A : Arith α) (sic vx vy : Point32_t α) (xs ys : List Nat) :
    List (Window α) :=
  xs.foldr (fun x acc => ys.map (tileWindow A sic vx vy x) ++ acc) []

/-- The field `M` differs from `L` at most in its three corners and in the
content of the cells of `exps`. -/
def Ljapunow.SameUpTo {α : Type} (L M : Ljapunow α) : Prop :=
  M.install L.window = { L with exps := M.exps } ∧ M.exps.length = L.exps.length

/-- The field that the constructor and `setlen(4,4)` leave, with cells holding
`0.0`; the members that the constructor does not set are those of the sample
field. -/
def sampleFresh {α : Type} (A : Arith α) : Ljapunow α :=
  { Ljapunow.ctor A (sampleField A) with
    lenx := 4, leny := 4, exps := (List.range 16).map (fun _ => A.lit 0) }

/-! ## The picture -/

/-- Conversion of an `int32_t` to `uint8_t`, as in `bmp->bmp[offsetbmp]=b;`. -/
def toByte (z : Int) : Nat := (z % 256).toNat

/-- The loops of `Ljapunow::createBmp` (1650-1663) over the cells still to be
visited: `farbe->farbe(exps[offsetexp],r,g,b);` with the local variables `r`,
`g`, `b` holding `out` at the call; the value returned by `farbe` is not
looked at.  The result lists, cell by cell, what the three variables hold when
the three bytes of the cell are stored. -/
def createBmpCells {α : Type} (A : Arith α) (C : IntervalColoring α) :
    List α → RGB → List RGB
  | [], _ => []
  | e :: es, out => (C.farbe A e out).2 :: createBmpCells A C es (C.farbe A e out).2

/-- What the local variables `r`, `g`, `b` of `createBmp` hold after the loops
have visited the given cells. -/
def createBmpState {α : Type} (A : Arith α) (C : IntervalColoring α) :
    List α → RGB → RGB
  | [], out => out
  | e :: es, out => createBmpState A C es (C.farbe A e out).2

/-- `Ljapunow::createBmp` (1650-1663): the bytes `b`, `g`, `r` of the
`lenx*leny` cells in the order of the buffer.  `C` is the object behind the
pointer `farbe`, `junk` what the uninitialised local variables `r`, `g`, `b`
hold. -/
def Ljapunow.createBmp {α : Type} (A : Arith α) (L : Ljapunow α)
    (C : IntervalColoring α) (junk : RGB) : List Nat :=
  (createBmpCells A C (L.exps.take (L.lenx.toNat * L.leny.toNat)) junk).foldr
    (fun c acc => toByte c.b :: toByte c.g :: toByte c.r :: acc) []

/-- A colouring without intervals: blue below, red above. -/
def sampleEmptyColoring {α : Type} (A : Arith α) : IntervalColoring α :=
  ((IntervalColoring.ctor A
      { id := 0, ints := [], mingl := A.ofInt 0, maxgl := A.ofInt 0,
        lr := 0, lg := 0, lb := 0, rr := 0, rg := 0, rb := 0,
        minwert := A.ofInt 0, maxwert := A.ofInt 0 }).setfarbel 0 0 255).setfarber
      255 0 0

/-- The sample interval with its left bound moved to 5, above its right bound
1. -/
def sampleBackward {α : Type} (A : Arith α) : ColIntv α :=
  (sampleInterval A).setgrenzel A (A.lit 5)

/-- The members that the sampling pass reads, apart from the buffer, agree on
the two fields: the map function, the sequence up to its length, the halved
iteration counts with the factor `INViter1d` that `setiter` derives from them,
`x0`, the three corners and the grid size. -/
def Ljapunow.SameInputs {α : Type} (L M : Ljapunow α) : Prop :=
  M.fkt = L.fkt ∧ M.seqlen = L.seqlen ∧
  (∀ p, p < L.seqlen → M.sequence p = L.sequence p) ∧
  M.iter0h = L.iter0h ∧ M.iter1h = L.iter1h ∧ M.INViter1d = L.INViter1d ∧
  M.x0 = L.x0 ∧ M.lowerleft = L.lowerleft ∧ M.lowerright = L.lowerright ∧
  M.upperleft = L.upperleft ∧ M.lenx = L.lenx ∧ M.leny = L.leny

/-- The sample field after an earlier pass left other values in its buffer. -/
def sampleDirty {α : Type} (A : Arith α) : Ljapunow α :=
  { sampleField A with exps := List.replicate 16 (A.lit 1) }

/-! ## Parameter files -/

/-- `const int32_t ID_FKT_I=1;` -/
def ID_FKT_I : Int := 1

/-- `const int32_t ID_FKT_II=2;` -/
def ID_FKT_II : Int := 2

/-- `const int32_t ID_FKT_SICO=3;` -/
def ID_FKT_SICO : Int := 3

/-- `const int32_t ID_FKT_III=7;` -/
def ID_FKT_III : Int := 7

/-- `const int32_t ID_FKT_VII=11;` -/
def ID_FKT_VII : Int := 11

/-- `const int32_t ID_FKT_IX=13;` -/
def ID_FKT_IX : Int := 13

/-- `const int32_t ID_FKT_X=14;` -/
def ID_FKT_X : Int := 14

/-- `const int32_t ID_FKT_METADET=16;` -/
def ID_FKT_METADET : Int := 16

/-- `const int32_t ID_FKT_METAABSC=17;` -/
def ID_FKT_METAABSC : Int := 17

/-- `const int32_t ID_FKT_LSIN=18;` -/
def ID_FKT_LSIN : Int := 18

/-- `const int32_t ID_FKT_ATAN=22;` -/
def ID_FKT_ATAN : Int := 22

/-- One line of a text file as the readers of the source meet it.  `text s` is
a line that does not start with a number, `s` being what `fgets` followed by
`chomp` leaves in the buffer; `int z` is a line that holds the decimal integer
`z`; `num v` is a line that holds a decimal number with a fraction or an
exponent, which the conversion `%le` stores as `v`.  Every line is shorter
than the 999 characters that one call of `fgets` takes, none is blank or
starts with white space, and the last line ends with a line feed. -/
inductive Tok (α : Type) where
  | text (s : List Nat) : Tok α
  | int (z : Int) : Tok α
  | num (v : α) : Tok α

/-- The buffer after `fgets` and `chomp` on the line.  Of a numeric line the
readers that take it as text see only that it is neither a comment nor a key:
the digit `0` stands for it. -/
def Tok.line {α : Type} : Tok α → List Nat
  | .text s => s
  | .int _ => [48]
  | .num _ => [48]

/-- `fscanf(f,"%i\n",&v)` on the lines not yet read: the value stored and the
lines left.  The result is `none` where nothing is converted (end of file, or
a line without an integer) and the variable keeps what it held, and on a line
with a fraction or an exponent, of which `%i` takes a part only. -/
def scanI {α : Type} : List (Tok α) → Option (Int × List (Tok α))
  | .int z :: ts => some (z, ts)
  | _ => none

/-- `fscanf(f,"%le\n",&w)` on the lines not yet read: the value stored and the
lines left; `none` where nothing is converted. -/
def scanE {α : Type} (A : Arith α) : List (Tok α) → Option (α × List (Tok α))
  | .num v :: ts => some (v, ts)
  | .int z :: ts => some (A.ofInt z, ts)
  | _ => none

/-- The head of the reading loops that call `upper` before they look for a
comment (`loadFunction`, `FunctionII::load`, `FunctionMetaABSC::load`):
`fgets(puffer,1000,f); chomp(puffer); upper(puffer); if (puffer[0]=='#')
continue;`.  The result is the buffer at the first line that is no comment,
and the lines left; `none` when `fgets` meets the end of the file, where the
buffer keeps what it held. -/
def nextLine {α : Type} : List (Tok α) → Option (List Nat × List (Tok α))
  | [] => none
  | t :: ts =>
      if (upper t.line).head? = some 35 then nextLine ts
      else some (upper t.line, ts)

/-- The head of the reading loops that look for a comment before they call
`upper` (`FunctionSICO::load`, `FunctionMetaDet::load`, `ColIntv::load`,
`IntervalColoring::load`): `fgets(puffer,1000,f); chomp(puffer);
if (puffer[0]=='#') continue; else i++; upper(puffer);`. -/
def nextLineRaw {α : Type} : List (Tok α) → Option (List Nat × List (Tok α))
  | [] => none
  | t :: ts =>
      if t.line.head? = some 35 then nextLineRaw ts
      else some (upper t.line, ts)

/-- The key `ID`. -/
def kwID : List Nat := [73, 68]

/-- The key `B`. -/
def kwB : List Nat := [66]

/-- The key `FWAS`. -/
def kwFWAS : List Nat := [70, 87, 65, 83]

/-- The key `ABLWAS`. -/
def kwABLWAS : List Nat := [65, 66, 76, 87, 65, 83]

/-- The key `I0MAX`. -/
def kwI0MAX : List Nat := [73, 48, 77, 65, 88]

/-- The key `I0MIN`. -/
def kwI0MIN : List Nat := [73, 48, 77, 73, 78]

/-- The key `I1MAX`. -/
def kwI1MAX : List Nat := [73, 49, 77, 65, 88]

/-- The key `I1MIN`. -/
def kwI1MIN : List Nat := [73, 49, 77, 73, 78]

/-- The key `FINT`. -/
def kwFINT : List Nat := [70, 73, 78, 84]

/-- The key `FEXT`. -/
def kwFEXT : List Nat := [70, 69, 88, 84]

/-- The comment `#FUNCTION I`. -/
def cmI : List Nat := [35, 70, 85, 78, 67, 84, 73, 79, 78, 32, 73]

/-- The comment `#FUNCTION II`. -/
def cmII : List Nat := [35, 70, 85, 78, 67, 84, 73, 79, 78, 32, 73, 73]

/-- The comment `#FUNCTION SICO`. -/
def cmSICO : List Nat := [35, 70, 85, 78, 67, 84, 73, 79, 78, 32, 83, 73, 67, 79]

/-- The comment `#FUNCTION III`. -/
def cmIII : List Nat := [35, 70, 85, 78, 67, 84, 73, 79, 78, 32, 73, 73, 73]

/-- The comment `#DETACHED FUNCTION VII`. -/
def cmVII : List Nat :=
  [35, 68, 69, 84, 65, 67, 72, 69, 68, 32, 70, 85,
   78, 67, 84, 73, 79, 78, 32, 86, 73, 73]

/-- The comment `#DETACHED FUNCTION IX`. -/
def cmIX : List Nat :=
  [35, 68, 69, 84, 65, 67, 72, 69, 68, 32, 70, 85,
   78, 67, 84, 73, 79, 78, 32, 73, 88]

/-- The comment `#DETACHED FUNCTION X`. -/
def cmX : List Nat :=
  [35, 68, 69, 84, 65, 67, 72, 69, 68, 32, 70, 85,
   78, 67, 84, 73, 79, 78, 32, 88]

/-- The comment `#FUNCTION LSIN`. -/
def cmLSIN : List Nat := [35, 70, 85, 78, 67, 84, 73, 79, 78, 32, 76, 83, 73, 78]

/-- The comment `#FUNCTION ATAN`. -/
def cmATAN : List Nat := [35, 70, 85, 78, 67, 84, 73, 79, 78, 32, 65, 84, 65, 78]

/-- The comment `#METADET`. -/
def cmMETADET : List Nat := [35, 77, 69, 84, 65, 68, 69, 84]

/-- The comment `#FKT`. -/
def cmFKT : List Nat := [35, 70, 75, 84]

/-- The comment `#ABL`. -/
def cmABL : List Nat := [35, 65, 66, 76]

/-- The comment `#METAABSC`. -/
def cmMETAABSC : List Nat := [35, 77, 69, 84, 65, 65, 66, 83, 67]

/-- What `loadFunction` returns: the null pointer; an object all of whose child
pointers, at every depth, point to objects, with the value `status` that its
`load` returned (and that `loadFunction` drops); or an object of class `aid`
with a null child pointer somewhere below it, with the value that its `load`
returned. -/
inductive Loaded (α : Type) where
  | null : Loaded α
  | obj (status : Int) (f : Function α) : Loaded α
  | torso (status : Int) (aid : Int) : Loaded α

/-- `getNewFunction(aid)` (390-408) for the nine plain classes: the object that
the constructor builds, `none` for another identifier.  A subclass of
`FunctionII` first runs `FunctionII()`, `b=2.7; b2=5.4;`, then its own
constructor: `b=2.7;` in `FunctionSICO`, `FunctionIII`, `FunctionLSIN` and
`FunctionATAN`, and `b=2.7; b2=b+b;` in `FunctionVII`, `FunctionIX` and
`FunctionX`. -/
def getNewPlain {α : Type} (A : Arith α) (aid : Int) : Option (Function α) :=
  if aid = ID_FKT_I then some .I
  else if aid = ID_FKT_II then some (.II (A.lit 2.7) (A.lit 5.4))
  else if aid = ID_FKT_SICO then some (.SICO (A.lit 2.7) (A.lit 5.4))
  else if aid = ID_FKT_III then some (.III (A.lit 2.7) (A.lit 5.4))
  else if aid = ID_FKT_VII then
    some (.VII (A.lit 2.7) (A.add (A.lit 2.7) (A.lit 2.7)))
  else if aid = ID_FKT_IX then
    some (.IX (A.lit 2.7) (A.add (A.lit 2.7) (A.lit 2.7)))
  else if aid = ID_FKT_X then
    some (.X (A.lit 2.7) (A.add (A.lit 2.7) (A.lit 2.7)))
  else if aid = ID_FKT_LSIN then some (.LSIN (A.lit 2.7) (A.lit 5.4))
  else if aid = ID_FKT_ATAN then some (.ATAN (A.lit 2.7) (A.lit 5.4))
  else none

/-- `FunctionII::load` (717-734) on the object `g`, after its test `aid!=id`,
which is false for the object that `getNewFunction(aid)` built: one line that
is no comment is read; `if (strcmp(puffer,"B")==0) { fscanf(f,"%le\n",&w);
param++; set_b(w); }`; then `if (param!=pnotw) return -1; return 1;`.  The
result is the returned value, the object and the lines left. -/
def FunctionII.load {α : Type} (A : Arith α) (g : Function α)
    (toks : List (Tok α)) : Option (Int × Function α × List (Tok α)) :=
  match nextLine toks with
  | none => none
  | some (s, ts) =>
      if s = kwB then
        match scanE A ts with
        | none => none
        | some (w, ts2) => some (1, g.set_b A w, ts2)
      else some (-1, g, ts)

/-- `FunctionSICO::load` (1170-1187): as `FunctionII::load`, with the comment
test before `upper` and `if (param!=pnotw) return 0;`. -/
def FunctionSICO.load {α : Type} (A : Arith α) (g : Function α)
    (toks : List (Tok α)) : Option (Int × Function α × List (Tok α)) :=
  match nextLineRaw toks with
  | none => none
  | some (s, ts) =>
      if s = kwB then
        match scanE A ts with
        | none => none
        | some (w, ts2) => some (1, g.set_b A w, ts2)
      else some (0, g, ts)

/-- The virtual call `p->load(aid,f)` on a plain object: `FunctionI::load`
(1216-1219) returns 1 and reads nothing, `FunctionSICO` has its own `load`, the
other classes inherit `FunctionII::load`. -/
def Function.loadPlain {α : Type} (A : Arith α) (g : Function α)
    (toks : List (Tok α)) : Option (Int × Function α × List (Tok α)) :=
  match g with
  | .I => some (1, .I, toks)
  | .SICO _ _ => FunctionSICO.load A g toks
  | _ => FunctionII.load A g toks

/-- The loop of `FunctionMetaDet::load` (933-941) with `n` lines that are no
comments still to read: `if (strcmp(puffer,"FWAS")==0) { fscanf(ff,"%i\n",
&fwas); param++; } else if (strcmp(puffer,"ABLWAS")==0) { fscanf(ff,"%i\n",
&ablwas); param++; }`.  The result is `fwas`, `ablwas`, `param` and the lines
left. -/
def FunctionMetaDet.loadLoop {α : Type} :
    Nat → Int → Int → Int → List (Tok α) →
      Option (Int × Int × Int × List (Tok α))
  | 0, fwas, ablwas, param, toks => some (fwas, ablwas, param, toks)
  | n + 1, fwas, ablwas, param, toks =>
      match nextLineRaw toks with
      | none => none
      | some (s, ts) =>
          if s = kwFWAS then
            match scanI ts with
            | none => none
            | some (z, ts2) => FunctionMetaDet.loadLoop n z ablwas (param + 1) ts2
          else if s = kwABLWAS then
            match scanI ts with
            | none => none
            | some (z, ts2) => FunctionMetaDet.loadLoop n fwas z (param + 1) ts2
          else FunctionMetaDet.loadLoop n fwas ablwas param ts

/-- `FunctionMetaDet::load` (927-948) on the object that `FunctionMetaDet()`
built (`b=2.7; b2=b+b; f=abl=NULL; fwas=ablwas=WAS_F;`), with `loadF` for the
calls of `loadFunction`: the loop over two lines, `if (param!=pnotw) return 0;
if ((f=loadFunction(ff)) == NULL) return 0; if ((abl=loadFunction(ff)) == NULL)
return 0; return 1;`.  The result is the object with the value returned, and
the lines left. -/
def FunctionMetaDet.load {α : Type} (A : Arith α)
    (loadF : List (Tok α) → Option (Loaded α × List (Tok α)))
    (toks : List (Tok α)) : Option (Loaded α × List (Tok α)) :=
  match FunctionMetaDet.loadLoop 2 WAS_F WAS_F 0 toks with
  | none => none
  | some (fwas, ablwas, param, ts) =>
      if param ≠ 2 then some (.torso 0 ID_FKT_METADET, ts)
      else
        match loadF ts with
        | none => none
        | some (.null, ts2) => some (.torso 0 ID_FKT_METADET, ts2)
        | some (cf, ts2) =>
            match loadF ts2 with
            | none => none
            | some (.null, ts3) => some (.torso 0 ID_FKT_METADET, ts3)
            | some (ca, ts3) =>
                match cf, ca with
                | .obj _ f, .obj _ abl =>
                    some (.obj 1
                      (.MetaDet (A.lit 2.7) (A.add (A.lit 2.7) (A.lit 2.7))
                        f abl fwas ablwas), ts3)
                | _, _ => some (.torso 1 ID_FKT_METADET, ts3)

/-- The members of a `FunctionMetaABSC` object that its `load` writes, and the
counter `param`. -/
structure AbscVars (α : Type) where
  I0MIN : α
  I1MIN : α
  I0MAX : α
  I1MAX : α
  fint : Loaded α
  fext : Loaded α
  param : Int

/-- The loop of `FunctionMetaABSC::load` (1033-1050) with `n` lines that are no
comments still to read: the chain over the four bounds, each `fscanf(ff,
"%le\n",&w); ...=w; param++;`, then `if (strcmp(puffer,"FINT")==0) { if
((fint=loadFunction(ff)) == NULL) return -1; param++; } else if (strcmp(puffer,
"FEXT")==0) { if ((fext=loadFunction(ff)) == NULL) return -1; param++; }`.  The
first component of the result tells whether the loop was left by `return -1`. -/
def FunctionMetaABSC.loadLoop {α : Type} (A : Arith α)
    (loadF : List (Tok α) → Option (Loaded α × List (Tok α))) :
    Nat → AbscVars α → List (Tok α) →
      Option (Bool × AbscVars α × List (Tok α))
  | 0, v, toks => some (false, v, toks)
  | n + 1, v, toks =>
      match nextLine toks with
      | none => none
      | some (s, ts) =>
          let bounds : Option (AbscVars α × List (Tok α)) :=
            if s = kwI0MAX then
              (scanE A ts).map
                (fun r => ({ v with I0MAX := r.1, param := v.param + 1 }, r.2))
            else if s = kwI0MIN then
              (scanE A ts).map
                (fun r => ({ v with I0MIN := r.1, param := v.param + 1 }, r.2))
            else if s = kwI1MAX then
              (scanE A ts).map
                (fun r => ({ v with I1MAX := r.1, param := v.param + 1 }, r.2))
            else if s = kwI1MIN then
              (scanE A ts).map
                (fun r => ({ v with I1MIN := r.1, param := v.param + 1 }, r.2))
            else some (v, ts)
          match bounds with
          | none => none
          | some (v1, ts1) =>
              if s = kwFINT then
                match loadF ts1 with
                | none => none
                | some (.null, ts2) => some (true, { v1 with fint := .null }, ts2)
                | some (c, ts2) =>
                    FunctionMetaABSC.loadLoop A loadF n
                      { v1 with fint := c, param := v1.param + 1 } ts2
              else if s = kwFEXT then
                match loadF ts1 with
                | none => none
                | some (.null, ts2) => some (true, { v1 with fext := .null }, ts2)
                | some (c, ts2) =>
                    FunctionMetaABSC.loadLoop A loadF n
                      { v1 with fext := c, param := v1.param + 1 } ts2
              else FunctionMetaABSC.loadLoop A loadF n v1 ts1

/-- `FunctionMetaABSC::load` (1026-1055) on the object that
`FunctionMetaABSC()` built (`b=2.7; b2=b+b; fint=fext=NULL;`, the four bounds
not set: `junk 0`, ..., `junk 3` is what they hold): the loop over six lines,
then `if (param!=pnotw) { ... return 0; } return 1;`. -/
def FunctionMetaABSC.load {α : Type} (A : Arith α) (junk : Nat → α)
    (loadF : List (Tok α) → Option (Loaded α × List (Tok α)))
    (toks : List (Tok α)) : Option (Loaded α × List (Tok α)) :=
  match FunctionMetaABSC.loadLoop A loadF 6
      { I0MIN := junk 0, I1MIN := junk 1, I0MAX := junk 2, I1MAX := junk 3,
        fint := .null, fext := .null, param := 0 } toks with
  | none => none
  | some (early, v, ts) =>
      let status : Int := if early then -1 else if v.param ≠ 6 then 0 else 1
      match v.fint, v.fext with
      | .obj _ fi, .obj _ fe =>
          some (.obj status
            (.MetaABSC (A.lit 2.7) (A.add (A.lit 2.7) (A.lit 2.7))
              v.I0MIN v.I1MIN v.I0MAX v.I1MAX fi fe), ts)
      | _, _ => some (.torso status ID_FKT_METAABSC, ts)

/-- The lines `Function *p = getNewFunction(aid); if (p) p->load(aid,f);
return p;` of `loadFunction`, with `loadF` for the calls of `loadFunction`
that the two composite classes make. -/
def loadObject {α : Type} (A : Arith α) (junk : Nat → α)
    (loadF : List (Tok α) → Option (Loaded α × List (Tok α)))
    (aid : Int) (toks : List (Tok α)) : Option (Loaded α × List (Tok α)) :=
  if aid = ID_FKT_METADET then FunctionMetaDet.load A loadF toks
  else if aid = ID_FKT_METAABSC then FunctionMetaABSC.load A junk loadF toks
  else
    match getNewPlain A aid with
    | none => some (.null, toks)
    | some g =>
        match g.loadPlain A toks with
        | none => none
        | some (status, g1, ts) => some (.obj status g1, ts)

/-- `loadFunction(f)` (410-425): `while (1) { fgets(tmp,1000,f); chomp(tmp);
upper(tmp); if (tmp[0]=='#') continue; if (strcmp(tmp,"ID") == 0) break; else
return NULL; } fscanf(f,"%i\n",&aid); Function *p = getNewFunction(aid);
if (p) p->load(aid,f); return p;`.  The fuel bounds the depth of the nested
calls through the composite classes. -/
def loadFunction {α : Type} (A : Arith α) (junk : Nat → α) :
    Nat → List (Tok α) → Option (Loaded α × List (Tok α))
  | 0, _ => none
  | fuel + 1, toks =>
      match nextLine toks with
      | none => none
      | some (s, ts) =>
          if s = kwID then
            match scanI ts with
            | none => none
            | some (aid, ts2) => loadObject A junk (loadFunction A junk fuel) aid ts2
          else some (.null, ts)

/-- `save(f)` under virtual dispatch: the lines written.  `le v` is the number
that the text written by `%le` for `v` denotes.  `FunctionII::save` (713-715):
`fprintf(f,"ID\n%i\n#FUNCTION II\nB\n%le\n",id,b);`, and likewise for the
other plain classes; `FunctionI::save` (1212-1214) writes no `B`;
`FunctionMetaDet::save` (990-996); `FunctionMetaABSC::save` (1100-1110). -/
def Function.save {α : Type} (le : α → α) : Function α → List (Tok α)
  | .I => [.text kwID, .int ID_FKT_I, .text cmI]
  | .II b _ => [.text kwID, .int ID_FKT_II, .text cmII, .text kwB, .num (le b)]
  | .SICO b _ =>
      [.text kwID, .int ID_FKT_SICO, .text cmSICO, .text kwB, .num (le b)]
  | .III b _ =>
      [.text kwID, .int ID_FKT_III, .text cmIII, .text kwB, .num (le b)]
  | .VII b _ =>
      [.text kwID, .int ID_FKT_VII, .text cmVII, .text kwB, .num (le b)]
  | .IX b _ => [.text kwID, .int ID_FKT_IX, .text cmIX, .text kwB, .num (le b)]
  | .X b _ => [.text kwID, .int ID_FKT_X, .text cmX, .text kwB, .num (le b)]
  | .LSIN b _ =>
      [.text kwID, .int ID_FKT_LSIN, .text cmLSIN, .text kwB, .num (le b)]
  | .ATAN b _ =>
      [.text kwID, .int ID_FKT_ATAN, .text cmATAN, .text kwB, .num (le b)]
  | .MetaDet _ _ f abl fwas ablwas =>
      [.text kwID, .int ID_FKT_METADET, .text cmMETADET, .text kwFWAS,
        .int fwas, .text kwABLWAS, .int ablwas, .text cmFKT]
        ++ Function.save le f ++ [.text cmABL] ++ Function.save le abl
  | .MetaABSC _ _ I0MIN I1MIN I0MAX I1MAX fint fext =>
      [.text kwID, .int ID_FKT_METAABSC, .text cmMETAABSC,
        .text kwI0MIN, .num (le I0MIN), .text kwI0MAX, .num (le I0MAX),
        .text kwI1MIN, .num (le I1MIN), .text kwI1MAX, .num (le I1MAX),
        .text kwFINT]
        ++ Function.save le fint ++ [.text kwFEXT] ++ Function.save le fext

/-- The object that `loadFunction` builds from the lines that `save` wrote for
`f`: every `b` and every bound is the number read back, `b2` is set by
`set_b`, and a composite object has the `b`, `b2` of its constructor. -/
def Function.reload {α : Type} (A : Arith α) (le : α → α) :
    Function α → Function α
  | .I => .I
  | .II b _ => .II (le b) (A.add (le b) (le b))
  | .SICO b _ => .SICO (le b) (A.add (le b) (le b))
  | .III b _ => .III (le b) (A.add (le b) (le b))
  | .VII b _ => .VII (le b) (A.add (le b) (le b))
  | .IX b _ => .IX (le b) (A.add (le b) (le b))
  | .X b _ => .X (le b) (A.add (le b) (le b))
  | .LSIN b _ => .LSIN (le b) (A.add (le b) (le b))
  | .ATAN b _ => .ATAN (le b) (A.add (le b) (le b))
  | .MetaDet _ _ f abl fwas ablwas =>
      .MetaDet (A.lit 2.7) (A.add (A.lit 2.7) (A.lit 2.7))
        (Function.reload A le f) (Function.reload A le abl) fwas ablwas
  | .MetaABSC _ _ I0MIN I1MIN I0MAX I1MAX fint fext =>
      .MetaABSC (A.lit 2.7) (A.add (A.lit 2.7) (A.lit 2.7))
        (le I0MIN) (le I1MIN) (le I0MAX) (le I1MAX)
        (Function.reload A le fint) (Function.reload A le fext)

/-- The lines of `f.save` that `loadFunction` leaves unread: the comment after
the identifier of a `FunctionI` that comes last. -/
def Function.leftover {α : Type} : Function α → List (Tok α)
  | .I => [.text cmI]
  | .MetaDet _ _ _ abl _ _ => Function.leftover abl
  | .MetaABSC _ _ _ _ _ _ _ fext => Function.leftover fext
  | _ => []

/-- Depth of the nesting of composite objects. -/
def Function.depth {α : Type} : Function α → Nat
  | .MetaDet _ _ f abl _ _ => max (Function.depth f) (Function.depth abl) + 1
  | .MetaABSC _ _ _ _ _ _ fint fext =>
      max (Function.depth fint) (Function.depth fext) + 1
  | _ => 0

/-- The object is as the constructors and `set_b` leave it: `b2` is `b+b` in
a plain object, and a composite object has `b=2.7`, `b2=b+b`. -/
def Function.Normal {α : Type} (A : Arith α) : Function α → Prop
  | .I => True
  | .II b b2 => b2 = A.add b b
  | .SICO b b2 => b2 = A.add b b
  | .III b b2 => b2 = A.add b b
  | .VII b b2 => b2 = A.add b b
  | .IX b b2 => b2 = A.add b b
  | .X b b2 => b2 = A.add b b
  | .LSIN b b2 => b2 = A.add b b
  | .ATAN b b2 => b2 = A.add b b
  | .MetaDet b b2 f abl _ _ =>
      b = A.lit 2.7 ∧ b2 = A.add (A.lit 2.7) (A.lit 2.7) ∧
      Function.Normal A f ∧ Function.Normal A abl
  | .MetaABSC b b2 _ _ _ _ fint fext =>
      b = A.lit 2.7 ∧ b2 = A.add (A.lit 2.7) (A.lit 2.7) ∧
      Function.Normal A fint ∧ Function.Normal A fext

/-- Every `b` and every bound of the object is a number that the text written
for it denotes. -/
def Function.Exact {α : Type} (le : α → α) : Function α → Prop
  | .I => True
  | .II b _ => le b = b
  | .SICO b _ => le b = b
  | .III b _ => le b = b
  | .VII b _ => le b = b
  | .IX b _ => le b = b
  | .X b _ => le b = b
  | .LSIN b _ => le b = b
  | .ATAN b _ => le b = b
  | .MetaDet _ _ f abl _ _ => Function.Exact le f ∧ Function.Exact le abl
  | .MetaABSC _ _ I0MIN I1MIN I0MAX I1MAX fint fext =>
      le I0MIN = I0MIN ∧ le I1MIN = I1MIN ∧ le I0MAX = I0MAX ∧
      le I1MAX = I1MAX ∧ Function.Exact le fint ∧ Function.Exact le fext

/-- Rounding to the nearest integer, a tie going to the even one. -/
def roundHalfEven {α : Type} [LinearOrderedField α] [FloorRing α] (t : α) : Int :=
  if t - (Int.floor t : α) < 1 / 2 then Int.floor t
  else if 1 / 2 < t - (Int.floor t : α) then Int.floor t + 1
  else if Int.floor t % 2 = 0 then Int.floor t
  else Int.floor t + 1

/-- The number that the text written by `%le` for `v` denotes, in exact
arithmetic: one digit before the point and six after it, times a power of
ten, so `v` rounded to seven significant decimal digits. -/
def printLE {α : Type} [LinearOrderedField α] [FloorRing α] (v : α) : α :=
  if v = 0 then 0
  else
    (roundHalfEven (v / (10 : α) ^ (Int.log 10 |v| - 6)) : α)
      * (10 : α) ^ (Int.log 10 |v| - 6)

/-! ### Colourings and the parameters of the field -/

/-- The key `FUNKTION`. -/
def kwFUNKTION : List Nat := [70, 85, 78, 75, 84, 73, 79, 78]

/-- The key `FAERBUNG`. -/
def kwFAERBUNG : List Nat := [70, 65, 69, 82, 66, 85, 78, 71]

/-- The key `LENX`. -/
def kwLENX : List Nat := [76, 69, 78, 88]

/-- The key `LENY`. -/
def kwLENY : List Nat := [76, 69, 78, 89]

/-- The key `ITER0`. -/
def kwITER0 : List Nat := [73, 84, 69, 82, 48]

/-- The key `ITER1`. -/
def kwITER1 : List Nat := [73, 84, 69, 82, 49]

/-- The key `X0`. -/
def kwX0 : List Nat := [88, 48]

/-- The key `OL`. -/
def kwOL : List Nat := [79, 76]

/-- The key `UL`. -/
def kwUL : List Nat := [85, 76]

/-- The key `UR`. -/
def kwUR : List Nat := [85, 82]

/-- The key `SEQUENZ`. -/
def kwSEQUENZ : List Nat := [83, 69, 81, 85, 69, 78, 90]

/-- The key `GRENZEL`. -/
def kwGRENZEL : List Nat := [71, 82, 69, 78, 90, 69, 76]

/-- The key `GRENZER`. -/
def kwGRENZER : List Nat := [71, 82, 69, 78, 90, 69, 82]

/-- The key `FARBEL`. -/
def kwFARBEL : List Nat := [70, 65, 82, 66, 69, 76]

/-- The key `FARBER`. -/
def kwFARBER : List Nat := [70, 65, 82, 66, 69, 82]

/-- The key `INTANZ`. -/
def kwINTANZ : List Nat := [73, 78, 84, 65, 78, 90]

/-- `fscanf(f,"%i\n%i\n%i\n",&r,&g,&b)`: the three values stored and the lines
left; `none` where one of the conversions fails. -/
def scanI3 {α : Type} (toks : List (Tok α)) :
    Option (Int × Int × Int × List (Tok α)) :=
  match scanI toks with
  | none => none
  | some (r, ts1) =>
      match scanI ts1 with
      | none => none
      | some (g, ts2) =>
          match scanI ts2 with
          | none => none
          | some (b, ts3) => some (r, g, b, ts3)

/-- The loop of `ColIntv::load` (1230-1239) with `n` lines that are no comments
still to read: `GRENZEL` and `GRENZER` read a double for `setgrenzel`,
`setgrenzer`; `FARBEL` and `FARBER` read three integers for `setfarbel`,
`setfarber`; each counts in `param`. -/
def ColIntv.loadLoop {α : Type} (A : Arith α) :
    Nat → ColIntv α → Int → List (Tok α) → Option (ColIntv α × Int × List (Tok α))
  | 0, p, param, toks => some (p, param, toks)
  | n + 1, p, param, toks =>
      match nextLineRaw toks with
      | none => none
      | some (s, ts) =>
          if s = kwGRENZEL then
            match scanE A ts with
            | none => none
            | some (w, ts2) => ColIntv.loadLoop A n (p.setgrenzel A w) (param + 1) ts2
          else if s = kwGRENZER then
            match scanE A ts with
            | none => none
            | some (w, ts2) => ColIntv.loadLoop A n (p.setgrenzer A w) (param + 1) ts2
          else if s = kwFARBEL then
            match scanI3 ts with
            | none => none
            | some (r, g, b, ts2) =>
                ColIntv.loadLoop A n (p.setfarbel r g b) (param + 1) ts2
          else if s = kwFARBER then
            match scanI3 ts with
            | none => none
            | some (r, g, b, ts2) =>
                ColIntv.loadLoop A n (p.setfarber r g b) (param + 1) ts2
          else ColIntv.loadLoop A n p param ts

/-- `ColIntv::load` (1224-1244): the loop over four lines, then `if (param!=
pnotw) return 0; return 1;`.  The result is the returned value, the object and
the lines left. -/
def ColIntv.load {α : Type} (A : Arith α) (p : ColIntv α) (toks : List (Tok α)) :
    Option (Int × ColIntv α × List (Tok α)) :=
  match ColIntv.loadLoop A 4 p 0 toks with
  | none => none
  | some (p1, param, ts) => some (if param ≠ 4 then 0 else 1, p1, ts)

/-- The loop of `IntervalColoring::load` (1297-1315) with `n` lines that are no
comments still to read: `FARBEL` and `FARBER` read three integers for
`setfarbel`, `setfarber`; `INTANZ` reads `lesanz`. -/
def IntervalColoring.loadLoop {α : Type} :
    Nat → IntervalColoring α → Int → List (Tok α) →
      Option (IntervalColoring α × Int × List (Tok α))
  | 0, C, lesanz, toks => some (C, lesanz, toks)
  | n + 1, C, lesanz, toks =>
      match nextLineRaw toks with
      | none => none
      | some (s, ts) =>
          if s = kwFARBEL then
            match scanI3 ts with
            | none => none
            | some (r, g, b, ts2) =>
                IntervalColoring.loadLoop n (C.setfarbel r g b) lesanz ts2
          else if s = kwFARBER then
            match scanI3 ts with
            | none => none
            | some (r, g, b, ts2) =>
                IntervalColoring.loadLoop n (C.setfarber r g b) lesanz ts2
          else if s = kwINTANZ then
            match scanI ts with
            | none => none
            | some (z, ts2) => IntervalColoring.loadLoop n C z ts2
          else IntervalColoring.loadLoop n C lesanz ts

/-- The loop `for(i=0;i<lesanz;i++) { ColIntv* ints=new ColIntv; ints->load(f);
Addintervall(ints); }` of `IntervalColoring::load` with `n` rounds still to
run, the next one with index `i`; `junkI i` holds what the members of the new
object that its constructor does not set contain.  The values that `load` and
`Addintervall` return are not looked at. -/
def IntervalColoring.loadIntervals {α : Type} (A : Arith α)
    (junkI : Nat → ColIntv α) :
    Nat → Nat → IntervalColoring α → List (Tok α) →
      Option (IntervalColoring α × List (Tok α))
  | 0, _, C, toks => some (C, toks)
  | n + 1, i, C, toks =>
      match ColIntv.load A (ColIntv.ctor A (junkI i)) toks with
      | none => none
      | some (_, p, ts) =>
          IntervalColoring.loadIntervals A junkI n (i + 1) (C.Addintervall A p).2 ts

/-- `IntervalColoring::load` (1290-1327) after its test `aid!=id`: the loop
over three lines, `if (lesanz > MAXINTANZ) return 0; clear();`, the loop over
the intervals, `return 1;`. -/
def IntervalColoring.load {α : Type} (A : Arith α) (junkI : Nat → ColIntv α)
    (C : IntervalColoring α) (toks : List (Tok α)) :
    Option (Int × IntervalColoring α × List (Tok α)) :=
  match IntervalColoring.loadLoop 3 C 0 toks with
  | none => none
  | some (C1, lesanz, ts) =>
      if lesanz > MAXINTANZ then some (0, C1, ts)
      else
        match IntervalColoring.loadIntervals A junkI lesanz.toNat 0 C1.clear ts with
        | none => none
        | some (C2, ts2) => some (1, C2, ts2)

/-- `loadfaerbung(f)` (379-388): `fscanf(f,"ID\n%i\n",&aid); IntervalColoring
*p=NULL; if (aid==ID_FAERBUNG_INTERVALL) p=new IntervalColoring; if (p)
p->load(aid,f); return p;`.  The result is the object behind the pointer
returned (`none` for the null pointer) and the lines left; where the next
lines are not `ID` and an integer, `aid` is not set and the result is
`none`.  `junkC` holds what the members of the new object that its
constructor does not set contain. -/
def loadfaerbung {α : Type} (A : Arith α) (junkC : IntervalColoring α)
    (junkI : Nat → ColIntv α) (toks : List (Tok α)) :
    Option (Option (IntervalColoring α) × List (Tok α)) :=
  match toks with
  | .text s :: .int aid :: ts =>
      if s = kwID then
        if aid = ID_FAERBUNG_INTERVALL then
          match IntervalColoring.load A junkI (IntervalColoring.ctor A junkC) ts with
          | none => none
          | some (_, C, ts2) => some (some C, ts2)
        else some (none, ts)
      else none
  | _ => none

/-- The field together with the object behind its pointer `farbe`, and the
local variables of `Ljapunow::loadpar`. -/
structure ParVars (α : Type) where
  L : Ljapunow α
  farbe : Option (IntervalColoring α)
  param : Int
  tlenx : Int
  tleny : Int
  tmpiter0 : Int
  tmpiter1 : Int

/-- The loop `while (!feof(f))` of `Ljapunow::loadpar` (1379-1434).  `eof` is
the end-of-file indicator of the stream: a call of `fscanf` whose format ends
with `\n` sets it when it takes the last line, a call of `fgets` that takes a
line does not.  The first component of the result is the value of a `return`
inside the loop, `none` when the loop is left at the end of the file.  The
result is `none` where `fgets` meets the end of the file (the buffer keeps
what it held), where a conversion fails, after a `FUNKTION` or `FAERBUNG`
section that ends the file, and where `loadFunction` returns an object with a
null child.  `depth` is the fuel of `loadFunction`. -/
def Ljapunow.loadparLoop {α : Type} (A : Arith α) (junk : Nat → α)
    (junkC : IntervalColoring α) (junkI : Nat → ColIntv α) (depth : Nat) :
    Nat → ParVars α → List (Tok α) → Bool → Option (Option Int × ParVars α)
  | 0, _, _, _ => none
  | fuel + 1, v, toks, eof =>
      if eof then some (none, v)
      else
        match toks with
        | [] => none
        | t :: ts =>
            if t.line.head? = some 35 ∨ t.line.head? = some 46 then
              Ljapunow.loadparLoop A junk junkC junkI depth fuel v ts false
            else if upper t.line = kwFUNKTION then
              match loadFunction A junk depth ts with
              | none => none
              | some (.null, _) => some (some (-1), v)
              | some (.obj _ g, ts2) =>
                  Ljapunow.loadparLoop A junk junkC junkI depth fuel
                    { v with L := v.L.setFunction g, param := v.param + 1 } ts2 false
              | some (.torso _ _, _) => none
            else if upper t.line = kwFAERBUNG then
              match loadfaerbung A junkC junkI ts with
              | none => none
              | some (none, _) => some (some 0, v)
              | some (some C, ts2) =>
                  Ljapunow.loadparLoop A junk junkC junkI depth fuel
                    { v with farbe := some C, param := v.param + 1 } ts2 false
            else if upper t.line = kwLENX then
              match scanI ts with
              | none => none
              | some (z, ts2) =>
                  Ljapunow.loadparLoop A junk junkC junkI depth fuel
                    { v with tlenx := z, param := v.param + 1 } ts2 ts2.isEmpty
            else if upper t.line = kwLENY then
              match scanI ts with
              | none => none
              | some (z, ts2) =>
                  Ljapunow.loadparLoop A junk junkC junkI depth fuel
                    { v with tleny := z, param := v.param + 1 } ts2 ts2.isEmpty
            else if upper t.line = kwITER0 then
              match scanI ts with
              | none => none
              | some (z, ts2) =>
                  Ljapunow.loadparLoop A junk junkC junkI depth fuel
                    { v with tmpiter0 := z, param := v.param + 1 } ts2 ts2.isEmpty
            else if upper t.line = kwITER1 then
              match scanI ts with
              | none => none
              | some (z, ts2) =>
                  Ljapunow.loadparLoop A junk junkC junkI depth fuel
                    { v with tmpiter1 := z, param := v.param + 1 } ts2 ts2.isEmpty
            else if upper t.line = kwX0 then
              match scanE A ts with
              | none => none
              | some (w1, ts2) =>
                  Ljapunow.loadparLoop A junk junkC junkI depth fuel
                    { v with L := { v.L with x0 := w1 }, param := v.param + 1 }
                    ts2 ts2.isEmpty
            else if upper t.line = kwOL then
              match scanE A ts with
              | none => none
              | some (w1, ts1) =>
                  match scanE A ts1 with
                  | none => none
                  | some (w2, ts2) =>
                      Ljapunow.loadparLoop A junk junkC junkI depth fuel
                        { v with L := { v.L with upperleft := ⟨w1, w2⟩ },
                                 param := v.param + 1 } ts2 ts2.isEmpty
            else if upper t.line = kwUL then
              match scanE A ts with
              | none => none
              | some (w1, ts1) =>
                  match scanE A ts1 with
                  | none => none
                  | some (w2, ts2) =>
                      Ljapunow.loadparLoop A junk junkC junkI depth fuel
                        { v with L := { v.L with lowerleft := ⟨w1, w2⟩ },
                                 param := v.param + 1 } ts2 ts2.isEmpty
            else if upper t.line = kwUR then
              match scanE A ts with
              | none => none
              | some (w1, ts1) =>
                  match scanE A ts1 with
                  | none => none
                  | some (w2, ts2) =>
                      Ljapunow.loadparLoop A junk junkC junkI depth fuel
                        { v with L := { v.L with lowerright := ⟨w1, w2⟩ },
                                 param := v.param + 1 } ts2 ts2.isEmpty
            else if upper t.line = kwSEQUENZ then
              match ts with
              | [] => none
              | t2 :: ts2 =>
                  Ljapunow.loadparLoop A junk junkC junkI depth fuel
                    { v with L := v.L.setSequence t2.line, param := v.param + 1 }
                    ts2 false
            else some (some 0, v)

/-- `Ljapunow::loadpar` (1371-1446) on a file that `fopen` opens, given by its
lines: `param=0, tlenx=0, tleny=0, tmpiter0=100, tmpiter1=200`, the loop, `if
(param!=pnotw) { ... return 0; } setlen(tlenx,tleny); setiter(tmpiter0,
tmpiter1); return 1;`.  The result is the returned value, the field and the
object behind its pointer `farbe` after the call; `fresh` is the content of
the buffer that `setlen` allocates. -/
def Ljapunow.loadparLines {α : Type} (A : Arith α) (junk : Nat → α)
    (junkC : IntervalColoring α) (junkI : Nat → ColIntv α) (fresh : Nat → α)
    (depth fuel : Nat) (L : Ljapunow α) (farbe : Option (IntervalColoring α))
    (toks : List (Tok α)) :
    Option (Int × Ljapunow α × Option (IntervalColoring α)) :=
  match Ljapunow.loadparLoop A junk junkC junkI depth fuel
      { L := L, farbe := farbe, param := 0, tlenx := 0, tleny := 0,
        tmpiter0 := 100, tmpiter1 := 200 } toks false with
  | none => none
  | some (some r, v) => some (r, v.L, v.farbe)
  | some (none, v) =>
      if v.param ≠ 11 then some (0, v.L, v.farbe)
      else
        match v.L.setlen fresh v.tlenx v.tleny with
        | none => none
        | some L2 => some (1, L2.setiter A v.tmpiter0 v.tmpiter1, v.farbe)

/-- The head of a parameter record: the `FUNKTION` section with a `FunctionI`
and the `FAERBUNG` section with a colouring without intervals. -/
def sampleHead {α : Type} : List (Tok α) :=
  [.text kwFUNKTION, .text kwID, .int ID_FKT_I, .text cmI,
   .text kwFAERBUNG, .text kwID, .int ID_FAERBUNG_INTERVALL,
   .text kwFARBEL, .int 0, .int 0, .int 255,
   .text kwFARBER, .int 255, .int 0, .int 0,
   .text kwINTANZ, .int 0]

/-- The tail of a parameter record: `ITER0`, `ITER1`, `X0`, `SEQUENZ` and the
three corners. -/
def sampleTail {α : Type} (A : Arith α) : List (Tok α) :=
  [.text kwITER0, .int 20, .text kwITER1, .int 40,
   .text kwX0, .num (A.lit (1/4)),
   .text kwSEQUENZ, .text [66, 65],
   .text kwOL, .int 0, .int 2,
   .text kwUL, .int 0, .int 0,
   .text kwUR, .int 2, .int 0]

/-- A complete parameter record with a grid of 8 by 4 cells. -/
def sampleRecord {α : Type} (A : Arith α) : List (Tok α) :=
  sampleHead ++ [.text kwLENX, .int 8, .text kwLENY, .int 4] ++ sampleTail A

/-- The record with the key `LENY` missing and the key `LENX` twice. -/
def sampleRecordTwice {α : Type} (A : Arith α) : List (Tok α) :=
  sampleHead ++ [.text kwLENX, .int 8, .text kwLENX, .int 4] ++ sampleTail A

/-- The record with the key `LENY` missing. -/
def sampleRecordShort {α : Type} (A : Arith α) : List (Tok α) :=
  sampleHead ++ [.text kwLENX, .int 8] ++ sampleTail A

/-- A record with the line `BOGUS` after `X0`, `SEQUENZ` and `OL`. -/
def sampleRecordBogus {α : Type} (A : Arith α) : List (Tok α) :=
  [.text kwX0, .num (A.lit (1/4)), .text kwSEQUENZ, .text [66, 65],
   .text kwOL, .int 0, .int 2, .text [66, 79, 71, 85, 83]]

/-! ## Sequences of calls -/

/-- A call of an operation of the field.  `loadpar` is a call of `loadpar`
that returns 1 on a record holding each key once, given by the values of the
record; `loadparLines` is any call of `loadpar`, given by the lines of its file
(with the contents of the objects that the call creates, the fuel of its loops
and the object behind the pointer `farbe` at the call). -/
inductive FieldOp (α : Type) where
  | setlen (fresh : Nat → α) (xl yl : Int) : FieldOp α
  | loadpar (fresh : Nat → α) (p : ParFile α) : FieldOp α
  | loadparLines (junk : Nat → α) (junkC : IntervalColoring α)
      (junkI : Nat → ColIntv α) (fresh : Nat → α) (depth fuel : Nat)
      (farbe : Option (IntervalColoring α)) (toks : List (Tok α)) : FieldOp α
  | setiter (i0 i1 : Int) : FieldOp α
  | setSequence (s : List Nat) : FieldOp α
  | setFunction (f : Function α) : FieldOp α
  | setPosition (lolex loley lorix loriy uplex upley : α) : FieldOp α
  | centerPixel (px py : Int) : FieldOp α
  | crop (pulneux pulneuy porneux porneuy : Int) : FieldOp α
  | stretch (fx fy : α) : FieldOp α
  | rot (deg : Int) : FieldOp α
  | calcRows (AB : Int → α) (fuel : Nat) (astart aende : Int) : FieldOp α
  | tile (AB : Int → α) (fuel : Nat) (anzx anzy : Int) : FieldOp α

/-- The call can store a sequence: `setSequence`, and `loadpar` through it. -/
def FieldOp.storesSequence {α : Type} : FieldOp α → Bool
  | .setSequence _ => true
  | .loadpar _ _ => true
  | .loadparLines _ _ _ _ _ _ _ _ => true
  | _ => false

/-- The field after one call, or `none` when the call does not return. -/
def Ljapunow.apply {α : Type} (A : Arith α) (L : Ljapunow α) :
    FieldOp α → Option (Ljapunow α)
  | .setlen fresh xl yl => L.setlen fresh xl yl
  | .loadpar fresh p => L.loadpar A fresh p
  | .loadparLines junk junkC junkI fresh depth fuel farbe toks =>
      match L.loadparLines A junk junkC junkI fresh depth fuel farbe toks with
      | none => none
      | some r => some r.2.1
  | .setiter i0 i1 => some (L.setiter A i0 i1)
  | .setSequence s => some (L.setSequence s)
  | .setFunction f => some (L.setFunction f)
  | .setPosition a b c d e f => some (L.setPosition a b c d e f)
  | .centerPixel px py => some (L.centerPixel A px py)
  | .crop a b c d => some (L.crop A a b c d)
  | .stretch fx fy => some (L.stretch A fx fy)
  | .rot deg => some (L.rot A deg)
  | .calcRows AB fuel astart aende =>
      match L.calc A AB fuel astart aende with
      | none => none
      | some r => some r.2
  | .tile AB fuel anzx anzy =>
      match L.tile A AB fuel anzx anzy with
      | none => none
      | some r => some r.1

/-- The call, made on the field `L`, reaches `setlen` and so allocates the
buffer: a call of `setlen`, and a call of `loadpar` that returns 1 (a call of
`loadpar` that fails returns before its `setlen`). -/
def Ljapunow.callAllocates {α : Type} (A : Arith α) (L : Ljapunow α) :
    FieldOp α → Bool
  | .setlen _ _ _ => true
  | .loadpar _ _ => true
  | .loadparLines junk junkC junkI fresh depth fuel farbe toks =>
      match L.loadparLines A junk junkC junkI fresh depth fuel farbe toks with
      | none => false
      | some r => decide (r.1 = 1)
  | _ => false

/-- The field after a sequence of calls. -/
def Ljapunow.run {α : Type} (A : Arith α) (L : Ljapunow α)
    (ops : List (FieldOp α)) : Option (Ljapunow α) :=
  loopOpt (fun M op => M.apply A op) ops L

/-- One of the calls of the sequence, made on the field that the calls before
it leave, allocates the buffer. -/
def Ljapunow.runAllocates {α : Type} (A : Arith α) :
    Ljapunow α → List (FieldOp α) → Bool
  | _, [] => false
  | L, op :: ops =>
      L.callAllocates A op ||
        (match L.apply A op with
         | none => false
         | some M => Ljapunow.runAllocates A M ops)

/-! ## Doubles with infinities and NaN -/

/-- A double by its class: a finite value, an infinity with its sign
(`neg = true` for the negative one), or NaN. -/
inductive Dbl (α : Type) where
  | fin (a : α) : Dbl α
  | inf (neg : Bool) : Dbl α
  | nan : Dbl α

/-- Negation. -/
def Dbl.neg {α : Type} [LinearOrderedField α] : Dbl α → Dbl α
  | .fin a => .fin (-a)
  | .inf s => .inf (!s)
  | .nan => .nan

/-- Addition: two infinities of opposite sign give NaN. -/
def Dbl.add {α : Type} [LinearOrderedField α] : Dbl α → Dbl α → Dbl α
  | .fin a, .fin b => .fin (a + b)
  | .fin _, .inf s => .inf s
  | .inf s, .fin _ => .inf s
  | .inf s, .inf t => if s = t then .inf s else .nan
  | _, _ => .nan

/-- Multiplication: zero times an infinity gives NaN. -/
def Dbl.mul {α : Type} [LinearOrderedField α] : Dbl α → Dbl α → Dbl α
  | .fin a, .fin b => .fin (a * b)
  | .fin a, .inf s => if a = 0 then .nan else .inf (xor s (decide (a < 0)))
  | .inf s, .fin b => if b = 0 then .nan else .inf (xor s (decide (b < 0)))
  | .inf s, .inf t => .inf (xor s t)
  | _, _ => .nan

/-- Division: a finite value other than zero divided by zero gives an
infinity, zero by zero and infinity by infinity give NaN. -/
def Dbl.div {α : Type} [LinearOrderedField α] : Dbl α → Dbl α → Dbl α
  | .fin a, .fin b =>
      if b = 0 then (if a = 0 then .nan else .inf (decide (a < 0)))
      else .fin (a / b)
  | .fin _, .inf _ => .fin 0
  | .inf s, .fin b => .inf (xor s (decide (b < 0)))
  | _, _ => .nan

/-- The comparison `a < b`: false when an operand is NaN. -/
def Dbl.lt {α : Type} [LinearOrderedField α] : Dbl α → Dbl α → Bool
  | .fin a, .fin b => decide (a < b)
  | .fin _, .inf s => !s
  | .inf s, .fin _ => s
  | .inf s, .inf t => s && !t
  | _, _ => false

/-- The comparison `a <= b`: false when an operand is NaN. -/
def Dbl.le {α : Type} [LinearOrderedField α] : Dbl α → Dbl α → Bool
  | .fin a, .fin b => decide (a ≤ b)
  | .fin _, .inf s => !s
  | .inf s, .fin _ => s
  | .inf s, .inf t => s || !t
  | _, _ => false

/-- Arithmetic on doubles as far as infinities and NaN go: the exceptional
cases follow IEEE 754, with the single zero `+0`; operations on finite values
give the exact result (rounding and overflow are left out).  The functions of
`math.h` are supplied by the caller, `floor` on finite values is the exact
floor, and `junkInt` is the result of the conversion `int32_t(a)` of a value
that is not finite, which the language leaves undefined. -/
def Arith.ieee {α : Type} [LinearOrderedField α] [FloorRing α]
    (sn cs atn lg : Dbl α → Dbl α) (junkInt : Int) : Arith (Dbl α) where
  add := Dbl.add
  sub := fun a b => Dbl.add a (Dbl.neg b)
  mul := Dbl.mul
  div := Dbl.div
  neg := Dbl.neg
  fabs := fun a =>
    match a with
    | .fin v => .fin |v|
    | .inf _ => .inf false
    | .nan => .nan
  floor := fun a =>
    match a with
    | .fin v => .fin ((Int.floor v : Int) : α)
    | x => x
  log := lg
  atan := atn
  trigSin := sn
  trigCos := cs
  ofInt := fun z => .fin (z : α)
  lit := fun q => .fin (q : α)
  lt := Dbl.lt
  le := Dbl.le
  trunc := fun a =>
    match a with
    | .fin v => truncZero v
    | _ => junkInt

/-- An interval from 0 to 1 whose red channel runs from -1 to the largest
`int32_t`, configured through the four setters. -/
def sampleWide {α : Type} (A : Arith α) : ColIntv α :=
  ((((ColIntv.blank A).setgrenzel A (A.lit 0)).setgrenzer A (A.lit 1)).setfarbel
    (-1) 0 0).setfarber 2147483647 255 255

/-- Rounding of a rational number to the nearest value with 53 significant
binary digits, ties to the even significand: the rounding of every arithmetic
operation on `double` (IEEE 754 binary64, round to nearest even), within the
range of the normal numbers (no overflow to infinity, no subnormal numbers). -/
def roundDouble (q : ℚ) : ℚ :=
  if q = 0 then 0
  else
    let u : ℚ := (2 : ℚ) ^ (Int.log 2 |q| - 52)
    let f : Int := Int.floor (q / u)
    let d : ℚ := q / u - (f : ℚ)
    (if d < 1 / 2 then (f : ℚ)
     else if 1 / 2 < d then (f : ℚ) + 1
     else if f % 2 = 0 then (f : ℚ) else (f : ℚ) + 1) * u

/-- Rounded arithmetic: every operation of a linearly ordered field followed by
the rounding `rnd`; comparisons, negation, absolute value, `floor` and the
conversion to an integer are exact. -/
def Arith.rounded {α : Type} [LinearOrderedField α] [FloorRing α]
    (rnd : α → α) (sn cs atn lg : α → α) : Arith α where
  add := fun a b => rnd (a + b)
  sub := fun a b => rnd (a - b)
  mul := fun a b => rnd (a * b)
  div := fun a b => rnd (a / b)
  neg := fun a => -a
  fabs := fun a => |a|
  floor := fun a => ((Int.floor a : Int) : α)
  log := lg
  atan := atn
  trigSin := sn
  trigCos := cs
  ofInt := fun z => rnd (z : α)
  lit := fun q => rnd (q : α)
  lt := fun a b => decide (a < b)
  le := fun a b => decide (a ≤ b)
  trunc := truncZero

/-! # Theorems

Facts about the definitions above; the theorems that settle a claim name it
in their doc comment. -/

/-! ## Generic loop facts -/

theorem loopN_succ_last {σ : Type} (body : σ → σ) (n : Nat) (s : σ) :
    loopN body (n + 1) s = body (loopN body n s) := by
  induction n generalizing s with
  | zero => rfl
  | succ n ih =>
    show loopN body (n + 1) (body s) = body (loopN body (n + 1) s)
    rw [ih (body s)]
    rfl

/-- An invariant indexed by the number of completed iterations. -/
theorem loopN_inv {σ : Type} (body : σ → σ) (I : Nat → σ → Prop)
    (hstep : ∀ i s, I i s → I (i + 1) (body s)) :
    ∀ (n i : Nat) (s : σ), I i s → I (i + n) (loopN body n s) := by
  intro n
  induction n with
  | zero => intro i s h; simpa [loopN] using h
  | succ n ih =>
    intro i s h
    have h1 := ih (i + 1) (body s) (hstep i s h)
    have e : i + (n + 1) = i + 1 + n := by omega
    rw [e]
    exact h1

theorem shiftRight_one (i : Int) : i >>> (1 : Nat) = i / 2 := by
  rw [Int.shiftRight_eq_div_pow]
  norm_num

theorem toInt32_double_half (i : Int) (h0 : 0 ≤ i) (h1 : i < 2147483648) :
    toInt32 (i / 2 * 2) = 2 * (i / 2) := by
  unfold toInt32
  omega

theorem toUInt32_half (i : Int) (h0 : 0 ≤ i) (h1 : i < 2147483648) :
    toUInt32 (i / 2) = (i / 2).toNat := by
  unfold toUInt32
  congr 1
  omega

theorem settleLoop_counts {α : Type} (A : Arith α) (L : Ljapunow α)
    (AB : Int → α) (n : Nat) (st : PixelState α) :
    settleCount (loopN (settleStep A L AB) n st) = settleCount st + 2 * n ∧
    measureCount (loopN (settleStep A L AB) n st) = measureCount st := by
  induction n generalizing st with
  | zero => simp [loopN]
  | succ n ih =>
    have h := ih (settleStep A L AB st)
    simp only [loopN]
    refine ⟨h.1.trans ?_, h.2.trans ?_⟩
    · simp [settleCount, settleStep, List.countP_append, List.countP_cons]
      omega
    · simp [measureCount, settleStep, List.countP_append, List.countP_cons]

theorem measureLoop_counts {α : Type} (A : Arith α) (L : Ljapunow α)
    (AB : Int → α) (n : Nat) (st : PixelState α) :
    settleCount (loopN (measureStep A L AB) n st) = settleCount st ∧
    measureCount (loopN (measureStep A L AB) n st) = measureCount st + 2 * n := by
  induction n generalizing st with
  | zero => simp [loopN]
  | succ n ih =>
    have h := ih (measureStep A L AB st)
    simp only [loopN]
    refine ⟨h.1.trans ?_, h.2.trans ?_⟩
    · simp [settleCount, measureStep, List.countP_append, List.countP_cons]
    · simp [measureCount, measureStep, List.countP_append, List.countP_cons]
      omega

theorem pixel_counts {α : Type} (A : Arith α) (L : Ljapunow α) (AB : Int → α) :
    settleCount (pixel A L AB) = 2 * L.iter0h.toNat ∧
    measureCount (pixel A L AB) = 2 * toUInt32 L.iter1h := by
  unfold pixel
  simp only []
  have hs := settleLoop_counts A L AB L.iter0h.toNat
    { px := L.x0, seqpos := 0, lambda := A.lit 0, evals := [], prods := [] }
  have hm := measureLoop_counts A L AB (toUInt32 L.iter1h)
    { loopN (settleStep A L AB) L.iter0h.toNat
        { px := L.x0, seqpos := 0, lambda := A.lit 0, evals := [], prods := [] }
      with lambda := A.lit 0 }
  refine ⟨hm.1.trans ?_, hm.2.trans ?_⟩
  · have := hs.1
    simp [settleCount] at this ⊢
    exact this
  · have := hs.2
    simp [measureCount] at this ⊢
    exact this

theorem setiter_fields {α : Type} (A : Arith α) (L : Ljapunow α) (i0 i1 : Int)
    (h1 : 0 ≤ i1) (h1u : i1 < 2147483648) :
    (L.setiter A i0 i1).iter0h = i0 / 2 ∧
    (L.setiter A i0 i1).iter1h = i1 / 2 ∧
    (L.setiter A i0 i1).iter1d = 2 * (i1 / 2) ∧
    (L.setiter A i0 i1).INViter1d = A.div (A.lit 1) (A.ofInt (2 * (i1 / 2))) := by
  refine ⟨?_, ?_, ?_, ?_⟩
  · simp [Ljapunow.setiter, shiftRight_one]
  · simp [Ljapunow.setiter, shiftRight_one]
  · simp only [Ljapunow.setiter, shiftRight_one]
    exact toInt32_double_half i1 h1 h1u
  · simp only [Ljapunow.setiter, shiftRight_one]
    rw [toInt32_double_half i1 h1 h1u]

/-- **C1.** For every request `i0` and every `0 ≤ i1 < 2^31`, after
`setiter(i0, i1)` the computation of a pixel performs exactly `2*floor(i0/2)`
map evaluations in the settling phase and exactly `2*floor(i1/2)` in the
measuring phase, the divisor `iter1d` is `2*floor(i1/2)`, the factor applied to
the accumulated sum is `1.0/iter1d`, and the stored value is the sum times that
factor. -/
theorem C1_setiter_even_truncation {α : Type} (A : Arith α) (L : Ljapunow α)
    (AB : Int → α) (i0 i1 : Int) (h1 : 0 ≤ i1) (h1u : i1 < 2147483648) :
    settleCount (pixel A (L.setiter A i0 i1) AB) = 2 * (i0 / 2).toNat ∧
    measureCount (pixel A (L.setiter A i0 i1) AB) = 2 * (i1 / 2).toNat ∧
    (L.setiter A i0 i1).iter1d = 2 * (i1 / 2) ∧
    (L.setiter A i0 i1).INViter1d = A.div (A.lit 1) (A.ofInt (2 * (i1 / 2))) ∧
    pixelExp A (L.setiter A i0 i1) AB =
      A.mul (pixel A (L.setiter A i0 i1) AB).lambda
        (A.div (A.lit 1) (A.ofInt (2 * (i1 / 2)))) := by
  have hc := pixel_counts A (L.setiter A i0 i1) AB
  obtain ⟨e0, e1, ed, ei⟩ := setiter_fields A L i0 i1 h1 h1u
  refine ⟨?_, ?_, ed, ei, ?_⟩
  · rw [hc.1, e0]
  · rw [hc.2, e1, toUInt32_half i1 h1 h1u]
  · unfold pixelExp
    rw [ei]

theorem AllIdx_append {β : Type} (P : Nat → β → Prop) (l1 l2 : List β) (s : Nat) :
    AllIdx P s (l1 ++ l2) ↔ AllIdx P s l1 ∧ AllIdx P (s + l1.length) l2 := by
  induction l1 generalizing s with
  | nil => simp [AllIdx]
  | cons e l ih =>
    show AllIdx P s (e :: (l ++ l2)) ↔ _
    have e1 : s + (e :: l).length = s + 1 + l.length := by
      simp only [List.length_cons]; omega
    rw [e1]
    simp only [AllIdx]
    rw [ih (s + 1), and_assoc]

theorem AllIdx_getElem {β : Type} (P : Nat → β → Prop) (l : List β) (s : Nat)
    (h : AllIdx P s l) (k : Nat) (hk : k < l.length) : P (s + k) l[k] := by
  induction l generalizing s k with
  | nil => simp at hk
  | cons e l ih =>
    cases k with
    | zero => simpa using h.1
    | succ k =>
      have hk2 : k < l.length := by simpa using hk
      have := ih (s + 1) h.2 k hk2
      have e1 : s + 1 + k = s + (k + 1) := by omega
      rw [e1] at this
      simpa using this

theorem SEQPOSINC_mod (n k : Nat) (hn : 1 ≤ n) :
    SEQPOSINC n (k % n) = (k + 1) % n := by
  unfold SEQPOSINC
  have hlt : k % n < n := Nat.mod_lt k (by omega)
  have key : (k + 1) % n = (k % n + 1) % n := by
    have e : k + 1 = (k % n + 1) + n * (k / n) := by
      have := Nat.mod_add_div k n
      omega
    rw [e, Nat.add_mul_mod_self_left]
  rw [key]
  by_cases h : k % n + 1 ≥ n
  · rw [if_pos h]
    have e : k % n + 1 = n := by omega
    rw [e, Nat.mod_self]
  · rw [if_neg h]
    exact (Nat.mod_eq_of_lt (by omega)).symm

theorem settleStep_posInv {α : Type} (A : Arith α) (L : Ljapunow α)
    (AB : Int → α) (hlen : 1 ≤ L.seqlen) (st : PixelState α)
    (h : PosInv L AB st) : PosInv L AB (settleStep A L AB st) := by
  obtain ⟨hp, hall⟩ := h
  have e1 : SEQPOSINC L.seqlen st.seqpos = (st.evals.length + 1) % L.seqlen := by
    rw [hp]; exact SEQPOSINC_mod _ _ hlen
  have e2 : SEQPOSINC L.seqlen (SEQPOSINC L.seqlen st.seqpos)
      = (st.evals.length + 2) % L.seqlen := by
    rw [e1]; exact SEQPOSINC_mod _ _ hlen
  refine ⟨?_, ?_⟩
  · simp only [settleStep, List.length_append, List.length_cons, List.length_nil]
    exact e2
  · simp only [settleStep]
    rw [AllIdx_append]
    refine ⟨hall, ?_, ?_, trivial⟩
    · simp only [Nat.zero_add]
      exact ⟨hp, by rw [hp]⟩
    · simp only [Nat.zero_add]
      exact ⟨e1, by rw [e1]⟩

theorem measureStep_posInv {α : Type} (A : Arith α) (L : Ljapunow α)
    (AB : Int → α) (hlen : 1 ≤ L.seqlen) (st : PixelState α)
    (h : PosInv L AB st) : PosInv L AB (measureStep A L AB st) := by
  obtain ⟨hp, hall⟩ := h
  have e1 : SEQPOSINC L.seqlen st.seqpos = (st.evals.length + 1) % L.seqlen := by
    rw [hp]; exact SEQPOSINC_mod _ _ hlen
  have e2 : SEQPOSINC L.seqlen (SEQPOSINC L.seqlen st.seqpos)
      = (st.evals.length + 2) % L.seqlen := by
    rw [e1]; exact SEQPOSINC_mod _ _ hlen
  refine ⟨?_, ?_⟩
  · simp only [measureStep, List.length_append, List.length_cons, List.length_nil]
    exact e2
  · simp only [measureStep]
    rw [AllIdx_append]
    refine ⟨hall, ?_, ?_, trivial⟩
    · simp only [Nat.zero_add]
      exact ⟨hp, by rw [hp]⟩
    · simp only [Nat.zero_add]
      exact ⟨e1, by rw [e1]⟩

theorem pixel_posInv {α : Type} (A : Arith α) (L : Ljapunow α) (AB : Int → α)
    (hlen : 1 ≤ L.seqlen) : PosInv L AB (pixel A L AB) := by
  unfold pixel
  simp only []
  have h0 : PosInv L AB
      { px := L.x0, seqpos := 0, lambda := A.lit 0, evals := [], prods := [] } := by
    refine ⟨?_, trivial⟩
    simp
  have h1 := loopN_inv (settleStep A L AB) (fun _ s => PosInv L AB s)
    (fun _ s hs => settleStep_posInv A L AB hlen s hs) L.iter0h.toNat 0 _ h0
  have h2 : PosInv L AB
      { loopN (settleStep A L AB) L.iter0h.toNat
          { px := L.x0, seqpos := 0, lambda := A.lit 0, evals := [], prods := [] }
        with lambda := A.lit 0 } := h1
  exact loopN_inv (measureStep A L AB) (fun _ s => PosInv L AB s)
    (fun _ s hs => measureStep_posInv A L AB hlen s hs) (toUInt32 L.iter1h) 0 _ h2

theorem Traj_append_one {α : Type} (A : Arith α) (fkt : Function α)
    (l : List (EvalRec α)) (a : EvalRec α) (x : α) :
    (Traj A fkt x (l ++ [a]) ↔ Traj A fkt x l ∧ a.x = trajEnd A fkt x l) ∧
    trajEnd A fkt x (l ++ [a]) = outOf A fkt a := by
  induction l generalizing x with
  | nil => simp [Traj, trajEnd]
  | cons e l ih =>
    have h := ih (outOf A fkt e)
    refine ⟨?_, ?_⟩
    · show (e.x = x ∧ Traj A fkt (outOf A fkt e) (l ++ [a])) ↔ _
      rw [h.1]
      simp only [Traj, trajEnd, and_assoc]
    · exact h.2

theorem pairProds_append_pair {α : Type} (A : Arith α) (fkt : Function α)
    (a b : EvalRec α) :
    ∀ (m : Nat) (l : List (EvalRec α)), l.length = 2 * m →
      pairProds A fkt (l ++ [a, b]) = pairProds A fkt l ++
        [A.fabs (A.mul (fkt.eval2 A a.x a.r).2 (fkt.eval2 A b.x b.r).2)] := by
  intro m
  induction m with
  | zero =>
    intro l hl
    have : l = [] := List.length_eq_zero.mp (by simpa using hl)
    subst this
    simp [pairProds]
  | succ m ih =>
    intro l hl
    match l, hl with
    | e1 :: e2 :: rest, hl =>
      have hr : rest.length = 2 * m := by
        simp only [List.length_cons] at hl
        omega
      show pairProds A fkt (e1 :: e2 :: (rest ++ [a, b])) = _
      simp only [pairProds, ih rest hr, List.cons_append]
    | [], hl => simp at hl
    | [_], hl => simp at hl; omega

theorem pairProds_length {α : Type} (A : Arith α) (fkt : Function α) :
    ∀ (m : Nat) (l : List (EvalRec α)), l.length = 2 * m →
      (pairProds A fkt l).length = m := by
  intro m
  induction m with
  | zero =>
    intro l hl
    have : l = [] := List.length_eq_zero.mp (by simpa using hl)
    subst this
    simp [pairProds]
  | succ m ih =>
    intro l hl
    match l, hl with
    | e1 :: e2 :: rest, hl =>
      have hr : rest.length = 2 * m := by
        simp only [List.length_cons] at hl
        omega
      simp only [pairProds, List.length_cons, ih rest hr]
    | [], hl => simp at hl
    | [_], hl => simp at hl; omega

theorem settleStep_trajInv {α : Type} (A : Arith α) (L : Ljapunow α)
    (AB : Int → α) (st : PixelState α) (h : TrajInv A L st) :
    TrajInv A L (settleStep A L AB st) := by
  obtain ⟨ht, hp⟩ := h
  simp only [TrajInv, settleStep]
  have e : st.evals ++
      [⟨false, st.seqpos, st.px, AB (L.sequence st.seqpos)⟩,
       ⟨false, SEQPOSINC L.seqlen st.seqpos,
        L.fkt.eval A st.px (AB (L.sequence st.seqpos)),
        AB (L.sequence (SEQPOSINC L.seqlen st.seqpos))⟩]
      = (st.evals ++ [⟨false, st.seqpos, st.px, AB (L.sequence st.seqpos)⟩]) ++
        [⟨false, SEQPOSINC L.seqlen st.seqpos,
          L.fkt.eval A st.px (AB (L.sequence st.seqpos)),
          AB (L.sequence (SEQPOSINC L.seqlen st.seqpos))⟩] := by simp
  rw [e]
  have h1 := Traj_append_one A L.fkt st.evals
    ⟨false, st.seqpos, st.px, AB (L.sequence st.seqpos)⟩ L.x0
  have h2 := Traj_append_one A L.fkt
    (st.evals ++ [⟨false, st.seqpos, st.px, AB (L.sequence st.seqpos)⟩])
    ⟨false, SEQPOSINC L.seqlen st.seqpos,
      L.fkt.eval A st.px (AB (L.sequence st.seqpos)),
      AB (L.sequence (SEQPOSINC L.seqlen st.seqpos))⟩ L.x0
  refine ⟨?_, ?_⟩
  · rw [h2.1, h1.1, h1.2]
    exact ⟨⟨ht, hp⟩, by simp [outOf]⟩
  · rw [h2.2]
    simp [outOf]

theorem measureStep_trajInv {α : Type} (A : Arith α) (L : Ljapunow α)
    (AB : Int → α) (st : PixelState α) (h : TrajInv A L st) :
    TrajInv A L (measureStep A L AB st) := by
  obtain ⟨ht, hp⟩ := h
  simp only [TrajInv, measureStep]
  have e : st.evals ++
      [⟨true, st.seqpos, st.px, AB (L.sequence st.seqpos)⟩,
       ⟨true, SEQPOSINC L.seqlen st.seqpos,
        (L.fkt.eval2 A st.px (AB (L.sequence st.seqpos))).1,
        AB (L.sequence (SEQPOSINC L.seqlen st.seqpos))⟩]
      = (st.evals ++ [⟨true, st.seqpos, st.px, AB (L.sequence st.seqpos)⟩]) ++
        [⟨true, SEQPOSINC L.seqlen st.seqpos,
          (L.fkt.eval2 A st.px (AB (L.sequence st.seqpos))).1,
          AB (L.sequence (SEQPOSINC L.seqlen st.seqpos))⟩] := by simp
  rw [e]
  have h1 := Traj_append_one A L.fkt st.evals
    ⟨true, st.seqpos, st.px, AB (L.sequence st.seqpos)⟩ L.x0
  have h2 := Traj_append_one A L.fkt
    (st.evals ++ [⟨true, st.seqpos, st.px, AB (L.sequence st.seqpos)⟩])
    ⟨true, SEQPOSINC L.seqlen st.seqpos,
      (L.fkt.eval2 A st.px (AB (L.sequence st.seqpos))).1,
      AB (L.sequence (SEQPOSINC L.seqlen st.seqpos))⟩ L.x0
  refine ⟨?_, ?_⟩
  · rw [h2.1, h1.1, h1.2]
    exact ⟨⟨ht, hp⟩, by simp [outOf]⟩
  · rw [h2.2]
    simp [outOf]

theorem pixel_trajInv {α : Type} (A : Arith α) (L : Ljapunow α) (AB : Int → α) :
    TrajInv A L (pixel A L AB) := by
  unfold pixel
  simp only []
  have h0 : TrajInv A L
      { px := L.x0, seqpos := 0, lambda := A.lit 0, evals := [], prods := [] } :=
    ⟨trivial, rfl⟩
  have h1 := loopN_inv (settleStep A L AB) (fun _ s => TrajInv A L s)
    (fun _ s hs => settleStep_trajInv A L AB s hs) L.iter0h.toNat 0 _ h0
  have h2 : TrajInv A L
      { loopN (settleStep A L AB) L.iter0h.toNat
          { px := L.x0, seqpos := 0, lambda := A.lit 0, evals := [], prods := [] }
        with lambda := A.lit 0 } := h1
  exact loopN_inv (measureStep A L AB) (fun _ s => TrajInv A L s)
    (fun _ s hs => measureStep_trajInv A L AB s hs) (toUInt32 L.iter1h) 0 _ h2

theorem AllIdx_of_bounded {β : Type} (P : Nat → β → Prop) (l : List β) (s : Nat)
    (h : ∀ k e, k < s + l.length → e ∈ l → P k e) : AllIdx P s l := by
  induction l generalizing s with
  | nil => trivial
  | cons a l ih =>
    refine ⟨h s a (by simp) (by simp), ih (s + 1) ?_⟩
    intro k e hk he
    exact h k e (by simp only [List.length_cons]; omega) (by simp [he])

theorem settleStep_phase {α : Type} (A : Arith α) (L : Ljapunow α)
    (AB : Int → α) (i : Nat) (st : PixelState α) (h : SettlePhase i st) :
    SettlePhase (i + 1) (settleStep A L AB st) := by
  obtain ⟨hl, hall⟩ := h
  refine ⟨?_, ?_⟩
  · simp only [settleStep, List.length_append, List.length_cons, List.length_nil]
    omega
  · intro e he
    simp only [settleStep, List.mem_append, List.mem_cons, List.mem_singleton,
      List.not_mem_nil, or_false] at he
    rcases he with he | he | he
    · exact hall e he
    · rw [he]
    · rw [he]

theorem measureStep_phase {α : Type} (A : Arith α) (L : Ljapunow α)
    (AB : Int → α) (n0 i : Nat) (st : PixelState α) (h : MeasurePhase n0 i st) :
    MeasurePhase n0 (i + 1) (measureStep A L AB st) := by
  obtain ⟨hl, hall⟩ := h
  refine ⟨?_, ?_⟩
  · simp only [measureStep, List.length_append, List.length_cons, List.length_nil]
    omega
  · simp only [measureStep]
    rw [AllIdx_append]
    refine ⟨hall, ?_, ?_, trivial⟩
    · simp only [Nat.zero_add]
      symm
      rw [decide_eq_true_eq]
      omega
    · simp only [Nat.zero_add]
      symm
      rw [decide_eq_true_eq]
      omega

theorem pixel_phase {α : Type} (A : Arith α) (L : Ljapunow α) (AB : Int → α) :
    MeasurePhase L.iter0h.toNat (toUInt32 L.iter1h) (pixel A L AB) := by
  unfold pixel
  simp only []
  have h0 : SettlePhase 0
      ({ px := L.x0, seqpos := 0, lambda := A.lit 0, evals := [], prods := [] } :
        PixelState α) := by
    refine ⟨rfl, ?_⟩
    intro e he
    simp at he
  have h1 := loopN_inv (settleStep A L AB) (fun i s => SettlePhase i s)
    (fun i s hs => settleStep_phase A L AB i s hs) L.iter0h.toNat 0 _ h0
  simp only [Nat.zero_add] at h1
  have h2 : MeasurePhase L.iter0h.toNat 0
      { loopN (settleStep A L AB) L.iter0h.toNat
          { px := L.x0, seqpos := 0, lambda := A.lit 0, evals := [], prods := [] }
        with lambda := A.lit 0 } := by
    refine ⟨by simpa using h1.1, ?_⟩
    apply AllIdx_of_bounded
    intro k e hk he
    rw [h1.2 e he]
    symm
    rw [decide_eq_false_iff_not]
    have := h1.1
    simp only [Nat.zero_add] at hk
    omega
  have h3 := loopN_inv (measureStep A L AB)
    (fun i s => MeasurePhase L.iter0h.toNat i s)
    (fun i s hs => measureStep_phase A L AB L.iter0h.toNat i s hs)
    (toUInt32 L.iter1h) 0 _ h2
  simpa using h3

/-- **C3.** With a sequence of length `seqlen ≥ 1`, the map evaluations of a
pixel, numbered `k = 0, 1, 2, ...` through the settling phase and on through
the measuring phase (`2*iter0h` settling evaluations first), are made at
sequence position `k mod seqlen` with control parameter
`AB[sequence[k mod seqlen]]`: the stored symbol 0 (`A`) selects `AB[0]`, the
x-component, and the symbol 1 (`B`) selects `AB[1]`, the y-component.  The
numbering starts at 0 for every pixel and does not restart at the change of
phase. -/
theorem C3_sequence_selects_parameter {α : Type} (A : Arith α) (L : Ljapunow α)
    (AB : Int → α) (hlen : 1 ≤ L.seqlen) :
    (pixel A L AB).evals.length = 2 * L.iter0h.toNat + 2 * toUInt32 L.iter1h ∧
    ∀ (k : Nat) (hk : k < (pixel A L AB).evals.length),
      ((pixel A L AB).evals[k]).seqpos = k % L.seqlen ∧
      ((pixel A L AB).evals[k]).r = AB (L.sequence (k % L.seqlen)) ∧
      (L.sequence (k % L.seqlen) = 0 → ((pixel A L AB).evals[k]).r = AB 0) ∧
      (L.sequence (k % L.seqlen) = 1 → ((pixel A L AB).evals[k]).r = AB 1) ∧
      ((pixel A L AB).evals[k]).measuring = decide (2 * L.iter0h.toNat ≤ k) := by
  have hpos := pixel_posInv A L AB hlen
  have hph := pixel_phase A L AB
  refine ⟨hph.1, ?_⟩
  intro k hk
  have h1 := AllIdx_getElem _ _ 0 hpos.2 k hk
  have h2 := AllIdx_getElem _ _ 0 hph.2 k hk
  simp only [Nat.zero_add] at h1 h2
  refine ⟨h1.1, h1.2, ?_, ?_, h2⟩
  · intro h0
    rw [h1.2, h0]
  · intro h0
    rw [h1.2, h0]

/-- Witness of C3: the sample field (sequence `AB`, 25 settling and 50
measuring iterations) in real arithmetic: 150 evaluations per pixel. -/
theorem C3_sequence_selects_parameter_witness :
    1 ≤ (sampleField (Arith.ofField Real.sin Real.cos Real.arctan Real.log)).seqlen ∧
    (pixel (Arith.ofField Real.sin Real.cos Real.arctan Real.log)
      (sampleField (Arith.ofField Real.sin Real.cos Real.arctan Real.log))
      (fun _ => 3)).evals.length = 150 := by
  have hl : 1 ≤ (sampleField
      (Arith.ofField Real.sin Real.cos Real.arctan Real.log)).seqlen := by
    simp [sampleField]
  refine ⟨hl, ?_⟩
  rw [(C3_sequence_selects_parameter
    (Arith.ofField Real.sin Real.cos Real.arctan Real.log)
    (sampleField (Arith.ofField Real.sin Real.cos Real.arctan Real.log))
    (fun _ => 3) hl).1]
  simp [sampleField, toUInt32]

theorem settleStep_sumInv {α : Type} (A : Arith α) (L : Ljapunow α)
    (AB : Int → α) (st : PixelState α) (h : SumInv A L 0 st) :
    SumInv A L 0 (settleStep A L AB st) := by
  obtain ⟨h1, h2, h3⟩ := h
  refine ⟨?_, ?_, ?_⟩
  · simpa [settleStep, List.filter_append] using h1
  · simpa [settleStep, List.filter_append] using h2
  · simpa [settleStep] using h3

theorem measureStep_sumInv {α : Type} (A : Arith α) (L : Ljapunow α)
    (AB : Int → α) (i : Nat) (st : PixelState α) (h : SumInv A L i st) :
    SumInv A L (i + 1) (measureStep A L AB st) := by
  obtain ⟨h1, h2, h3⟩ := h
  have hf : (measureStep A L AB st).evals.filter (fun e => e.measuring)
      = st.evals.filter (fun e => e.measuring) ++
        [⟨true, st.seqpos, st.px, AB (L.sequence st.seqpos)⟩,
         ⟨true, SEQPOSINC L.seqlen st.seqpos,
          (L.fkt.eval2 A st.px (AB (L.sequence st.seqpos))).1,
          AB (L.sequence (SEQPOSINC L.seqlen st.seqpos))⟩] := by
    simp [measureStep, List.filter_append]
  refine ⟨?_, ?_, ?_⟩
  · rw [hf]
    simp only [List.length_append, List.length_cons, List.length_nil]
    omega
  · rw [hf, pairProds_append_pair A L.fkt _ _ i _ h1, ← h2]
    simp [measureStep]
  · simp only [measureStep, List.foldl_append, List.foldl_cons, List.foldl_nil,
      ← h3]
    rfl

theorem pixel_sumInv {α : Type} (A : Arith α) (L : Ljapunow α) (AB : Int → α) :
    SumInv A L (toUInt32 L.iter1h) (pixel A L AB) := by
  unfold pixel
  simp only []
  have h0 : SumInv A L 0
      { px := L.x0, seqpos := 0, lambda := A.lit 0, evals := [], prods := [] } :=
    ⟨rfl, rfl, rfl⟩
  have h1 := loopN_inv (settleStep A L AB) (fun _ s => SumInv A L 0 s)
    (fun _ s hs => settleStep_sumInv A L AB s hs) L.iter0h.toNat 0 _ h0
  have h2 : SumInv A L 0
      { loopN (settleStep A L AB) L.iter0h.toNat
          { px := L.x0, seqpos := 0, lambda := A.lit 0, evals := [], prods := [] }
        with lambda := A.lit 0 } := by
    refine ⟨h1.1, h1.2.1, ?_⟩
    show A.lit 0 = _
    rw [h1.2.1, h1.1 |> List.length_eq_zero.mp]
    rfl
  have h3 := loopN_inv (measureStep A L AB) (fun i s => SumInv A L i s)
    (fun i s hs => measureStep_sumInv A L AB i s hs) (toUInt32 L.iter1h) 0 _ h2
  simpa using h3

/-- In exact arithmetic the fold of the accumulation step is the sum of the
logarithms of the entries above the floor. -/
theorem foldl_logAccum_exact {α : Type} [LinearOrderedField α] [FloorRing α]
    (sn cs atn lg : α → α) (l : List α) (s : α) :
    l.foldl (logAccum (Arith.ofField sn cs atn lg)) s
      = s + ((l.filter (fun ab => decide (((1E-300 : ℚ) : α) < ab))).map lg).sum := by
  induction l generalizing s with
  | nil => simp
  | cons a l ih =>
    simp only [List.foldl_cons, ih]
    by_cases h : ((1E-300 : ℚ) : α) < a
    · have e : logAccum (Arith.ofField sn cs atn lg) s a = s + lg a := by
        show (if decide (((1E-300 : ℚ) : α) < a) = true then s + lg a else s)
          = s + lg a
        rw [if_pos (decide_eq_true h)]
      rw [e, List.filter_cons_of_pos (by simpa using h)]
      simp only [List.map_cons, List.sum_cons]
      ring
    · have e : logAccum (Arith.ofField sn cs atn lg) s a = s := by
        show (if decide (((1E-300 : ℚ) : α) < a) = true then s + lg a else s) = s
        rw [if_neg (by simpa using h)]
      rw [e, List.filter_cons_of_neg (by simpa using h)]

/-- The accumulation step leaves the sum alone on every product that fails the
test `ab > 1E-300`. -/
theorem foldl_logAccum_skip {α : Type} (A : Arith α) (l : List α) :
    ∀ s : α, (∀ ab ∈ l, A.lt (A.lit 1E-300) ab = false) →
      l.foldl (logAccum A) s = s := by
  induction l with
  | nil => intro s _; rfl
  | cons a l ih =>
    intro s h
    have ha : A.lt (A.lit 1E-300) a = false := h a (List.mem_cons_self _ _)
    simp only [List.foldl_cons, logAccum, ha]
    exact ih s (fun ab hab => h ab (List.mem_cons_of_mem _ hab))

/-- For every arithmetic: when every product fails the test `ab > 1E-300`, the
stored exponent is the product `0.0 * INViter1d`. -/
theorem pixelExp_all_skipped {α : Type} (A : Arith α) (L : Ljapunow α)
    (AB : Int → α)
    (h : ∀ ab ∈ (pixel A L AB).prods, A.lt (A.lit 1E-300) ab = false) :
    pixelExp A L AB = A.mul (A.lit 0) L.INViter1d := by
  obtain ⟨_, _, h3⟩ := pixel_sumInv A L AB
  unfold pixelExp
  rw [h3, foldl_logAccum_skip A _ _ h]

/-- **C5 (as stated, refuted).** In arithmetic with the infinities and NaN of
doubles, `1.0/0` is `+inf` and `0.0*inf` is NaN; on the sample field after
`setiter(0, 0)`, and likewise after `setiter(0, 1)`, no micro-pair is measured,
so no product is above zero; the divisor `iter1d` is 0, `INViter1d` is `+inf`,
and the exponent stored for a pixel is NaN, not 0. -/
theorem C5_counterexample :
    Dbl.div (.fin (1 : ℚ)) (.fin 0) = .inf false ∧
    Dbl.mul (.fin (0 : ℚ)) (.inf false) = .nan ∧
    ∀ (sn cs atn lg : Dbl ℚ → Dbl ℚ) (junkInt : Int) (AB : Int → Dbl ℚ),
      (((sampleField (Arith.ieee sn cs atn lg junkInt)).setiter (Arith.ieee sn cs atn lg
          junkInt) 0 0).iter1d = 0 ∧
        ((sampleField (Arith.ieee sn cs atn lg junkInt)).setiter (Arith.ieee sn cs atn lg
            junkInt) 0 0).INViter1d = .inf false ∧
        (pixel (Arith.ieee sn cs atn lg junkInt) ((sampleField (Arith.ieee sn cs atn lg
            junkInt)).setiter (Arith.ieee sn cs atn lg junkInt) 0 0) AB).prods = [] ∧
        pixelExp (Arith.ieee sn cs atn lg junkInt) ((sampleField (Arith.ieee sn cs atn lg
            junkInt)).setiter (Arith.ieee sn cs atn lg junkInt) 0 0) AB = .nan) ∧
      (((sampleField (Arith.ieee sn cs atn lg junkInt)).setiter (Arith.ieee sn cs atn lg
          junkInt) 0 1).iter1d = 0 ∧
        ((sampleField (Arith.ieee sn cs atn lg junkInt)).setiter (Arith.ieee sn cs atn lg
            junkInt) 0 1).INViter1d = .inf false ∧
        (pixel (Arith.ieee sn cs atn lg junkInt) ((sampleField (Arith.ieee sn cs atn lg
            junkInt)).setiter (Arith.ieee sn cs atn lg junkInt) 0 1) AB).prods = [] ∧
        pixelExp (Arith.ieee sn cs atn lg junkInt) ((sampleField (Arith.ieee sn cs atn lg
            junkInt)).setiter (Arith.ieee sn cs atn lg junkInt) 0 1) AB = .nan) := by
  have e0 : toInt32 (((0 : Int) >>> (1 : Nat)) * 2) = 0 := by decide
  have e1 : toInt32 (((1 : Int) >>> (1 : Nat)) * 2) = 0 := by decide
  have s0 : ((0 : Int) >>> (1 : Nat)) = 0 := by decide
  have s1 : ((1 : Int) >>> (1 : Nat)) = 0 := by decide
  have t0 : toInt32 0 = 0 := by decide
  refine ⟨by simp [Dbl.div], by simp [Dbl.mul], ?_⟩
  intro sn cs atn lg junkInt AB
  refine ⟨⟨?_, ?_, ?_, ?_⟩, ⟨?_, ?_, ?_, ?_⟩⟩
  · simp [Ljapunow.setiter, e0, t0]
  · simp [Ljapunow.setiter, e0, t0, Arith.ieee, Dbl.div]
  · simp [pixel, Ljapunow.setiter, s0, sampleField, toUInt32, loopN]
  · simp [pixelExp, pixel, Ljapunow.setiter, e0, t0, s0, sampleField, toUInt32, loopN,
      Arith.ieee, Dbl.div, Dbl.mul]
  · simp [Ljapunow.setiter, e1, t0]
  · simp [Ljapunow.setiter, e1, t0, Arith.ieee, Dbl.div]
  · simp [pixel, Ljapunow.setiter, s0, s1, sampleField, toUInt32, loopN]
  · simp [pixelExp, pixel, Ljapunow.setiter, e1, t0, s0, s1, sampleField, toUInt32,
      loopN, Arith.ieee, Dbl.div, Dbl.mul]

/-- **C5 (amended).** In exact arithmetic, for every pixel: the logged products
are the values `|d1*d2|` of the derivative outputs of the measuring evaluations
taken two by two, one per measuring iteration; the accumulated sum `lambda` is
the sum of `log |d1*d2|` over exactly those products that are strictly greater
than `1e-300`; the log of evaluations is a trajectory (every evaluation, also
one of a skipped pair, receives the value output of its predecessor); the
stored exponent is `lambda * INViter1d` whatever was skipped; and when the
divisor `iter1d` is not 0 and every product is at or below the floor, the
stored exponent is 0.  The last part also holds in arithmetic with the
infinities and NaN of doubles: when `INViter1d` is `1.0/d` for an integer
`d` other than 0 and every product fails the test `ab > 1E-300`, the stored
exponent is 0.  After `setiter(i0, i1)` with `2 ≤ i1 < 2^31` the divisor is
not 0. -/
theorem C5_floor_skips_contribution {α : Type} [LinearOrderedField α]
    [FloorRing α] (sn cs atn lg : α → α) (L : Ljapunow α) (AB : Int → α) :
    (pixel (Arith.ofField sn cs atn lg) L AB).prods
      = pairProds (Arith.ofField sn cs atn lg) L.fkt ((pixel (Arith.ofField sn cs atn lg) L
          AB).evals.filter (fun e => e.measuring)) ∧
    (pixel (Arith.ofField sn cs atn lg) L AB).prods.length = toUInt32 L.iter1h ∧
    (pixel (Arith.ofField sn cs atn lg) L AB).lambda
      = (((pixel (Arith.ofField sn cs atn lg) L AB).prods.filter
            (fun ab => decide (((1E-300 : ℚ) : α) < ab))).map lg).sum ∧
    Traj (Arith.ofField sn cs atn lg) L.fkt L.x0 (pixel (Arith.ofField sn cs atn lg) L
        AB).evals ∧
    pixelExp (Arith.ofField sn cs atn lg) L AB = (pixel (Arith.ofField sn cs atn lg) L
        AB).lambda * L.INViter1d ∧
    (L.iter1d ≠ 0 →
      (∀ ab ∈ (pixel (Arith.ofField sn cs atn lg) L AB).prods, ab ≤ ((1E-300 : ℚ) : α)) →
      pixelExp (Arith.ofField sn cs atn lg) L AB = 0) ∧
    (∀ (sn2 cs2 atn2 lg2 : Dbl α → Dbl α) (junkInt : Int)
        (L2 : Ljapunow (Dbl α)) (AB2 : Int → Dbl α) (d : Int),
      d ≠ 0 →
      L2.INViter1d = (Arith.ieee sn2 cs2 atn2 lg2 junkInt).div ((Arith.ieee sn2 cs2 atn2 lg2
          junkInt).lit 1) ((Arith.ieee sn2 cs2 atn2 lg2 junkInt).ofInt d) →
      (∀ ab ∈ (pixel (Arith.ieee sn2 cs2 atn2 lg2 junkInt) L2 AB2).prods, (Arith.ieee sn2 cs2
          atn2 lg2 junkInt).lt ((Arith.ieee sn2 cs2 atn2 lg2 junkInt).lit 1E-300) ab = false) →
      pixelExp (Arith.ieee sn2 cs2 atn2 lg2 junkInt) L2 AB2 = .fin 0) ∧
    (∀ i0 i1 : Int, 2 ≤ i1 → i1 < 2147483648 → (L.setiter (Arith.ofField sn cs atn lg) i0
        i1).iter1d ≠ 0) := by
  have hs := pixel_sumInv (Arith.ofField sn cs atn lg) L AB
  have ht := pixel_trajInv (Arith.ofField sn cs atn lg) L AB
  obtain ⟨h1, h2, h3⟩ := hs
  have hlam : (pixel (Arith.ofField sn cs atn lg) L AB).lambda
      = (((pixel (Arith.ofField sn cs atn lg) L AB).prods.filter
            (fun ab => decide (((1E-300 : ℚ) : α) < ab))).map lg).sum := by
    rw [h3, foldl_logAccum_exact]
    simp [Arith.ofField]
  refine ⟨h2, ?_, hlam, ht.1, rfl, ?_, ?_, ?_⟩
  · rw [h2]
    exact pairProds_length _ _ _ _ h1
  · intro _ hall
    have hnil : (pixel (Arith.ofField sn cs atn lg) L AB).prods.filter
        (fun ab => decide (((1E-300 : ℚ) : α) < ab)) = [] := by
      rw [List.filter_eq_nil_iff]
      intro a ha
      simpa using hall a ha
    have hz : (pixel (Arith.ofField sn cs atn lg) L AB).lambda = 0 := by
      rw [hlam, hnil]
      simp
    show (pixel (Arith.ofField sn cs atn lg) L AB).lambda * L.INViter1d = 0
    rw [hz, zero_mul]
  · intro sn2 cs2 atn2 lg2 junkInt L2 AB2 d hd hinv hall
    rw [pixelExp_all_skipped (Arith.ieee sn2 cs2 atn2 lg2 junkInt) L2 AB2 hall, hinv]
    have hd2 : ((d : Int) : α) ≠ 0 := by exact_mod_cast hd
    simp [Arith.ieee, Dbl.div, Dbl.mul, hd2]
  · intro i0 i1 h2 h3
    rw [(setiter_fields (Arith.ofField sn cs atn lg) L i0 i1 (by omega) h3).2.2.1]
    omega

/-- Witness of the last part of C5: on the sample field with `setiter(0, 2)` and
both control parameters 0, the divisor is 2, the single micro-pair has product
0, below the floor, and the stored exponent is 0. -/
theorem C5_floor_skips_contribution_witness :
    ((sampleField (Arith.ofField Real.sin Real.cos Real.arctan Real.log)).setiter
        (Arith.ofField Real.sin Real.cos Real.arctan Real.log) 0 2).iter1d ≠ 0 ∧
    (pixel (Arith.ofField Real.sin Real.cos Real.arctan Real.log) ((sampleField (Arith.ofField
        Real.sin Real.cos Real.arctan Real.log)).setiter (Arith.ofField Real.sin Real.cos
            Real.arctan Real.log) 0 2) (fun _ => 0)).prods = [0] ∧
    pixelExp (Arith.ofField Real.sin Real.cos Real.arctan Real.log) ((sampleField
        (Arith.ofField Real.sin Real.cos Real.arctan Real.log)).setiter (Arith.ofField Real.sin
            Real.cos Real.arctan Real.log) 0 2) (fun _ => 0) = 0 := by
  have hp : (pixel (Arith.ofField Real.sin Real.cos Real.arctan Real.log) ((sampleField
      (Arith.ofField Real.sin Real.cos Real.arctan Real.log)).setiter (Arith.ofField Real.sin
          Real.cos Real.arctan Real.log) 0 2) (fun _ => 0)).prods = [0] := by
    simp [pixel, Ljapunow.setiter, sampleField, shiftRight_one, toUInt32, toInt32,
      loopN, measureStep, Function.eval2, FunctionI.eval2, SEQPOSINC, Arith.ofField]
  have hd : ((sampleField (Arith.ofField Real.sin Real.cos Real.arctan Real.log)).setiter
      (Arith.ofField Real.sin Real.cos Real.arctan Real.log) 0 2).iter1d ≠ 0 := by
    rw [(setiter_fields (Arith.ofField Real.sin Real.cos Real.arctan Real.log) (sampleField
        (Arith.ofField Real.sin Real.cos Real.arctan Real.log)) 0 2 (by decide) (by
            decide)).2.2.1]
    decide
  refine ⟨hd, hp, ?_⟩
  apply (C5_floor_skips_contribution Real.sin Real.cos Real.arctan Real.log
    ((sampleField (Arith.ofField Real.sin Real.cos Real.arctan Real.log)).setiter
        (Arith.ofField Real.sin Real.cos Real.arctan Real.log) 0 2) (fun _ => 0)).2.2.2.2.2.1 hd
  intro ab hab
  rw [hp] at hab
  simp only [List.mem_singleton] at hab
  rw [hab]
  norm_num

/-- Witness of C1 at the request `setiter(51, 101)` on the sample field in real
arithmetic: 50 settling and 100 measuring evaluations, divisor 100. -/
theorem C1_setiter_even_truncation_witness :
    (0 : Int) ≤ 101 ∧ (101 : Int) < 2147483648 ∧
    settleCount (pixel (Arith.ofField Real.sin Real.cos Real.arctan Real.log)
      ((sampleField (Arith.ofField Real.sin Real.cos Real.arctan Real.log)).setiter
        (Arith.ofField Real.sin Real.cos Real.arctan Real.log) 51 101)
      (fun _ => 0)) = 50 ∧
    measureCount (pixel (Arith.ofField Real.sin Real.cos Real.arctan Real.log)
      ((sampleField (Arith.ofField Real.sin Real.cos Real.arctan Real.log)).setiter
        (Arith.ofField Real.sin Real.cos Real.arctan Real.log) 51 101)
      (fun _ => 0)) = 100 ∧
    ((sampleField (Arith.ofField Real.sin Real.cos Real.arctan Real.log)).setiter
        (Arith.ofField Real.sin Real.cos Real.arctan Real.log) 51 101).iter1d
      = 100 := by
  have h := C1_setiter_even_truncation
    (Arith.ofField Real.sin Real.cos Real.arctan Real.log)
    (sampleField (Arith.ofField Real.sin Real.cos Real.arctan Real.log))
    (fun _ => 0) 51 101 (by decide) (by decide)
  exact ⟨by decide, by decide, h.1, h.2.1, h.2.2.1⟩

/-- **C2 (as stated, refuted).** On the sample field started at `x0 = 0` with
`setiter(0, 2)` and control parameters `AB[0] = 2`, `AB[1] = 3`, the accumulated
sum is `log 6` and the stored exponent is `log 6 / 2`, not
`sum / (2*m) = log 6 / 4`. -/
theorem C2_counterexample :
    (pixel (Arith.ofField Real.sin Real.cos Real.arctan Real.log)
      (({ sampleField (Arith.ofField Real.sin Real.cos Real.arctan Real.log) with
          x0 := 0 }).setiter
        (Arith.ofField Real.sin Real.cos Real.arctan Real.log) 0 2)
      (fun j => if j = 0 then 2 else 3)).lambda = Real.log 6 ∧
    pixelExp (Arith.ofField Real.sin Real.cos Real.arctan Real.log)
      (({ sampleField (Arith.ofField Real.sin Real.cos Real.arctan Real.log) with
          x0 := 0 }).setiter
        (Arith.ofField Real.sin Real.cos Real.arctan Real.log) 0 2)
      (fun j => if j = 0 then 2 else 3) = Real.log 6 / 2 ∧
    pixelExp (Arith.ofField Real.sin Real.cos Real.arctan Real.log)
      (({ sampleField (Arith.ofField Real.sin Real.cos Real.arctan Real.log) with
          x0 := 0 }).setiter
        (Arith.ofField Real.sin Real.cos Real.arctan Real.log) 0 2)
      (fun j => if j = 0 then 2 else 3)
    ≠ (pixel (Arith.ofField Real.sin Real.cos Real.arctan Real.log)
      (({ sampleField (Arith.ofField Real.sin Real.cos Real.arctan Real.log) with
          x0 := 0 }).setiter
        (Arith.ofField Real.sin Real.cos Real.arctan Real.log) 0 2)
      (fun j => if j = 0 then 2 else 3)).lambda / (2 * ((2 : Int) : ℝ)) := by
  have hlam : (pixel (Arith.ofField Real.sin Real.cos Real.arctan Real.log)
      (({ sampleField (Arith.ofField Real.sin Real.cos Real.arctan Real.log) with
          x0 := 0 }).setiter
        (Arith.ofField Real.sin Real.cos Real.arctan Real.log) 0 2)
      (fun j => if j = 0 then 2 else 3)).lambda = Real.log 6 := by
    simp [pixel, Ljapunow.setiter, sampleField, shiftRight_one, toUInt32, toInt32,
      loopN, measureStep, Function.eval2, FunctionI.eval2, SEQPOSINC, Arith.ofField]
    rw [if_pos (by norm_num)]
    norm_num
  have hexp : pixelExp (Arith.ofField Real.sin Real.cos Real.arctan Real.log)
      (({ sampleField (Arith.ofField Real.sin Real.cos Real.arctan Real.log) with
          x0 := 0 }).setiter
        (Arith.ofField Real.sin Real.cos Real.arctan Real.log) 0 2)
      (fun j => if j = 0 then 2 else 3) = Real.log 6 / 2 := by
    unfold pixelExp
    rw [hlam]
    simp [Ljapunow.setiter, shiftRight_one, toInt32, Arith.ofField]
    ring
  refine ⟨hlam, hexp, ?_⟩
  rw [hexp, hlam]
  have hpos : 0 < Real.log 6 := Real.log_pos (by norm_num)
  intro h
  norm_num at h
  linarith

/-! ## The column and row loops of `calc` -/

theorem colStep_mkAB {α : Type} (A : Arith α) (vx : Point32_t α) (a b : α)
    (junk : Int → α) :
    setAB (setAB (mkAB a b junk) 0 (A.add (mkAB a b junk 0) vx.x)) 1
        (A.add (setAB (mkAB a b junk) 0 (A.add (mkAB a b junk 0) vx.x) 1) vx.y)
      = mkAB (A.add a vx.x) (A.add b vx.y) junk := by
  funext j
  by_cases h0 : j = 0
  · subst h0
    simp [setAB, mkAB]
  · by_cases h1 : j = 1
    · subst h1
      simp [setAB, mkAB]
    · simp [setAB, mkAB, h0, h1]

theorem rowStart_mkAB {α : Type} (AB junk : Int → α) (a b : α)
    (h : ∀ j, j ≠ 0 → j ≠ 1 → AB j = junk j) :
    setAB (setAB AB 0 a) 1 b = mkAB a b junk := by
  funext j
  by_cases h0 : j = 0
  · subst h0
    simp [setAB, mkAB]
  · by_cases h1 : j = 1
    · subst h1
      simp [setAB, mkAB]
    · simp [setAB, mkAB, h0, h1, h j h0 h1]

theorem addN_succ {α : Type} (A : Arith α) (a v : α) (n : Nat) :
    addN A a v (n + 1) = addN A (A.add a v) v n := rfl

/-- The column loop: `n` pixels starting at `offset`, none of them beyond the
end of the buffer. -/
theorem colLoop_spec {α : Type} (A : Arith α) (L : Ljapunow α)
    (vx : Point32_t α) (junk : Int → α) :
    ∀ (n : Nat) (cs : CalcState α) (a b : α),
      cs.AB = mkAB a b junk → cs.offset + n ≤ cs.exps.length →
      cs.exps.length < 4294967296 →
      (loopN (colStep A L vx) n cs).offset = cs.offset + n ∧
      (loopN (colStep A L vx) n cs).AB
        = mkAB (addN A a vx.x n) (addN A b vx.y n) junk ∧
      (loopN (colStep A L vx) n cs).exps.length = cs.exps.length ∧
      (loopN (colStep A L vx) n cs).rows = cs.rows ∧
      ∀ k : Nat, (loopN (colStep A L vx) n cs).exps[k]? =
        if cs.offset ≤ k ∧ k < cs.offset + n then
          some (pixelExp A L
            (mkAB (addN A a vx.x (k - cs.offset)) (addN A b vx.y (k - cs.offset))
              junk))
        else cs.exps[k]? := by
  intro n
  induction n with
  | zero =>
    intro cs a b hAB _ _
    refine ⟨rfl, hAB, rfl, rfl, ?_⟩
    intro k
    have : ¬ (cs.offset ≤ k ∧ k < cs.offset + 0) := by omega
    rw [if_neg this]
    rfl
  | succ n ih =>
    intro cs a b hAB hlen hsz
    have hstepAB : (colStep A L vx cs).AB
        = mkAB (A.add a vx.x) (A.add b vx.y) junk := by
      simp only [colStep, hAB]
      exact colStep_mkAB A vx a b junk
    have hstepOff : (colStep A L vx cs).offset = cs.offset + 1 := by
      simp only [colStep]
      exact Nat.mod_eq_of_lt (by omega)
    have hstepLen : (colStep A L vx cs).exps.length = cs.exps.length := by
      simp [colStep]
    have h := ih (colStep A L vx cs) (A.add a vx.x) (A.add b vx.y) hstepAB
      (by rw [hstepOff, hstepLen]; omega) (by rw [hstepLen]; exact hsz)
    obtain ⟨h1, h2, h3, h4, h5⟩ := h
    have hunf : loopN (colStep A L vx) (n + 1) cs
        = loopN (colStep A L vx) n (colStep A L vx cs) := rfl
    rw [hunf]
    refine ⟨?_, ?_, ?_, ?_, ?_⟩
    · rw [h1, hstepOff]; omega
    · rw [h2]; rfl
    · rw [h3, hstepLen]
    · rw [h4]; rfl
    · intro k
      rw [h5 k, hstepOff]
      by_cases hk0 : k = cs.offset
      · subst hk0
        have c1 : ¬ (cs.offset + 1 ≤ cs.offset ∧ cs.offset < cs.offset + 1 + n) := by
          omega
        have c2 : cs.offset ≤ cs.offset ∧ cs.offset < cs.offset + (n + 1) := by
          omega
        rw [if_neg c1, if_pos c2]
        simp only [colStep, List.getElem?_set, Nat.sub_self]
        rw [if_pos trivial, if_pos (by omega), hAB]
        rfl
      · by_cases hk : cs.offset + 1 ≤ k ∧ k < cs.offset + 1 + n
        · have c2 : cs.offset ≤ k ∧ k < cs.offset + (n + 1) := by omega
          rw [if_pos hk, if_pos c2]
          have e : k - cs.offset = (k - (cs.offset + 1)) + 1 := by omega
          rw [e, addN_succ, addN_succ]
        · have c2 : ¬ (cs.offset ≤ k ∧ k < cs.offset + (n + 1)) := by omega
          rw [if_neg hk, if_neg c2]
          simp only [colStep, List.getElem?_set]
          rw [if_neg (by omega)]

theorem cell_div_mod (w y k : Nat) (h1 : y * w ≤ k) (h2 : k < y * w + w) :
    k / w = y ∧ k % w = k - y * w := by
  have hd : k / w = y := Nat.div_eq_of_lt_le h1 (by rw [Nat.add_mul, Nat.one_mul]; exact h2)
  refine ⟨hd, ?_⟩
  rw [Nat.mod_def, hd, Nat.mul_comm]

/-- The row loop: rows `y, ..., e` of a grid of `w` columns and `h` rows, with
`r = e + 1 - y` rows to go and more than `r` units of fuel. -/
theorem rowLoop_spec {α : Type} (A : Arith α) (L : Ljapunow α) (junk : Int → α)
    (w h e : Nat) (hw : L.lenx.toNat = w) (he : e < h)
    (hsz : w * h < 4294967296) (hh : h < 4294967296) :
    ∀ (r fuel y : Nat) (cs : CalcState α),
      y + r = e + 1 → r < fuel → cs.offset = y * w → cs.exps.length = w * h →
      (∀ j, j ≠ 0 → j ≠ 1 → cs.AB j = junk j) →
      ∃ cs1, rowLoop A L (calcVx A L) (calcVy A L) e fuel y cs = some cs1 ∧
        cs1.exps.length = cs.exps.length ∧
        cs1.rows = cs.rows ++ List.range' y r ∧
        ∀ k : Nat, cs1.exps[k]? =
          if y * w ≤ k ∧ k < (e + 1) * w then
            some (pixelExp A L (sampleAB A L junk (k % w) (k / w)))
          else cs.exps[k]? := by
  intro r
  induction r with
  | zero =>
    intro fuel y cs hy hf _ _ _
    obtain ⟨f, rfl⟩ : ∃ f, fuel = f + 1 := ⟨fuel - 1, by omega⟩
    refine ⟨cs, ?_, rfl, by simp, ?_⟩
    · simp only [rowLoop]
      rw [if_neg (by omega)]
    · intro k
      have hy2 : y = e + 1 := by omega
      rw [if_neg (by rw [hy2]; omega)]
  | succ r ih =>
    intro fuel y cs hy hf hoff hlen hAB
    obtain ⟨f, rfl⟩ : ∃ f, fuel = f + 1 := ⟨fuel - 1, by omega⟩
    have hye : y ≤ e := by omega
    have hrow : (y + 1) * w ≤ w * h := by
      rw [Nat.mul_comm w h]
      exact Nat.mul_le_mul_right w (by omega)
    have hrow2 : y * w + w ≤ w * h := by
      rw [Nat.add_mul, Nat.one_mul] at hrow
      exact hrow
    have hcol := colLoop_spec A L (calcVx A L) junk w
      { cs with
        AB := setAB (setAB cs.AB 0
            (A.add L.lowerleft.x (A.mul (A.ofInt (y : Int)) (calcVy A L).x))) 1
          (A.add L.lowerleft.y (A.mul (A.ofInt (y : Int)) (calcVy A L).y)),
        rows := cs.rows ++ [y] }
      (A.add L.lowerleft.x (A.mul (A.ofInt (y : Int)) (calcVy A L).x))
      (A.add L.lowerleft.y (A.mul (A.ofInt (y : Int)) (calcVy A L).y))
      (rowStart_mkAB cs.AB junk _ _ hAB)
      (by show cs.offset + w ≤ cs.exps.length
          rw [hoff, hlen]; exact hrow2)
      (by show cs.exps.length < 4294967296
          rw [hlen]; exact hsz)
    obtain ⟨c1, c2, c3, c4, c5⟩ := hcol
    have hnext := ih f (y + 1) _ (by omega) (by omega)
      (by rw [c1]
          show cs.offset + w = (y + 1) * w
          rw [hoff, Nat.add_mul, Nat.one_mul])
      (by rw [c3]; exact hlen)
      (by intro j h0 h1
          rw [c2]
          simp [mkAB, h0, h1])
    obtain ⟨cs1, d1, d2, d3, d4⟩ := hnext
    refine ⟨cs1, ?_, ?_, ?_, ?_⟩
    · simp only [rowLoop]
      rw [if_pos hye, hw, Nat.mod_eq_of_lt (by omega)]
      exact d1
    · rw [d2, c3]
    · rw [d3, c4]
      simp [List.range'_succ]
    · intro k
      rw [d4 k, c5 k]
      simp only []
      rw [hoff]
      by_cases hk : y * w ≤ k ∧ k < y * w + w
      · have hdm := cell_div_mod w y k hk.1 hk.2
        have n1 : ¬ ((y + 1) * w ≤ k ∧ k < (e + 1) * w) := by
          rw [Nat.add_mul, Nat.one_mul]; omega
        have hew : (y + 1) * w ≤ (e + 1) * w := Nat.mul_le_mul_right w (by omega)
        have n2 : y * w ≤ k ∧ k < (e + 1) * w := by
          rw [Nat.add_mul, Nat.one_mul] at hew; omega
        rw [if_neg n1, if_pos hk, if_pos n2, hdm.1, hdm.2]
        rfl
      · by_cases hk2 : (y + 1) * w ≤ k ∧ k < (e + 1) * w
        · have n2 : y * w ≤ k ∧ k < (e + 1) * w := by
            have := hk2.1
            rw [Nat.add_mul, Nat.one_mul] at this; omega
          rw [if_pos hk2, if_pos n2]
        · have n2 : ¬ (y * w ≤ k ∧ k < (e + 1) * w) := by
            rw [Nat.add_mul, Nat.one_mul] at hk2
            omega
          rw [if_neg hk2, if_neg hk, if_neg n2]

theorem calcClamp_spec (leny v : Int) (h1 : 1 ≤ leny) (h2 : leny < 2147483648) :
    calcClamp leny v = min (max v 0) (leny - 1) ∧
    0 ≤ calcClamp leny v ∧ calcClamp leny v ≤ leny - 1 := by
  have e : toInt32 (leny - 1) = leny - 1 := by
    unfold toInt32
    omega
  unfold calcClamp
  simp only [e]
  by_cases hv : v < 0
  · rw [if_pos hv]
    rw [if_neg (by omega)]
    refine ⟨?_, le_refl _, by omega⟩
    rw [max_eq_right (by omega), min_eq_left (by omega)]
  · rw [if_neg hv]
    by_cases hv2 : v ≥ leny
    · rw [if_pos hv2]
      refine ⟨?_, by omega, le_refl _⟩
      rw [max_eq_left (by omega), min_eq_right (by omega)]
    · rw [if_neg hv2]
      refine ⟨?_, by omega, by omega⟩
      rw [max_eq_left (by omega), min_eq_left (by omega)]

theorem toUInt32_of_small (z : Int) (h0 : 0 ≤ z) (h1 : z < 4294967296) :
    toUInt32 z = z.toNat := by
  unfold toUInt32
  rw [Int.emod_eq_of_lt h0 h1]

theorem toInt32_of_small (z : Int) (h0 : 0 ≤ z) (h1 : z < 2147483648) :
    toInt32 z = z := by
  unfold toInt32
  omega

theorem gridOK_nat {α : Type} (L : Ljapunow α) (hg : L.gridOK) :
    (L.lenx.toNat : Int) = L.lenx ∧ (L.leny.toNat : Int) = L.leny ∧
    1 ≤ L.leny.toNat ∧ L.lenx.toNat * L.leny.toNat < 2147483648 ∧
    L.exps.length = L.lenx.toNat * L.leny.toNat := by
  obtain ⟨h1, h2, _, h4, h5⟩ := hg
  have e1 : (L.lenx.toNat : Int) = L.lenx := Int.toNat_of_nonneg h1
  have e2 : (L.leny.toNat : Int) = L.leny := Int.toNat_of_nonneg (by omega)
  have e3 : ((L.lenx.toNat * L.leny.toNat : Nat) : Int) = L.lenx * L.leny := by
    rw [Nat.cast_mul, e1, e2]
  have e4 : (L.lenx * L.leny).toNat = L.lenx.toNat * L.leny.toNat := by
    rw [← e3, Int.toNat_natCast]
  refine ⟨e1, e2, by omega, ?_, by rw [h5, e4]⟩
  have : ((L.lenx.toNat * L.leny.toNat : Nat) : Int) < 2147483648 := by
    rw [e3]; exact h4
  exact_mod_cast this

/-- The sampling pass on an addressable grid, with more fuel than rows: it ends,
its row log is the clamped range, and cell `k` holds the exponent of the pixel
in column `k mod lenx` of row `k / lenx` when that row lies in the clamped
range, and its old content otherwise. -/
theorem calcLoop_spec {α : Type} (A : Arith α) (L : Ljapunow α) (AB : Int → α)
    (hg : L.gridOK) (fuel : Nat) (hfuel : L.leny.toNat < fuel)
    (astart aende : Int) :
    ∃ cs, calcLoop A L AB fuel astart aende = some cs ∧
      cs.exps.length = L.exps.length ∧
      cs.rows = List.range' (calcClamp L.leny astart).toNat
        ((calcClamp L.leny aende).toNat + 1 - (calcClamp L.leny astart).toNat) ∧
      ∀ k : Nat, cs.exps[k]? =
        if (calcClamp L.leny astart).toNat * L.lenx.toNat ≤ k ∧
            k < ((calcClamp L.leny aende).toNat + 1) * L.lenx.toNat then
          some (pixelExp A L
            (sampleAB A L AB (k % L.lenx.toNat) (k / L.lenx.toNat)))
        else L.exps[k]? := by
  obtain ⟨n1, n2, n3, n4, n5⟩ := gridOK_nat L hg
  obtain ⟨g1, g2, g3, g4, _⟩ := hg
  obtain ⟨_, s0, s1⟩ := calcClamp_spec L.leny astart g2 g3
  obtain ⟨_, e0, e1⟩ := calcClamp_spec L.leny aende g2 g3
  have hsN : ((calcClamp L.leny astart).toNat : Int) = calcClamp L.leny astart :=
    Int.toNat_of_nonneg s0
  have heN : ((calcClamp L.leny aende).toNat : Int) = calcClamp L.leny aende :=
    Int.toNat_of_nonneg e0
  have hs_lt : (calcClamp L.leny astart).toNat < L.leny.toNat := by omega
  have he_lt : (calcClamp L.leny aende).toNat < L.leny.toNat := by omega
  have hsU : toUInt32 (calcClamp L.leny astart) = (calcClamp L.leny astart).toNat :=
    toUInt32_of_small _ s0 (by omega)
  have heU : toUInt32 (calcClamp L.leny aende) = (calcClamp L.leny aende).toNat :=
    toUInt32_of_small _ e0 (by omega)
  have hsw : (calcClamp L.leny astart).toNat * L.lenx.toNat
      ≤ L.lenx.toNat * L.leny.toNat := by
    rw [Nat.mul_comm L.lenx.toNat]
    exact Nat.mul_le_mul_right _ (by omega)
  have hoff : toUInt32 (toInt32 (calcClamp L.leny astart * L.lenx))
      = (calcClamp L.leny astart).toNat * L.lenx.toNat := by
    have e : calcClamp L.leny astart * L.lenx
        = (((calcClamp L.leny astart).toNat * L.lenx.toNat : Nat) : Int) := by
      rw [Nat.cast_mul, hsN, n1]
    rw [e, toInt32_of_small _ (by positivity) (by omega),
      toUInt32_of_small _ (by positivity) (by omega), Int.toNat_natCast]
  unfold calcLoop
  simp only [hsU, heU, hoff]
  by_cases hse : (calcClamp L.leny astart).toNat ≤ (calcClamp L.leny aende).toNat
  · have h := rowLoop_spec A L AB L.lenx.toNat L.leny.toNat
      (calcClamp L.leny aende).toNat rfl he_lt (by omega) (by omega)
      ((calcClamp L.leny aende).toNat + 1 - (calcClamp L.leny astart).toNat)
      fuel (calcClamp L.leny astart).toNat
      { exps := L.exps, offset := (calcClamp L.leny astart).toNat * L.lenx.toNat,
        AB := AB, rows := [] }
      (by omega) (by omega) rfl n5 (fun _ _ _ => rfl)
    obtain ⟨cs, c1, c2, c3, c4⟩ := h
    exact ⟨cs, c1, c2, by simpa using c3, c4⟩
  · obtain ⟨f, rfl⟩ : ∃ f, fuel = f + 1 := ⟨fuel - 1, by omega⟩
    refine ⟨{ exps := L.exps,
              offset := (calcClamp L.leny astart).toNat * L.lenx.toNat,
              AB := AB, rows := [] }, ?_, rfl, ?_, ?_⟩
    · simp only [rowLoop]
      rw [if_neg hse]
    · have : (calcClamp L.leny aende).toNat + 1 - (calcClamp L.leny astart).toNat = 0 := by
        omega
      rw [this]
      rfl
    · intro k
      have hle : ((calcClamp L.leny aende).toNat + 1) * L.lenx.toNat
          ≤ (calcClamp L.leny astart).toNat * L.lenx.toNat :=
        Nat.mul_le_mul_right _ (by omega)
      rw [if_neg (by omega)]

theorem cell_in_rows (w s e x y : Nat) (hx : x < w) :
    (s * w ≤ y * w + x ∧ y * w + x < (e + 1) * w) ↔ (s ≤ y ∧ y ≤ e) := by
  constructor
  · rintro ⟨h1, h2⟩
    constructor
    · by_contra hn
      have h3 : (y + 1) * w ≤ s * w := Nat.mul_le_mul_right w (by omega)
      rw [Nat.add_mul, Nat.one_mul] at h3
      omega
    · by_contra hn
      have h3 : (e + 1) * w ≤ y * w := Nat.mul_le_mul_right w (by omega)
      omega
  · rintro ⟨h1, h2⟩
    have h3 : s * w ≤ y * w := Nat.mul_le_mul_right w h1
    have h4 : (y + 1) * w ≤ (e + 1) * w := Nat.mul_le_mul_right w (by omega)
    rw [Nat.add_mul y, Nat.one_mul] at h4
    omega

theorem cell_coords (w x y : Nat) (hx : x < w) :
    (y * w + x) / w = y ∧ (y * w + x) % w = x := by
  have h := cell_div_mod w y (y * w + x) (by omega) (by omega)
  refine ⟨h.1, ?_⟩
  rw [h.2]
  omega

/-- The sampling pass in terms of columns and rows. -/
theorem calcLoop_cells {α : Type} (A : Arith α) (L : Ljapunow α) (AB : Int → α)
    (hg : L.gridOK) (fuel : Nat) (hfuel : L.leny.toNat < fuel)
    (astart aende : Int) :
    ∃ cs, calcLoop A L AB fuel astart aende = some cs ∧
      cs.exps.length = L.exps.length ∧
      cs.rows = List.range' (calcClamp L.leny astart).toNat
        ((calcClamp L.leny aende).toNat + 1 - (calcClamp L.leny astart).toNat) ∧
      (∀ x y : Nat, x < L.lenx.toNat →
        cs.exps[y * L.lenx.toNat + x]? =
          if (calcClamp L.leny astart).toNat ≤ y ∧
              y ≤ (calcClamp L.leny aende).toNat then
            some (pixelExp A L (sampleAB A L AB x y))
          else L.exps[y * L.lenx.toNat + x]?) ∧
      ((calcClamp L.leny aende).toNat < (calcClamp L.leny astart).toNat →
        cs.exps = L.exps) := by
  obtain ⟨cs, h1, h2, h3, h4⟩ := calcLoop_spec A L AB hg fuel hfuel astart aende
  refine ⟨cs, h1, h2, h3, ?_, ?_⟩
  · intro x y hx
    rw [h4]
    obtain ⟨c1, c2⟩ := cell_coords L.lenx.toNat x y hx
    rw [c1, c2]
    by_cases hc : (calcClamp L.leny astart).toNat ≤ y ∧
        y ≤ (calcClamp L.leny aende).toNat
    · rw [if_pos hc, if_pos ((cell_in_rows _ _ _ x y hx).mpr hc)]
    · rw [if_neg hc, if_neg (fun h => hc ((cell_in_rows _ _ _ x y hx).mp h))]
  · intro hlt
    apply List.ext_getElem?
    intro k
    rw [h4]
    have hle : ((calcClamp L.leny aende).toNat + 1) * L.lenx.toNat
        ≤ (calcClamp L.leny astart).toNat * L.lenx.toNat :=
      Nat.mul_le_mul_right _ (by omega)
    rw [if_neg (by omega)]

/-- **C6.** On a field with at least one row (and an addressable grid), for
every requested pair `(astart, aende)` and more fuel than rows: both requests
are clamped by `min(max(v,0), leny-1)`; `calc` returns 1 with only `exps`
changed; the rows for which the loop body runs are exactly the rows from the
clamped start to the clamped end, in order (none when the clamped start is
above the clamped end, and then the buffer is unchanged); the buffer keeps its
length; a cell in column `x` of a row in that range holds the exponent computed
for that pixel, and every cell of another row holds what it held before. -/
theorem C6_calc_clamps_rows {α : Type} (A : Arith α) (L : Ljapunow α)
    (AB : Int → α) (hg : L.gridOK) (fuel : Nat) (hfuel : L.leny.toNat < fuel)
    (astart aende : Int) :
    calcClamp L.leny astart = min (max astart 0) (L.leny - 1) ∧
    calcClamp L.leny aende = min (max aende 0) (L.leny - 1) ∧
    ∃ cs, calcLoop A L AB fuel astart aende = some cs ∧
      L.calc A AB fuel astart aende = some (1, { L with exps := cs.exps }) ∧
      cs.rows = List.range' (calcClamp L.leny astart).toNat
        ((calcClamp L.leny aende).toNat + 1 - (calcClamp L.leny astart).toNat) ∧
      cs.exps.length = L.exps.length ∧
      (∀ x y : Nat, x < L.lenx.toNat →
        cs.exps[y * L.lenx.toNat + x]? =
          if (calcClamp L.leny astart).toNat ≤ y ∧
              y ≤ (calcClamp L.leny aende).toNat then
            some (pixelExp A L (sampleAB A L AB x y))
          else L.exps[y * L.lenx.toNat + x]?) ∧
      ((calcClamp L.leny aende).toNat < (calcClamp L.leny astart).toNat →
        cs.exps = L.exps) := by
  obtain ⟨cs, h1, h2, h3, h4, h5⟩ :=
    calcLoop_cells A L AB hg fuel hfuel astart aende
  refine ⟨(calcClamp_spec L.leny astart hg.2.1 hg.2.2.1).1,
    (calcClamp_spec L.leny aende hg.2.1 hg.2.2.1).1, cs, h1, ?_, h3, h2, h4, h5⟩
  unfold Ljapunow.calc
  rw [h1]

theorem sampleField_gridOK {α : Type} (A : Arith α) : (sampleField A).gridOK := by
  refine ⟨?_, ?_, ?_, ?_, ?_⟩ <;> simp [sampleField]

/-- Witness of C6: the sample field in real arithmetic, rows requested from -3
to 100, five units of fuel. -/
theorem C6_calc_clamps_rows_witness :
    (sampleField (Arith.ofField Real.sin Real.cos Real.arctan Real.log)).gridOK ∧
    (sampleField (Arith.ofField Real.sin Real.cos Real.arctan Real.log)).leny.toNat
      < 5 ∧
    ∃ cs, calcLoop (Arith.ofField Real.sin Real.cos Real.arctan Real.log)
        (sampleField (Arith.ofField Real.sin Real.cos Real.arctan Real.log))
        (fun _ => 0) 5 (-3) 100 = some cs ∧
      cs.rows = [0, 1, 2, 3] := by
  have hg := sampleField_gridOK (Arith.ofField Real.sin Real.cos Real.arctan Real.log)
  have hf : (sampleField
      (Arith.ofField Real.sin Real.cos Real.arctan Real.log)).leny.toNat < 5 := by
    simp [sampleField]
  obtain ⟨_, _, cs, h1, _, h3, _⟩ := C6_calc_clamps_rows
    (Arith.ofField Real.sin Real.cos Real.arctan Real.log)
    (sampleField (Arith.ofField Real.sin Real.cos Real.arctan Real.log))
    (fun _ => 0) hg 5 hf (-3) 100
  refine ⟨hg, hf, cs, h1, ?_⟩
  rw [h3]
  simp [sampleField, calcClamp, toInt32, List.range']

/-! ## Exact arithmetic -/

theorem addN_exact {α : Type} [LinearOrderedField α] [FloorRing α]
    (sn cs atn lg : α → α) (a v : α) (n : Nat) :
    addN (Arith.ofField sn cs atn lg) a v n = a + (n : α) * v := by
  induction n generalizing a with
  | zero => simp [addN, loopN]
  | succ n ih =>
    rw [addN_succ, ih]
    show a + v + (n : α) * v = a + ((n + 1 : Nat) : α) * v
    push_cast
    ring

theorem sampleAB_exact {α : Type} [LinearOrderedField α] [FloorRing α]
    (sn cs atn lg : α → α) (L : Ljapunow α) (junk : Int → α) (x y : Nat) :
    sampleAB (Arith.ofField sn cs atn lg) L junk x y
      = mkAB
          (L.lowerleft.x
            + (y : α) * ((L.upperleft.x - L.lowerleft.x) / (L.leny : α))
            + (x : α) * ((L.lowerright.x - L.lowerleft.x) / (L.lenx : α)))
          (L.lowerleft.y
            + (y : α) * ((L.upperleft.y - L.lowerleft.y) / (L.leny : α))
            + (x : α) * ((L.lowerright.y - L.lowerleft.y) / (L.lenx : α)))
          junk := by
  unfold sampleAB
  rw [addN_exact, addN_exact]
  simp [calcVx, calcVy, Arith.ofField]

/-- **C4.** In exact arithmetic, on an addressable grid and with more fuel than
rows, the sampling pass ends, and for every column `x < lenx` of every
processed row `y` the content of `AB` at that pixel is
`AB[0] = lowerleft.x + y*vy.x + x*vx.x`, `AB[1] = lowerleft.y + y*vy.y + x*vx.y`
with `vx = (lowerright - lowerleft)/lenx` and `vy = (upperleft -
lowerleft)/leny`, and the exponent computed from that content is what the cell
at index `y*lenx + x` holds afterwards. -/
theorem C4_sample_point_closed_form {α : Type} [LinearOrderedField α]
    [FloorRing α] (sn cs atn lg : α → α) (L : Ljapunow α) (AB : Int → α)
    (hg : L.gridOK) (fuel : Nat) (hfuel : L.leny.toNat < fuel)
    (astart aende : Int) :
    ∃ st, calcLoop (Arith.ofField sn cs atn lg) L AB fuel astart aende = some st ∧
      ∀ x y : Nat, x < L.lenx.toNat →
        (calcClamp L.leny astart).toNat ≤ y → y ≤ (calcClamp L.leny aende).toNat →
        sampleAB (Arith.ofField sn cs atn lg) L AB x y 0
          = L.lowerleft.x
            + (y : α) * ((L.upperleft.x - L.lowerleft.x) / (L.leny : α))
            + (x : α) * ((L.lowerright.x - L.lowerleft.x) / (L.lenx : α)) ∧
        sampleAB (Arith.ofField sn cs atn lg) L AB x y 1
          = L.lowerleft.y
            + (y : α) * ((L.upperleft.y - L.lowerleft.y) / (L.leny : α))
            + (x : α) * ((L.lowerright.y - L.lowerleft.y) / (L.lenx : α)) ∧
        st.exps[y * L.lenx.toNat + x]? =
          some (pixelExp (Arith.ofField sn cs atn lg) L
            (sampleAB (Arith.ofField sn cs atn lg) L AB x y)) := by
  obtain ⟨st, h1, _, _, h4, _⟩ :=
    calcLoop_cells (Arith.ofField sn cs atn lg) L AB hg fuel hfuel astart aende
  refine ⟨st, h1, ?_⟩
  intro x y hx hs he
  refine ⟨?_, ?_, ?_⟩
  · rw [sampleAB_exact]
    simp [mkAB]
  · rw [sampleAB_exact]
    simp [mkAB]
  · rw [h4 x y hx, if_pos ⟨hs, he⟩]

/-- Witness of C4: the sample field in real arithmetic, all four rows. -/
theorem C4_sample_point_closed_form_witness :
    (sampleField (Arith.ofField Real.sin Real.cos Real.arctan Real.log)).gridOK ∧
    (sampleField (Arith.ofField Real.sin Real.cos Real.arctan Real.log)).leny.toNat
      < 5 ∧
    sampleAB (Arith.ofField Real.sin Real.cos Real.arctan Real.log)
      (sampleField (Arith.ofField Real.sin Real.cos Real.arctan Real.log))
      (fun _ => 0) 3 2 0 = 3 / 4 ∧
    sampleAB (Arith.ofField Real.sin Real.cos Real.arctan Real.log)
      (sampleField (Arith.ofField Real.sin Real.cos Real.arctan Real.log))
      (fun _ => 0) 3 2 1 = 2 / 4 := by
  have hg := sampleField_gridOK (Arith.ofField Real.sin Real.cos Real.arctan Real.log)
  have hf : (sampleField
      (Arith.ofField Real.sin Real.cos Real.arctan Real.log)).leny.toNat < 5 := by
    simp [sampleField]
  obtain ⟨_, _, h⟩ := C4_sample_point_closed_form Real.sin Real.cos Real.arctan
    Real.log (sampleField (Arith.ofField Real.sin Real.cos Real.arctan Real.log))
    (fun _ => 0) hg 5 hf 0 3
  obtain ⟨h0, h1, _⟩ := h 3 2 (by simp [sampleField])
    (by simp [sampleField, calcClamp]) (by simp [sampleField, calcClamp])
  refine ⟨hg, hf, ?_, ?_⟩
  · rw [h0]
    simp [sampleField, Arith.ofField]
    norm_num
  · rw [h1]
    simp [sampleField, Arith.ofField]
    norm_num

/-- **C2 (amended).** In exact arithmetic, for every measuring-iteration count
`2 ≤ m < 2^31` set through `setiter`, the exponent computed for a pixel equals
`sum / (2*floor(m/2))`, the accumulated sum divided by the number of measuring
evaluations, a divisor that is positive; for even `m` this is `sum / m`. -/
theorem C2_exponent_divides_by_microsteps {α : Type} [LinearOrderedField α]
    [FloorRing α] (sn cs atn lg : α → α) (L : Ljapunow α) (AB : Int → α)
    (i0 m : Int) (hm : 2 ≤ m) (hmu : m < 2147483648) :
    0 < 2 * (m / 2) ∧
    pixelExp (Arith.ofField sn cs atn lg)
        (L.setiter (Arith.ofField sn cs atn lg) i0 m) AB
      = (pixel (Arith.ofField sn cs atn lg)
          (L.setiter (Arith.ofField sn cs atn lg) i0 m) AB).lambda
        / ((2 * (m / 2) : Int) : α) ∧
    (m % 2 = 0 →
      pixelExp (Arith.ofField sn cs atn lg)
          (L.setiter (Arith.ofField sn cs atn lg) i0 m) AB
        = (pixel (Arith.ofField sn cs atn lg)
            (L.setiter (Arith.ofField sn cs atn lg) i0 m) AB).lambda
          / (m : α)) := by
  obtain ⟨_, _, _, ei⟩ :=
    setiter_fields (Arith.ofField sn cs atn lg) L i0 m (by omega) hmu
  have hexp : pixelExp (Arith.ofField sn cs atn lg)
        (L.setiter (Arith.ofField sn cs atn lg) i0 m) AB
      = (pixel (Arith.ofField sn cs atn lg)
          (L.setiter (Arith.ofField sn cs atn lg) i0 m) AB).lambda
        / ((2 * (m / 2) : Int) : α) := by
    unfold pixelExp
    rw [ei]
    show _ * (((1 : ℚ) : α) / ((2 * (m / 2) : Int) : α)) = _
    rw [Rat.cast_one, mul_one_div]
  refine ⟨by omega, hexp, ?_⟩
  intro heven
  rw [hexp]
  have e : 2 * (m / 2) = m := by omega
  rw [e]

/-- Witness of C2 (amended): the sample field in real arithmetic with
`setiter(50, 100)`. -/
theorem C2_exponent_divides_by_microsteps_witness :
    (2 : Int) ≤ 100 ∧ (100 : Int) < 2147483648 ∧
    pixelExp (Arith.ofField Real.sin Real.cos Real.arctan Real.log)
        ((sampleField (Arith.ofField Real.sin Real.cos Real.arctan Real.log)).setiter
          (Arith.ofField Real.sin Real.cos Real.arctan Real.log) 50 100)
        (fun _ => 3)
      = (pixel (Arith.ofField Real.sin Real.cos Real.arctan Real.log)
          ((sampleField (Arith.ofField Real.sin Real.cos Real.arctan Real.log)).setiter
            (Arith.ofField Real.sin Real.cos Real.arctan Real.log) 50 100)
          (fun _ => 3)).lambda / (((100 : Int) : ℝ)) :=
  ⟨by decide, by decide,
    (C2_exponent_divides_by_microsteps Real.sin Real.cos Real.arctan Real.log
      (sampleField (Arith.ofField Real.sin Real.cos Real.arctan Real.log))
      (fun _ => 3) 50 100 (by decide) (by decide)).2.2 (by decide)⟩

/-! ## Consistency of the evaluation forms -/

theorem plain_eval2_fst {α : Type} (A : Arith α) (f : Function α)
    (hf : f.isPlain = true) (x r : α) :
    (f.eval2 A x r).1 = f.eval A x r := by
  cases f <;> first | rfl | simp [Function.isPlain] at hf

theorem plain_eval2_snd {α : Type} (A : Arith α) (f : Function α)
    (hf : f.isPlain = true) (x r : α) :
    (f.eval2 A x r).2 = f.evalabl A x r := by
  cases f <;> first | rfl | simp [Function.isPlain] at hf

/-- **C7 (as stated, refuted).** A `FunctionMetaABSC` with value section
`[-5, 5]`, derivative section `[10, 20]`, interior child `FunctionI` and
exterior child `FunctionII` (`b = 2.7`), evaluated at `x = -1`, `r = 1` in real
arithmetic with the source's `fastsin`: the value-only form returns the interior
value `-2`, the two-output form returns the exterior value `0`. -/
theorem C7_counterexample :
    Function.eval
        (Arith.ofField Real.sin Real.cos Real.arctan Real.log).srcTrig
        (.MetaABSC 2.7 5.4 (-5) 10 5 20 .I (.II 2.7 5.4)) (-1) 1 = -2 ∧
    (Function.eval2
        (Arith.ofField Real.sin Real.cos Real.arctan Real.log).srcTrig
        (.MetaABSC 2.7 5.4 (-5) 10 5 20 .I (.II 2.7 5.4)) (-1) 1).1 = 0 ∧
    Function.eval
        (Arith.ofField Real.sin Real.cos Real.arctan Real.log).srcTrig
        (.MetaABSC 2.7 5.4 (-5) 10 5 20 .I (.II 2.7 5.4)) (-1) 1
      ≠ (Function.eval2
        (Arith.ofField Real.sin Real.cos Real.arctan Real.log).srcTrig
        (.MetaABSC 2.7 5.4 (-5) 10 5 20 .I (.II 2.7 5.4)) (-1) 1).1 := by
  have h1 : Function.eval
        (Arith.ofField Real.sin Real.cos Real.arctan Real.log).srcTrig
        (.MetaABSC 2.7 5.4 (-5) 10 5 20 .I (.II 2.7 5.4)) (-1) 1 = -2 := by
    simp [Function.eval, FunctionI.eval, Arith.srcTrig, Arith.ofField]
    norm_num
  have h2 : (Function.eval2
        (Arith.ofField Real.sin Real.cos Real.arctan Real.log).srcTrig
        (.MetaABSC 2.7 5.4 (-5) 10 5 20 .I (.II 2.7 5.4)) (-1) 1).1 = 0 := by
    simp [Function.eval2, FunctionII.eval2, Arith.srcTrig, Arith.ofField, fastsin]
    norm_num
  refine ⟨h1, h2, ?_⟩
  rw [h1, h2]
  norm_num

/-- **C7 (amended).** For every object that meets `valueCoherent` at `x` (every
plain variant; a `FunctionMetaDet` with `fwas == WAS_F` or with a plain value
child; a `FunctionMetaABSC` at an `x` that both sections put on the same side,
with a selected child that meets the condition) and every `r`, the value-only
evaluation returns the value output of the two-output evaluation, operation by
operation. -/
theorem C7_value_forms_agree {α : Type} (A : Arith α) (f : Function α) (x r : α)
    (h : f.valueCoherent A x = true) :
    f.eval A x r = (f.eval2 A x r).1 := by
  induction f with
  | MetaDet b b2 f abl fwas ablwas _ _ =>
    simp only [Function.valueCoherent, Bool.or_eq_true, decide_eq_true_eq] at h
    simp only [Function.eval, Function.eval2]
    by_cases hw : fwas = WAS_F
    · rw [if_pos hw, if_pos hw]
    · rw [if_neg hw, if_neg hw]
      rcases h with h | h
      · exact absurd h hw
      · exact plain_eval2_snd A f h x r
  | MetaABSC b b2 i0min i1min i0max i1max fint fext ih1 ih2 =>
    simp only [Function.valueCoherent, Bool.and_eq_true, beq_iff_eq] at h
    obtain ⟨hband, hchild⟩ := h
    simp only [Function.eval, Function.eval2]
    rw [hband]
    by_cases hc : (A.lt i1max x || A.lt x i1min) = true
    · rw [if_pos hc] at hchild ⊢
      rw [if_pos hc]
      exact ih2 hchild
    · rw [if_neg hc] at hchild ⊢
      rw [if_neg hc]
      exact ih1 hchild
  | _ => rfl

/-- Witness of C7 (amended): a piecewise function with equal sections whose
exterior child is a composed function, at `x = -1`. -/
theorem C7_value_forms_agree_witness :
    Function.valueCoherent
        (Arith.ofField Real.sin Real.cos Real.arctan Real.log).srcTrig
        (.MetaABSC 2.7 5.4 0 0 1 1 .I (.MetaDet 2.7 5.4 .I (.II 2.7 5.4) 2 1))
        (-1) = true ∧
    Function.eval
        (Arith.ofField Real.sin Real.cos Real.arctan Real.log).srcTrig
        (.MetaABSC 2.7 5.4 0 0 1 1 .I (.MetaDet 2.7 5.4 .I (.II 2.7 5.4) 2 1))
        (-1) 1
      = (Function.eval2
        (Arith.ofField Real.sin Real.cos Real.arctan Real.log).srcTrig
        (.MetaABSC 2.7 5.4 0 0 1 1 .I (.MetaDet 2.7 5.4 .I (.II 2.7 5.4) 2 1))
        (-1) 1).1 := by
  have h : Function.valueCoherent
        (Arith.ofField Real.sin Real.cos Real.arctan Real.log).srcTrig
        (.MetaABSC 2.7 5.4 0 0 1 1 .I (.MetaDet 2.7 5.4 .I (.II 2.7 5.4) 2 1))
        (-1) = true := by
    simp [Function.valueCoherent, Function.isPlain, Arith.srcTrig, Arith.ofField]
  exact ⟨h, C7_value_forms_agree _ _ (-1) 1 h⟩

/-- **C8 (the code at the failing input).** The composed object
`FunctionMetaDet` with value child `FunctionI` (`fwas = WAS_F`) and derivative
child `FunctionI` (`ablwas = WAS_ABL`), evaluated at `x = -1`, `r = 1` in real
arithmetic with the source's `fastsin`: the two-output form returns the
derivative `3` of its derivative child, while `evalabl` on the same object,
inherited from `FunctionII`, returns `b2*fastsin(0)*fastcos(0) = 0`. -/
theorem C8_metadet_evalabl_inherited :
    Function.eval2
        (Arith.ofField Real.sin Real.cos Real.arctan Real.log).srcTrig
        (.MetaDet 2.7 5.4 .I .I WAS_F WAS_ABL) (-1) 1 = (-2, 3) ∧
    Function.evalabl
        (Arith.ofField Real.sin Real.cos Real.arctan Real.log).srcTrig
        (.MetaDet 2.7 5.4 .I .I WAS_F WAS_ABL) (-1) 1 = 0 ∧
    (Function.eval2
        (Arith.ofField Real.sin Real.cos Real.arctan Real.log).srcTrig
        (.MetaDet 2.7 5.4 .I .I WAS_F WAS_ABL) (-1) 1).2
      ≠ Function.evalabl
        (Arith.ofField Real.sin Real.cos Real.arctan Real.log).srcTrig
        (.MetaDet 2.7 5.4 .I .I WAS_F WAS_ABL) (-1) 1 := by
  have h1 : Function.eval2
        (Arith.ofField Real.sin Real.cos Real.arctan Real.log).srcTrig
        (.MetaDet 2.7 5.4 .I .I WAS_F WAS_ABL) (-1) 1 = (-2, 3) := by
    simp [Function.eval2, Function.eval, Function.evalabl, FunctionI.eval,
      FunctionI.evalabl, WAS_F, WAS_ABL, Arith.srcTrig, Arith.ofField]
    norm_num
  have h2 : Function.evalabl
        (Arith.ofField Real.sin Real.cos Real.arctan Real.log).srcTrig
        (.MetaDet 2.7 5.4 .I .I WAS_F WAS_ABL) (-1) 1 = 0 := by
    simp [Function.evalabl, FunctionII.evalabl, Arith.srcTrig, Arith.ofField,
      fastsin]
    norm_num
  refine ⟨h1, h2, ?_⟩
  rw [h1, h2]
  norm_num

/-- **C10 (the code at the failing input).** The two-output evaluation of the
composed variant with children `f` and `abl` returns as value `f`'s value when
`fwas == WAS_F` and as derivative `abl`'s value when `ablwas == WAS_F`, for
every child; in the other role it returns the child's own derivative, the
derivative output of the child's two-output evaluation, when the child is one
of the nine plain classes, and so do the four role combinations installed by
`setF`/`setAbl` with plain children.  With a composed child it does not: for
the child `c = FunctionMetaDet(FunctionI as value, FunctionI as derivative)`
at `x = -1`, `r = 1`, in real arithmetic with the source's `fastsin`, the own
derivative of `c` is 3, but the outer object with `f = c`, `fwas = WAS_ABL`
returns the value 0, and the outer object with `abl = c`, `ablwas = WAS_ABL`
returns the derivative 0: what `evalabl` inherited from `FunctionII` computes,
`b2*fastsin(x+r)*fastcos(x+r)`. -/
theorem C10_metadet_role_selectors {α : Type} (A : Arith α) (b b2 : α)
    (f abl p q : Function α) (fwas ablwas : Int) (x r : α) :
    (fwas = WAS_F →
      (Function.eval2 A (.MetaDet b b2 f abl fwas ablwas) x r).1 = f.eval A x r) ∧
    (ablwas = WAS_F →
      (Function.eval2 A (.MetaDet b b2 f abl fwas ablwas) x r).2 = abl.eval A x r) ∧
    (f.isPlain = true →
      (Function.eval2 A (.MetaDet b b2 f abl fwas ablwas) x r).1
        = if fwas = WAS_F then (f.eval2 A x r).1 else (f.eval2 A x r).2) ∧
    (abl.isPlain = true →
      (Function.eval2 A (.MetaDet b b2 f abl fwas ablwas) x r).2
        = if ablwas = WAS_F then (abl.eval2 A x r).1 else (abl.eval2 A x r).2) ∧
    (p.isPlain = true → q.isPlain = true →
      Function.eval2 A
          (((Function.MetaDet b b2 f abl fwas ablwas).setF p WAS_F).setAbl q WAS_F)
          x r = ((p.eval2 A x r).1, (q.eval2 A x r).1) ∧
      Function.eval2 A
          (((Function.MetaDet b b2 f abl fwas ablwas).setF p WAS_F).setAbl q WAS_ABL)
          x r = ((p.eval2 A x r).1, (q.eval2 A x r).2) ∧
      Function.eval2 A
          (((Function.MetaDet b b2 f abl fwas ablwas).setF p WAS_ABL).setAbl q WAS_F)
          x r = ((p.eval2 A x r).2, (q.eval2 A x r).1) ∧
      Function.eval2 A
          (((Function.MetaDet b b2 f abl fwas ablwas).setF p WAS_ABL).setAbl q
            WAS_ABL)
          x r = ((p.eval2 A x r).2, (q.eval2 A x r).2)) ∧
    (Function.eval2
        (Arith.ofField Real.sin Real.cos Real.arctan Real.log).srcTrig
        (.MetaDet 2.7 5.4 .I .I WAS_F WAS_ABL) (-1) 1).2 = 3 ∧
    (Function.eval2
        (Arith.ofField Real.sin Real.cos Real.arctan Real.log).srcTrig
        (.MetaDet 2.7 5.4 (.MetaDet 2.7 5.4 .I .I WAS_F WAS_ABL) .I WAS_ABL WAS_F)
        (-1) 1).1 = 0 ∧
    (Function.eval2
        (Arith.ofField Real.sin Real.cos Real.arctan Real.log).srcTrig
        (.MetaDet 2.7 5.4 .I (.MetaDet 2.7 5.4 .I .I WAS_F WAS_ABL) WAS_F WAS_ABL)
        (-1) 1).2 = 0 := by
  have hsel : Function.eval2 A (.MetaDet b b2 f abl fwas ablwas) x r
      = (if fwas = WAS_F then f.eval A x r else f.evalabl A x r,
         if ablwas = WAS_F then abl.eval A x r else abl.evalabl A x r) := rfl
  have hinh : Function.evalabl
        (Arith.ofField Real.sin Real.cos Real.arctan Real.log).srcTrig
        (.MetaDet 2.7 5.4 .I .I WAS_F WAS_ABL) (-1) 1 = 0 := by
    simp [Function.evalabl, FunctionII.evalabl, Arith.srcTrig, Arith.ofField,
      fastsin]
    norm_num
  refine ⟨?_, ?_, ?_, ?_, ?_, ?_, ?_, ?_⟩
  · intro h
    rw [hsel, if_pos h]
  · intro h
    rw [hsel, if_pos h]
  · intro hf
    rw [hsel, plain_eval2_fst A f hf x r, plain_eval2_snd A f hf x r]
  · intro hf
    rw [hsel, plain_eval2_fst A abl hf x r, plain_eval2_snd A abl hf x r]
  · intro hp hq
    rw [plain_eval2_fst A p hp x r, plain_eval2_snd A p hp x r,
      plain_eval2_fst A q hq x r, plain_eval2_snd A q hq x r]
    refine ⟨?_, ?_, ?_, ?_⟩
    · simp [Function.setF, Function.setAbl, Function.eval2, WAS_F]
    · simp [Function.setF, Function.setAbl, Function.eval2, WAS_F, WAS_ABL]
    · simp [Function.setF, Function.setAbl, Function.eval2, WAS_F, WAS_ABL]
    · simp [Function.setF, Function.setAbl, Function.eval2, WAS_F, WAS_ABL]
  · simp [Function.eval2, Function.eval, Function.evalabl, FunctionI.eval,
      FunctionI.evalabl, WAS_F, WAS_ABL, Arith.srcTrig, Arith.ofField]
    norm_num
  · have e : Function.eval2
        (Arith.ofField Real.sin Real.cos Real.arctan Real.log).srcTrig
        (.MetaDet 2.7 5.4 (.MetaDet 2.7 5.4 .I .I WAS_F WAS_ABL) .I WAS_ABL WAS_F)
        (-1) 1
        = (Function.evalabl
            (Arith.ofField Real.sin Real.cos Real.arctan Real.log).srcTrig
            (.MetaDet 2.7 5.4 .I .I WAS_F WAS_ABL) (-1) 1,
           Function.eval
            (Arith.ofField Real.sin Real.cos Real.arctan Real.log).srcTrig
            .I (-1) 1) := by
      simp [Function.eval2, WAS_F, WAS_ABL]
    rw [e, hinh]
  · have e : Function.eval2
        (Arith.ofField Real.sin Real.cos Real.arctan Real.log).srcTrig
        (.MetaDet 2.7 5.4 .I (.MetaDet 2.7 5.4 .I .I WAS_F WAS_ABL) WAS_F WAS_ABL)
        (-1) 1
        = (Function.eval
            (Arith.ofField Real.sin Real.cos Real.arctan Real.log).srcTrig
            .I (-1) 1,
           Function.evalabl
            (Arith.ofField Real.sin Real.cos Real.arctan Real.log).srcTrig
            (.MetaDet 2.7 5.4 .I .I WAS_F WAS_ABL) (-1) 1) := by
      simp [Function.eval2, WAS_F, WAS_ABL]
    rw [e, hinh]

/-! ## The derivative outputs of the plain, non-detached variants -/

theorem FunctionI_hasDerivAt (x r : ℝ) :
    HasDerivAt (fun t => (Function.eval2
        (Arith.ofField Real.sin Real.cos Real.arctan Real.log) .I t r).1)
      (Function.eval2
        (Arith.ofField Real.sin Real.cos Real.arctan Real.log) .I x r).2 x := by
  simp only [Function.eval2, FunctionI.eval2, Arith.ofField, Int.cast_one]
  have h := ((hasDerivAt_id' x).const_mul r).mul
    ((hasDerivAt_const x (1 : ℝ)).sub (hasDerivAt_id' x))
  convert h using 1
  ring

theorem FunctionII_hasDerivAt (x r b b0 b20 : ℝ) :
    HasDerivAt (fun t => (Function.eval2
        (Arith.ofField Real.sin Real.cos Real.arctan Real.log)
        (Function.set_b (Arith.ofField Real.sin Real.cos Real.arctan Real.log)
          (.II b0 b20) b) t r).1)
      (Function.eval2
        (Arith.ofField Real.sin Real.cos Real.arctan Real.log)
        (Function.set_b (Arith.ofField Real.sin Real.cos Real.arctan Real.log)
          (.II b0 b20) b) x r).2 x := by
  simp only [Function.set_b, Function.eval2, FunctionII.eval2, Arith.ofField]
  have h1 : HasDerivAt (fun t : ℝ => t + r) 1 x := (hasDerivAt_id' x).add_const r
  have h := (h1.sin.const_mul b).mul h1.sin
  convert h using 1
  ring

theorem FunctionIII_hasDerivAt (x r b b0 b20 : ℝ) :
    HasDerivAt (fun t => (Function.eval2
        (Arith.ofField Real.sin Real.cos Real.arctan Real.log)
        (Function.set_b (Arith.ofField Real.sin Real.cos Real.arctan Real.log)
          (.III b0 b20) b) t r).1)
      (Function.eval2
        (Arith.ofField Real.sin Real.cos Real.arctan Real.log)
        (Function.set_b (Arith.ofField Real.sin Real.cos Real.arctan Real.log)
          (.III b0 b20) b) x r).2 x := by
  simp only [Function.set_b, Function.eval2, FunctionIII.eval2, Arith.ofField]
  have h1 : HasDerivAt (fun t : ℝ => t + r) 1 x := (hasDerivAt_id' x).add_const r
  have h2 : HasDerivAt (fun t : ℝ => t - r) 1 x := (hasDerivAt_id' x).sub_const r
  have h := (h1.sin.const_mul b).mul h2.sin
  convert h using 1
  have e : x + x = (x + r) + (x - r) := by ring
  rw [e, Real.sin_add]
  ring

theorem FunctionLSIN_hasDerivAt (x r b b0 b20 : ℝ) :
    HasDerivAt (fun t => (Function.eval2
        (Arith.ofField Real.sin Real.cos Real.arctan Real.log)
        (Function.set_b (Arith.ofField Real.sin Real.cos Real.arctan Real.log)
          (.LSIN b0 b20) b) t r).1)
      (Function.eval2
        (Arith.ofField Real.sin Real.cos Real.arctan Real.log)
        (Function.set_b (Arith.ofField Real.sin Real.cos Real.arctan Real.log)
          (.LSIN b0 b20) b) x r).2 x := by
  simp only [Function.set_b, Function.eval2, FunctionLSIN.eval2, Arith.ofField,
    Int.cast_one]
  have h0 : HasDerivAt (fun t : ℝ => t) 1 x := hasDerivAt_id' x
  have h1 : HasDerivAt (fun t : ℝ => t + r) 1 x := (hasDerivAt_id' x).add_const r
  have h := (h0.sin.const_mul r).mul
    ((hasDerivAt_const x (1 : ℝ)).sub (h1.sin.const_mul b))
  convert h using 1
  have e : x + x + r = x + (x + r) := by ring
  rw [e, Real.sin_add]
  ring

theorem FunctionATAN_hasDerivAt (x r b b0 b20 : ℝ) :
    HasDerivAt (fun t => (Function.eval2
        (Arith.ofField Real.sin Real.cos Real.arctan Real.log)
        (Function.set_b (Arith.ofField Real.sin Real.cos Real.arctan Real.log)
          (.ATAN b0 b20) b) t r).1)
      (Function.eval2
        (Arith.ofField Real.sin Real.cos Real.arctan Real.log)
        (Function.set_b (Arith.ofField Real.sin Real.cos Real.arctan Real.log)
          (.ATAN b0 b20) b) x r).2 x := by
  simp only [Function.set_b, Function.eval2, FunctionATAN.eval2, Arith.ofField,
    Int.cast_one]
  have h1 : HasDerivAt (fun t : ℝ => t + r) 1 x := (hasDerivAt_id' x).add_const r
  have h := ((h1.mul h1.sin).arctan).const_mul b
  convert h using 1
  rw [div_eq_mul_inv, one_div]
  ring

theorem FunctionSICO_hasDerivAt (x r b b0 b20 : ℝ) :
    HasDerivAt (fun t => (Function.eval2
        (Arith.ofField Real.sin Real.cos Real.arctan Real.log)
        (Function.set_b (Arith.ofField Real.sin Real.cos Real.arctan Real.log)
          (.SICO b0 b20) b) t r).1)
      (Function.eval2
        (Arith.ofField Real.sin Real.cos Real.arctan Real.log)
        (Function.set_b (Arith.ofField Real.sin Real.cos Real.arctan Real.log)
          (.SICO b0 b20) b) x r).2 x := by
  simp only [Function.set_b, Function.eval2, FunctionSICO.eval2, Arith.ofField,
    Int.cast_one]
  have h0 : HasDerivAt (fun t : ℝ => t) 1 x := hasDerivAt_id' x
  have h1 : HasDerivAt (fun t : ℝ => t + r) 1 x := (hasDerivAt_id' x).add_const r
  have h := ((h0.add (h1.cos.const_mul r)).sin).const_mul b
  convert h using 1
  ring

/-- **C9.** In real arithmetic with `fastsin`, `fastcos` and `atan` read as the
exact sine, cosine and arctangent, and with `b2 = b + b` as `set_b` leaves it:
for each of `FunctionI`, `FunctionII`, `FunctionIII`, `FunctionLSIN`,
`FunctionATAN` and `FunctionSICO`, and for all real `x`, `r` and `b`, the value
output of the two-output evaluation, as a function of `x`, has at `x` the
derivative that the evaluation returns as its derivative output. -/
theorem C9_plain_derivative_is_analytic (x r b b0 b20 : ℝ) :
    HasDerivAt (fun t => (Function.eval2
        (Arith.ofField Real.sin Real.cos Real.arctan Real.log) .I t r).1)
      (Function.eval2
        (Arith.ofField Real.sin Real.cos Real.arctan Real.log) .I x r).2 x ∧
    HasDerivAt (fun t => (Function.eval2
        (Arith.ofField Real.sin Real.cos Real.arctan Real.log)
        (Function.set_b (Arith.ofField Real.sin Real.cos Real.arctan Real.log)
          (.II b0 b20) b) t r).1)
      (Function.eval2
        (Arith.ofField Real.sin Real.cos Real.arctan Real.log)
        (Function.set_b (Arith.ofField Real.sin Real.cos Real.arctan Real.log)
          (.II b0 b20) b) x r).2 x ∧
    HasDerivAt (fun t => (Function.eval2
        (Arith.ofField Real.sin Real.cos Real.arctan Real.log)
        (Function.set_b (Arith.ofField Real.sin Real.cos Real.arctan Real.log)
          (.III b0 b20) b) t r).1)
      (Function.eval2
        (Arith.ofField Real.sin Real.cos Real.arctan Real.log)
        (Function.set_b (Arith.ofField Real.sin Real.cos Real.arctan Real.log)
          (.III b0 b20) b) x r).2 x ∧
    HasDerivAt (fun t => (Function.eval2
        (Arith.ofField Real.sin Real.cos Real.arctan Real.log)
        (Function.set_b (Arith.ofField Real.sin Real.cos Real.arctan Real.log)
          (.LSIN b0 b20) b) t r).1)
      (Function.eval2
        (Arith.ofField Real.sin Real.cos Real.arctan Real.log)
        (Function.set_b (Arith.ofField Real.sin Real.cos Real.arctan Real.log)
          (.LSIN b0 b20) b) x r).2 x ∧
    HasDerivAt (fun t => (Function.eval2
        (Arith.ofField Real.sin Real.cos Real.arctan Real.log)
        (Function.set_b (Arith.ofField Real.sin Real.cos Real.arctan Real.log)
          (.ATAN b0 b20) b) t r).1)
      (Function.eval2
        (Arith.ofField Real.sin Real.cos Real.arctan Real.log)
        (Function.set_b (Arith.ofField Real.sin Real.cos Real.arctan Real.log)
          (.ATAN b0 b20) b) x r).2 x ∧
    HasDerivAt (fun t => (Function.eval2
        (Arith.ofField Real.sin Real.cos Real.arctan Real.log)
        (Function.set_b (Arith.ofField Real.sin Real.cos Real.arctan Real.log)
          (.SICO b0 b20) b) t r).1)
      (Function.eval2
        (Arith.ofField Real.sin Real.cos Real.arctan Real.log)
        (Function.set_b (Arith.ofField Real.sin Real.cos Real.arctan Real.log)
          (.SICO b0 b20) b) x r).2 x :=
  ⟨FunctionI_hasDerivAt x r, FunctionII_hasDerivAt x r b b0 b20,
    FunctionIII_hasDerivAt x r b b0 b20, FunctionLSIN_hasDerivAt x r b b0 b20,
    FunctionATAN_hasDerivAt x r b b0 b20, FunctionSICO_hasDerivAt x r b b0 b20⟩

/-! ## The sections of the piecewise variant -/

/-- **C11.** In exact arithmetic, for the piecewise variant and every `x`: the
value-only evaluation is the interior child's value when `I0MIN ≤ x ≤ I0MAX`
(both bounds included) and the exterior child's value otherwise; the two-output
evaluation is the interior child's two-output evaluation, so its derivative the
interior child's derivative, when `I1MIN ≤ x ≤ I1MAX`, and the exterior child's
otherwise; and neither result changes when `setsections` replaces the other
pair of bounds. -/
theorem C11_sections_select_child {α : Type} [LinearOrderedField α]
    [FloorRing α] (sn cs atn lg : α → α) (b b2 i0min i1min i0max i1max : α)
    (fint fext : Function α) (x r : α) :
    Function.eval (Arith.ofField sn cs atn lg)
        (.MetaABSC b b2 i0min i1min i0max i1max fint fext) x r
      = (if i0min ≤ x ∧ x ≤ i0max then fint.eval (Arith.ofField sn cs atn lg) x r
         else fext.eval (Arith.ofField sn cs atn lg) x r) ∧
    (Function.eval2 (Arith.ofField sn cs atn lg)
        (.MetaABSC b b2 i0min i1min i0max i1max fint fext) x r).2
      = (if i1min ≤ x ∧ x ≤ i1max then
           (fint.eval2 (Arith.ofField sn cs atn lg) x r).2
         else (fext.eval2 (Arith.ofField sn cs atn lg) x r).2) ∧
    (∀ c d : α,
      Function.eval (Arith.ofField sn cs atn lg)
          ((Function.MetaABSC b b2 i0min i1min i0max i1max fint fext).setsections
            i0min i0max c d) x r
        = Function.eval (Arith.ofField sn cs atn lg)
          (.MetaABSC b b2 i0min i1min i0max i1max fint fext) x r) ∧
    (∀ c d : α,
      Function.eval2 (Arith.ofField sn cs atn lg)
          ((Function.MetaABSC b b2 i0min i1min i0max i1max fint fext).setsections
            c d i1min i1max) x r
        = Function.eval2 (Arith.ofField sn cs atn lg)
          (.MetaABSC b b2 i0min i1min i0max i1max fint fext) x r) := by
  refine ⟨?_, ?_, ?_, ?_⟩
  · simp only [Function.eval, Arith.ofField, Bool.or_eq_true, decide_eq_true_eq]
    by_cases h : i0min ≤ x ∧ x ≤ i0max
    · rw [if_pos h, if_neg (by rintro (h1 | h1) <;> [exact absurd h.2 (not_le.mpr h1); exact absurd h.1 (not_le.mpr h1)])]
    · rw [if_neg h, if_pos]
      by_contra hn
      push_neg at hn
      exact h ⟨hn.2, hn.1⟩
  · simp only [Function.eval2, Arith.ofField, Bool.or_eq_true, decide_eq_true_eq]
    by_cases h : i1min ≤ x ∧ x ≤ i1max
    · rw [if_pos h, if_neg (by rintro (h1 | h1) <;> [exact absurd h.2 (not_le.mpr h1); exact absurd h.1 (not_le.mpr h1)])]
    · rw [if_neg h, if_pos]
      by_contra hn
      push_neg at hn
      exact h ⟨hn.2, hn.1⟩
  · intro c d
    simp only [Function.setsections, Function.eval]
  · intro c d
    simp only [Function.setsections, Function.eval2]

/-! ## Parameter sweep -/

theorem IterDouble.after_succ {α : Type} (A : Arith α) (S : IterDouble α) (k : Nat) :
    S.after A (k + 1) = ((S.after A k).iterWeiter A).2 := by
  unfold IterDouble.after
  rw [loopN_succ_last]

/-- State of a sweep after `k` steps in exact arithmetic, as long as the
position stays within `int32_t`. -/
theorem IterDouble.after_exact {α : Type} [LinearOrderedField α] [FloorRing α]
    (sn cs atn lg : α → α) (S : IterDouble α) (k : Nat)
    (h0 : 0 ≤ S.nr) (h1 : S.nr + k < 2147483648) :
    S.after (Arith.ofField sn cs atn lg) k
      = { S with wert := S.wert + (k : α) * S.delta, nr := S.nr + k } := by
  induction k with
  | zero => simp [IterDouble.after, loopN]
  | succ k ih =>
    rw [IterDouble.after_succ, ih (by push_cast at h1; omega)]
    simp only [IterDouble.iterWeiter, Arith.ofField]
    have e : toInt32 (S.nr + (k : Int) + 1) = S.nr + ((k + 1 : Nat) : Int) := by
      push_cast at h1 ⊢
      unfold toInt32
      omega
    rw [e]
    congr 1
    push_cast
    ring

theorem IterDouble.ctor_delta {α : Type} [LinearOrderedField α] [FloorRing α]
    (sn cs atn lg : α → α) (l r : α) (n : Int) (hn : 2 ≤ n)
    (hnu : n < 2147483647) :
    (IterDouble.ctor (Arith.ofField sn cs atn lg) l r n).delta
      = (r - l) / ((n : α) - 1) := by
  have e : toInt32 (n - 1) = n - 1 := by
    unfold toInt32
    omega
  simp only [IterDouble.ctor, Arith.ofField, e]
  rw [if_neg (by omega)]
  push_cast
  rfl

/-- **C17 (amended).** In exact arithmetic, for `IterDouble(l, r, n)` with
`2 ≤ n` and `n` below the largest `int32_t`, `n < 2147483647`: `iterStart` returns 1 and leaves value `l` and
position 1; after `k < n` calls of `iterWeiter` the value is
`l + k*(r-l)/(n-1)` and the position `k+1`; the calls number `1` to `n-1`
return 1 and call number `n` returns 0; the value after `n-1` calls is `r`; and
`iterStart` on the exhausted object gives again the object that the first
`iterStart` gave. -/
theorem C17_sweep_values {α : Type} [LinearOrderedField α] [FloorRing α]
    (sn cs atn lg : α → α) (l r : α) (n : Int) (hn : 2 ≤ n)
    (hnu : n < 2147483647) :
    (IterDouble.ctor (Arith.ofField sn cs atn lg) l r n).iterStart.1 = 1 ∧
    (IterDouble.ctor (Arith.ofField sn cs atn lg) l r n).iterStart.2.wert = l ∧
    (IterDouble.ctor (Arith.ofField sn cs atn lg) l r n).iterStart.2.nr = 1 ∧
    (∀ k : Nat, (k : Int) < n →
      ((IterDouble.ctor (Arith.ofField sn cs atn lg) l r n).iterStart.2.after
          (Arith.ofField sn cs atn lg) k).wert
        = l + (k : α) * (r - l) / ((n : α) - 1) ∧
      ((IterDouble.ctor (Arith.ofField sn cs atn lg) l r n).iterStart.2.after
          (Arith.ofField sn cs atn lg) k).nr = (k : Int) + 1) ∧
    (∀ k : Nat, 1 ≤ k → (k : Int) < n →
      (((IterDouble.ctor (Arith.ofField sn cs atn lg) l r n).iterStart.2.after
          (Arith.ofField sn cs atn lg) (k - 1)).iterWeiter
        (Arith.ofField sn cs atn lg)).1 = 1) ∧
    (((IterDouble.ctor (Arith.ofField sn cs atn lg) l r n).iterStart.2.after
        (Arith.ofField sn cs atn lg) (n - 1).toNat).iterWeiter
      (Arith.ofField sn cs atn lg)).1 = 0 ∧
    ((IterDouble.ctor (Arith.ofField sn cs atn lg) l r n).iterStart.2.after
        (Arith.ofField sn cs atn lg) (n - 1).toNat).wert = r ∧
    (((IterDouble.ctor (Arith.ofField sn cs atn lg) l r n).iterStart.2.after
        (Arith.ofField sn cs atn lg) (n - 1).toNat).iterWeiter
      (Arith.ofField sn cs atn lg)).2.iterStart.2
      = (IterDouble.ctor (Arith.ofField sn cs atn lg) l r n).iterStart.2 := by
  have hd := IterDouble.ctor_delta sn cs atn lg l r n hn hnu
  have hafter : ∀ k : Nat, (k : Int) < n →
      (IterDouble.ctor (Arith.ofField sn cs atn lg) l r n).iterStart.2.after
          (Arith.ofField sn cs atn lg) k
        = { (IterDouble.ctor (Arith.ofField sn cs atn lg) l r n).iterStart.2 with
            wert := l + (k : α) * ((r - l) / ((n : α) - 1)),
            nr := 1 + (k : Int) } := by
    intro k hk
    have h := IterDouble.after_exact sn cs atn lg
      (IterDouble.ctor (Arith.ofField sn cs atn lg) l r n).iterStart.2 k
      (by simp [IterDouble.iterStart])
      (by simp only [IterDouble.iterStart]; omega)
    rw [h]
    simp only [IterDouble.iterStart, IterDouble.ctor, hd.symm]
  have hn1 : (((n - 1).toNat : Nat) : Int) = n - 1 := Int.toNat_of_nonneg (by omega)
  have hne : (n : α) - 1 ≠ 0 := by
    have : (1 : α) < (n : α) := by exact_mod_cast (by omega : (1 : Int) < n)
    linarith
  refine ⟨rfl, rfl, rfl, ?_, ?_, ?_, ?_, ?_⟩
  · intro k hk
    rw [hafter k hk]
    refine ⟨?_, by simp only []; omega⟩
    simp only []
    rw [mul_div_assoc]
  · intro k hk1 hk
    rw [hafter (k - 1) (by omega)]
    simp only [IterDouble.iterWeiter, IterDouble.iterStart, IterDouble.ctor]
    have e : toInt32 (1 + ((k - 1 : Nat) : Int) + 1) = (k : Int) + 1 := by
      unfold toInt32
      omega
    rw [e, if_neg (by omega)]
  · rw [hafter (n - 1).toNat (by omega)]
    simp only [IterDouble.iterWeiter, IterDouble.iterStart, IterDouble.ctor]
    have e : toInt32 (1 + (((n - 1).toNat : Nat) : Int) + 1) = n + 1 := by
      unfold toInt32
      omega
    rw [e, if_pos (by omega)]
  · rw [hafter (n - 1).toNat (by omega)]
    simp only []
    have e : (((n - 1).toNat : Nat) : α) = (n : α) - 1 := by
      have : ((((n - 1).toNat : Nat) : Int) : α) = ((n - 1 : Int) : α) := by rw [hn1]
      push_cast at this
      exact this
    rw [e, mul_div_cancel₀ _ hne]
    ring
  · rw [hafter (n - 1).toNat (by omega)]
    simp only [IterDouble.iterWeiter, IterDouble.iterStart, IterDouble.ctor]

/-- Witness of C17: the sweep from 0 to 1 in three values, in real arithmetic;
its third value is 1. -/
theorem C17_sweep_values_witness :
    (2 : Int) ≤ 3 ∧ (3 : Int) < 2147483647 ∧
    ((IterDouble.ctor (Arith.ofField Real.sin Real.cos Real.arctan Real.log)
        0 1 3).iterStart.2.after
      (Arith.ofField Real.sin Real.cos Real.arctan Real.log) 2).wert = 1 := by
  have h := (C17_sweep_values Real.sin Real.cos Real.arctan Real.log 0 1 3
    (by decide) (by decide)).2.2.2.2.2.2.1
  refine ⟨by decide, by decide, ?_⟩
  simpa using h

/-- **C17 (as stated, refuted).** The sweep `IterDouble(0, 1, 2147483647)` in
real arithmetic: after `iterStart` and `n-1 = 2147483646` calls of `iterWeiter`
the position is `2147483647 = anz`; the next call, number `n`, increments the
`int32_t` position beyond its largest value, the position wraps to
`-2147483648`, which is not above `anz`, and the call returns 1, not 0. -/
theorem C17_counterexample :
    ((IterDouble.ctor (Arith.ofField Real.sin Real.cos Real.arctan Real.log) 0 1
        2147483647).iterStart.2.after (Arith.ofField Real.sin Real.cos Real.arctan Real.log)
            2147483646).nr
      = 2147483647 ∧
    ((IterDouble.ctor (Arith.ofField Real.sin Real.cos Real.arctan Real.log) 0 1
        2147483647).iterStart.2.after (Arith.ofField Real.sin Real.cos Real.arctan Real.log)
            2147483646).anz
      = 2147483647 ∧
    (((IterDouble.ctor (Arith.ofField Real.sin Real.cos Real.arctan Real.log) 0 1
        2147483647).iterStart.2.after (Arith.ofField Real.sin Real.cos Real.arctan Real.log)
        2147483646).iterWeiter (Arith.ofField Real.sin Real.cos Real.arctan Real.log)).2.nr =
            -2147483648 ∧
    (((IterDouble.ctor (Arith.ofField Real.sin Real.cos Real.arctan Real.log) 0 1
        2147483647).iterStart.2.after (Arith.ofField Real.sin Real.cos Real.arctan Real.log)
        2147483646).iterWeiter (Arith.ofField Real.sin Real.cos Real.arctan Real.log)).1 = 1 :=
            by
  have h := IterDouble.after_exact Real.sin Real.cos Real.arctan Real.log
    (IterDouble.ctor (Arith.ofField Real.sin Real.cos Real.arctan Real.log) 0 1
        2147483647).iterStart.2 2147483646
    (by simp [IterDouble.iterStart]) (by simp [IterDouble.iterStart])
  have t : toInt32 2147483648 = -2147483648 := by decide
  rw [h]
  simp [IterDouble.iterWeiter, IterDouble.iterStart, IterDouble.ctor, t]


/-- **C18 (as stated, refuted).** The sweep `IterDouble(1, 1, 3)` in real
arithmetic: its second value equals its first, and its distance to `r` does not
shrink.  And the sweep `IterDouble(0, 1, 2147483647)`: its value number `n-1` is
`r = 1`; the call number `n` of `iterWeiter` still returns 1, since the
position wraps, and produces the value `1 + 1/2147483646`, which is farther
from `r` than its predecessor. -/
theorem C18_counterexample :
    ((IterDouble.ctor (Arith.ofField Real.sin Real.cos Real.arctan Real.log) 1 1
        3).iterStart.2.after (Arith.ofField Real.sin Real.cos Real.arctan Real.log) 1).wert
      = ((IterDouble.ctor (Arith.ofField Real.sin Real.cos Real.arctan Real.log) 1 1
          3).iterStart.2.after (Arith.ofField Real.sin Real.cos Real.arctan Real.log) 0).wert ∧
    ¬ (|1 - ((IterDouble.ctor (Arith.ofField Real.sin Real.cos Real.arctan Real.log) 1 1
        3).iterStart.2.after (Arith.ofField Real.sin Real.cos Real.arctan Real.log) 1).wert|
      < |1 - ((IterDouble.ctor (Arith.ofField Real.sin Real.cos Real.arctan Real.log) 1 1
          3).iterStart.2.after (Arith.ofField Real.sin Real.cos Real.arctan Real.log) 0).wert|)
              ∧
    ((IterDouble.ctor (Arith.ofField Real.sin Real.cos Real.arctan Real.log) 0 1
        2147483647).iterStart.2.after (Arith.ofField Real.sin Real.cos Real.arctan Real.log)
            2147483646).wert = 1 ∧
    (((IterDouble.ctor (Arith.ofField Real.sin Real.cos Real.arctan Real.log) 0 1
        2147483647).iterStart.2.after (Arith.ofField Real.sin Real.cos Real.arctan Real.log)
        2147483646).iterWeiter (Arith.ofField Real.sin Real.cos Real.arctan Real.log)).1 = 1 ∧
    (((IterDouble.ctor (Arith.ofField Real.sin Real.cos Real.arctan Real.log) 0 1
        2147483647).iterStart.2.after (Arith.ofField Real.sin Real.cos Real.arctan Real.log)
        2147483646).iterWeiter (Arith.ofField Real.sin Real.cos Real.arctan Real.log)).2.wert =
            1 + 1 / 2147483646 ∧
    ¬ (|1 - (((IterDouble.ctor (Arith.ofField Real.sin Real.cos Real.arctan Real.log) 0 1
        2147483647).iterStart.2.after (Arith.ofField Real.sin Real.cos Real.arctan Real.log)
          2147483646).iterWeiter (Arith.ofField Real.sin Real.cos Real.arctan Real.log)).2.wert|
      < |1 - ((IterDouble.ctor (Arith.ofField Real.sin Real.cos Real.arctan Real.log) 0 1
          2147483647).iterStart.2.after (Arith.ofField Real.sin Real.cos Real.arctan Real.log)
          2147483646).wert|) := by
  have e1 : ((IterDouble.ctor (Arith.ofField Real.sin Real.cos Real.arctan Real.log) 1 1
      3).iterStart.2.after (Arith.ofField Real.sin Real.cos Real.arctan Real.log) 1).wert = 1
          := by
    simp [IterDouble.after, loopN, IterDouble.iterWeiter, IterDouble.iterStart,
      IterDouble.ctor, Arith.ofField]
  have e0 : ((IterDouble.ctor (Arith.ofField Real.sin Real.cos Real.arctan Real.log) 1 1
      3).iterStart.2.after (Arith.ofField Real.sin Real.cos Real.arctan Real.log) 0).wert = 1
          := by
    simp [IterDouble.after, loopN, IterDouble.iterStart, IterDouble.ctor]
  have h := IterDouble.after_exact Real.sin Real.cos Real.arctan Real.log
    (IterDouble.ctor (Arith.ofField Real.sin Real.cos Real.arctan Real.log) 0 1
        2147483647).iterStart.2 2147483646
    (by simp [IterDouble.iterStart]) (by simp [IterDouble.iterStart])
  have t : toInt32 2147483648 = -2147483648 := by decide
  have t2 : toInt32 2147483646 = 2147483646 := by decide
  have v1 : ((IterDouble.ctor (Arith.ofField Real.sin Real.cos Real.arctan Real.log) 0 1
      2147483647).iterStart.2.after (Arith.ofField Real.sin Real.cos Real.arctan Real.log)
      2147483646).wert = 1 := by
    rw [h]
    simp [IterDouble.iterStart, IterDouble.ctor, Arith.ofField, t2]
  have v2 : (((IterDouble.ctor (Arith.ofField Real.sin Real.cos Real.arctan Real.log) 0 1
      2147483647).iterStart.2.after (Arith.ofField Real.sin Real.cos Real.arctan Real.log)
      2147483646).iterWeiter (Arith.ofField Real.sin Real.cos Real.arctan Real.log)).2.wert = 1
          + 1 / 2147483646 := by
    have e : (((IterDouble.ctor (Arith.ofField Real.sin Real.cos Real.arctan Real.log) 0 1
        2147483647).iterStart.2.after (Arith.ofField Real.sin Real.cos Real.arctan Real.log)
        2147483646).iterWeiter (Arith.ofField Real.sin Real.cos Real.arctan Real.log)).2.wert
        = ((IterDouble.ctor (Arith.ofField Real.sin Real.cos Real.arctan Real.log) 0 1
            2147483647).iterStart.2.after (Arith.ofField Real.sin Real.cos Real.arctan Real.log)
            2147483646).wert
          + ((IterDouble.ctor (Arith.ofField Real.sin Real.cos Real.arctan Real.log) 0 1
              2147483647).iterStart.2.after (Arith.ofField Real.sin Real.cos Real.arctan
                  Real.log)
            2147483646).delta := rfl
    rw [e, v1, h]
    simp [IterDouble.iterStart, IterDouble.ctor, Arith.ofField, t2]
  refine ⟨by rw [e1, e0], ?_, v1, ?_, v2, ?_⟩
  · rw [e1, e0]
    norm_num
  · rw [h]
    simp [IterDouble.iterWeiter, IterDouble.iterStart, IterDouble.ctor, t]
  · rw [v2, v1]
    norm_num

/-- **C18 (amended).** In exact arithmetic, for `IterDouble(l, r, n)` with
`2 ≤ n < 2147483647` and every `k` with `k + 1 < n`: the call number `k+1` of
`iterWeiter` after `iterStart` returns 1, and the call number `n` returns 0, so
that the values of the sweep are the values number `0` to `n-1`; when `l ≠ r`,
the value number `k+1` differs from its predecessor and is strictly closer to
`r`; when `l = r`, every one of the `n` values equals `l`. -/
theorem C18_sweep_strictly_toward_r {α : Type} [LinearOrderedField α]
    [FloorRing α] (sn cs atn lg : α → α) (l r : α) (n : Int) (hn : 2 ≤ n)
    (hnu : n < 2147483647) (k : Nat) (hk : (k : Int) + 1 < n) :
    (((IterDouble.ctor (Arith.ofField sn cs atn lg) l r n).iterStart.2.after (Arith.ofField sn
        cs atn lg) k).iterWeiter (Arith.ofField sn cs atn lg)).1 = 1 ∧
    (((IterDouble.ctor (Arith.ofField sn cs atn lg) l r n).iterStart.2.after (Arith.ofField sn
        cs atn lg) (n - 1).toNat).iterWeiter
      (Arith.ofField sn cs atn lg)).1 = 0 ∧
    (l ≠ r →
      ((IterDouble.ctor (Arith.ofField sn cs atn lg) l r n).iterStart.2.after (Arith.ofField sn
          cs atn lg) (k + 1)).wert
        ≠ ((IterDouble.ctor (Arith.ofField sn cs atn lg) l r n).iterStart.2.after
            (Arith.ofField sn cs atn lg) k).wert ∧
      |r - ((IterDouble.ctor (Arith.ofField sn cs atn lg) l r n).iterStart.2.after
          (Arith.ofField sn cs atn lg) (k + 1)).wert|
        < |r - ((IterDouble.ctor (Arith.ofField sn cs atn lg) l r n).iterStart.2.after
            (Arith.ofField sn cs atn lg) k).wert|) ∧
    (l = r →
      ∀ j : Nat, (j : Int) < n →
        ((IterDouble.ctor (Arith.ofField sn cs atn lg) l r n).iterStart.2.after (Arith.ofField
            sn cs atn lg) j).wert = l) := by
  have hd := IterDouble.ctor_delta sn cs atn lg l r n hn hnu
  have hst : ∀ j : Nat, (j : Int) < n →
      (IterDouble.ctor (Arith.ofField sn cs atn lg) l r n).iterStart.2.after (Arith.ofField sn
          cs atn lg) j
        = { (IterDouble.ctor (Arith.ofField sn cs atn lg) l r n).iterStart.2 with
            wert := l + (j : α) * ((r - l) / ((n : α) - 1)),
            nr := 1 + (j : Int) } := by
    intro j hj
    rw [IterDouble.after_exact sn cs atn lg _ j (by simp [IterDouble.iterStart])
      (by simp only [IterDouble.iterStart]; omega)]
    simp only [IterDouble.iterStart, IterDouble.ctor, hd.symm]
  have hv : ∀ j : Nat, (j : Int) < n →
      ((IterDouble.ctor (Arith.ofField sn cs atn lg) l r n).iterStart.2.after (Arith.ofField sn
          cs atn lg) j).wert
        = l + (j : α) * ((r - l) / ((n : α) - 1)) := by
    intro j hj
    rw [hst j hj]
  have hm : (0 : α) < (n : α) - 1 := by
    have : (1 : α) < (n : α) := by exact_mod_cast (by omega : (1 : Int) < n)
    linarith
  have hkm : ((k : α) + 1) ≤ (n : α) - 1 := by
    have : ((k : Int) : α) + 1 + 1 ≤ (n : α) := by
      exact_mod_cast (by omega : (k : Int) + 1 + 1 ≤ n)
    simp only [Int.cast_natCast] at this
    linarith
  refine ⟨?_, ?_, ?_, ?_⟩
  · rw [hst k (by omega)]
    simp only [IterDouble.iterWeiter, IterDouble.iterStart, IterDouble.ctor]
    have e : toInt32 (1 + (k : Int) + 1) = (k : Int) + 2 := by
      unfold toInt32
      omega
    rw [e, if_neg (by omega)]
  · rw [hst (n - 1).toNat (by omega)]
    simp only [IterDouble.iterWeiter, IterDouble.iterStart, IterDouble.ctor]
    have e : toInt32 (1 + (((n - 1).toNat : Nat) : Int) + 1) = n + 1 := by
      unfold toInt32
      omega
    rw [e, if_pos (by omega)]
  · intro hlr
    have hdne : (r - l) / ((n : α) - 1) ≠ 0 :=
      div_ne_zero (sub_ne_zero.mpr (Ne.symm hlr)) (ne_of_gt hm)
    have hrl : r - l = (r - l) / ((n : α) - 1) * ((n : α) - 1) :=
      (div_mul_cancel₀ _ (ne_of_gt hm)).symm
    rw [hv (k + 1) (by push_cast; omega), hv k (by omega)]
    push_cast
    refine ⟨?_, ?_⟩
    · intro h
      apply hdne
      linarith
    · have e1 : r - (l + ((k : α) + 1) * ((r - l) / ((n : α) - 1)))
          = (r - l) / ((n : α) - 1) * ((n : α) - 1 - ((k : α) + 1)) := by
        rw [mul_sub, ← hrl]; ring
      have e0 : r - (l + (k : α) * ((r - l) / ((n : α) - 1)))
          = (r - l) / ((n : α) - 1) * ((n : α) - 1 - (k : α)) := by
        rw [mul_sub, ← hrl]; ring
      rw [e1, e0, abs_mul, abs_mul,
        abs_of_nonneg (by linarith : (0 : α) ≤ (n : α) - 1 - ((k : α) + 1)),
        abs_of_nonneg (by linarith : (0 : α) ≤ (n : α) - 1 - (k : α))]
      have hpos : 0 < |(r - l) / ((n : α) - 1)| := abs_pos.mpr hdne
      nlinarith
  · intro hlr j hj
    rw [hv j hj, hlr]
    simp

/-- Witness of C18 (amended): the sweep from 0 to 1 in three values, first
step. -/
theorem C18_sweep_strictly_toward_r_witness :
    (2 : Int) ≤ 3 ∧ (3 : Int) < 2147483647 ∧ (0 : ℝ) ≠ 1 ∧ ((0 : Nat) : Int) + 1 < 3 ∧
    ((IterDouble.ctor (Arith.ofField Real.sin Real.cos Real.arctan Real.log) 0 1
        3).iterStart.2.after (Arith.ofField Real.sin Real.cos Real.arctan Real.log) (0 +
            1)).wert
    ≠ ((IterDouble.ctor (Arith.ofField Real.sin Real.cos Real.arctan Real.log) 0 1
        3).iterStart.2.after (Arith.ofField Real.sin Real.cos Real.arctan Real.log) 0).wert :=
  ⟨by decide, by decide, by norm_num, by decide,
    ((C18_sweep_strictly_toward_r Real.sin Real.cos Real.arctan Real.log 0 1 3
      (by decide) (by decide) 0 (by decide)).2.2.1 (by norm_num)).1⟩

/-! ## Sweeps bound to a map function -/

/-- **C19 (as stated, refuted).** `FunctionI`, which has no parameter, with no
sweep bound: `iterStart` returns 1.  And `FunctionII` bound to the exhausted
sweep `IterDouble(0, 1, 2)` after two steps (position 3 of 2, `iterWeiter`
returns 0): `iterStart` returns 1. -/
theorem C19_counterexample :
    (Function.iterStart (Arith.ofField Real.sin Real.cos Real.arctan Real.log)
      .I none).1 = 1 ∧
    (Function.iterWeiter (Arith.ofField Real.sin Real.cos Real.arctan Real.log)
      (.II 2.7 5.4)
      (some ((IterDouble.ctor (Arith.ofField Real.sin Real.cos Real.arctan Real.log)
        0 1 2).iterStart.2.after
        (Arith.ofField Real.sin Real.cos Real.arctan Real.log) 2))).1 = 0 ∧
    (Function.iterStart (Arith.ofField Real.sin Real.cos Real.arctan Real.log)
      (.II 2.7 5.4)
      (some ((IterDouble.ctor (Arith.ofField Real.sin Real.cos Real.arctan Real.log)
        0 1 2).iterStart.2.after
        (Arith.ofField Real.sin Real.cos Real.arctan Real.log) 2))).1 = 1 := by
  refine ⟨rfl, ?_, ?_⟩
  · simp [Function.iterWeiter, IterDouble.after, loopN, IterDouble.iterWeiter,
      IterDouble.iterStart, IterDouble.ctor, toInt32]
  · simp [Function.iterStart, IterDouble.iterStart]

/-- **C19 (amended).** For every variant with a shape parameter (every class
but `FunctionI`): with no sweep bound `iterStart` and `iterWeiter` return 0 and
change nothing; with a sweep bound `iterStart` restarts the sweep, whatever its
position, returns 1 and applies `set_b` with the sweep's first value `l`;
`iterWeiter` steps the sweep, returns 0 and leaves the function as it is when
the step leaves the position above `anz`, and otherwise returns 1 and applies
`set_b` with the sweep's new value; `set_b` on a composed or piecewise object is
`set_b` on both children.  `FunctionI`, which has no parameter, returns 1 from
`iterStart` and 0 from `iterWeiter`, with or without a sweep, and changes
nothing. -/
theorem C19_sweep_binding {α : Type} (A : Arith α) (f : Function α)
    (hf : f.hasParam = true) (S : IterDouble α) :
    Function.iterStart A f none = (0, f, none) ∧
    Function.iterWeiter A f none = (0, f, none) ∧
    Function.iterStart A f (some S)
      = (1, f.set_b A S.l, some { S with wert := S.l, nr := 1 }) ∧
    ((S.iterWeiter A).1 = 0 ↔ toInt32 (S.nr + 1) > S.anz) ∧
    (toInt32 (S.nr + 1) > S.anz →
      Function.iterWeiter A f (some S) = (0, f, some (S.iterWeiter A).2)) ∧
    (¬ toInt32 (S.nr + 1) > S.anz →
      Function.iterWeiter A f (some S)
        = (1, f.set_b A (A.add S.wert S.delta), some (S.iterWeiter A).2)) ∧
    (∀ (b b2 : α) (g h : Function α) (fw aw : Int) (d : α),
      Function.set_b A (.MetaDet b b2 g h fw aw) d
        = .MetaDet b b2 (g.set_b A d) (h.set_b A d) fw aw) ∧
    (∀ (b b2 i0 i1 j0 j1 : α) (g h : Function α) (d : α),
      Function.set_b A (.MetaABSC b b2 i0 i1 j0 j1 g h) d
        = .MetaABSC b b2 i0 i1 j0 j1 (g.set_b A d) (h.set_b A d)) ∧
    (∀ it : Option (IterDouble α),
      Function.iterStart A .I it = (1, .I, it) ∧
      Function.iterWeiter A .I it = (0, .I, it)) := by
  have hex : (S.iterWeiter A).1 = 0 ↔ toInt32 (S.nr + 1) > S.anz := by
    simp only [IterDouble.iterWeiter]
    constructor
    · intro h
      by_contra hn
      rw [if_neg hn] at h
      exact absurd h (by decide)
    · intro h
      rw [if_pos h]
  refine ⟨?_, ?_, ?_, hex, ?_, ?_, ?_, ?_, ?_⟩
  · cases f with
    | I => simp [Function.hasParam] at hf
    | _ => rfl
  · cases f with
    | I => simp [Function.hasParam] at hf
    | _ => rfl
  · cases f with
    | I => simp [Function.hasParam] at hf
    | _ => simp [Function.iterStart, IterDouble.iterStart]
  · intro h
    have h0 := hex.mpr h
    cases f with
    | I => simp [Function.hasParam] at hf
    | _ => simp [Function.iterWeiter, h0]
  · intro h
    have h0 : (S.iterWeiter A).1 ≠ 0 := fun e => h (hex.mp e)
    have hw : (S.iterWeiter A).2.wert = A.add S.wert S.delta := rfl
    cases f with
    | I => simp [Function.hasParam] at hf
    | _ => simp [Function.iterWeiter, h0, hw]
  · intro b b2 g h fw aw d
    rfl
  · intro b b2 i0 i1 j0 j1 g h d
    rfl
  · intro it
    cases it <;> exact ⟨rfl, rfl⟩

/-- Witness of C19 (amended): `FunctionII` bound to a fresh sweep from 0 to 1 in
three values; `iterStart` returns 1 and sets `b = 0`, `b2 = 0 + 0`. -/
theorem C19_sweep_binding_witness :
    Function.hasParam (Function.II (2.7 : ℝ) 5.4) = true ∧
    Function.iterStart (Arith.ofField Real.sin Real.cos Real.arctan Real.log)
      (.II 2.7 5.4)
      (some (IterDouble.ctor
        (Arith.ofField Real.sin Real.cos Real.arctan Real.log) 0 1 3))
    = (1, .II 0 (0 + 0),
       some { IterDouble.ctor
                (Arith.ofField Real.sin Real.cos Real.arctan Real.log) 0 1 3 with
              wert := 0, nr := 1 }) :=
  ⟨rfl, (C19_sweep_binding (Arith.ofField Real.sin Real.cos Real.arctan Real.log)
    (.II 2.7 5.4) rfl (IterDouble.ctor
      (Arith.ofField Real.sin Real.cos Real.arctan Real.log) 0 1 3)).2.2.1⟩

/-! ## Grid size -/

theorem shiftRight_two (i : Int) : i >>> (2 : Nat) = i / 4 := by
  rw [Int.shiftRight_eq_div_pow]
  norm_num

theorem setlenDim_spec (v : Int) (h0 : 0 ≤ v) (h1 : v < 2147483648) :
    setlenDim v = 4 * (v / 4) := by
  unfold setlenDim
  rw [shiftRight_two]
  unfold toInt32
  omega

/-- **C20.** For requests `0 ≤ xl, yl < 2^31`: the `lenx` and `leny` that
`setlen` computes are `4*floor(xl/4)` and `4*floor(yl/4)`, each the largest
multiple of 4 not above its own request; computing them again from themselves
changes nothing; and whenever their product fits `int32_t`, `setlen` returns a
field with these two sizes, on which `setlen` with its own sizes yields the same
sizes again. -/
theorem C20_setlen_multiple_of_four {α : Type} (L : Ljapunow α)
    (fresh : Nat → α) (xl yl : Int)
    (hx : 0 ≤ xl) (hxu : xl < 2147483648) (hy : 0 ≤ yl) (hyu : yl < 2147483648) :
    setlenDim xl = 4 * (xl / 4) ∧ setlenDim yl = 4 * (yl / 4) ∧
    (4 ∣ setlenDim xl ∧ setlenDim xl ≤ xl ∧
      ∀ m : Int, 4 ∣ m → m ≤ xl → m ≤ setlenDim xl) ∧
    (4 ∣ setlenDim yl ∧ setlenDim yl ≤ yl ∧
      ∀ m : Int, 4 ∣ m → m ≤ yl → m ≤ setlenDim yl) ∧
    setlenDim (setlenDim xl) = setlenDim xl ∧
    setlenDim (setlenDim yl) = setlenDim yl ∧
    (setlenDim xl * setlenDim yl < 2147483648 →
      ∃ L1 L2, L.setlen fresh xl yl = some L1 ∧
        L1.lenx = setlenDim xl ∧ L1.leny = setlenDim yl ∧
        L1.setlen fresh L1.lenx L1.leny = some L2 ∧
        L2.lenx = L1.lenx ∧ L2.leny = L1.leny) := by
  have ex := setlenDim_spec xl hx hxu
  have ey := setlenDim_spec yl hy hyu
  have ix : setlenDim (setlenDim xl) = setlenDim xl := by
    rw [setlenDim_spec (setlenDim xl) (by rw [ex]; omega) (by rw [ex]; omega), ex]
    omega
  have iy : setlenDim (setlenDim yl) = setlenDim yl := by
    rw [setlenDim_spec (setlenDim yl) (by rw [ey]; omega) (by rw [ey]; omega), ey]
    omega
  refine ⟨ex, ey, ⟨?_, ?_, ?_⟩, ⟨?_, ?_, ?_⟩, ix, iy, ?_⟩
  · rw [ex]; exact Dvd.intro _ rfl
  · rw [ex]; omega
  · intro m hm hle
    rw [ex]
    omega
  · rw [ey]; exact Dvd.intro _ rfl
  · rw [ey]; omega
  · intro m hm hle
    rw [ey]
    omega
  · intro hprod
    have hnn : 0 ≤ setlenDim xl * setlenDim yl :=
      mul_nonneg (by rw [ex]; omega) (by rw [ey]; omega)
    have hn : ¬ toInt32 (setlenDim xl * setlenDim yl) < 0 := by
      rw [toInt32_of_small _ hnn hprod]
      omega
    refine ⟨{ L with
        lenx := setlenDim xl, leny := setlenDim yl,
        exps := (List.range (toInt32 (setlenDim xl * setlenDim yl)).toNat).map
          fresh },
      { L with
        lenx := setlenDim xl, leny := setlenDim yl,
        exps := (List.range (toInt32 (setlenDim xl * setlenDim yl)).toNat).map
          fresh }, ?_, rfl, rfl, ?_, rfl, rfl⟩
    · simp only [Ljapunow.setlen]
      rw [if_neg hn]
    · simp only [Ljapunow.setlen, ix, iy]
      rw [if_neg hn]

/-- Witness of C20: `setlen(601, 603)` on the sample field gives a field of
size 600 by 600. -/
theorem C20_setlen_multiple_of_four_witness :
    (0 : Int) ≤ 601 ∧ (601 : Int) < 2147483648 ∧
    (0 : Int) ≤ 603 ∧ (603 : Int) < 2147483648 ∧
    setlenDim 601 = 600 ∧ setlenDim 603 = 600 ∧
    ∃ L1, (sampleField (Arith.ofField Real.sin Real.cos Real.arctan Real.log)).setlen
        (fun _ => 0) 601 603 = some L1 ∧ L1.lenx = 600 ∧ L1.leny = 600 := by
  have h := C20_setlen_multiple_of_four
    (sampleField (Arith.ofField Real.sin Real.cos Real.arctan Real.log))
    (fun _ => 0) 601 603 (by decide) (by decide) (by decide) (by decide)
  have e1 : setlenDim 601 = 600 := by rw [h.1]; decide
  have e2 : setlenDim 603 = 600 := by rw [h.2.1]; decide
  obtain ⟨L1, _, h1, h2, h3, _⟩ := h.2.2.2.2.2.2 (by rw [e1, e2]; decide)
  exact ⟨by decide, by decide, by decide, by decide, e1, e2, L1, h1,
    by rw [h2, e1], by rw [h3, e2]⟩

/-! ## Colour intervals -/

theorem ColIntv.farbe_eq {α : Type} (A : Arith α) (p : ColIntv α) (w : α)
    (out : RGB) :
    p.farbe A w out
      = if p.contains A w then (1, p.colourAt A w) else (0, out) := rfl

/-- The loop over the stored intervals returns the colour of the first interval
whose range test succeeds, and `(0, out)` when there is none. -/
theorem IntervalColoring.scan_find {α : Type} (A : Arith α) (w : α)
    (ps : List (ColIntv α)) (out : RGB) :
    IntervalColoring.scan A w ps out
      = match ps.find? (fun p => p.contains A w) with
        | some p => (1, p.colourAt A w)
        | none => (0, out) := by
  induction ps with
  | nil => rfl
  | cons p ps ih =>
    simp only [IntervalColoring.scan, ColIntv.farbe_eq, List.find?_cons]
    by_cases h : p.contains A w = true
    · simp [h]
    · have h2 : p.contains A w = false := by simpa using h
      simp [h2, ih]

theorem IntervalColoring.scan_first {α : Type} (A : Arith α) (w : α)
    (pre post : List (ColIntv α)) (p : ColIntv α) (out : RGB)
    (hpre : ∀ q ∈ pre, q.contains A w = false) (hp : p.contains A w = true) :
    IntervalColoring.scan A w (pre ++ p :: post) out = (1, p.colourAt A w) := by
  induction pre with
  | nil =>
    simp [IntervalColoring.scan, ColIntv.farbe_eq, hp]
  | cons q pre ih =>
    have hq : q.contains A w = false := hpre q (by simp)
    simp only [List.cons_append, IntervalColoring.scan, ColIntv.farbe_eq, hq]
    simp only [Bool.false_eq_true, if_false]
    rw [if_neg (by decide)]
    exact ih (fun r hr => hpre r (by simp [hr]))

theorem IntervalColoring.scan_none {α : Type} (A : Arith α) (w : α)
    (ps : List (ColIntv α)) (out : RGB)
    (h : ∀ q ∈ ps, q.contains A w = false) :
    IntervalColoring.scan A w ps out = (0, out) := by
  induction ps with
  | nil => rfl
  | cons q ps ih =>
    have hq : q.contains A w = false := h q (by simp)
    simp only [IntervalColoring.scan, ColIntv.farbe_eq, hq]
    simp only [Bool.false_eq_true, if_false]
    rw [if_neg (by decide)]
    exact ih (fun r hr => h r (by simp [hr]))

/-- **C12.** For every colouring, every `w` and every content `out` of the
output channels: `farbe` returns 1 with the below-colour `(lr, lg, lb)` when
`w < mingl`; else 1 with the above-colour `(rr, rg, rb)` when `w > maxgl`; else
1 with the colour of the first stored interval, in stored order, whose range
test `gl <= w < gr` succeeds, whatever later intervals also contain `w`; and 0
with the channels left at `out` when no stored interval contains `w`. -/
theorem C12_colour_lookup {α : Type} (A : Arith α) (C : IntervalColoring α)
    (w : α) (out : RGB) :
    C.farbe A w out
      = (if A.lt w C.mingl then ((1 : Int), { r := C.lr, g := C.lg, b := C.lb })
         else if A.lt C.maxgl w then (1, { r := C.rr, g := C.rg, b := C.rb })
         else match C.ints.find? (fun p => p.contains A w) with
              | some p => (1, p.colourAt A w)
              | none => (0, out)) ∧
    (∀ (pre post : List (ColIntv α)) (p : ColIntv α),
      C.ints = pre ++ p :: post → (∀ q ∈ pre, q.contains A w = false) →
      p.contains A w = true → A.lt w C.mingl = false → A.lt C.maxgl w = false →
      C.farbe A w out = (1, p.colourAt A w)) ∧
    ((∀ q ∈ C.ints, q.contains A w = false) → A.lt w C.mingl = false →
      A.lt C.maxgl w = false → C.farbe A w out = (0, out)) := by
  refine ⟨?_, ?_, ?_⟩
  · unfold IntervalColoring.farbe
    rw [IntervalColoring.scan_find]
  · intro pre post p hsplit hpre hp h1 h2
    unfold IntervalColoring.farbe
    rw [h1, h2, hsplit]
    simp only [Bool.false_eq_true, if_false]
    exact IntervalColoring.scan_first A w pre post p out hpre hp
  · intro hall h1 h2
    unfold IntervalColoring.farbe
    rw [h1, h2]
    simp only [Bool.false_eq_true, if_false]
    exact IntervalColoring.scan_none A w C.ints out hall

theorem IntervalColoring.addAll_nil {α : Type} (A : Arith α)
    (C : IntervalColoring α) : C.addAll A [] = C := rfl

theorem IntervalColoring.addAll_cons {α : Type} (A : Arith α)
    (C : IntervalColoring α) (p : ColIntv α) (ps : List (ColIntv α)) :
    C.addAll A (p :: ps) = (C.Addintervall A p).2.addAll A ps := rfl

theorem IntervalColoring.Addintervall_length_le {α : Type} (A : Arith α)
    (C : IntervalColoring α) (p : ColIntv α) (h : C.intanz ≤ MAXINTANZ) :
    (C.Addintervall A p).2.intanz ≤ MAXINTANZ := by
  unfold IntervalColoring.Addintervall
  by_cases hlt : C.intanz < MAXINTANZ
  · rw [if_pos hlt]
    simp only [IntervalColoring.intanz, List.length_append, List.length_cons,
      List.length_nil] at hlt ⊢
    omega
  · rw [if_neg hlt]
    exact h

theorem IntervalColoring.addAll_length_le {α : Type} (A : Arith α)
    (ps : List (ColIntv α)) :
    ∀ C : IntervalColoring α, C.intanz ≤ MAXINTANZ →
      (C.addAll A ps).intanz ≤ MAXINTANZ := by
  induction ps with
  | nil => intro C h; exact h
  | cons p ps ih =>
    intro C h
    rw [IntervalColoring.addAll_cons]
    exact ih _ (IntervalColoring.Addintervall_length_le A C p h)

/-- **C15.** `Addintervall` returns 1 exactly when fewer than `MAXINTANZ = 32`
intervals are stored, and then stores the new interval behind the others; when
32 (or more) are stored it returns 0 and the object is unchanged, with its
intervals, their order, their number, `mingl` and `maxgl`; and the number of
stored intervals, 0 after the constructor and after `clear`, stays at most 32
through every sequence of `Addintervall` calls. -/
theorem C15_addintervall_bounded {α : Type} (A : Arith α)
    (C junk : IntervalColoring α) (p : ColIntv α) (ps : List (ColIntv α)) :
    MAXINTANZ = 32 ∧
    ((C.Addintervall A p).1 = 1 ↔ C.intanz < 32) ∧
    (C.intanz < 32 →
      (C.Addintervall A p).2.ints = C.ints ++ [p] ∧
      (C.Addintervall A p).2.intanz = C.intanz + 1) ∧
    (¬ C.intanz < 32 → C.Addintervall A p = (0, C)) ∧
    (IntervalColoring.ctor A junk).intanz = 0 ∧
    C.clear.intanz = 0 ∧
    ((IntervalColoring.ctor A junk).addAll A ps).intanz ≤ 32 ∧
    (C.clear.addAll A ps).intanz ≤ 32 ∧
    (C.intanz ≤ 32 → (C.addAll A ps).intanz ≤ 32) := by
  refine ⟨rfl, ?_, ?_, ?_, rfl, rfl, ?_, ?_, ?_⟩
  · unfold IntervalColoring.Addintervall
    by_cases hlt : C.intanz < MAXINTANZ
    · rw [if_pos hlt]
      exact ⟨fun _ => hlt, fun _ => rfl⟩
    · rw [if_neg hlt]
      exact ⟨fun h => by simp at h, fun h => absurd h hlt⟩
  · intro hlt
    have hlt2 : C.intanz < MAXINTANZ := hlt
    unfold IntervalColoring.Addintervall
    rw [if_pos hlt2]
    exact ⟨rfl, by simp [IntervalColoring.intanz]⟩
  · intro hlt
    have hlt2 : ¬ C.intanz < MAXINTANZ := hlt
    unfold IntervalColoring.Addintervall
    rw [if_neg hlt2]
  · exact IntervalColoring.addAll_length_le A ps _ (Nat.zero_le _)
  · exact IntervalColoring.addAll_length_le A ps _ (Nat.zero_le _)
  · intro h
    exact IntervalColoring.addAll_length_le A ps C h

theorem toInt32_of_inInt32 (z : Int) (h : inInt32 z) : toInt32 z = z := by
  obtain ⟨h0, h1⟩ := h
  unfold toInt32
  omega

/-- Truncation toward zero of `t*d` for `0 ≤ t ≤ 1` lies between 0 and `d`. -/
theorem truncZero_between {α : Type} [LinearOrderedField α] [FloorRing α]
    (t : α) (d : Int) (h0 : 0 ≤ t) (h1 : t ≤ 1) :
    (0 ≤ d → 0 ≤ truncZero (t * (d : α)) ∧ truncZero (t * (d : α)) ≤ d) ∧
    (d ≤ 0 → d ≤ truncZero (t * (d : α)) ∧ truncZero (t * (d : α)) ≤ 0) := by
  constructor
  · intro hd
    have hdc : (0 : α) ≤ (d : α) := by exact_mod_cast hd
    have ha : 0 ≤ t * (d : α) := mul_nonneg h0 hdc
    have hle : t * (d : α) ≤ (d : α) := by nlinarith
    unfold truncZero
    rw [if_pos ha]
    refine ⟨Int.floor_nonneg.mpr ha, ?_⟩
    have := (Int.floor_le (t * (d : α))).trans hle
    exact_mod_cast this
  · intro hd
    have hdc : (d : α) ≤ 0 := by exact_mod_cast hd
    have ha : t * (d : α) ≤ 0 := by nlinarith
    have hge : (d : α) ≤ t * (d : α) := by nlinarith
    unfold truncZero
    by_cases hz : 0 ≤ t * (d : α)
    · rw [if_pos hz]
      have e : t * (d : α) = 0 := le_antisymm ha hz
      rw [e, Int.floor_zero]
      exact ⟨hd, le_refl _⟩
    · rw [if_neg hz]
      refine ⟨?_, ?_⟩
      · have := hge.trans (Int.le_ceil (t * (d : α)))
        exact_mod_cast this
      · apply Int.ceil_le.mpr
        simpa using ha

/-- One channel of `ColIntv::farbe` without overflow. -/
theorem channel_exact {α : Type} [LinearOrderedField α] [FloorRing α]
    (t : α) (l rgt : Int) (h0 : 0 ≤ t) (h1 : t ≤ 1)
    (hl : inInt32 l) (hr : inInt32 rgt) (hd : inInt32 (rgt - l)) :
    toInt32 (l + truncZero (t * ((toInt32 (rgt - l) : Int) : α)))
      = l + truncZero (t * ((rgt - l : Int) : α)) := by
  rw [toInt32_of_inInt32 _ hd]
  obtain ⟨b1, b2⟩ := truncZero_between t (rgt - l) h0 h1
  apply toInt32_of_inInt32
  obtain ⟨hl0, hl1⟩ := hl
  obtain ⟨hr0, hr1⟩ := hr
  unfold inInt32
  by_cases hs : 0 ≤ rgt - l
  · obtain ⟨c1, c2⟩ := b1 hs
    omega
  · obtain ⟨c1, c2⟩ := b2 (by omega)
    omega

theorem ColIntv.contains_exact {α : Type} [LinearOrderedField α] [FloorRing α]
    (sn cs atn lg : α → α) (p : ColIntv α) (w : α) :
    p.contains (Arith.ofField sn cs atn lg) w = true ↔ (p.gl ≤ w ∧ w < p.gr) := by
  simp [ColIntv.contains, Arith.ofField]

/-- The colour that a configured interval without overflow writes, in exact
arithmetic. -/
theorem ColIntv.colourAt_exact {α : Type} [LinearOrderedField α] [FloorRing α]
    (sn cs atn lg : α → α) (p : ColIntv α)
    (hc : p.Configured (Arith.ofField sn cs atn lg)) (hr : p.rgbOK) (w : α)
    (h1 : p.gl ≤ w) (h2 : w < p.gr) :
    p.colourAt (Arith.ofField sn cs atn lg) w
      = { r := p.lr + truncZero ((w - p.gl) / (p.gr - p.gl)
                * ((p.rr - p.lr : Int) : α)),
          g := p.lg + truncZero ((w - p.gl) / (p.gr - p.gl)
                * ((p.rg - p.lg : Int) : α)),
          b := p.lb + truncZero ((w - p.gl) / (p.gr - p.gl)
                * ((p.rb - p.lb : Int) : α)) } := by
  obtain ⟨cb, cr, cg, cbl⟩ := hc
  obtain ⟨r1, r2, r3, r4, r5, r6, r7, r8, r9⟩ := hr
  have hb : p.breite = p.gr - p.gl := cb
  have hpos : 0 < p.gr - p.gl := by linarith
  have t0 : 0 ≤ (w - p.gl) / (p.gr - p.gl) := div_nonneg (by linarith) (le_of_lt hpos)
  have t1 : (w - p.gl) / (p.gr - p.gl) ≤ 1 := by
    rw [div_le_one hpos]
    linarith
  unfold ColIntv.colourAt
  simp only [Arith.ofField, hb, cr, cg, cbl]
  rw [channel_exact _ p.lr p.rr t0 t1 r1 r4 r7,
    channel_exact _ p.lg p.rg t0 t1 r2 r5 r8,
    channel_exact _ p.lb p.rb t0 t1 r3 r6 r9]

/-- **C13 (amended).** In exact arithmetic, for every interval whose members the setters
have brought in step (`breite = gr - gl`, differences `right - left`) and whose
channels and channel differences fit `int32_t`, and for every `w`: `farbe`
returns 1 exactly when `gl ≤ w < gr`; then each channel is
`left + trunc(((w-gl)/(gr-gl)) * (right-left))` with truncation toward zero, at
`w = gl` the left colour itself; otherwise it returns 0 and the channels keep
what they held. -/
theorem C13_interval_colour {α : Type} [LinearOrderedField α] [FloorRing α]
    (sn cs atn lg : α → α) (p : ColIntv α)
    (hc : p.Configured (Arith.ofField sn cs atn lg)) (hr : p.rgbOK)
    (w : α) (out : RGB) :
    ((p.farbe (Arith.ofField sn cs atn lg) w out).1 = 1 ↔ (p.gl ≤ w ∧ w < p.gr)) ∧
    (p.gl ≤ w → w < p.gr →
      p.farbe (Arith.ofField sn cs atn lg) w out
        = (1, { r := p.lr + truncZero ((w - p.gl) / (p.gr - p.gl)
                      * ((p.rr - p.lr : Int) : α)),
                g := p.lg + truncZero ((w - p.gl) / (p.gr - p.gl)
                      * ((p.rg - p.lg : Int) : α)),
                b := p.lb + truncZero ((w - p.gl) / (p.gr - p.gl)
                      * ((p.rb - p.lb : Int) : α)) })) ∧
    (p.gl < p.gr →
      p.farbe (Arith.ofField sn cs atn lg) p.gl out
        = (1, { r := p.lr, g := p.lg, b := p.lb })) ∧
    (¬ (p.gl ≤ w ∧ w < p.gr) →
      p.farbe (Arith.ofField sn cs atn lg) w out = (0, out)) := by
  have hform : ∀ v : α, p.gl ≤ v → v < p.gr →
      p.farbe (Arith.ofField sn cs atn lg) v out
        = (1, { r := p.lr + truncZero ((v - p.gl) / (p.gr - p.gl)
                      * ((p.rr - p.lr : Int) : α)),
                g := p.lg + truncZero ((v - p.gl) / (p.gr - p.gl)
                      * ((p.rg - p.lg : Int) : α)),
                b := p.lb + truncZero ((v - p.gl) / (p.gr - p.gl)
                      * ((p.rb - p.lb : Int) : α)) }) := by
    intro v h1 h2
    rw [ColIntv.farbe_eq,
      if_pos ((ColIntv.contains_exact sn cs atn lg p v).mpr ⟨h1, h2⟩),
      ColIntv.colourAt_exact sn cs atn lg p hc hr v h1 h2]
  have hout : ¬ (p.gl ≤ w ∧ w < p.gr) →
      p.farbe (Arith.ofField sn cs atn lg) w out = (0, out) := by
    intro hn
    rw [ColIntv.farbe_eq,
      if_neg (fun h => hn ((ColIntv.contains_exact sn cs atn lg p w).mp h))]
  refine ⟨?_, hform w, ?_, hout⟩
  · constructor
    · intro h
      by_contra hn
      rw [hout hn] at h
      simp at h
    · intro h
      rw [hform w h.1 h.2]
  · intro hlt
    rw [hform p.gl (le_refl _) hlt]
    simp [truncZero]

theorem ColIntv.call_breite {α : Type} (A : Arith α) (p : ColIntv α)
    (c : ColIntvCall α) (h : c.isBound = true ∨ p.breite = A.sub p.gr p.gl) :
    (p.call A c).breite = A.sub (p.call A c).gr (p.call A c).gl := by
  cases c with
  | grenzel w => rfl
  | grenzer w => rfl
  | farbel r g b =>
    rcases h with h | h
    · simp [ColIntvCall.isBound] at h
    · exact h
  | farber r g b =>
    rcases h with h | h
    · simp [ColIntvCall.isBound] at h
    · exact h

theorem ColIntv.call_diffs {α : Type} (A : Arith α) (p : ColIntv α)
    (c : ColIntvCall α)
    (h : c.isBound = false ∨
      (p.dr = toInt32 (p.rr - p.lr) ∧ p.dg = toInt32 (p.rg - p.lg) ∧
        p.db = toInt32 (p.rb - p.lb))) :
    (p.call A c).dr = toInt32 ((p.call A c).rr - (p.call A c).lr) ∧
    (p.call A c).dg = toInt32 ((p.call A c).rg - (p.call A c).lg) ∧
    (p.call A c).db = toInt32 ((p.call A c).rb - (p.call A c).lb) := by
  cases c with
  | farbel r g b => exact ⟨rfl, rfl, rfl⟩
  | farber r g b => exact ⟨rfl, rfl, rfl⟩
  | grenzel w =>
    rcases h with h | h
    · simp [ColIntvCall.isBound] at h
    · exact h
  | grenzer w =>
    rcases h with h | h
    · simp [ColIntvCall.isBound] at h
    · exact h

/-- After any sequence of setter calls that holds at least one call of a bound
setter and at least one call of a colour setter, in any order, the members of
the interval are in step. -/
theorem ColIntv.calls_configured {α : Type} (A : Arith α)
    (cs : List (ColIntvCall α)) :
    ∀ p : ColIntv α,
      (p.breite = A.sub p.gr p.gl ∨ ∃ c ∈ cs, c.isBound = true) →
      ((p.dr = toInt32 (p.rr - p.lr) ∧ p.dg = toInt32 (p.rg - p.lg) ∧
          p.db = toInt32 (p.rb - p.lb)) ∨ ∃ c ∈ cs, c.isBound = false) →
      (p.calls A cs).Configured A := by
  induction cs with
  | nil =>
    intro p h1 h2
    rcases h1 with h1 | ⟨c, hc, _⟩
    · rcases h2 with h2 | ⟨c, hc, _⟩
      · exact ⟨h1, h2.1, h2.2.1, h2.2.2⟩
      · simp at hc
    · simp at hc
  | cons c cs ih =>
    intro p h1 h2
    show ((p.call A c).calls A cs).Configured A
    apply ih
    · rcases h1 with h1 | ⟨c1, hc1, hb⟩
      · exact Or.inl (ColIntv.call_breite A p c (Or.inr h1))
      · rcases List.mem_cons.mp hc1 with e | e
        · subst e
          exact Or.inl (ColIntv.call_breite A p c1 (Or.inl hb))
        · exact Or.inr ⟨c1, e, hb⟩
    · rcases h2 with h2 | ⟨c1, hc1, hb⟩
      · exact Or.inl (ColIntv.call_diffs A p c (Or.inr h2))
      · rcases List.mem_cons.mp hc1 with e | e
        · subst e
          exact Or.inl (ColIntv.call_diffs A p c1 (Or.inl hb))
        · exact Or.inr ⟨c1, e, hb⟩

theorem sampleInterval_configured {α : Type} (A : Arith α) :
    (sampleInterval A).Configured A := by
  have h := ColIntv.calls_configured A
    [.grenzel (A.lit 0), .grenzer (A.lit 1), .farbel 0 0 0, .farber 255 255 255]
    (ColIntv.blank A)
    (Or.inr ⟨.grenzel (A.lit 0), by simp, rfl⟩)
    (Or.inr ⟨.farbel 0 0 0, by simp, rfl⟩)
  exact h

theorem sampleInterval_rgbOK {α : Type} (A : Arith α) :
    (sampleInterval A).rgbOK := by
  simp [ColIntv.rgbOK, inInt32, sampleInterval, ColIntv.setfarber,
    ColIntv.setfarbel, ColIntv.precalc, ColIntv.setgrenzer, ColIntv.setgrenzel,
    ColIntv.blank, ColIntv.ctor]

/-- Witness of C13: the sample interval in real arithmetic at its left bound
`w = 0`. -/
theorem C13_interval_colour_witness :
    (sampleInterval
      (Arith.ofField Real.sin Real.cos Real.arctan Real.log)).Configured
      (Arith.ofField Real.sin Real.cos Real.arctan Real.log) ∧
    (sampleInterval (Arith.ofField Real.sin Real.cos Real.arctan Real.log)).rgbOK ∧
    (sampleInterval (Arith.ofField Real.sin Real.cos Real.arctan Real.log)).farbe
      (Arith.ofField Real.sin Real.cos Real.arctan Real.log)
      (sampleInterval (Arith.ofField Real.sin Real.cos Real.arctan Real.log)).gl
      { r := 7, g := 7, b := 7 }
    = (1, { r := 0, g := 0, b := 0 }) := by
  have hc := sampleInterval_configured
    (Arith.ofField Real.sin Real.cos Real.arctan Real.log)
  have hr := sampleInterval_rgbOK
    (Arith.ofField Real.sin Real.cos Real.arctan Real.log)
  refine ⟨hc, hr, ?_⟩
  exact (C13_interval_colour Real.sin Real.cos Real.arctan Real.log _ hc hr 0
    { r := 7, g := 7, b := 7 }).2.2.1
    (by simp [sampleInterval, ColIntv.setfarber, ColIntv.setfarbel,
      ColIntv.precalc, ColIntv.setgrenzer, ColIntv.setgrenzel, Arith.ofField])

/-! ## The rounding of doubles -/

theorem Arith.rounded_id {α : Type} [LinearOrderedField α] [FloorRing α]
    (sn cs atn lg : α → α) :
    Arith.rounded id sn cs atn lg = Arith.ofField sn cs atn lg := rfl

theorem intLog_two_eq (q : ℚ) (e : Int) (h0 : 0 < q) (h1 : (2 : ℚ) ^ e ≤ q)
    (h2 : q < (2 : ℚ) ^ (e + 1)) : Int.log 2 q = e := by
  have a1 : e ≤ Int.log 2 q :=
    (Int.zpow_le_iff_le_log (by decide : 1 < 2) h0).mp (by exact_mod_cast h1)
  have a2 : Int.log 2 q < e + 1 :=
    (Int.lt_zpow_iff_log_lt (by decide : 1 < 2) h0).mp (by exact_mod_cast h2)
  omega

/-- The value of `roundDouble` at a positive number whose binary exponent is
`e` and whose scaled value lies less than half a unit above the integer `f`. -/
theorem roundDouble_down (q : ℚ) (e f : Int) (h0 : 0 < q) (h1 : (2 : ℚ) ^ e ≤ q)
    (h2 : q < (2 : ℚ) ^ (e + 1)) (hf : (f : ℚ) ≤ q / (2 : ℚ) ^ (e - 52))
    (hd : q / (2 : ℚ) ^ (e - 52) - (f : ℚ) < 1 / 2) :
    roundDouble q = (f : ℚ) * (2 : ℚ) ^ (e - 52) := by
  have hq : q ≠ 0 := ne_of_gt h0
  have hl : Int.log 2 |q| = e := by
    rw [abs_of_pos h0]
    exact intLog_two_eq q e h0 h1 h2
  have hfl : Int.floor (q / (2 : ℚ) ^ (e - 52)) = f := by
    rw [Int.floor_eq_iff]
    constructor
    · exact hf
    · linarith
  unfold roundDouble
  rw [if_neg hq]
  simp only [hl, hfl]
  rw [if_pos hd]

/-- The value of `roundDouble` at a positive number whose binary exponent is
`e` and whose scaled value lies less than half a unit below the integer
`f + 1`. -/
theorem roundDouble_up (q : ℚ) (e f : Int) (h0 : 0 < q) (h1 : (2 : ℚ) ^ e ≤ q)
    (h2 : q < (2 : ℚ) ^ (e + 1)) (hf : q / (2 : ℚ) ^ (e - 52) < (f : ℚ) + 1)
    (hd : 1 / 2 < q / (2 : ℚ) ^ (e - 52) - (f : ℚ)) :
    roundDouble q = ((f : ℚ) + 1) * (2 : ℚ) ^ (e - 52) := by
  have hq : q ≠ 0 := ne_of_gt h0
  have hl : Int.log 2 |q| = e := by
    rw [abs_of_pos h0]
    exact intLog_two_eq q e h0 h1 h2
  have hfl : Int.floor (q / (2 : ℚ) ^ (e - 52)) = f := by
    rw [Int.floor_eq_iff]
    constructor
    · linarith
    · exact hf
  unfold roundDouble
  rw [if_neg hq]
  simp only [hl, hfl]
  rw [if_neg (by linarith), if_pos hd]

theorem roundDouble_zero : roundDouble 0 = 0 := by
  simp [roundDouble]

theorem roundDouble_one : roundDouble 1 = 1 := by
  rw [roundDouble_down 1 0 4503599627370496 (by norm_num) (by norm_num)
    (by norm_num) (by norm_num) (by norm_num)]
  norm_num

theorem roundDouble_255 : roundDouble 255 = 255 := by
  rw [roundDouble_down 255 7 8972014882652160 (by norm_num) (by norm_num)
    (by norm_num) (by norm_num) (by norm_num)]
  norm_num

/-- The double nearest to `0.6`. -/
theorem roundDouble_six_tenths :
    roundDouble (3 / 5) = 5404319552844595 / 9007199254740992 := by
  rw [roundDouble_down (3 / 5) (-1) 5404319552844595 (by norm_num) (by norm_num)
    (by norm_num) (by norm_num) (by norm_num)]
  norm_num

theorem roundDouble_six_tenths_fix :
    roundDouble (5404319552844595 / 9007199254740992)
      = 5404319552844595 / 9007199254740992 := by
  rw [roundDouble_down (5404319552844595 / 9007199254740992) (-1) 5404319552844595
    (by norm_num) (by norm_num) (by norm_num) (by norm_num) (by norm_num)]
  norm_num

/-- The product of the double nearest to `0.6` and `255` rounds to `153`. -/
theorem roundDouble_six_tenths_255 :
    roundDouble (5404319552844595 / 9007199254740992 * 255) = 153 := by
  rw [roundDouble_up (5404319552844595 / 9007199254740992 * 255) 7
    5383208929591295 (by norm_num) (by norm_num) (by norm_num) (by norm_num)
    (by norm_num)]
  norm_num

theorem truncZero_intCast {α : Type} [LinearOrderedField α] [FloorRing α]
    (z : Int) : truncZero ((z : Int) : α) = z := by
  unfold truncZero
  split_ifs <;> simp

/-- The sample interval in arithmetic rounded to binary64. -/
theorem sampleInterval_rounded :
    sampleInterval (Arith.rounded roundDouble id id id id)
      = { gl := 0, gr := 1, breite := 1, lr := 0, lg := 0, lb := 0,
          rr := 255, rg := 255, rb := 255, dr := 255, dg := 255, db := 255 } := by
  have t255 : toInt32 255 = 255 := by decide
  have t0 : toInt32 0 = 0 := by decide
  simp [sampleInterval, ColIntv.setfarber, ColIntv.setfarbel, ColIntv.precalc,
    ColIntv.setgrenzer, ColIntv.setgrenzel, ColIntv.blank, ColIntv.ctor,
    Arith.rounded, roundDouble_zero, roundDouble_one, t255, t0]

/-- The interval with the wide red channel in real arithmetic. -/
theorem sampleWide_real :
    sampleWide (Arith.ofField Real.sin Real.cos Real.arctan Real.log)
      = { gl := 0, gr := 1, breite := 1, lr := -1, lg := 0, lb := 0,
          rr := 2147483647, rg := 255, rb := 255,
          dr := -2147483648, dg := 255, db := 255 } := by
  have t1 : toInt32 (0 - -1) = 1 := by decide
  have t2 : toInt32 2147483648 = -2147483648 := by decide
  have t255 : toInt32 255 = 255 := by decide
  have t0 : toInt32 0 = 0 := by decide
  simp [sampleWide, ColIntv.setfarber, ColIntv.setfarbel, ColIntv.precalc,
    ColIntv.setgrenzer, ColIntv.setgrenzel, ColIntv.blank, ColIntv.ctor,
    Arith.ofField, t1, t2, t255, t0]

/-- **C13 (as stated, refuted).** First, under the rounding of doubles: the
sample interval (0 to 1, black to white, set through the four setters) at the
double `w` nearest to `0.6`: `wg = (w-0)/1 = w`, the product `wg*255` rounds
to the double `153`, and `farbe` returns 1 with the three channels at 153, while
`left + trunc(((w-lo)/(hi-lo)) * (right-left))` is 152, since `w*255` lies
below 153.  Second, in exact arithmetic: the interval from 0 to 1 whose red
channel is set to run from -1 to 2147483647 has `dr = rr - lr` outside
`int32_t`; with the wrapped difference `farbe` at `w = 1/2` writes the red
channel -1073741825, while the formula gives 1073741823. -/
theorem C13_counterexample :
    (Arith.rounded roundDouble id id id id).lit (3 / 5) = 5404319552844595 / 9007199254740992 ∧
    (sampleInterval (Arith.rounded roundDouble id id id id)).farbe (Arith.rounded roundDouble
        id id id id) ((Arith.rounded roundDouble id id id id).lit (3 / 5)) { r := 7, g := 7, b
            := 7 }
      = (1, { r := 153, g := 153, b := 153 }) ∧
    (sampleInterval (Arith.rounded roundDouble id id id id)).lr
        + truncZero (((Arith.rounded roundDouble id id id id).lit (3 / 5) - (sampleInterval
            (Arith.rounded roundDouble id id id id)).gl)
            / ((sampleInterval (Arith.rounded roundDouble id id id id)).gr - (sampleInterval
                (Arith.rounded roundDouble id id id id)).gl)
          * (((sampleInterval (Arith.rounded roundDouble id id id id)).rr - (sampleInterval
              (Arith.rounded roundDouble id id id id)).lr : Int) : ℚ)) = 152 ∧
    (sampleWide (Arith.ofField Real.sin Real.cos Real.arctan Real.log)).farbe (Arith.ofField
        Real.sin Real.cos Real.arctan Real.log) (1 / 2) { r := 7, g := 7, b := 7 }
      = (1, { r := -1073741825, g := 127, b := 127 }) ∧
    (sampleWide (Arith.ofField Real.sin Real.cos Real.arctan Real.log)).lr
        + truncZero (((1 / 2 : ℝ) - (sampleWide (Arith.ofField Real.sin Real.cos Real.arctan
            Real.log)).gl)
            / ((sampleWide (Arith.ofField Real.sin Real.cos Real.arctan Real.log)).gr -
                (sampleWide (Arith.ofField Real.sin Real.cos Real.arctan Real.log)).gl)
          * (((sampleWide (Arith.ofField Real.sin Real.cos Real.arctan Real.log)).rr -
              (sampleWide (Arith.ofField Real.sin Real.cos Real.arctan Real.log)).lr : Int) :
                  ℝ)) = 1073741823 := by
  have hw : (Arith.rounded roundDouble id id id id).lit (3 / 5) = 5404319552844595 /
      9007199254740992 := by
    show roundDouble (((3 / 5 : ℚ) : ℚ)) = _
    exact roundDouble_six_tenths
  have t153 : toInt32 153 = 153 := by decide
  have tw : toInt32 (-1073741825) = -1073741825 := by decide
  have t127 : toInt32 127 = 127 := by decide
  refine ⟨hw, ?_, ?_, ?_, ?_⟩
  · rw [hw, sampleInterval_rounded]
    have e1 : roundDouble (5404319552844595 / 9007199254740992 * 255) = 153 :=
      roundDouble_six_tenths_255
    have e2 : truncZero (153 : ℚ) = 153 := by
      have := @truncZero_intCast ℚ _ _ 153
      simpa using this
    simp [ColIntv.farbe, Arith.rounded, roundDouble_255, roundDouble_six_tenths_fix,
      e1, e2, t153]
    norm_num
  · rw [hw, sampleInterval_rounded]
    simp only [truncZero]
    rw [if_pos (by norm_num)]
    have e3 : Int.floor (((5404319552844595 / 9007199254740992 : ℚ) - 0) / (1 - 0)
        * (((255 - 0 : Int) : Int) : ℚ)) = 152 := by
      rw [Int.floor_eq_iff]
      constructor <;> norm_num
    rw [e3]
    rfl
  · rw [sampleWide_real]
    have e4 : truncZero (-((2 : ℝ)⁻¹ * 2147483648)) = -1073741824 := by
      have h := @truncZero_intCast ℝ _ _ (-1073741824)
      have e : (((-1073741824 : Int) : Int) : ℝ) = -((2 : ℝ)⁻¹ * 2147483648) := by
        norm_num
      rw [e] at h
      exact h
    have e5 : truncZero ((2 : ℝ)⁻¹ * 255) = 127 := by
      unfold truncZero
      rw [if_pos (by norm_num), Int.floor_eq_iff]
      constructor <;> norm_num
    have hlt : (2 : ℝ)⁻¹ < 1 := by norm_num
    simp [ColIntv.farbe, Arith.ofField, e4, e5, tw, t127, hlt]
  · rw [sampleWide_real]
    have e6 : truncZero (((1 / 2 : ℝ) - 0) / (1 - 0)
        * (((2147483647 - -1 : Int) : Int) : ℝ)) = 1073741824 := by
      have h := @truncZero_intCast ℝ _ _ 1073741824
      have e : (((1073741824 : Int) : Int) : ℝ)
          = ((1 / 2 : ℝ) - 0) / (1 - 0) * (((2147483647 - -1 : Int) : Int) : ℝ) := by
        norm_num
      rw [e] at h
      exact h
    rw [e6]
    rfl

/-! ## Extremes of a colouring -/

theorem IntervalColoring.addAll_ints {α : Type} (A : Arith α)
    (ps : List (ColIntv α)) :
    ∀ C : IntervalColoring α, C.intanz + ps.length ≤ MAXINTANZ →
      (C.addAll A ps).ints = C.ints ++ ps := by
  induction ps with
  | nil => intro C _; simp [IntervalColoring.addAll_nil]
  | cons p ps ih =>
    intro C h
    have hlt : C.intanz < MAXINTANZ := by
      simp only [List.length_cons] at h
      omega
    have e : (C.Addintervall A p).2.ints = C.ints ++ [p] := by
      unfold IntervalColoring.Addintervall
      rw [if_pos hlt]
    rw [IntervalColoring.addAll_cons, ih, e]
    · simp
    · simp only [IntervalColoring.intanz, e, List.length_append, List.length_cons,
        List.length_nil] at h ⊢
      omega

theorem IntervalColoring.Addintervall_minmax {α : Type} [LinearOrderedField α]
    [FloorRing α] (sn cs atn lg : α → α) (C : IntervalColoring α) (p : ColIntv α)
    (hlt : C.intanz < MAXINTANZ) (h : C.ints = [] ∨ C.MinMax) :
    (C.Addintervall (Arith.ofField sn cs atn lg) p).2.MinMax := by
  unfold IntervalColoring.Addintervall
  rw [if_pos hlt]
  rcases h with h | h
  · have hz : C.intanz + 1 = 1 := by simp [IntervalColoring.intanz, h]
    simp only [IntervalColoring.MinMax, hz, decide_True, Bool.or_true, if_true, h,
      List.nil_append, List.mem_singleton]
    exact ⟨⟨p, rfl, rfl⟩, fun q hq => by rw [hq], ⟨p, rfl, rfl⟩,
      fun q hq => by rw [hq]⟩
  · obtain ⟨⟨a, ha, hae⟩, hmin, ⟨b, hb, hbe⟩, hmax⟩ := h
    have hnz : ¬ (C.intanz + 1 = 1) := by
      have : 0 < C.ints.length := List.length_pos_of_mem ha
      simp only [IntervalColoring.intanz]
      omega
    simp only [IntervalColoring.MinMax, Arith.ofField, hnz, decide_False,
      Bool.or_false, decide_eq_true_eq, List.mem_append, List.mem_singleton]
    refine ⟨?_, ?_, ?_, ?_⟩
    · by_cases hc : p.gl < C.mingl
      · rw [if_pos hc]
        exact ⟨p, Or.inr rfl, rfl⟩
      · rw [if_neg hc]
        exact ⟨a, Or.inl ha, hae⟩
    · intro q hq
      by_cases hc : p.gl < C.mingl
      · rw [if_pos hc]
        rcases hq with hq | hq
        · exact le_of_lt (lt_of_lt_of_le hc (hmin q hq))
        · rw [hq]
      · rw [if_neg hc]
        rcases hq with hq | hq
        · exact hmin q hq
        · rw [hq]
          exact not_lt.mp hc
    · by_cases hc : C.maxgl < p.gr
      · rw [if_pos hc]
        exact ⟨p, Or.inr rfl, rfl⟩
      · rw [if_neg hc]
        exact ⟨b, Or.inl hb, hbe⟩
    · intro q hq
      by_cases hc : C.maxgl < p.gr
      · rw [if_pos hc]
        rcases hq with hq | hq
        · exact le_of_lt (lt_of_le_of_lt (hmax q hq) hc)
        · rw [hq]
      · rw [if_neg hc]
        rcases hq with hq | hq
        · exact hmax q hq
        · rw [hq]
          exact not_lt.mp hc

theorem IntervalColoring.addAll_minmax {α : Type} [LinearOrderedField α]
    [FloorRing α] (sn cs atn lg : α → α) (ps : List (ColIntv α)) :
    ∀ C : IntervalColoring α, C.intanz + ps.length ≤ MAXINTANZ →
      (C.ints = [] ∧ ps ≠ [] ∨ C.MinMax) →
      (C.addAll (Arith.ofField sn cs atn lg) ps).MinMax := by
  induction ps with
  | nil =>
    intro C _ h
    rcases h with ⟨_, h⟩ | h
    · exact absurd rfl h
    · exact h
  | cons p ps ih =>
    intro C hlen h
    have hlt : C.intanz < MAXINTANZ := by
      simp only [List.length_cons] at hlen
      omega
    have e : (C.Addintervall (Arith.ofField sn cs atn lg) p).2.ints = C.ints ++ [p] := by
      unfold IntervalColoring.Addintervall
      rw [if_pos hlt]
    rw [IntervalColoring.addAll_cons]
    apply ih
    · simp only [IntervalColoring.intanz, e, List.length_append, List.length_cons,
        List.length_nil] at hlen ⊢
      omega
    · right
      apply IntervalColoring.Addintervall_minmax sn cs atn lg C p hlt
      rcases h with ⟨h, _⟩ | h
      · exact Or.inl h
      · exact Or.inr h

/-- A colouring filled from empty, in exact arithmetic: the stored intervals and
the extremes. -/
theorem IntervalColoring.filled {α : Type} [LinearOrderedField α] [FloorRing α]
    (sn cs atn lg : α → α) (C0 : IntervalColoring α) (ps : List (ColIntv α))
    (h0 : C0.ints = []) (hne : ps ≠ []) (hlen : ps.length ≤ 32) :
    (C0.addAll (Arith.ofField sn cs atn lg) ps).ints = ps ∧
    (C0.addAll (Arith.ofField sn cs atn lg) ps).MinMax := by
  have hl : C0.intanz + ps.length ≤ MAXINTANZ := by
    simp only [IntervalColoring.intanz, h0, List.length_nil, MAXINTANZ]
    omega
  have hi := IntervalColoring.addAll_ints (Arith.ofField sn cs atn lg) ps C0 hl
  rw [h0, List.nil_append] at hi
  exact ⟨hi, IntervalColoring.addAll_minmax sn cs atn lg ps C0 hl (Or.inl ⟨h0, hne⟩)⟩

/-- **C16.** In exact arithmetic: starting from a colouring without stored
intervals (as the constructor and `clear` leave it), with any `mingl` and
`maxgl`, after at least one and at most 32 `Addintervall` calls with intervals
`gl < gr`: every call has returned 1, the stored intervals are the inserted
ones in order, `mingl` is the least of the left bounds and `maxgl` the greatest
of the right bounds, hence the least and the greatest of all stored bounds. -/
theorem C16_global_extremes {α : Type} [LinearOrderedField α] [FloorRing α]
    (sn cs atn lg : α → α) (C0 : IntervalColoring α) (ps : List (ColIntv α))
    (h0 : C0.ints = []) (hne : ps ≠ []) (hlen : ps.length ≤ 32)
    (hlohi : ∀ p ∈ ps, p.gl < p.gr) :
    (∀ (k : Nat) (q : ColIntv α), k < 32 →
      ((C0.addAll (Arith.ofField sn cs atn lg) (ps.take k)).Addintervall
        (Arith.ofField sn cs atn lg) q).1 = 1) ∧
    (C0.addAll (Arith.ofField sn cs atn lg) ps).ints = ps ∧
    (∃ p ∈ ps, (C0.addAll (Arith.ofField sn cs atn lg) ps).mingl = p.gl) ∧
    (∀ p ∈ ps, (C0.addAll (Arith.ofField sn cs atn lg) ps).mingl ≤ p.gl ∧
      (C0.addAll (Arith.ofField sn cs atn lg) ps).mingl ≤ p.gr) ∧
    (∃ p ∈ ps, (C0.addAll (Arith.ofField sn cs atn lg) ps).maxgl = p.gr) ∧
    (∀ p ∈ ps, p.gr ≤ (C0.addAll (Arith.ofField sn cs atn lg) ps).maxgl ∧
      p.gl ≤ (C0.addAll (Arith.ofField sn cs atn lg) ps).maxgl) := by
  obtain ⟨hi, hmm⟩ := IntervalColoring.filled sn cs atn lg C0 ps h0 hne hlen
  unfold IntervalColoring.MinMax at hmm
  rw [hi] at hmm
  obtain ⟨m1, m2, m3, m4⟩ := hmm
  refine ⟨?_, hi, m1, ?_, m3, ?_⟩
  · intro k q hk
    have hl : C0.intanz + (ps.take k).length ≤ MAXINTANZ := by
      simp only [IntervalColoring.intanz, h0, List.length_nil, MAXINTANZ,
        List.length_take]
      omega
    have hti := IntervalColoring.addAll_ints (Arith.ofField sn cs atn lg)
      (ps.take k) C0 hl
    have hlt : (C0.addAll (Arith.ofField sn cs atn lg) (ps.take k)).intanz
        < MAXINTANZ := by
      simp only [IntervalColoring.intanz, hti, h0, List.nil_append,
        List.length_take, MAXINTANZ]
      omega
    unfold IntervalColoring.Addintervall
    rw [if_pos hlt]
  · intro p hp
    exact ⟨m2 p hp, le_of_lt (lt_of_le_of_lt (m2 p hp) (hlohi p hp))⟩
  · intro p hp
    exact ⟨m4 p hp, le_of_lt (lt_of_lt_of_le (hlohi p hp) (m4 p hp))⟩

/-- Witness of C16: the sample colouring, whose extremes are 0 and 1, is
cleared and the interval from 2 to 3 is inserted; the extremes are 2 and 3. -/
theorem C16_global_extremes_witness :
    (sampleColoring
      (Arith.ofField Real.sin Real.cos Real.arctan Real.log)).mingl = 0 ∧
    (sampleColoring
      (Arith.ofField Real.sin Real.cos Real.arctan Real.log)).maxgl = 1 ∧
    ((sampleColoring
      (Arith.ofField Real.sin Real.cos Real.arctan Real.log)).clear.addAll
        (Arith.ofField Real.sin Real.cos Real.arctan Real.log)
        [sampleInterval2
          (Arith.ofField Real.sin Real.cos Real.arctan Real.log)]).mingl = 2 ∧
    ((sampleColoring
      (Arith.ofField Real.sin Real.cos Real.arctan Real.log)).clear.addAll
        (Arith.ofField Real.sin Real.cos Real.arctan Real.log)
        [sampleInterval2
          (Arith.ofField Real.sin Real.cos Real.arctan Real.log)]).maxgl = 3 := by
  have hgl : (sampleInterval2
      (Arith.ofField Real.sin Real.cos Real.arctan Real.log)).gl = 2 := by
    simp [sampleInterval2, ColIntv.setgrenzer, ColIntv.setgrenzel, Arith.ofField]
  have hgr : (sampleInterval2
      (Arith.ofField Real.sin Real.cos Real.arctan Real.log)).gr = 3 := by
    simp [sampleInterval2, ColIntv.setgrenzer, ColIntv.setgrenzel, Arith.ofField]
  have h := C16_global_extremes Real.sin Real.cos Real.arctan Real.log
    (sampleColoring (Arith.ofField Real.sin Real.cos Real.arctan Real.log)).clear
    [sampleInterval2 (Arith.ofField Real.sin Real.cos Real.arctan Real.log)]
    rfl (by simp) (by simp)
    (by
      intro p hp
      rw [List.mem_singleton.mp hp, hgl, hgr]
      norm_num)
  obtain ⟨_, _, ⟨p, hp, e1⟩, _, ⟨q, hq, e2⟩, _⟩ := h
  rw [List.mem_singleton.mp hp, hgl] at e1
  rw [List.mem_singleton.mp hq, hgr] at e2
  refine ⟨?_, ?_, e1, e2⟩
  · simp [sampleColoring, IntervalColoring.Addintervall, IntervalColoring.ctor,
      IntervalColoring.setfarbel, IntervalColoring.setfarber,
      IntervalColoring.intanz, MAXINTANZ, sampleInterval, ColIntv.setfarber,
      ColIntv.setfarbel, ColIntv.precalc, ColIntv.setgrenzer, ColIntv.setgrenzel,
      Arith.ofField]
  · simp [sampleColoring, IntervalColoring.Addintervall, IntervalColoring.ctor,
      IntervalColoring.setfarbel, IntervalColoring.setfarber,
      IntervalColoring.intanz, MAXINTANZ, sampleInterval, ColIntv.setfarber,
      ColIntv.setfarbel, ColIntv.precalc, ColIntv.setgrenzer, ColIntv.setgrenzel,
      Arith.ofField]

/-! ## Colours at the bounds of an interval -/

/-- Between the extremes, in exact arithmetic, `IntervalColoring::farbe` is the
loop over the stored intervals. -/
theorem IntervalColoring.farbe_inside {α : Type} [LinearOrderedField α]
    [FloorRing α] (sn cs atn lg : α → α) (C : IntervalColoring α) (w : α)
    (out : RGB) (h1 : C.mingl ≤ w) (h2 : w ≤ C.maxgl) :
    C.farbe (Arith.ofField sn cs atn lg) w out
      = IntervalColoring.scan (Arith.ofField sn cs atn lg) w C.ints out := by
  have e1 : (Arith.ofField sn cs atn lg).lt w C.mingl = false := by
    simp [Arith.ofField, h1]
  have e2 : (Arith.ofField sn cs atn lg).lt C.maxgl w = false := by
    simp [Arith.ofField, h2]
  unfold IntervalColoring.farbe
  rw [e1, e2]
  simp only [Bool.false_eq_true, if_false]

theorem ColIntv.contains_exact_false {α : Type} [LinearOrderedField α]
    [FloorRing α] (sn cs atn lg : α → α) (p : ColIntv α) (w : α)
    (h : ¬ (p.gl ≤ w ∧ w < p.gr)) :
    p.contains (Arith.ofField sn cs atn lg) w = false := by
  cases hb : p.contains (Arith.ofField sn cs atn lg) w with
  | false => rfl
  | true => exact absurd ((ColIntv.contains_exact sn cs atn lg p w).mp hb) h

/-- **C14 (counterexample).** The sample colouring stores one interval, from 0
to 1, black on the left and white (255, 255, 255) on the right.  At the right
bound `w = 1`, in real arithmetic, `farbe` returns 0 and leaves the channels at
what they held, here (7, 7, 7): the colour is not the right colour of the
interval. -/
theorem C14_counterexample :
    (sampleColoring (Arith.ofField Real.sin Real.cos Real.arctan Real.log)).ints
      = [sampleInterval (Arith.ofField Real.sin Real.cos Real.arctan Real.log)] ∧
    (sampleInterval (Arith.ofField Real.sin Real.cos Real.arctan Real.log)).gl = 0 ∧
    (sampleInterval (Arith.ofField Real.sin Real.cos Real.arctan Real.log)).gr = 1 ∧
    (sampleInterval (Arith.ofField Real.sin Real.cos Real.arctan Real.log)).rr = 255 ∧
    (sampleInterval (Arith.ofField Real.sin Real.cos Real.arctan Real.log)).rg = 255 ∧
    (sampleInterval (Arith.ofField Real.sin Real.cos Real.arctan Real.log)).rb = 255 ∧
    (sampleColoring (Arith.ofField Real.sin Real.cos Real.arctan Real.log)).farbe
      (Arith.ofField Real.sin Real.cos Real.arctan Real.log) 1
      { r := 7, g := 7, b := 7 } = (0, { r := 7, g := 7, b := 7 }) := by
  refine ⟨rfl, ?_, ?_, rfl, rfl, rfl, ?_⟩
  · simp [sampleInterval, ColIntv.setfarber, ColIntv.setfarbel, ColIntv.precalc,
      ColIntv.setgrenzer, ColIntv.setgrenzel, Arith.ofField]
  · simp [sampleInterval, ColIntv.setfarber, ColIntv.setfarbel, ColIntv.precalc,
      ColIntv.setgrenzer, ColIntv.setgrenzel, Arith.ofField]
  · simp [IntervalColoring.farbe, IntervalColoring.scan, ColIntv.farbe,
      sampleColoring, IntervalColoring.Addintervall, IntervalColoring.ctor,
      IntervalColoring.setfarbel, IntervalColoring.setfarber,
      IntervalColoring.intanz, MAXINTANZ, sampleInterval, ColIntv.setfarber,
      ColIntv.setfarbel, ColIntv.precalc, ColIntv.setgrenzer, ColIntv.setgrenzel,
      Arith.ofField]

/-- **C14 (amended).** In exact arithmetic, for a colouring filled from empty
with at most 32 intervals, and a stored interval `p` with `gl < gr` whose
members are in step and whose channels fit `int32_t`: at `w = gl`, when no
interval stored before `p` contains `gl`, `farbe` returns 1 with the left
colour of `p` exactly; at `w = gr` the interval `p` itself does not match (its
range is half-open) and, when no other stored interval contains `gr`, `farbe`
returns 0 and leaves the channels at what they held. -/
theorem C14_bounds_half_open {α : Type} [LinearOrderedField α] [FloorRing α]
    (sn cs atn lg : α → α) (C0 : IntervalColoring α)
    (pre post : List (ColIntv α)) (p : ColIntv α) (out : RGB)
    (h0 : C0.ints = []) (hlen : (pre ++ p :: post).length ≤ 32)
    (hp : p.gl < p.gr) (hc : p.Configured (Arith.ofField sn cs atn lg))
    (hr : p.rgbOK) :
    ((∀ q ∈ pre, ¬ (q.gl ≤ p.gl ∧ p.gl < q.gr)) →
      (C0.addAll (Arith.ofField sn cs atn lg) (pre ++ p :: post)).farbe
        (Arith.ofField sn cs atn lg) p.gl out
        = (1, { r := p.lr, g := p.lg, b := p.lb })) ∧
    p.farbe (Arith.ofField sn cs atn lg) p.gr out = (0, out) ∧
    ((∀ q ∈ pre ++ post, ¬ (q.gl ≤ p.gr ∧ p.gr < q.gr)) →
      (C0.addAll (Arith.ofField sn cs atn lg) (pre ++ p :: post)).farbe
        (Arith.ofField sn cs atn lg) p.gr out = (0, out)) := by
  obtain ⟨hi, hmm⟩ := IntervalColoring.filled sn cs atn lg C0 (pre ++ p :: post)
    h0 (by simp) hlen
  obtain ⟨_, m2, _, m4⟩ := hmm
  rw [hi] at m2 m4
  have hpm : p ∈ pre ++ p :: post := by simp
  have a1 := m2 p hpm
  have a2 := m4 p hpm
  have hself : p.contains (Arith.ofField sn cs atn lg) p.gr = false :=
    ColIntv.contains_exact_false sn cs atn lg p p.gr (fun h => lt_irrefl _ h.2)
  refine ⟨?_, ?_, ?_⟩
  · intro hpre
    rw [IntervalColoring.farbe_inside sn cs atn lg _ p.gl out a1
      (le_of_lt (lt_of_lt_of_le hp a2)), hi,
      IntervalColoring.scan_first (Arith.ofField sn cs atn lg) p.gl pre post p out
        (fun q hq => ColIntv.contains_exact_false sn cs atn lg q p.gl (hpre q hq))
        ((ColIntv.contains_exact sn cs atn lg p p.gl).mpr ⟨le_refl _, hp⟩),
      ColIntv.colourAt_exact sn cs atn lg p hc hr p.gl (le_refl _) hp]
    simp [truncZero]
  · rw [ColIntv.farbe_eq, hself]
    simp
  · intro hoth
    rw [IntervalColoring.farbe_inside sn cs atn lg _ p.gr out
      (le_of_lt (lt_of_le_of_lt a1 hp)) a2, hi]
    apply IntervalColoring.scan_none
    intro q hq
    rcases List.mem_append.mp hq with h | h
    · exact ColIntv.contains_exact_false sn cs atn lg q p.gr
        (hoth q (List.mem_append.mpr (Or.inl h)))
    · rcases List.mem_cons.mp h with e | e
      · rw [e]
        exact hself
      · exact ColIntv.contains_exact_false sn cs atn lg q p.gr
          (hoth q (List.mem_append.mpr (Or.inr e)))

/-- Witness of C14 (amended): the sample colouring, built from the sample
interval alone, in real arithmetic. -/
theorem C14_bounds_half_open_witness :
    (sampleColoring (Arith.ofField Real.sin Real.cos Real.arctan Real.log)).farbe
      (Arith.ofField Real.sin Real.cos Real.arctan Real.log)
      (sampleInterval (Arith.ofField Real.sin Real.cos Real.arctan Real.log)).gl
      { r := 7, g := 7, b := 7 } = (1, { r := 0, g := 0, b := 0 }) ∧
    (sampleInterval (Arith.ofField Real.sin Real.cos Real.arctan Real.log)).farbe
      (Arith.ofField Real.sin Real.cos Real.arctan Real.log)
      (sampleInterval (Arith.ofField Real.sin Real.cos Real.arctan Real.log)).gr
      { r := 7, g := 7, b := 7 } = (0, { r := 7, g := 7, b := 7 }) := by
  have h := C14_bounds_half_open Real.sin Real.cos Real.arctan Real.log
    (IntervalColoring.ctor (Arith.ofField Real.sin Real.cos Real.arctan Real.log)
      { id := 0, ints := [], mingl := 0, maxgl := 0,
        lr := 0, lg := 0, lb := 0, rr := 0, rg := 0, rb := 0,
        minwert := 0, maxwert := 0 } |>.setfarbel 0 0 255 |>.setfarber 255 0 0)
    [] []
    (sampleInterval (Arith.ofField Real.sin Real.cos Real.arctan Real.log))
    { r := 7, g := 7, b := 7 } rfl (by simp)
    (by simp [sampleInterval, ColIntv.setfarber, ColIntv.setfarbel,
      ColIntv.precalc, ColIntv.setgrenzer, ColIntv.setgrenzel, Arith.ofField])
    (sampleInterval_configured _) (sampleInterval_rgbOK _)
  exact ⟨h.1 (by simp), h.2.1⟩

/-! ## The window: crop and centerPixel -/

/-- The point of a pixel in exact arithmetic. -/
theorem Ljapunow.pixelPoint_exact {α : Type} [LinearOrderedField α] [FloorRing α]
    (sn cs atn lg : α → α) (L : Ljapunow α) (px py : Int) :
    (L.pixelPoint (Arith.ofField sn cs atn lg) px py).x
      = L.lowerleft.x
        + ((toInt32 (L.leny - py) : Int) : α)
          * ((L.upperleft.x - L.lowerleft.x) / (L.leny : α))
        + (px : α) * ((L.lowerright.x - L.lowerleft.x) / (L.lenx : α)) ∧
    (L.pixelPoint (Arith.ofField sn cs atn lg) px py).y
      = L.lowerleft.y
        + ((toInt32 (L.leny - py) : Int) : α)
          * ((L.upperleft.y - L.lowerleft.y) / (L.leny : α))
        + (px : α) * ((L.lowerright.y - L.lowerleft.y) / (L.lenx : α)) := by
  constructor
  · simp only [Ljapunow.pixelPoint, calcVx, calcVy, Arith.ofField]
    ring
  · simp only [Ljapunow.pixelPoint, calcVx, calcVy, Arith.ofField]
    ring

/-- The sampled point in exact arithmetic. -/
theorem Ljapunow.samplePoint_exact {α : Type} [LinearOrderedField α] [FloorRing α]
    (sn cs atn lg : α → α) (L : Ljapunow α) (col row : Int) :
    (L.samplePoint (Arith.ofField sn cs atn lg) col row).x
      = L.lowerleft.x
        + (row : α) * ((L.upperleft.x - L.lowerleft.x) / (L.leny : α))
        + (col : α) * ((L.lowerright.x - L.lowerleft.x) / (L.lenx : α)) ∧
    (L.samplePoint (Arith.ofField sn cs atn lg) col row).y
      = L.lowerleft.y
        + (row : α) * ((L.upperleft.y - L.lowerleft.y) / (L.leny : α))
        + (col : α) * ((L.lowerright.y - L.lowerleft.y) / (L.lenx : α)) := by
  constructor
  · simp only [Ljapunow.samplePoint, calcVx, calcVy, Arith.ofField]
  · simp only [Ljapunow.samplePoint, calcVx, calcVy, Arith.ofField]

/-- For natural coordinates `samplePoint` is the content of `AB` in the
sampling pass. -/
theorem Ljapunow.samplePoint_sampleAB {α : Type} [LinearOrderedField α]
    [FloorRing α] (sn cs atn lg : α → α) (L : Ljapunow α) (junk : Int → α)
    (x y : Nat) :
    (L.samplePoint (Arith.ofField sn cs atn lg) (x : Int) (y : Int)).x = sampleAB
        (Arith.ofField sn cs atn lg) L junk x y 0 ∧
    (L.samplePoint (Arith.ofField sn cs atn lg) (x : Int) (y : Int)).y = sampleAB
        (Arith.ofField sn cs atn lg) L junk x y 1 := by
  rw [sampleAB_exact]
  obtain ⟨h1, h2⟩ := Ljapunow.samplePoint_exact sn cs atn lg L (x : Int) (y : Int)
  rw [h1, h2]
  simp [mkAB]

/-- **C25 (as stated, refuted).** The sample field (unit square, 4 by 4) in
real arithmetic, `crop(1, 3, 3, 1)`: the new lower-left corner has `y = 1/4`,
whereas the point sampled at column 1 of row 3 has `y = 3/4`. -/
theorem C25_counterexample :
    ((sampleField (Arith.ofField Real.sin Real.cos Real.arctan Real.log)).crop
        (Arith.ofField Real.sin Real.cos Real.arctan Real.log) 1 3 3 1).lowerleft.y = 1 / 4 ∧
    ((sampleField (Arith.ofField Real.sin Real.cos Real.arctan Real.log)).samplePoint
        (Arith.ofField Real.sin Real.cos Real.arctan Real.log) 1 3).y = 3 / 4 ∧
    ((sampleField (Arith.ofField Real.sin Real.cos Real.arctan Real.log)).crop
        (Arith.ofField Real.sin Real.cos Real.arctan Real.log) 1 3 3 1).lowerleft.y
      ≠ ((sampleField (Arith.ofField Real.sin Real.cos Real.arctan Real.log)).samplePoint
          (Arith.ofField Real.sin Real.cos Real.arctan Real.log) 1 3).y := by
  have h1 : ((sampleField (Arith.ofField Real.sin Real.cos Real.arctan Real.log)).crop
      (Arith.ofField Real.sin Real.cos Real.arctan Real.log) 1 3 3 1).lowerleft.y = 1 / 4 := by
    rw [show ((sampleField (Arith.ofField Real.sin Real.cos Real.arctan Real.log)).crop
        (Arith.ofField Real.sin Real.cos Real.arctan Real.log) 1 3 3 1).lowerleft
      = (sampleField (Arith.ofField Real.sin Real.cos Real.arctan Real.log)).pixelPoint
          (Arith.ofField Real.sin Real.cos Real.arctan Real.log) 1 3 from rfl,
      (Ljapunow.pixelPoint_exact Real.sin Real.cos Real.arctan Real.log _ 1 3).2]
    norm_num [sampleField, Arith.ofField, toInt32]
  have h2 : ((sampleField (Arith.ofField Real.sin Real.cos Real.arctan Real.log)).samplePoint
      (Arith.ofField Real.sin Real.cos Real.arctan Real.log) 1 3).y = 3 / 4 := by
    rw [(Ljapunow.samplePoint_exact Real.sin Real.cos Real.arctan Real.log _ 1 3).2]
    norm_num [sampleField, Arith.ofField]
  refine ⟨h1, h2, ?_⟩
  rw [h1, h2]
  norm_num

/-- **C25 (amended).** In exact arithmetic, with `S(col, row) = lowerleft +
row*vy + col*vx` the mapping of the sampling pass on the corners before the
call (for natural coordinates the content of `AB` in `calc`): after
`crop(pulneux, pulneuy, porneux, porneuy)` the lower-left corner is
`S(pulneux, leny - pulneuy)`, the lower-right corner `S(porneux, leny -
pulneuy)` and the upper-left corner `S(pulneux, leny - porneuy)`; the row is
counted from the other end of the grid.  The differences are `int32_t`
differences, equal to the integer differences when these fit. -/
theorem C25_crop_corners {α : Type} [LinearOrderedField α] [FloorRing α]
    (sn cs atn lg : α → α) (L : Ljapunow α) (pulneux pulneuy porneux porneuy : Int) :
    ((L.crop (Arith.ofField sn cs atn lg) pulneux pulneuy porneux porneuy).lowerleft.x
        = (L.samplePoint (Arith.ofField sn cs atn lg) pulneux (toInt32 (L.leny - pulneuy))).x ∧
      (L.crop (Arith.ofField sn cs atn lg) pulneux pulneuy porneux porneuy).lowerleft.y
        = (L.samplePoint (Arith.ofField sn cs atn lg) pulneux (toInt32 (L.leny - pulneuy))).y) ∧
    ((L.crop (Arith.ofField sn cs atn lg) pulneux pulneuy porneux porneuy).lowerright.x
        = (L.samplePoint (Arith.ofField sn cs atn lg) porneux (toInt32 (L.leny - pulneuy))).x ∧
      (L.crop (Arith.ofField sn cs atn lg) pulneux pulneuy porneux porneuy).lowerright.y
        = (L.samplePoint (Arith.ofField sn cs atn lg) porneux (toInt32 (L.leny - pulneuy))).y) ∧
    ((L.crop (Arith.ofField sn cs atn lg) pulneux pulneuy porneux porneuy).upperleft.x
        = (L.samplePoint (Arith.ofField sn cs atn lg) pulneux (toInt32 (L.leny - porneuy))).x ∧
      (L.crop (Arith.ofField sn cs atn lg) pulneux pulneuy porneux porneuy).upperleft.y
        = (L.samplePoint (Arith.ofField sn cs atn lg) pulneux (toInt32 (L.leny - porneuy))).y) ∧
    (∀ (junk : Int → α) (x y : Nat),
      (L.samplePoint (Arith.ofField sn cs atn lg) (x : Int) (y : Int)).x = sampleAB
          (Arith.ofField sn cs atn lg) L junk x y 0 ∧
      (L.samplePoint (Arith.ofField sn cs atn lg) (x : Int) (y : Int)).y = sampleAB
          (Arith.ofField sn cs atn lg) L junk x y 1) ∧
    (inInt32 (L.leny - pulneuy) → toInt32 (L.leny - pulneuy) = L.leny - pulneuy) ∧
    (inInt32 (L.leny - porneuy) → toInt32 (L.leny - porneuy) = L.leny - porneuy) := by
  have key : ∀ a b : Int,
      (L.pixelPoint (Arith.ofField sn cs atn lg) a b).x = (L.samplePoint
          (Arith.ofField sn cs atn lg) a (toInt32 (L.leny - b))).x ∧
      (L.pixelPoint (Arith.ofField sn cs atn lg) a b).y = (L.samplePoint
          (Arith.ofField sn cs atn lg) a (toInt32 (L.leny - b))).y := by
    intro a b
    obtain ⟨p1, p2⟩ := Ljapunow.pixelPoint_exact sn cs atn lg L a b
    obtain ⟨s1, s2⟩ := Ljapunow.samplePoint_exact sn cs atn lg L a
      (toInt32 (L.leny - b))
    exact ⟨p1.trans s1.symm, p2.trans s2.symm⟩
  exact ⟨key pulneux pulneuy, key porneux pulneuy, key pulneux porneuy,
    fun junk x y => Ljapunow.samplePoint_sampleAB sn cs atn lg L junk x y,
    toInt32_of_inInt32 _, toInt32_of_inInt32 _⟩

/-- **C26 (as stated, refuted).** The sample field in real arithmetic,
`centerPixel(1, 3)`: the centroid of the new window has `y = 1/4`, whereas the
point sampled at column 1 of row 3 has `y = 3/4`. -/
theorem C26_counterexample :
    (1 / 2 : ℝ) * (((sampleField (Arith.ofField Real.sin Real.cos Real.arctan Real.log)).centerPixel
        (Arith.ofField Real.sin Real.cos Real.arctan Real.log) 1 3).lowerright.y
        + ((sampleField (Arith.ofField Real.sin Real.cos Real.arctan Real.log)).centerPixel
            (Arith.ofField Real.sin Real.cos Real.arctan Real.log) 1 3).upperleft.y) = 1 / 4 ∧
    ((sampleField (Arith.ofField Real.sin Real.cos Real.arctan Real.log)).samplePoint
        (Arith.ofField Real.sin Real.cos Real.arctan Real.log) 1 3).y = 3 / 4 := by
  constructor
  · norm_num [Ljapunow.centerPixel, Ljapunow.centerM, Ljapunow.pixelPoint, calcVx,
      calcVy, sampleField, Arith.ofField, toInt32]
  · rw [(Ljapunow.samplePoint_exact Real.sin Real.cos Real.arctan Real.log _ 1 3).2]
    norm_num [sampleField, Arith.ofField]

/-- **C26 (amended).** In exact arithmetic, `centerPixel(px, py)` adds one
common vector, `S(px, leny - py) - (lowerright + upperleft)/2`, to all three
corners, and the centroid of the new window, the average of its lower-right
and upper-left corners, is `S(px, leny - py)`, the point that the sampling pass
of the window before the call samples at column `px` of row `leny - py`. -/
theorem C26_centerPixel_translates {α : Type} [LinearOrderedField α] [FloorRing α]
    (sn cs atn lg : α → α) (L : Ljapunow α) (px py : Int) :
    (∃ tx ty : α,
      tx = (L.samplePoint (Arith.ofField sn cs atn lg) px (toInt32 (L.leny - py))).x
            - (L.lowerright.x + L.upperleft.x) / 2 ∧
      ty = (L.samplePoint (Arith.ofField sn cs atn lg) px (toInt32 (L.leny - py))).y
            - (L.lowerright.y + L.upperleft.y) / 2 ∧
      (L.centerPixel (Arith.ofField sn cs atn lg) px py).lowerleft.x = L.lowerleft.x + tx ∧
      (L.centerPixel (Arith.ofField sn cs atn lg) px py).lowerleft.y = L.lowerleft.y + ty ∧
      (L.centerPixel (Arith.ofField sn cs atn lg) px py).lowerright.x = L.lowerright.x + tx ∧
      (L.centerPixel (Arith.ofField sn cs atn lg) px py).lowerright.y = L.lowerright.y + ty ∧
      (L.centerPixel (Arith.ofField sn cs atn lg) px py).upperleft.x = L.upperleft.x + tx ∧
      (L.centerPixel (Arith.ofField sn cs atn lg) px py).upperleft.y = L.upperleft.y + ty) ∧
    ((L.centerPixel (Arith.ofField sn cs atn lg) px py).lowerright.x + (L.centerPixel
        (Arith.ofField sn cs atn lg) px py).upperleft.x) / 2
      = (L.samplePoint (Arith.ofField sn cs atn lg) px (toInt32 (L.leny - py))).x ∧
    ((L.centerPixel (Arith.ofField sn cs atn lg) px py).lowerright.y + (L.centerPixel
        (Arith.ofField sn cs atn lg) px py).upperleft.y) / 2
      = (L.samplePoint (Arith.ofField sn cs atn lg) px (toInt32 (L.leny - py))).y ∧
    (inInt32 (L.leny - py) → toInt32 (L.leny - py) = L.leny - py) := by
  refine ⟨⟨_, _, rfl, rfl, ?_, ?_, ?_, ?_, ?_, ?_⟩, ?_, ?_, toInt32_of_inInt32 _⟩ <;>
  · simp only [Ljapunow.centerPixel, Ljapunow.centerM, Ljapunow.pixelPoint,
      Ljapunow.samplePoint, calcVx, calcVy, Arith.ofField]
    push_cast
    ring

/-! ## The window: rot and stretch -/

theorem rotPoint_exact {α : Type} [LinearOrderedField α] [FloorRing α]
    (sn cs atn lg : α → α) (M c : Point32_t α) (cosa sina : α) :
    (rotPoint (Arith.ofField sn cs atn lg) M c cosa sina).x
      = M.x + (cosa * (c.x - M.x) - sina * (c.y - M.y)) ∧
    (rotPoint (Arith.ofField sn cs atn lg) M c cosa sina).y
      = M.y + (sina * (c.x - M.x) + cosa * (c.y - M.y)) := by
  constructor
  · simp only [rotPoint, Arith.ofField]
    ring
  · simp only [rotPoint, Arith.ofField]
    ring

theorem stretchPoint_exact {α : Type} [LinearOrderedField α] [FloorRing α]
    (sn cs atn lg : α → α) (M c : Point32_t α) (fx fy : α) :
    (stretchPoint (Arith.ofField sn cs atn lg) M c fx fy).x = M.x + fx * (c.x - M.x) ∧
    (stretchPoint (Arith.ofField sn cs atn lg) M c fx fy).y = M.y + fy * (c.y - M.y) := by
  constructor
  · simp only [stretchPoint, Arith.ofField]
    ring
  · simp only [stretchPoint, Arith.ofField]
    ring

theorem Ljapunow.midM_exact {α : Type} [LinearOrderedField α] [FloorRing α]
    (sn cs atn lg : α → α) (L : Ljapunow α) :
    (L.midM (Arith.ofField sn cs atn lg)).x = (L.lowerright.x + L.upperleft.x) / 2 ∧
    (L.midM (Arith.ofField sn cs atn lg)).y = (L.lowerright.y + L.upperleft.y) / 2 := by
  constructor
  · simp only [Ljapunow.midM, Arith.ofField]
    push_cast
    ring
  · simp only [Ljapunow.midM, Arith.ofField]
    push_cast
    ring

/-- **C27.** In exact arithmetic, with `M = (lowerright + upperleft)/2` the
centroid before the call: `rot(deg)` maps every corner `c` to `M + R*(c - M)`,
`R = [[cosa, -sina], [sina, cosa]]`, `cosa = fastcos(w)`, `sina = fastsin(w)`,
`w = deg*2*M_PI/360`; `stretch(fx, fy)` maps every corner `c` to
`M + (fx*(c - M).x, fy*(c - M).y)`; and after either operation the centroid of
the window is again `M`. -/
theorem C27_rot_stretch_about_centroid {α : Type} [LinearOrderedField α]
    [FloorRing α] (sn cs atn lg : α → α) (L : Ljapunow α) (deg : Int) (fx fy : α) :
    rotAngle (Arith.ofField sn cs atn lg) deg = (deg : α) * 2 * ((M_PI : ℚ) : α) / 360 ∧
    (L.midM (Arith.ofField sn cs atn lg)).x = (L.lowerright.x + L.upperleft.x) / 2 ∧
    (L.midM (Arith.ofField sn cs atn lg)).y = (L.lowerright.y + L.upperleft.y) / 2 ∧
    (∀ c : Point32_t α,
      (rotPoint (Arith.ofField sn cs atn lg) (L.midM (Arith.ofField sn cs atn lg)) c (fastcos
          (Arith.ofField sn cs atn lg) (rotAngle (Arith.ofField sn cs atn lg) deg))
          (fastsin (Arith.ofField sn cs atn lg) (rotAngle (Arith.ofField sn cs atn lg) deg))).x
        = (L.midM (Arith.ofField sn cs atn lg)).x + (fastcos (Arith.ofField sn cs atn lg) (rotAngle
            (Arith.ofField sn cs atn lg) deg) * (c.x - (L.midM (Arith.ofField sn cs atn lg)).x)
            - fastsin (Arith.ofField sn cs atn lg) (rotAngle
                (Arith.ofField sn cs atn lg) deg) * (c.y - (L.midM
                (Arith.ofField sn cs atn lg)).y)) ∧
      (rotPoint (Arith.ofField sn cs atn lg) (L.midM (Arith.ofField sn cs atn lg)) c (fastcos
          (Arith.ofField sn cs atn lg) (rotAngle (Arith.ofField sn cs atn lg) deg))
          (fastsin (Arith.ofField sn cs atn lg) (rotAngle (Arith.ofField sn cs atn lg) deg))).y
        = (L.midM (Arith.ofField sn cs atn lg)).y + (fastsin (Arith.ofField sn cs atn lg) (rotAngle
            (Arith.ofField sn cs atn lg) deg) * (c.x - (L.midM (Arith.ofField sn cs atn lg)).x)
            + fastcos (Arith.ofField sn cs atn lg) (rotAngle
                (Arith.ofField sn cs atn lg) deg) * (c.y - (L.midM
                (Arith.ofField sn cs atn lg)).y)) ∧
      (stretchPoint (Arith.ofField sn cs atn lg) (L.midM (Arith.ofField sn cs atn lg)) c fx fy).x
        = (L.midM (Arith.ofField sn cs atn lg)).x + fx * (c.x - (L.midM
            (Arith.ofField sn cs atn lg)).x) ∧
      (stretchPoint (Arith.ofField sn cs atn lg) (L.midM (Arith.ofField sn cs atn lg)) c fx fy).y
        = (L.midM (Arith.ofField sn cs atn lg)).y + fy * (c.y - (L.midM
            (Arith.ofField sn cs atn lg)).y)) ∧
    ((L.rot (Arith.ofField sn cs atn lg) deg).lowerleft
        = rotPoint (Arith.ofField sn cs atn lg) (L.midM (Arith.ofField sn cs atn lg)) L.lowerleft
            (fastcos (Arith.ofField sn cs atn lg) (rotAngle (Arith.ofField sn cs atn lg) deg))
            (fastsin (Arith.ofField sn cs atn lg) (rotAngle (Arith.ofField sn cs atn lg) deg)) ∧
      (L.rot (Arith.ofField sn cs atn lg) deg).lowerright
        = rotPoint (Arith.ofField sn cs atn lg) (L.midM (Arith.ofField sn cs atn lg)) L.lowerright
            (fastcos (Arith.ofField sn cs atn lg) (rotAngle (Arith.ofField sn cs atn lg) deg))
            (fastsin (Arith.ofField sn cs atn lg) (rotAngle (Arith.ofField sn cs atn lg) deg)) ∧
      (L.rot (Arith.ofField sn cs atn lg) deg).upperleft
        = rotPoint (Arith.ofField sn cs atn lg) (L.midM (Arith.ofField sn cs atn lg)) L.upperleft
            (fastcos (Arith.ofField sn cs atn lg) (rotAngle (Arith.ofField sn cs atn lg) deg))
            (fastsin (Arith.ofField sn cs atn lg) (rotAngle (Arith.ofField sn cs atn lg) deg))) ∧
    ((L.stretch (Arith.ofField sn cs atn lg) fx fy).lowerleft = stretchPoint
        (Arith.ofField sn cs atn lg) (L.midM (Arith.ofField sn cs atn lg)) L.lowerleft fx fy ∧
      (L.stretch (Arith.ofField sn cs atn lg) fx fy).lowerright = stretchPoint
          (Arith.ofField sn cs atn lg) (L.midM (Arith.ofField sn cs atn lg)) L.lowerright fx fy ∧
      (L.stretch (Arith.ofField sn cs atn lg) fx fy).upperleft = stretchPoint
          (Arith.ofField sn cs atn lg) (L.midM (Arith.ofField sn cs atn lg)) L.upperleft fx fy) ∧
    (((L.rot (Arith.ofField sn cs atn lg) deg).midM (Arith.ofField sn cs atn lg)).x = (L.midM
        (Arith.ofField sn cs atn lg)).x ∧
      ((L.rot (Arith.ofField sn cs atn lg) deg).midM (Arith.ofField sn cs atn lg)).y = (L.midM
          (Arith.ofField sn cs atn lg)).y) ∧
    (((L.stretch (Arith.ofField sn cs atn lg) fx fy).midM (Arith.ofField sn cs atn lg)).x = (L.midM
        (Arith.ofField sn cs atn lg)).x ∧
      ((L.stretch (Arith.ofField sn cs atn lg) fx fy).midM (Arith.ofField sn cs atn lg)).y = (L.midM
          (Arith.ofField sn cs atn lg)).y) := by
  obtain ⟨m1, m2⟩ := Ljapunow.midM_exact sn cs atn lg L
  refine ⟨?_, m1, m2, ?_, ⟨rfl, rfl, rfl⟩, ⟨rfl, rfl, rfl⟩, ⟨?_, ?_⟩, ⟨?_, ?_⟩⟩
  · simp only [rotAngle, Arith.ofField]
    push_cast
    ring
  · intro c
    obtain ⟨r1, r2⟩ := rotPoint_exact sn cs atn lg (L.midM (Arith.ofField sn cs atn lg)) c
      (fastcos (Arith.ofField sn cs atn lg) (rotAngle (Arith.ofField sn cs atn lg) deg)) (fastsin
          (Arith.ofField sn cs atn lg) (rotAngle (Arith.ofField sn cs atn lg) deg))
    obtain ⟨s1, s2⟩ := stretchPoint_exact sn cs atn lg (L.midM (Arith.ofField sn cs atn lg)) c fx fy
    exact ⟨r1, r2, s1, s2⟩
  · rw [(Ljapunow.midM_exact sn cs atn lg (L.rot (Arith.ofField sn cs atn lg) deg)).1]
    show ((rotPoint (Arith.ofField sn cs atn lg) (L.midM
        (Arith.ofField sn cs atn lg)) L.lowerright _ _).x
      + (rotPoint (Arith.ofField sn cs atn lg) (L.midM
          (Arith.ofField sn cs atn lg)) L.upperleft _ _).x) / 2 = _
    rw [(rotPoint_exact sn cs atn lg _ _ _ _).1, (rotPoint_exact sn cs atn lg _ _ _ _).1,
      m1, m2]
    ring
  · rw [(Ljapunow.midM_exact sn cs atn lg (L.rot (Arith.ofField sn cs atn lg) deg)).2]
    show ((rotPoint (Arith.ofField sn cs atn lg) (L.midM
        (Arith.ofField sn cs atn lg)) L.lowerright _ _).y
      + (rotPoint (Arith.ofField sn cs atn lg) (L.midM
          (Arith.ofField sn cs atn lg)) L.upperleft _ _).y) / 2 = _
    rw [(rotPoint_exact sn cs atn lg _ _ _ _).2, (rotPoint_exact sn cs atn lg _ _ _ _).2,
      m1, m2]
    ring
  · rw [(Ljapunow.midM_exact sn cs atn lg (L.stretch (Arith.ofField sn cs atn lg) fx fy)).1]
    show ((stretchPoint (Arith.ofField sn cs atn lg) (L.midM
        (Arith.ofField sn cs atn lg)) L.lowerright fx fy).x
      + (stretchPoint (Arith.ofField sn cs atn lg) (L.midM
          (Arith.ofField sn cs atn lg)) L.upperleft fx fy).x) / 2 = _
    rw [(stretchPoint_exact sn cs atn lg _ _ _ _).1,
      (stretchPoint_exact sn cs atn lg _ _ _ _).1, m1]
    ring
  · rw [(Ljapunow.midM_exact sn cs atn lg (L.stretch (Arith.ofField sn cs atn lg) fx fy)).2]
    show ((stretchPoint (Arith.ofField sn cs atn lg) (L.midM
        (Arith.ofField sn cs atn lg)) L.lowerright fx fy).y
      + (stretchPoint (Arith.ofField sn cs atn lg) (L.midM
          (Arith.ofField sn cs atn lg)) L.upperleft fx fy).y) / 2 = _
    rw [(stretchPoint_exact sn cs atn lg _ _ _ _).2,
      (stretchPoint_exact sn cs atn lg _ _ _ _).2, m2]
    ring

/-! ## The window: directions of the edges -/

/-- **C28 (as stated, refuted).** The sample field with the window `(0,0)`,
`(1,1)`, `(-1,1)` in real arithmetic, `stretch(2, 1)`: the edge from the
lower-left to the lower-right corner is `(1, 1)` before and `(2, 1)` after the
call, which is no multiple of `(1, 1)`. -/
theorem C28_counterexample :
    ¬ ∃ c : ℝ,
      ((sampleTilted (Arith.ofField Real.sin Real.cos Real.arctan Real.log)).stretch
          (Arith.ofField Real.sin Real.cos Real.arctan Real.log) 2 1).lowerright.x
          - ((sampleTilted (Arith.ofField Real.sin Real.cos Real.arctan Real.log)).stretch
              (Arith.ofField Real.sin Real.cos Real.arctan Real.log) 2 1).lowerleft.x
        = c * ((sampleTilted (Arith.ofField Real.sin Real.cos Real.arctan Real.log)).lowerright.x -
            (sampleTilted (Arith.ofField Real.sin Real.cos Real.arctan Real.log)).lowerleft.x) ∧
      ((sampleTilted (Arith.ofField Real.sin Real.cos Real.arctan Real.log)).stretch
          (Arith.ofField Real.sin Real.cos Real.arctan Real.log) 2 1).lowerright.y
          - ((sampleTilted (Arith.ofField Real.sin Real.cos Real.arctan Real.log)).stretch
              (Arith.ofField Real.sin Real.cos Real.arctan Real.log) 2 1).lowerleft.y
        = c * ((sampleTilted (Arith.ofField Real.sin Real.cos Real.arctan Real.log)).lowerright.y -
            (sampleTilted (Arith.ofField Real.sin Real.cos Real.arctan Real.log)).lowerleft.y) := by
  have e1 : ((sampleTilted (Arith.ofField Real.sin Real.cos Real.arctan Real.log)).stretch
      (Arith.ofField Real.sin Real.cos Real.arctan Real.log) 2 1).lowerright.x
      - ((sampleTilted (Arith.ofField Real.sin Real.cos Real.arctan Real.log)).stretch
          (Arith.ofField Real.sin Real.cos Real.arctan Real.log) 2 1).lowerleft.x = 2 := by
    norm_num [Ljapunow.stretch, stretchPoint, Ljapunow.midM, sampleTilted,
      Ljapunow.setPosition, Arith.ofField]
  have e2 : ((sampleTilted (Arith.ofField Real.sin Real.cos Real.arctan Real.log)).stretch
      (Arith.ofField Real.sin Real.cos Real.arctan Real.log) 2 1).lowerright.y
      - ((sampleTilted (Arith.ofField Real.sin Real.cos Real.arctan Real.log)).stretch
          (Arith.ofField Real.sin Real.cos Real.arctan Real.log) 2 1).lowerleft.y = 1 := by
    norm_num [Ljapunow.stretch, stretchPoint, Ljapunow.midM, sampleTilted,
      Ljapunow.setPosition, Arith.ofField]
  have e3 : (sampleTilted (Arith.ofField Real.sin Real.cos Real.arctan Real.log)).lowerright.x -
      (sampleTilted (Arith.ofField Real.sin Real.cos Real.arctan Real.log)).lowerleft.x = 1 := by
    norm_num [sampleTilted, Ljapunow.setPosition, Arith.ofField]
  have e4 : (sampleTilted (Arith.ofField Real.sin Real.cos Real.arctan Real.log)).lowerright.y -
      (sampleTilted (Arith.ofField Real.sin Real.cos Real.arctan Real.log)).lowerleft.y = 1 := by
    norm_num [sampleTilted, Ljapunow.setPosition, Arith.ofField]
  rintro ⟨c, h1, h2⟩
  rw [e1, e3] at h1
  rw [e2, e4] at h2
  linarith

/-- **C28 (amended).** In exact arithmetic, on a grid with `lenx ≠ 0` and
`leny ≠ 0`: after `crop` the edge `lowerright - lowerleft` is `c` times the
same edge before the call, `c*lenx = porneux - pulneux`, and the edge
`upperleft - lowerleft` is `d` times the same edge before, `d*leny` the
difference of the two rows; `centerPixel` leaves both edges as they are; and
`stretch(fx, fy)` multiplies the `x` component of each edge by `fx` and its `y`
component by `fy`, so that each edge is `f` times the edge before when
`fx = fy = f`. -/
theorem C28_edge_directions {α : Type} [LinearOrderedField α] [FloorRing α]
    (sn cs atn lg : α → α) (L : Ljapunow α) (hx : L.lenx ≠ 0) (hy : L.leny ≠ 0)
    (pulneux pulneuy porneux porneuy px py : Int) (fx fy : α) :
    (∃ c : α, c * (L.lenx : α) = ((porneux - pulneux : Int) : α) ∧
      (L.crop (Arith.ofField sn cs atn lg) pulneux pulneuy porneux porneuy).lowerright.x
          - (L.crop (Arith.ofField sn cs atn lg) pulneux pulneuy porneux porneuy).lowerleft.x
        = c * (L.lowerright.x - L.lowerleft.x) ∧
      (L.crop (Arith.ofField sn cs atn lg) pulneux pulneuy porneux porneuy).lowerright.y
          - (L.crop (Arith.ofField sn cs atn lg) pulneux pulneuy porneux porneuy).lowerleft.y
        = c * (L.lowerright.y - L.lowerleft.y)) ∧
    (∃ d : α, d * (L.leny : α)
        = ((toInt32 (L.leny - porneuy) - toInt32 (L.leny - pulneuy) : Int) : α) ∧
      (L.crop (Arith.ofField sn cs atn lg) pulneux pulneuy porneux porneuy).upperleft.x
          - (L.crop (Arith.ofField sn cs atn lg) pulneux pulneuy porneux porneuy).lowerleft.x
        = d * (L.upperleft.x - L.lowerleft.x) ∧
      (L.crop (Arith.ofField sn cs atn lg) pulneux pulneuy porneux porneuy).upperleft.y
          - (L.crop (Arith.ofField sn cs atn lg) pulneux pulneuy porneux porneuy).lowerleft.y
        = d * (L.upperleft.y - L.lowerleft.y)) ∧
    ((L.centerPixel (Arith.ofField sn cs atn lg) px py).lowerright.x - (L.centerPixel
        (Arith.ofField sn cs atn lg) px py).lowerleft.x
        = L.lowerright.x - L.lowerleft.x ∧
      (L.centerPixel (Arith.ofField sn cs atn lg) px py).lowerright.y - (L.centerPixel
          (Arith.ofField sn cs atn lg) px py).lowerleft.y
        = L.lowerright.y - L.lowerleft.y ∧
      (L.centerPixel (Arith.ofField sn cs atn lg) px py).upperleft.x - (L.centerPixel
          (Arith.ofField sn cs atn lg) px py).lowerleft.x
        = L.upperleft.x - L.lowerleft.x ∧
      (L.centerPixel (Arith.ofField sn cs atn lg) px py).upperleft.y - (L.centerPixel
          (Arith.ofField sn cs atn lg) px py).lowerleft.y
        = L.upperleft.y - L.lowerleft.y) ∧
    ((L.stretch (Arith.ofField sn cs atn lg) fx fy).lowerright.x - (L.stretch
        (Arith.ofField sn cs atn lg) fx fy).lowerleft.x
        = fx * (L.lowerright.x - L.lowerleft.x) ∧
      (L.stretch (Arith.ofField sn cs atn lg) fx fy).lowerright.y - (L.stretch
          (Arith.ofField sn cs atn lg) fx fy).lowerleft.y
        = fy * (L.lowerright.y - L.lowerleft.y) ∧
      (L.stretch (Arith.ofField sn cs atn lg) fx fy).upperleft.x - (L.stretch
          (Arith.ofField sn cs atn lg) fx fy).lowerleft.x
        = fx * (L.upperleft.x - L.lowerleft.x) ∧
      (L.stretch (Arith.ofField sn cs atn lg) fx fy).upperleft.y - (L.stretch
          (Arith.ofField sn cs atn lg) fx fy).lowerleft.y
        = fy * (L.upperleft.y - L.lowerleft.y)) := by
  have hxc : (L.lenx : α) ≠ 0 := by exact_mod_cast hx
  have hyc : (L.leny : α) ≠ 0 := by exact_mod_cast hy
  refine ⟨⟨((porneux - pulneux : Int) : α) / (L.lenx : α), ?_, ?_, ?_⟩,
    ⟨((toInt32 (L.leny - porneuy) - toInt32 (L.leny - pulneuy) : Int) : α)
      / (L.leny : α), ?_, ?_, ?_⟩, ⟨?_, ?_, ?_, ?_⟩, ⟨?_, ?_, ?_, ?_⟩⟩
  · exact div_mul_cancel₀ _ hxc
  · simp only [Ljapunow.crop, Ljapunow.pixelPoint, calcVx, calcVy, Arith.ofField]
    push_cast
    ring
  · simp only [Ljapunow.crop, Ljapunow.pixelPoint, calcVx, calcVy, Arith.ofField]
    push_cast
    ring
  · exact div_mul_cancel₀ _ hyc
  · simp only [Ljapunow.crop, Ljapunow.pixelPoint, calcVx, calcVy, Arith.ofField]
    push_cast
    ring
  · simp only [Ljapunow.crop, Ljapunow.pixelPoint, calcVx, calcVy, Arith.ofField]
    push_cast
    ring
  all_goals
    simp only [Ljapunow.centerPixel, Ljapunow.centerM, Ljapunow.pixelPoint,
      Ljapunow.stretch, stretchPoint, Ljapunow.midM, calcVx, calcVy, Arith.ofField]
    ring

/-- Witness of C28 (amended): the sample field in real arithmetic,
`stretch(3, 3)`: the lower edge `(1, 0)` becomes `(3, 0)`. -/
theorem C28_edge_directions_witness :
    (sampleField (Arith.ofField Real.sin Real.cos Real.arctan Real.log)).lenx ≠ 0 ∧ (sampleField
        (Arith.ofField Real.sin Real.cos Real.arctan Real.log)).leny ≠ 0 ∧
    ((sampleField (Arith.ofField Real.sin Real.cos Real.arctan Real.log)).stretch
        (Arith.ofField Real.sin Real.cos Real.arctan Real.log) 3 3).lowerright.x
        - ((sampleField (Arith.ofField Real.sin Real.cos Real.arctan Real.log)).stretch
            (Arith.ofField Real.sin Real.cos Real.arctan Real.log) 3 3).lowerleft.x
      = 3 * ((sampleField (Arith.ofField Real.sin Real.cos Real.arctan Real.log)).lowerright.x -
          (sampleField (Arith.ofField Real.sin Real.cos Real.arctan Real.log)).lowerleft.x) := by
  have hx : (sampleField
      (Arith.ofField Real.sin Real.cos Real.arctan Real.log)).lenx ≠ 0 := by simp [sampleField]
  have hy : (sampleField
      (Arith.ofField Real.sin Real.cos Real.arctan Real.log)).leny ≠ 0 := by simp [sampleField]
  exact ⟨hx, hy, (C28_edge_directions Real.sin Real.cos Real.arctan Real.log
    (sampleField
        (Arith.ofField Real.sin Real.cos Real.arctan Real.log)) hx hy 0 0 0 0 0 0 3 3).2.2.2.1⟩

/-! ## The alternation sequence -/

theorem upperChar_eq_A (c : Nat) : upperChar c = 65 ↔ (c = 65 ∨ c = 97) := by
  unfold upperChar
  simp only []
  split_ifs <;> omega

theorem upperChar_eq_B (c : Nat) : upperChar c = 66 ↔ (c = 66 ∨ c = 98) := by
  unfold upperChar
  simp only []
  split_ifs <;> omega

/-- The loop over characters that are all `A` or `B` runs to its end and stores
the symbols at the indices from `i` on. -/
theorem setSequenceLoop_valid (t : List Nat) :
    ∀ (i : Nat) (seq : Nat → Int), (∀ c ∈ t, c = 65 ∨ c = 66) →
      (setSequenceLoop t i seq).1 = true ∧
      (∀ k (hk : k < t.length),
        (setSequenceLoop t i seq).2 (i + k) = if t[k] = 65 then 0 else 1) ∧
      (∀ j, j < i → (setSequenceLoop t i seq).2 j = seq j) := by
  induction t with
  | nil =>
    intro i seq _
    exact ⟨rfl, fun k hk => absurd hk (Nat.not_lt_zero k), fun _ _ => rfl⟩
  | cons c cs ih =>
    intro i seq h
    have hc := h c (List.mem_cons_self c cs)
    have hcs : ∀ d ∈ cs, d = 65 ∨ d = 66 := fun d hd => h d (List.mem_cons_of_mem c hd)
    by_cases h65 : c = 65
    · obtain ⟨a1, a2, a3⟩ := ih (i + 1) (fun j => if j = i then 0 else seq j) hcs
      simp only [setSequenceLoop, h65, if_true]
      refine ⟨a1, ?_, ?_⟩
      · intro k hk
        cases k with
        | zero =>
          have := a3 i (Nat.lt_succ_self i)
          simpa using this
        | succ k =>
          have := a2 k (by simpa using hk)
          rw [show i + (k + 1) = i + 1 + k by omega, this]
          simp
      · intro j hj
        rw [a3 j (by omega)]
        simp [Nat.ne_of_lt hj]
    · have h66 : c = 66 := by
        rcases hc with h | h
        · exact absurd h h65
        · exact h
      obtain ⟨a1, a2, a3⟩ := ih (i + 1) (fun j => if j = i then 1 else seq j) hcs
      simp only [setSequenceLoop, h66]
      simp only [show ¬ (66 = 65) by decide, if_false, if_true]
      refine ⟨a1, ?_, ?_⟩
      · intro k hk
        cases k with
        | zero =>
          have := a3 i (Nat.lt_succ_self i)
          simpa using this
        | succ k =>
          have := a2 k (by simpa using hk)
          rw [show i + (k + 1) = i + 1 + k by omega, this]
          simp
      · intro j hj
        rw [a3 j (by omega)]
        simp [Nat.ne_of_lt hj]

/-- The loop over characters one of which is neither `A` nor `B` ends early. -/
theorem setSequenceLoop_invalid (t : List Nat) :
    ∀ (i : Nat) (seq : Nat → Int), (∃ c ∈ t, c ≠ 65 ∧ c ≠ 66) →
      (setSequenceLoop t i seq).1 = false := by
  induction t with
  | nil =>
    intro i seq h
    obtain ⟨c, hc, _⟩ := h
    simp at hc
  | cons c cs ih =>
    intro i seq h
    by_cases h65 : c = 65
    · simp only [setSequenceLoop, h65, if_true]
      apply ih
      obtain ⟨d, hd, hd1, hd2⟩ := h
      rcases List.mem_cons.mp hd with e | e
      · exact absurd (e ▸ h65) hd1
      · exact ⟨d, e, hd1, hd2⟩
    · by_cases h66 : c = 66
      · simp only [setSequenceLoop, h66]
        simp only [show ¬ (66 = 65) by decide, if_false, if_true]
        apply ih
        obtain ⟨d, hd, hd1, hd2⟩ := h
        rcases List.mem_cons.mp hd with e | e
        · exact absurd (e ▸ h66) hd2
        · exact ⟨d, e, hd1, hd2⟩
      · simp [setSequenceLoop, h65, h66]

/-- The characters of `upper s` are all `A` or `B` exactly when those of `s`
are among `a`, `b`, `A`, `B`. -/
theorem upper_valid (s : List Nat) (h : ∀ c ∈ s, isAB c) :
    ∀ c ∈ upper s, c = 65 ∨ c = 66 := by
  intro c hc
  obtain ⟨d, hd, e⟩ := List.mem_map.mp hc
  rw [← e]
  rcases h d hd with h1 | h1 | h1 | h1
  · exact Or.inl ((upperChar_eq_A d).mpr (Or.inr h1))
  · exact Or.inr ((upperChar_eq_B d).mpr (Or.inr h1))
  · exact Or.inl ((upperChar_eq_A d).mpr (Or.inl h1))
  · exact Or.inr ((upperChar_eq_B d).mpr (Or.inl h1))

theorem upper_invalid (s : List Nat) (h : ∃ c ∈ s, ¬ isAB c) :
    ∃ c ∈ upper s, c ≠ 65 ∧ c ≠ 66 := by
  obtain ⟨d, hd, hn⟩ := h
  refine ⟨upperChar d, List.mem_map.mpr ⟨d, hd, rfl⟩, ?_, ?_⟩
  · intro e
    rcases (upperChar_eq_A d).mp e with h1 | h1
    · exact hn (Or.inr (Or.inr (Or.inl h1)))
    · exact hn (Or.inl h1)
  · intro e
    rcases (upperChar_eq_B d).mp e with h1 | h1
    · exact hn (Or.inr (Or.inr (Or.inr h1)))
    · exact hn (Or.inr (Or.inl h1))

/-- What `setSequence` stores for a string whose first 255 characters are among
`a`, `b`, `A`, `B`. -/
theorem Ljapunow.setSequence_valid {α : Type} (L : Ljapunow α) (s : List Nat)
    (h : ∀ c ∈ s.take 255, isAB c) :
    (L.setSequence s).seqlen = min 255 s.length ∧
    (∀ k (hk : k < (s.take 255).length),
      (L.setSequence s).sequence k = symbolOf ((s.take 255)[k])) := by
  obtain ⟨a1, a2, _⟩ := setSequenceLoop_valid (upper (s.take 255)) 0 L.sequence
    (upper_valid _ h)
  constructor
  · show (if (setSequenceLoop (upper (s.take 255)) 0 L.sequence).1 = true
        then (upper (s.take 255)).length else 0) = _
    rw [if_pos a1]
    simp [upper]
  · intro k hk
    have hk2 : k < (upper (s.take 255)).length := by
      simpa [upper] using hk
    have := a2 k hk2
    rw [Nat.zero_add] at this
    simp only [Ljapunow.setSequence]
    rw [this]
    simp only [upper, List.getElem_map, upperChar_eq_A, symbolOf]

theorem Ljapunow.setSequence_invalid {α : Type} (L : Ljapunow α) (s : List Nat)
    (h : ∃ c ∈ s.take 255, ¬ isAB c) : (L.setSequence s).seqlen = 0 := by
  have := setSequenceLoop_invalid (upper (s.take 255)) 0 L.sequence (upper_invalid _ h)
  simp only [Ljapunow.setSequence, this]
  simp

theorem symbolOf_char (c : Nat) (h : isAB c) :
    ((65 + symbolOf c) % 256).toNat = upperChar c ∧
    (symbolOf c = 0 ∨ symbolOf c = 1) := by
  rcases h with h | h | h | h <;> subst h <;> exact ⟨by decide, by decide⟩

/-- After `setSequence` with a string whose first 255 characters are among the
four letters, `getSequence` returns these characters in upper case. -/
theorem Ljapunow.getSequence_setSequence {α : Type} (L : Ljapunow α) (s : List Nat)
    (h : ∀ c ∈ s.take 255, isAB c) :
    (L.setSequence s).getSequence = upper (s.take 255) := by
  obtain ⟨a1, a2⟩ := Ljapunow.setSequence_valid L s h
  apply List.ext_getElem
  · simp [Ljapunow.getSequence, a1, upper]
  · intro k hk1 hk2
    have hk : k < (s.take 255).length := by simpa [upper] using hk2
    simp only [Ljapunow.getSequence, List.getElem_map, List.getElem_range, upper]
    rw [a2 k hk]
    exact (symbolOf_char _ (h _ (List.getElem_mem hk))).1

/-- **C22 (as stated, refuted).** The string of 256 letters `A`: `setSequence`
stores a sequence of length 255, not 256. -/
theorem C22_counterexample :
    (List.replicate 256 65).length = 256 ∧
    (∀ c ∈ List.replicate 256 65, c = 65 ∨ c = 66) ∧
    ((sampleField
        (Arith.ofField Real.sin Real.cos Real.arctan Real.log)).setSequence (List.replicate 256 65)).seqlen = 255 := by
  refine ⟨List.length_replicate _ _,
    fun c hc => Or.inl (List.eq_of_mem_replicate hc), ?_⟩
  rw [(Ljapunow.setSequence_valid (sampleField
      (Arith.ofField Real.sin Real.cos Real.arctan Real.log)) (List.replicate 256 65)
    (fun c hc => by
      rw [List.eq_of_mem_replicate (List.mem_of_mem_take hc)]
      decide)).1, List.length_replicate]
  decide

/-- **C22 (amended).** For every string over `A`, `B`: `setSequence` stores
the first 255 characters of the string, in their order, `A` as 0 and `B` as 1,
and `getSequence` returns them; for a string of length 1 to 255 this is the
whole string, with the same length, and a longer string is cut to its first
255 characters. -/
theorem C22_setSequence_stores {α : Type} (L : Ljapunow α) (s : List Nat)
    (hv : ∀ c ∈ s, c = 65 ∨ c = 66) :
    (L.setSequence s).seqlen = min 255 s.length ∧
    (∀ k (hk : k < (s.take 255).length),
      (L.setSequence s).sequence k = if (s.take 255)[k] = 65 then 0 else 1) ∧
    (L.setSequence s).getSequence = s.take 255 ∧
    (s.length ≤ 255 → s.take 255 = s ∧ (L.setSequence s).seqlen = s.length) ∧
    (1 ≤ s.length → 1 ≤ (L.setSequence s).seqlen) ∧
    (255 < s.length → (L.setSequence s).seqlen = 255) := by
  have hab : ∀ c ∈ s.take 255, isAB c := by
    intro c hc
    rcases hv c (List.mem_of_mem_take hc) with h | h
    · exact Or.inr (Or.inr (Or.inl h))
    · exact Or.inr (Or.inr (Or.inr h))
  obtain ⟨a1, a2⟩ := Ljapunow.setSequence_valid L s hab
  refine ⟨a1, ?_, ?_, ?_, ?_, ?_⟩
  · intro k hk
    rw [a2 k hk]
    rcases hv _ (List.mem_of_mem_take (List.getElem_mem hk)) with h | h
    · simp [symbolOf, h]
    · simp [symbolOf, h]
  · rw [Ljapunow.getSequence_setSequence L s hab]
    have hid : (s.take 255).map upperChar = (s.take 255).map id := by
      apply List.map_congr_left
      intro c hc
      rcases hv c (List.mem_of_mem_take hc) with h | h <;> subst h <;> rfl
    unfold upper
    rw [hid, List.map_id]
  · intro hl
    exact ⟨List.take_of_length_le hl, by rw [a1]; omega⟩
  · intro hl
    rw [a1]
    omega
  · intro hl
    rw [a1]
    omega

/-- Witness of C22 (amended): the string `ABB`. -/
theorem C22_setSequence_stores_witness :
    (∀ c ∈ [65, 66, 66], c = 65 ∨ c = 66) ∧
    ((sampleField
        (Arith.ofField Real.sin Real.cos Real.arctan Real.log)).setSequence [65, 66, 66]).seqlen
        = 3 := by
  have hv : ∀ c ∈ [65, 66, 66], c = 65 ∨ c = 66 := by decide
  refine ⟨hv, ?_⟩
  rw [(C22_setSequence_stores (sampleField
      (Arith.ofField Real.sin Real.cos Real.arctan Real.log)) [65, 66, 66] hv).1]
  decide

/-- **C23.** For every field and every string `s`: when `s` has at most 255
characters, all among `a`, `b`, `A`, `B`, `setSequence` stores
`seqlen = length(s)` with the symbol 0 for `A`/`a` and 1 for `B`/`b` at each
index, and `getSequence` then returns `s` in upper case; when one of the first
255 characters of `s` is another character, `setSequence` leaves `seqlen = 0`;
and in every case each stored symbol at an index below `seqlen` is 0 or 1. -/
theorem C23_setSequence_round_trip {α : Type} (L : Ljapunow α) (s : List Nat) :
    (s.length ≤ 255 → (∀ c ∈ s, isAB c) →
      (L.setSequence s).seqlen = s.length ∧
      (∀ k (hk : k < s.length), (L.setSequence s).sequence k = symbolOf s[k]) ∧
      (L.setSequence s).getSequence = upper s) ∧
    (symbolOf 65 = 0 ∧ symbolOf 97 = 0 ∧ symbolOf 66 = 1 ∧ symbolOf 98 = 1) ∧
    ((∃ c ∈ s.take 255, ¬ isAB c) → (L.setSequence s).seqlen = 0) ∧
    (∀ k, k < (L.setSequence s).seqlen →
      (L.setSequence s).sequence k = 0 ∨ (L.setSequence s).sequence k = 1) := by
  refine ⟨?_, ⟨rfl, rfl, rfl, rfl⟩, Ljapunow.setSequence_invalid L s, ?_⟩
  · intro hl hv
    have ht : s.take 255 = s := List.take_of_length_le hl
    have hab : ∀ c ∈ s.take 255, isAB c := by
      rw [ht]
      exact hv
    obtain ⟨a1, a2⟩ := Ljapunow.setSequence_valid L s hab
    refine ⟨by rw [a1]; omega, ?_, ?_⟩
    · intro k hk
      have hk2 : k < (s.take 255).length := by rw [ht]; exact hk
      rw [a2 k hk2]
      simp only [ht]
    · rw [Ljapunow.getSequence_setSequence L s hab, ht]
  · intro k hk
    by_cases hab : ∀ c ∈ s.take 255, isAB c
    · obtain ⟨a1, a2⟩ := Ljapunow.setSequence_valid L s hab
      have hk2 : k < (s.take 255).length := by
        rw [a1] at hk
        simpa using hk
      rw [a2 k hk2]
      exact (symbolOf_char _ (hab _ (List.getElem_mem hk2))).2
    · have hex : ∃ c ∈ s.take 255, ¬ isAB c := by
        by_contra hn
        apply hab
        intro c hc
        by_contra hc2
        exact hn ⟨c, hc, hc2⟩
      rw [Ljapunow.setSequence_invalid L s hex] at hk
      exact absurd hk (Nat.not_lt_zero k)

/-! ## What the operations leave unchanged -/

theorem colStep_length {α : Type} (A : Arith α) (L : Ljapunow α) (vx : Point32_t α)
    (n : Nat) (cs : CalcState α) :
    (loopN (colStep A L vx) n cs).exps.length = cs.exps.length := by
  have h := loopN_inv (colStep A L vx) (fun _ s => s.exps.length = cs.exps.length)
    (fun _ s hs => by simpa [colStep] using hs) n 0 cs rfl
  exact h

theorem rowLoop_length {α : Type} (A : Arith α) (L : Ljapunow α)
    (vx vy : Point32_t α) (endeU : Nat) :
    ∀ (fuel y : Nat) (cs cs1 : CalcState α),
      rowLoop A L vx vy endeU fuel y cs = some cs1 →
      cs1.exps.length = cs.exps.length := by
  intro fuel
  induction fuel with
  | zero =>
    intro y cs cs1 h
    simp [rowLoop] at h
  | succ fuel ih =>
    intro y cs cs1 h
    simp only [rowLoop] at h
    by_cases hy : y ≤ endeU
    · rw [if_pos hy] at h
      rw [ih _ _ _ h, colStep_length]
    · rw [if_neg hy] at h
      cases h
      rfl

/-- `calc` changes no member but the cells of `exps`, and keeps their number. -/
theorem Ljapunow.calc_frame {α : Type} (A : Arith α) (L : Ljapunow α)
    (AB : Int → α) (fuel : Nat) (astart aende : Int) (r : Int × Ljapunow α)
    (h : L.calc A AB fuel astart aende = some r) :
    r.2 = { L with exps := r.2.exps } ∧ r.2.exps.length = L.exps.length := by
  unfold Ljapunow.calc at h
  cases hc : calcLoop A L AB fuel astart aende with
  | none => rw [hc] at h; cases h
  | some cs =>
    rw [hc] at h
    cases h
    exact ⟨rfl, rowLoop_length A L _ _ _ _ _ _ _ hc⟩

/-- On an addressable grid `calc` returns, and the grid stays addressable. -/
theorem Ljapunow.calc_total {α : Type} (A : Arith α) (L : Ljapunow α)
    (AB : Int → α) (hg : L.gridOK) (fuel : Nat) (hfuel : L.leny.toNat < fuel)
    (astart aende : Int) :
    ∃ r, L.calc A AB fuel astart aende = some r ∧
      r.2 = { L with exps := r.2.exps } ∧ r.2.exps.length = L.exps.length := by
  obtain ⟨cs, h1, _⟩ := calcLoop_spec A L AB hg fuel hfuel astart aende
  have hr : L.calc A AB fuel astart aende = some (1, { L with exps := cs.exps }) := by
    unfold Ljapunow.calc
    rw [h1]
  exact ⟨_, hr, Ljapunow.calc_frame A L AB fuel astart aende _ hr⟩

theorem loopOpt_inv {σ β : Type} (f : σ → β → Option σ) (I : σ → Prop)
    (hstep : ∀ s b s1, I s → f s b = some s1 → I s1) :
    ∀ (bs : List β) (s s1 : σ), I s → loopOpt f bs s = some s1 → I s1 := by
  intro bs
  induction bs with
  | nil =>
    intro s s1 hs h
    simp only [loopOpt] at h
    cases h
    exact hs
  | cons b bs ih =>
    intro s s1 hs h
    simp only [loopOpt] at h
    cases hf : f s b with
    | none => rw [hf] at h; cases h
    | some s2 =>
      rw [hf] at h
      exact ih s2 s1 (hstep s b s2 hs hf) h

/-- A loop whose body returns under the invariant `I`, keeps `I` and appends
`g b` to a log: the loop returns, keeps `I`, and has appended the `g b` in
order. -/
theorem loopOpt_spec {σ β γ : Type} (f : σ → β → Option σ) (I : σ → Prop)
    (log : σ → List γ) (g : β → List γ)
    (hstep : ∀ s b, I s → ∃ s1, f s b = some s1 ∧ I s1 ∧ log s1 = log s ++ g b) :
    ∀ (bs : List β) (s : σ), I s →
      ∃ s1, loopOpt f bs s = some s1 ∧ I s1 ∧
        log s1 = log s ++ bs.foldr (fun b acc => g b ++ acc) [] := by
  intro bs
  induction bs with
  | nil =>
    intro s hs
    exact ⟨s, rfl, hs, by simp⟩
  | cons b bs ih =>
    intro s hs
    obtain ⟨s1, h1, h2, h3⟩ := hstep s b hs
    obtain ⟨s2, k1, k2, k3⟩ := ih s1 h2
    refine ⟨s2, ?_, k2, ?_⟩
    · simp only [loopOpt, h1]
      exact k1
    · rw [k3, h3]
      simp

theorem loopOpt_append_one {σ β : Type} (f : σ → β → Option σ) (b : β) :
    ∀ (bs : List β) (s : σ),
      loopOpt f (bs ++ [b]) s
        = match loopOpt f bs s with
          | none => none
          | some s1 => f s1 b := by
  intro bs
  induction bs with
  | nil =>
    intro s
    simp only [List.nil_append, loopOpt]
    cases f s b <;> rfl
  | cons c bs ih =>
    intro s
    simp only [List.cons_append, loopOpt]
    cases f s c with
    | none => rfl
    | some s1 => exact ih s1

/-! ## Tiling -/

theorem Ljapunow.SameUpTo.refl {α : Type} (L : Ljapunow α) : L.SameUpTo L :=
  ⟨rfl, rfl⟩

theorem Ljapunow.SameUpTo.fields {α : Type} {L M : Ljapunow α} (h : L.SameUpTo M) :
    M.lenx = L.lenx ∧ M.leny = L.leny ∧ M.seqlen = L.seqlen ∧
    M.sequence = L.sequence ∧ M.exps.length = L.exps.length ∧ M.fkt = L.fkt := by
  obtain ⟨h1, h2⟩ := h
  have e1 := congrArg Ljapunow.lenx h1
  have e2 := congrArg Ljapunow.leny h1
  have e3 := congrArg Ljapunow.seqlen h1
  have e4 := congrArg Ljapunow.sequence h1
  have e5 := congrArg Ljapunow.fkt h1
  exact ⟨e1, e2, e3, e4, h2, e5⟩

theorem Ljapunow.SameUpTo.gridOK {α : Type} {L M : Ljapunow α} (h : L.SameUpTo M)
    (hg : L.gridOK) : M.gridOK := by
  obtain ⟨f1, f2, _, _, f5, _⟩ := h.fields
  unfold Ljapunow.gridOK at hg ⊢
  rw [f1, f2, f5]
  exact hg

/-- One step of `tile`, when its `calc` returns. -/
theorem tileStep_frame {α : Type} (A : Arith α) (AB : Int → α) (fuel : Nat)
    (sic vx vy : Point32_t α) (x y : Nat) (L : Ljapunow α)
    (st st1 : Ljapunow α × List (Window α)) (hs : L.SameUpTo st.1)
    (h : tileStep A AB fuel sic vx vy x st y = some st1) :
    L.SameUpTo st1.1 ∧ st1.2 = st.2 ++ [tileWindow A sic vx vy x y] ∧
    st1.1.window = tileWindow A sic vx vy x y := by
  unfold tileStep at h
  simp only [] at h
  cases hc : (st.1.install (tileWindow A sic vx vy x y)).calc A AB fuel 0
      (toInt32 (st.1.leny - 1)) with
  | none => rw [hc] at h; cases h
  | some r =>
    rw [hc] at h
    cases h
    obtain ⟨c1, c2⟩ := Ljapunow.calc_frame A _ AB fuel 0 _ r hc
    obtain ⟨s1, s2⟩ := hs
    refine ⟨⟨?_, ?_⟩, rfl, ?_⟩
    · show r.2.install L.window = { L with exps := r.2.exps }
      rw [c1]
      have e : ({ st.1.install (tileWindow A sic vx vy x y) with
            exps := r.2.exps } : Ljapunow α).install L.window
          = { st.1.install L.window with exps := r.2.exps } := rfl
      rw [e, s1]
    · show r.2.exps.length = L.exps.length
      rw [c2]
      exact s2
    · show r.2.window = _
      rw [c1]
      rfl

/-- One step of `tile` on an addressable grid: its `calc` returns. -/
theorem tileStep_total {α : Type} (A : Arith α) (AB : Int → α) (fuel : Nat)
    (sic vx vy : Point32_t α) (x y : Nat) (L : Ljapunow α) (hg : L.gridOK)
    (hfuel : L.leny.toNat < fuel)
    (st : Ljapunow α × List (Window α)) (hs : L.SameUpTo st.1) :
    ∃ st1, tileStep A AB fuel sic vx vy x st y = some st1 ∧
      L.SameUpTo st1.1 ∧ st1.2 = st.2 ++ [tileWindow A sic vx vy x y] := by
  have hg1 : (st.1.install (tileWindow A sic vx vy x y)).gridOK := hs.gridOK hg
  have hf1 : (st.1.install (tileWindow A sic vx vy x y)).leny.toNat < fuel := by
    show st.1.leny.toNat < fuel
    rw [hs.fields.2.1]
    exact hfuel
  obtain ⟨r, hr, _⟩ := Ljapunow.calc_total A _ AB hg1 fuel hf1 0
    (toInt32 (st.1.leny - 1))
  have h : tileStep A AB fuel sic vx vy x st y
      = some (r.2, st.2 ++ [tileWindow A sic vx vy x y]) := by
    unfold tileStep
    simp only []
    rw [hr]
  obtain ⟨k1, k2, _⟩ := tileStep_frame A AB fuel sic vx vy x y L st _ hs h
  exact ⟨_, h, k1, k2⟩

theorem foldr_singleton_map {β γ : Type} (w : β → γ) (ys : List β) :
    ys.foldr (fun y acc => [w y] ++ acc) [] = ys.map w := by
  induction ys with
  | nil => rfl
  | cons y ys ih =>
    show [w y] ++ ys.foldr (fun y acc => [w y] ++ acc) [] = w y :: ys.map w
    rw [ih]
    rfl

/-- The inner loop of `tile` on an addressable grid. -/
theorem tileColumn_spec {α : Type} (A : Arith α) (AB : Int → α) (fuel : Nat)
    (sic vx vy : Point32_t α) (x ny : Nat) (L : Ljapunow α) (hg : L.gridOK)
    (hfuel : L.leny.toNat < fuel)
    (st : Ljapunow α × List (Window α)) (hs : L.SameUpTo st.1) :
    ∃ st1, loopOpt (tileStep A AB fuel sic vx vy x) (List.range ny) st = some st1 ∧
      L.SameUpTo st1.1 ∧
      st1.2 = st.2 ++ (List.range ny).map (tileWindow A sic vx vy x) ∧
      (∀ m, ny = m + 1 → st1.1.window = tileWindow A sic vx vy x m) := by
  have hstep : ∀ (s : Ljapunow α × List (Window α)) (y : Nat), L.SameUpTo s.1 →
      ∃ s1, tileStep A AB fuel sic vx vy x s y = some s1 ∧ L.SameUpTo s1.1 ∧
        s1.2 = s.2 ++ [tileWindow A sic vx vy x y] :=
    fun s y h => tileStep_total A AB fuel sic vx vy x y L hg hfuel s h
  obtain ⟨st1, h1, h2, h3⟩ := loopOpt_spec (tileStep A AB fuel sic vx vy x)
    (fun s => L.SameUpTo s.1) (fun s => s.2)
    (fun y => [tileWindow A sic vx vy x y]) hstep (List.range ny) st hs
  rw [foldr_singleton_map] at h3
  refine ⟨st1, h1, h2, h3, ?_⟩
  intro m hm
  subst hm
  obtain ⟨s0, g1, g2, _⟩ := loopOpt_spec (tileStep A AB fuel sic vx vy x)
    (fun s => L.SameUpTo s.1) (fun s => s.2)
    (fun y => [tileWindow A sic vx vy x y]) hstep (List.range m) st hs
  rw [List.range_succ, loopOpt_append_one, g1] at h1
  exact (tileStep_frame A AB fuel sic vx vy x m L s0 st1 g2 h1).2.2

/-- `tile` on an addressable grid with more fuel than rows: it returns; the
field differs from the one before the call at most in its corners and in the
content of the cells; the windows assigned are those of `tileLog`; and the
corners after the call are those of the last window assigned. -/
theorem Ljapunow.tile_spec {α : Type} (A : Arith α) (L : Ljapunow α)
    (AB : Int → α) (hg : L.gridOK) (fuel : Nat) (hfuel : L.leny.toNat < fuel)
    (anzx anzy : Int) :
    ∃ r, L.tile A AB fuel anzx anzy = some r ∧ L.SameUpTo r.1 ∧
      r.2 = tileLog A L.lowerleft (tileVx A L anzx) (tileVy A L anzy)
        (List.range anzx.toNat) (List.range anzy.toNat) ∧
      (∀ n m, anzx.toNat = n + 1 → anzy.toNat = m + 1 →
        r.1.window
          = tileWindow A L.lowerleft (tileVx A L anzx) (tileVy A L anzy) n m) := by
  have hstep : ∀ (s : Ljapunow α × List (Window α)) (x : Nat), L.SameUpTo s.1 →
      ∃ s1, loopOpt (tileStep A AB fuel L.lowerleft (tileVx A L anzx)
            (tileVy A L anzy) x) (List.range anzy.toNat) s = some s1 ∧
        L.SameUpTo s1.1 ∧
        s1.2 = s.2 ++ (List.range anzy.toNat).map
          (tileWindow A L.lowerleft (tileVx A L anzx) (tileVy A L anzy) x) := by
    intro s x h
    obtain ⟨s1, a1, a2, a3, _⟩ := tileColumn_spec A AB fuel L.lowerleft
      (tileVx A L anzx) (tileVy A L anzy) x anzy.toNat L hg hfuel s h
    exact ⟨s1, a1, a2, a3⟩
  obtain ⟨r, h1, h2, h3⟩ := loopOpt_spec
    (fun st x => loopOpt (tileStep A AB fuel L.lowerleft (tileVx A L anzx)
      (tileVy A L anzy) x) (List.range anzy.toNat) st)
    (fun s => L.SameUpTo s.1) (fun s => s.2)
    (fun x => (List.range anzy.toNat).map
      (tileWindow A L.lowerleft (tileVx A L anzx) (tileVy A L anzy) x))
    hstep (List.range anzx.toNat) (L, []) (Ljapunow.SameUpTo.refl L)
  refine ⟨r, h1, h2, ?_, ?_⟩
  · rw [h3]
    simp [tileLog]
  · intro n m hn hm
    obtain ⟨s0, g1, g2, _⟩ := loopOpt_spec
      (fun st x => loopOpt (tileStep A AB fuel L.lowerleft (tileVx A L anzx)
        (tileVy A L anzy) x) (List.range anzy.toNat) st)
      (fun s => L.SameUpTo s.1) (fun s => s.2)
      (fun x => (List.range anzy.toNat).map
        (tileWindow A L.lowerleft (tileVx A L anzx) (tileVy A L anzy) x))
      hstep (List.range n) (L, []) (Ljapunow.SameUpTo.refl L)
    rw [hn, List.range_succ, loopOpt_append_one, g1] at h1
    obtain ⟨s1, b1, _, _, b4⟩ := tileColumn_spec A AB fuel L.lowerleft
      (tileVx A L anzx) (tileVy A L anzy) n anzy.toNat L hg hfuel s0 g2
    have h1b : loopOpt (tileStep A AB fuel L.lowerleft (tileVx A L anzx)
        (tileVy A L anzy) n) (List.range anzy.toNat) s0 = some r := h1
    rw [b1] at h1b
    cases h1b
    exact b4 m hm

/-- `tile`, when it returns, changes at most the corners and the content of
the cells. -/
theorem Ljapunow.tile_frame {α : Type} (A : Arith α) (L : Ljapunow α)
    (AB : Int → α) (fuel : Nat) (anzx anzy : Int)
    (r : Ljapunow α × List (Window α)) (h : L.tile A AB fuel anzx anzy = some r) :
    L.SameUpTo r.1 := by
  have hin : ∀ (x : Nat) (s b : Ljapunow α × List (Window α)) , L.SameUpTo s.1 →
      loopOpt (tileStep A AB fuel L.lowerleft (tileVx A L anzx)
        (tileVy A L anzy) x) (List.range anzy.toNat) s = some b →
      L.SameUpTo b.1 := by
    intro x s b hs hb
    exact loopOpt_inv _ (fun s => L.SameUpTo s.1)
      (fun s y s1 hs h1 => (tileStep_frame A AB fuel _ _ _ x y L s s1 hs h1).1)
      (List.range anzy.toNat) s b hs hb
  exact loopOpt_inv _ (fun s => L.SameUpTo s.1)
    (fun s x s1 hs h1 => hin x s s1 hs h1)
    (List.range anzx.toNat) (L, []) r (Ljapunow.SameUpTo.refl L) h

/-! ## Reachable states of the field -/

theorem Ljapunow.setlen_spec {α : Type} (L M : Ljapunow α) (fresh : Nat → α)
    (xl yl : Int) (h : L.setlen fresh xl yl = some M) :
    M.BufferOK ∧ M.lenx = setlenDim xl ∧ M.leny = setlenDim yl ∧
    M.seqlen = L.seqlen ∧ M.sequence = L.sequence := by
  unfold Ljapunow.setlen at h
  simp only [] at h
  by_cases hn : toInt32 (setlenDim xl * setlenDim yl) < 0
  · rw [if_pos hn] at h
    cases h
  · rw [if_neg hn] at h
    cases h
    refine ⟨?_, rfl, rfl, rfl, rfl⟩
    unfold Ljapunow.BufferOK
    simp only [List.length_map, List.length_range]
    exact Int.toNat_of_nonneg (by omega)

theorem Ljapunow.loadpar_spec {α : Type} (A : Arith α) (L M : Ljapunow α)
    (fresh : Nat → α) (p : ParFile α) (h : L.loadpar A fresh p = some M) :
    M.BufferOK ∧ M.seqlen = (L.setSequence p.sequenz).seqlen ∧
    M.sequence = (L.setSequence p.sequenz).sequence := by
  unfold Ljapunow.loadpar at h
  simp only [] at h
  split at h
  · cases h
  · rename_i L2 hs
    cases h
    obtain ⟨b1, _, _, b4, b5⟩ := Ljapunow.setlen_spec _ L2 fresh p.lenx p.leny hs
    exact ⟨b1, b4, b5⟩

/-- The loop of `loadpar` leaves the grid size and the buffer alone, and
a `return` inside it returns 0 or -1. -/
theorem Ljapunow.loadparLoop_frame {α : Type} (A : Arith α) (junk : Nat → α)
    (junkC : IntervalColoring α) (junkI : Nat → ColIntv α) (depth : Nat) :
    ∀ (fuel : Nat) (v : ParVars α) (toks : List (Tok α)) (eof : Bool)
      (ret : Option Int) (v1 : ParVars α),
      Ljapunow.loadparLoop A junk junkC junkI depth fuel v toks eof = some (ret, v1) →
      v1.L.lenx = v.L.lenx ∧ v1.L.leny = v.L.leny ∧ v1.L.exps = v.L.exps ∧
      (∀ r, ret = some r → r ≠ 1) := by
  intro fuel
  induction fuel with
  | zero =>
    intro v toks eof ret v1 h
    simp [Ljapunow.loadparLoop] at h
  | succ fuel ih =>
    intro v toks eof ret v1 h
    match toks with
    | [] =>
      rw [Ljapunow.loadparLoop.eq_2] at h
      by_cases he : eof = true
      · rw [if_pos he] at h
        cases h
        exact ⟨rfl, rfl, rfl, by intro r hr; cases hr⟩
      · rw [if_neg he] at h
        cases h
    | [t] =>
      rw [Ljapunow.loadparLoop.eq_3] at h
      by_cases he : eof = true
      · rw [if_pos he] at h
        cases h
        exact ⟨rfl, rfl, rfl, by intro r hr; cases hr⟩
      rw [if_neg he] at h
      by_cases hc : t.line.head? = some 35 ∨ t.line.head? = some 46
      · rw [if_pos hc] at h
        have h2 := ih _ _ _ _ _ h
        exact h2
      rw [if_neg hc] at h
      by_cases h0 : upper t.line = kwFUNKTION
      · rw [if_pos h0] at h
        repeat' split at h
        all_goals first
          | (have h2 := ih _ _ _ _ _ h
             exact h2)
          | (cases h
             exact ⟨rfl, rfl, rfl, by intro r hr; cases hr; decide⟩)
          | cases h
      rw [if_neg h0] at h
      by_cases h1 : upper t.line = kwFAERBUNG
      · rw [if_pos h1] at h
        repeat' split at h
        all_goals first
          | (have h2 := ih _ _ _ _ _ h
             exact h2)
          | (cases h
             exact ⟨rfl, rfl, rfl, by intro r hr; cases hr; decide⟩)
          | cases h
      rw [if_neg h1] at h
      by_cases h2 : upper t.line = kwLENX
      · rw [if_pos h2] at h
        repeat' split at h
        all_goals first
          | (have h2 := ih _ _ _ _ _ h
             exact h2)
          | cases h
      rw [if_neg h2] at h
      by_cases h3 : upper t.line = kwLENY
      · rw [if_pos h3] at h
        repeat' split at h
        all_goals first
          | (have h2 := ih _ _ _ _ _ h
             exact h2)
          | cases h
      rw [if_neg h3] at h
      by_cases h4 : upper t.line = kwITER0
      · rw [if_pos h4] at h
        repeat' split at h
        all_goals first
          | (have h2 := ih _ _ _ _ _ h
             exact h2)
          | cases h
      rw [if_neg h4] at h
      by_cases h5 : upper t.line = kwITER1
      · rw [if_pos h5] at h
        repeat' split at h
        all_goals first
          | (have h2 := ih _ _ _ _ _ h
             exact h2)
          | cases h
      rw [if_neg h5] at h
      by_cases h6 : upper t.line = kwX0
      · rw [if_pos h6] at h
        repeat' split at h
        all_goals first
          | (have h2 := ih _ _ _ _ _ h
             exact h2)
          | cases h
      rw [if_neg h6] at h
      by_cases h7 : upper t.line = kwOL
      · rw [if_pos h7] at h
        repeat' split at h
        all_goals first
          | (have h2 := ih _ _ _ _ _ h
             exact h2)
          | cases h
      rw [if_neg h7] at h
      by_cases h8 : upper t.line = kwUL
      · rw [if_pos h8] at h
        repeat' split at h
        all_goals first
          | (have h2 := ih _ _ _ _ _ h
             exact h2)
          | cases h
      rw [if_neg h8] at h
      by_cases h9 : upper t.line = kwUR
      · rw [if_pos h9] at h
        repeat' split at h
        all_goals first
          | (have h2 := ih _ _ _ _ _ h
             exact h2)
          | cases h
      rw [if_neg h9] at h
      by_cases h10 : upper t.line = kwSEQUENZ
      · rw [if_pos h10] at h
        cases h
      rw [if_neg h10] at h
      cases h
      exact ⟨rfl, rfl, rfl, by intro r hr; cases hr; decide⟩
    | t :: t2 :: ts =>
      rw [Ljapunow.loadparLoop.eq_4] at h
      by_cases he : eof = true
      · rw [if_pos he] at h
        cases h
        exact ⟨rfl, rfl, rfl, by intro r hr; cases hr⟩
      rw [if_neg he] at h
      by_cases hc : t.line.head? = some 35 ∨ t.line.head? = some 46
      · rw [if_pos hc] at h
        have h2 := ih _ _ _ _ _ h
        exact h2
      rw [if_neg hc] at h
      by_cases h0 : upper t.line = kwFUNKTION
      · rw [if_pos h0] at h
        repeat' split at h
        all_goals first
          | (have h2 := ih _ _ _ _ _ h
             exact h2)
          | (cases h
             exact ⟨rfl, rfl, rfl, by intro r hr; cases hr; decide⟩)
          | cases h
      rw [if_neg h0] at h
      by_cases h1 : upper t.line = kwFAERBUNG
      · rw [if_pos h1] at h
        repeat' split at h
        all_goals first
          | (have h2 := ih _ _ _ _ _ h
             exact h2)
          | (cases h
             exact ⟨rfl, rfl, rfl, by intro r hr; cases hr; decide⟩)
          | cases h
      rw [if_neg h1] at h
      by_cases h2 : upper t.line = kwLENX
      · rw [if_pos h2] at h
        repeat' split at h
        all_goals first
          | (have h2 := ih _ _ _ _ _ h
             exact h2)
          | cases h
      rw [if_neg h2] at h
      by_cases h3 : upper t.line = kwLENY
      · rw [if_pos h3] at h
        repeat' split at h
        all_goals first
          | (have h2 := ih _ _ _ _ _ h
             exact h2)
          | cases h
      rw [if_neg h3] at h
      by_cases h4 : upper t.line = kwITER0
      · rw [if_pos h4] at h
        repeat' split at h
        all_goals first
          | (have h2 := ih _ _ _ _ _ h
             exact h2)
          | cases h
      rw [if_neg h4] at h
      by_cases h5 : upper t.line = kwITER1
      · rw [if_pos h5] at h
        repeat' split at h
        all_goals first
          | (have h2 := ih _ _ _ _ _ h
             exact h2)
          | cases h
      rw [if_neg h5] at h
      by_cases h6 : upper t.line = kwX0
      · rw [if_pos h6] at h
        repeat' split at h
        all_goals first
          | (have h2 := ih _ _ _ _ _ h
             exact h2)
          | cases h
      rw [if_neg h6] at h
      by_cases h7 : upper t.line = kwOL
      · rw [if_pos h7] at h
        repeat' split at h
        all_goals first
          | (have h2 := ih _ _ _ _ _ h
             exact h2)
          | cases h
      rw [if_neg h7] at h
      by_cases h8 : upper t.line = kwUL
      · rw [if_pos h8] at h
        repeat' split at h
        all_goals first
          | (have h2 := ih _ _ _ _ _ h
             exact h2)
          | cases h
      rw [if_neg h8] at h
      by_cases h9 : upper t.line = kwUR
      · rw [if_pos h9] at h
        repeat' split at h
        all_goals first
          | (have h2 := ih _ _ _ _ _ h
             exact h2)
          | cases h
      rw [if_neg h9] at h
      by_cases h10 : upper t.line = kwSEQUENZ
      · rw [if_pos h10] at h
        have h2 := ih _ _ _ _ _ h
        exact h2
      rw [if_neg h10] at h
      cases h
      exact ⟨rfl, rfl, rfl, by intro r hr; cases hr; decide⟩

/-- A call of `loadpar` that does not return 1 leaves the grid size and the
buffer alone; a call that returns 1 leaves a buffer that matches the sizes. -/
theorem Ljapunow.loadparLines_frame {α : Type} (A : Arith α) (junk : Nat → α)
    (junkC : IntervalColoring α) (junkI : Nat → ColIntv α) (fresh : Nat → α)
    (depth fuel : Nat) (L M : Ljapunow α) (farbe C : Option (IntervalColoring α))
    (toks : List (Tok α)) (r : Int)
    (h : L.loadparLines A junk junkC junkI fresh depth fuel farbe toks
      = some (r, M, C)) :
    (r ≠ 1 → M.lenx = L.lenx ∧ M.leny = L.leny ∧ M.exps = L.exps) ∧
    (r = 1 → M.BufferOK) := by
  unfold Ljapunow.loadparLines at h
  split at h
  · cases h
  · rename_i r0 v hl
    obtain ⟨f1, f2, f3, f4⟩ := Ljapunow.loadparLoop_frame A junk junkC junkI depth
      fuel _ toks false _ v hl
    cases h
    exact ⟨fun _ => ⟨f1, f2, f3⟩, fun e => absurd e (f4 r rfl)⟩
  · rename_i v hl
    obtain ⟨f1, f2, f3, _⟩ := Ljapunow.loadparLoop_frame A junk junkC junkI depth
      fuel _ toks false _ v hl
    split at h
    · cases h
      exact ⟨fun _ => ⟨f1, f2, f3⟩, fun e => absurd e (by decide)⟩
    · split at h
      · cases h
      · rename_i L2 hs
        cases h
        refine ⟨fun e => absurd rfl e, fun _ => ?_⟩
        have hb := (Ljapunow.setlen_spec v.L L2 fresh v.tlenx v.tleny hs).1
        exact hb

/-- What one call leaves unchanged: a call that does not reach `setlen` keeps
the sizes and the number of cells, a call other than `setSequence` and
`loadpar` keeps the stored sequence. -/
theorem Ljapunow.apply_frame {α : Type} (A : Arith α) (L M : Ljapunow α)
    (op : FieldOp α) (h : L.apply A op = some M) :
    (L.callAllocates A op = false →
      M.lenx = L.lenx ∧ M.leny = L.leny ∧ M.exps.length = L.exps.length) ∧
    (op.storesSequence = false →
      M.seqlen = L.seqlen ∧ M.sequence = L.sequence) := by
  cases op with
  | setlen fresh xl yl =>
    refine ⟨fun hf => by simp [Ljapunow.callAllocates] at hf, fun _ => ?_⟩
    obtain ⟨_, _, _, b4, b5⟩ := Ljapunow.setlen_spec L M fresh xl yl h
    exact ⟨b4, b5⟩
  | loadpar fresh p =>
    exact ⟨fun hf => by simp [Ljapunow.callAllocates] at hf,
      fun hf => by simp [FieldOp.storesSequence] at hf⟩
  | loadparLines junk junkC junkI fresh depth fuel farbe toks =>
    refine ⟨fun hf => ?_, fun hf => by simp [FieldOp.storesSequence] at hf⟩
    simp only [Ljapunow.apply] at h
    simp only [Ljapunow.callAllocates] at hf
    cases hl : L.loadparLines A junk junkC junkI fresh depth fuel farbe toks with
    | none => rw [hl] at h; cases h
    | some res =>
      obtain ⟨r, M1, C⟩ := res
      rw [hl] at h hf
      cases h
      have hr : r ≠ 1 := by simpa using hf
      obtain ⟨f1, f2, f3⟩ := (Ljapunow.loadparLines_frame A junk junkC junkI fresh
        depth fuel L M1 farbe C toks r hl).1 hr
      exact ⟨f1, f2, by rw [f3]⟩
  | setSequence s =>
    cases h
    exact ⟨fun _ => ⟨rfl, rfl, rfl⟩, fun hf => by simp [FieldOp.storesSequence] at hf⟩
  | setiter i0 i1 => cases h; exact ⟨fun _ => ⟨rfl, rfl, rfl⟩, fun _ => ⟨rfl, rfl⟩⟩
  | setFunction f => cases h; exact ⟨fun _ => ⟨rfl, rfl, rfl⟩, fun _ => ⟨rfl, rfl⟩⟩
  | setPosition a b c d e f =>
    cases h; exact ⟨fun _ => ⟨rfl, rfl, rfl⟩, fun _ => ⟨rfl, rfl⟩⟩
  | centerPixel px py =>
    cases h; exact ⟨fun _ => ⟨rfl, rfl, rfl⟩, fun _ => ⟨rfl, rfl⟩⟩
  | crop a b c d => cases h; exact ⟨fun _ => ⟨rfl, rfl, rfl⟩, fun _ => ⟨rfl, rfl⟩⟩
  | stretch fx fy => cases h; exact ⟨fun _ => ⟨rfl, rfl, rfl⟩, fun _ => ⟨rfl, rfl⟩⟩
  | rot deg => cases h; exact ⟨fun _ => ⟨rfl, rfl, rfl⟩, fun _ => ⟨rfl, rfl⟩⟩
  | calcRows AB fuel astart aende =>
    simp only [Ljapunow.apply] at h
    cases hc : L.calc A AB fuel astart aende with
    | none => rw [hc] at h; cases h
    | some r =>
      rw [hc] at h
      cases h
      obtain ⟨c1, c2⟩ := Ljapunow.calc_frame A L AB fuel astart aende r hc
      refine ⟨fun _ => ⟨?_, ?_, c2⟩, fun _ => ⟨?_, ?_⟩⟩ <;> rw [c1]
  | tile AB fuel anzx anzy =>
    simp only [Ljapunow.apply] at h
    cases hc : L.tile A AB fuel anzx anzy with
    | none => rw [hc] at h; cases h
    | some r =>
      rw [hc] at h
      cases h
      obtain ⟨f1, f2, f3, f4, f5, _⟩ :=
        (Ljapunow.tile_frame A L AB fuel anzx anzy r hc).fields
      exact ⟨fun _ => ⟨f1, f2, f5⟩, fun _ => ⟨f3, f4⟩⟩

theorem Ljapunow.apply_alloc {α : Type} (A : Arith α) (L M : Ljapunow α)
    (op : FieldOp α) (h : L.apply A op = some M)
    (ha : L.callAllocates A op = true) : M.BufferOK := by
  cases op with
  | setlen fresh xl yl => exact (Ljapunow.setlen_spec L M fresh xl yl h).1
  | loadpar fresh p => exact (Ljapunow.loadpar_spec A L M fresh p h).1
  | loadparLines junk junkC junkI fresh depth fuel farbe toks =>
    simp only [Ljapunow.apply] at h
    simp only [Ljapunow.callAllocates] at ha
    cases hl : L.loadparLines A junk junkC junkI fresh depth fuel farbe toks with
    | none => rw [hl] at h; cases h
    | some res =>
      obtain ⟨r, M1, C⟩ := res
      rw [hl] at h ha
      cases h
      have hr : r = 1 := by simpa using ha
      exact (Ljapunow.loadparLines_frame A junk junkC junkI fresh depth fuel L M1
        farbe C toks r hl).2 hr
  | _ => simp [Ljapunow.callAllocates] at ha

theorem Ljapunow.runAllocates_cons {α : Type} (A : Arith α) (L L1 : Ljapunow α)
    (op : FieldOp α) (ops : List (FieldOp α)) (ha : L.apply A op = some L1) :
    L.runAllocates A (op :: ops)
      = (L.callAllocates A op || L1.runAllocates A ops) := by
  simp only [Ljapunow.runAllocates, ha]

theorem Ljapunow.run_cons {α : Type} (A : Arith α) (L : Ljapunow α)
    (op : FieldOp α) (ops : List (FieldOp α)) :
    L.run A (op :: ops)
      = match L.apply A op with
        | none => none
        | some M => M.run A ops := by
  unfold Ljapunow.run
  simp only [loopOpt]
  cases L.apply A op <;> rfl

/-- A sequence of calls none of which reaches `setlen`. -/
theorem Ljapunow.run_no_alloc {α : Type} (A : Arith α) (ops : List (FieldOp α)) :
    ∀ (L M : Ljapunow α), L.run A ops = some M →
      L.runAllocates A ops = false →
      M.lenx = L.lenx ∧ M.leny = L.leny ∧ M.exps.length = L.exps.length := by
  induction ops with
  | nil =>
    intro L M h _
    cases h
    exact ⟨rfl, rfl, rfl⟩
  | cons op ops ih =>
    intro L M h hall
    rw [Ljapunow.run_cons] at h
    cases ha : L.apply A op with
    | none => rw [ha] at h; cases h
    | some L1 =>
      rw [ha] at h
      rw [Ljapunow.runAllocates_cons A L L1 op ops ha, Bool.or_eq_false_iff] at hall
      obtain ⟨a1, a2, a3⟩ := (Ljapunow.apply_frame A L L1 op ha).1 hall.1
      obtain ⟨b1, b2, b3⟩ := ih L1 M h hall.2
      exact ⟨b1.trans a1, b2.trans a2, b3.trans a3⟩

/-- A sequence of calls none of which is `setSequence` or `loadpar`. -/
theorem Ljapunow.run_no_sequence {α : Type} (A : Arith α) (ops : List (FieldOp α)) :
    ∀ (L M : Ljapunow α), L.run A ops = some M →
      (∀ op ∈ ops, op.storesSequence = false) →
      M.seqlen = L.seqlen ∧ M.sequence = L.sequence := by
  induction ops with
  | nil =>
    intro L M h _
    cases h
    exact ⟨rfl, rfl⟩
  | cons op ops ih =>
    intro L M h hall
    rw [Ljapunow.run_cons] at h
    cases ha : L.apply A op with
    | none => rw [ha] at h; cases h
    | some L1 =>
      rw [ha] at h
      obtain ⟨a1, a2⟩ :=
        (Ljapunow.apply_frame A L L1 op ha).2 (hall op (List.mem_cons_self _ _))
      obtain ⟨b1, b2⟩ := ih L1 M h
        (fun o ho => hall o (List.mem_cons_of_mem _ ho))
      exact ⟨b1.trans a1, b2.trans a2⟩

/-- A sequence of calls that starts with a matching buffer or in which a call
reaches `setlen` ends with a matching buffer. -/
theorem Ljapunow.run_bufferOK {α : Type} (A : Arith α) (ops : List (FieldOp α)) :
    ∀ (L M : Ljapunow α), L.run A ops = some M →
      (L.BufferOK ∨ L.runAllocates A ops = true) → M.BufferOK := by
  induction ops with
  | nil =>
    intro L M h hb
    cases h
    rcases hb with hb | hb
    · exact hb
    · simp [Ljapunow.runAllocates] at hb
  | cons op ops ih =>
    intro L M h hb
    rw [Ljapunow.run_cons] at h
    cases ha : L.apply A op with
    | none => rw [ha] at h; cases h
    | some L1 =>
      rw [ha] at h
      apply ih L1 M h
      rw [Ljapunow.runAllocates_cons A L L1 op ops ha, Bool.or_eq_true] at hb
      by_cases hal : L.callAllocates A op = true
      · exact Or.inl (Ljapunow.apply_alloc A L L1 op ha hal)
      · have hal2 : L.callAllocates A op = false := by simpa using hal
        rcases hb with hb | hb | hb
        · obtain ⟨a1, a2, a3⟩ := (Ljapunow.apply_frame A L L1 op ha).1 hal2
          left
          unfold Ljapunow.BufferOK at hb ⊢
          rw [a1, a2, a3]
          exact hb
        · exact absurd hb hal
        · exact Or.inr hb

theorem sampleFresh_run {α : Type} (A : Arith α) :
    (Ljapunow.ctor A (sampleField A)).run A [.setlen (fun _ => A.lit 0) 4 4]
      = some (sampleFresh A) := by
  have e4 : setlenDim 4 = 4 := by
    rw [setlenDim_spec 4 (by decide) (by decide)]
    decide
  have e16 : toInt32 (4 * 4) = 16 := by decide
  simp only [Ljapunow.run, loopOpt, Ljapunow.apply, Ljapunow.setlen, e4, e16]
  rfl

theorem sampleFresh_gridOK {α : Type} (A : Arith α) : (sampleFresh A).gridOK := by
  refine ⟨?_, ?_, ?_, ?_, ?_⟩ <;> simp [sampleFresh]

/-- **C21 (as stated, refuted).** The field that the constructor leaves has no
buffer (`exps` is null) while `lenx*leny = 360000`, and so has the field after
`setiter`, `setSequence` and `rot`, and the field after `setSequence` and a
call of `loadpar` that returns 0 (on the record without `LENY`). -/
theorem C21_counterexample :
    (Ljapunow.ctor (Arith.ofField Real.sin Real.cos Real.arctan Real.log) (sampleField (Arith.ofField Real.sin Real.cos Real.arctan Real.log))).exps.length = 0 ∧
    (Ljapunow.ctor (Arith.ofField Real.sin Real.cos Real.arctan Real.log) (sampleField (Arith.ofField Real.sin Real.cos Real.arctan Real.log))).lenx * (Ljapunow.ctor (Arith.ofField Real.sin Real.cos Real.arctan Real.log) (sampleField (Arith.ofField Real.sin Real.cos Real.arctan Real.log))).leny
      = 360000 ∧
    (∃ M, (Ljapunow.ctor (Arith.ofField Real.sin Real.cos Real.arctan Real.log) (sampleField (Arith.ofField Real.sin Real.cos Real.arctan Real.log))).run (Arith.ofField Real.sin Real.cos Real.arctan Real.log)
        [.setiter 50 100, .setSequence [65, 66], .rot 90] = some M ∧
      M.exps.length = 0 ∧ M.lenx * M.leny = 360000) ∧
    (∃ M C, (Ljapunow.ctor (Arith.ofField Real.sin Real.cos Real.arctan Real.log) (sampleField (Arith.ofField Real.sin Real.cos Real.arctan Real.log))).loadparLines (Arith.ofField Real.sin Real.cos Real.arctan Real.log) (fun _ => 0)
        (sampleEmptyColoring (Arith.ofField Real.sin Real.cos Real.arctan Real.log)) (fun _ => sampleInterval (Arith.ofField Real.sin Real.cos Real.arctan Real.log)) (fun _ => 0) 1 20 none
        (sampleRecordShort (Arith.ofField Real.sin Real.cos Real.arctan Real.log)) = some (0, M, C)) ∧
    (∃ M, (Ljapunow.ctor (Arith.ofField Real.sin Real.cos Real.arctan Real.log) (sampleField (Arith.ofField Real.sin Real.cos Real.arctan Real.log))).run (Arith.ofField Real.sin Real.cos Real.arctan Real.log)
        [.setSequence [65, 66],
         .loadparLines (fun _ => 0) (sampleEmptyColoring (Arith.ofField Real.sin Real.cos Real.arctan Real.log))
           (fun _ => sampleInterval (Arith.ofField Real.sin Real.cos Real.arctan Real.log)) (fun _ => 0) 1 20 none
           (sampleRecordShort (Arith.ofField Real.sin Real.cos Real.arctan Real.log))] = some M ∧
      M.exps.length = 0 ∧ M.lenx * M.leny = 360000) := by
  refine ⟨rfl, by decide, ⟨_, rfl, rfl, by decide⟩, ⟨_, _, rfl⟩, ⟨_, rfl, rfl, by decide⟩⟩

/-- **C21 (amended).** For every sequence of calls of the operations that
returns, from any state: when one of the calls reaches `setlen`, that is when
it is a call of `setlen` or a call of `loadpar` that returns 1 (or when the
sequence starts with a matching buffer), the buffer afterwards holds exactly
as many cells as the `int32_t` product `lenx*leny`, which is `lenx*leny` when
that fits; when no call reaches `setlen`, sizes and number of cells are those
of the start, so that from the constructor the buffer is still absent with
`lenx = leny = 600`. -/
theorem C21_buffer_matches_after_setlen {α : Type} (A : Arith α)
    (L0 M : Ljapunow α) (ops : List (FieldOp α)) (h : L0.run A ops = some M) :
    ((L0.BufferOK ∨ L0.runAllocates A ops = true) →
      (M.exps.length : Int) = toInt32 (M.lenx * M.leny) ∧
      (inInt32 (M.lenx * M.leny) → (M.exps.length : Int) = M.lenx * M.leny)) ∧
    (L0.runAllocates A ops = false →
      M.lenx = L0.lenx ∧ M.leny = L0.leny ∧ M.exps.length = L0.exps.length) ∧
    (∀ junk, L0 = Ljapunow.ctor A junk → L0.runAllocates A ops = false →
      M.exps = [] ∧ M.lenx = 600 ∧ M.leny = 600) := by
  refine ⟨?_, Ljapunow.run_no_alloc A ops L0 M h, ?_⟩
  · intro hb
    have hM : M.BufferOK := Ljapunow.run_bufferOK A ops L0 M h hb
    refine ⟨hM, fun hi => ?_⟩
    rw [← toInt32_of_inInt32 _ hi]
    exact hM
  · intro junk hj hall
    obtain ⟨a1, a2, a3⟩ := Ljapunow.run_no_alloc A ops L0 M h hall
    rw [hj] at a1 a2 a3
    exact ⟨List.eq_nil_of_length_eq_zero a3, a1, a2⟩

/-- Witness of C21 (amended): the constructor, then a call of `loadpar` on the
complete sample record, which returns 1: 32 cells for 8 by 4. -/
theorem C21_buffer_matches_after_setlen_witness :
    ∃ M, (Ljapunow.ctor (Arith.ofField Real.sin Real.cos Real.arctan Real.log) (sampleField (Arith.ofField Real.sin Real.cos Real.arctan Real.log))).run (Arith.ofField Real.sin Real.cos Real.arctan Real.log)
        [.loadparLines (fun _ => 0) (sampleEmptyColoring (Arith.ofField Real.sin Real.cos Real.arctan Real.log))
           (fun _ => sampleInterval (Arith.ofField Real.sin Real.cos Real.arctan Real.log)) (fun _ => 0) 1 20 none
           (sampleRecord (Arith.ofField Real.sin Real.cos Real.arctan Real.log))] = some M ∧
      (Ljapunow.ctor (Arith.ofField Real.sin Real.cos Real.arctan Real.log) (sampleField (Arith.ofField Real.sin Real.cos Real.arctan Real.log))).runAllocates (Arith.ofField Real.sin Real.cos Real.arctan Real.log)
        [.loadparLines (fun _ => 0) (sampleEmptyColoring (Arith.ofField Real.sin Real.cos Real.arctan Real.log))
           (fun _ => sampleInterval (Arith.ofField Real.sin Real.cos Real.arctan Real.log)) (fun _ => 0) 1 20 none
           (sampleRecord (Arith.ofField Real.sin Real.cos Real.arctan Real.log))] = true ∧
      M.lenx = 8 ∧ M.leny = 4 ∧ (M.exps.length : Int) = M.lenx * M.leny := by
  have hrun : ∃ M, (Ljapunow.ctor (Arith.ofField Real.sin Real.cos Real.arctan Real.log) (sampleField (Arith.ofField Real.sin Real.cos Real.arctan Real.log))).run (Arith.ofField Real.sin Real.cos Real.arctan Real.log)
        [.loadparLines (fun _ => 0) (sampleEmptyColoring (Arith.ofField Real.sin Real.cos Real.arctan Real.log))
           (fun _ => sampleInterval (Arith.ofField Real.sin Real.cos Real.arctan Real.log)) (fun _ => 0) 1 20 none
           (sampleRecord (Arith.ofField Real.sin Real.cos Real.arctan Real.log))] = some M ∧ M.lenx = 8 ∧ M.leny = 4 :=
    ⟨_, rfl, rfl, rfl⟩
  obtain ⟨M, h, hx, hy⟩ := hrun
  refine ⟨M, h, rfl, hx, hy, ?_⟩
  exact ((C21_buffer_matches_after_setlen (Arith.ofField Real.sin Real.cos Real.arctan Real.log) _ M _ h).1 (Or.inr rfl)).2
    (by rw [hx, hy]; exact ⟨by decide, by decide⟩)

/-- **C24 (as stated, refuted).** The constructor and `setlen(4,4)` lead to a
field with `seqlen = 0`; on it `calc(0, 3)` returns after the rows 0 to 3, and
each pixel makes 200 map evaluations, every one of which reads the
sequence. -/
theorem C24_counterexample :
    (Ljapunow.ctor (Arith.ofField Real.sin Real.cos Real.arctan Real.log) (sampleField
        (Arith.ofField Real.sin Real.cos Real.arctan Real.log))).run
        (Arith.ofField Real.sin Real.cos Real.arctan Real.log) [.setlen (fun _ =>
        (Arith.ofField Real.sin Real.cos Real.arctan Real.log).lit 0) 4 4]
      = some (sampleFresh (Arith.ofField Real.sin Real.cos Real.arctan Real.log)) ∧
    (sampleFresh (Arith.ofField Real.sin Real.cos Real.arctan Real.log)).seqlen = 0 ∧
    (∃ cs, calcLoop (Arith.ofField Real.sin Real.cos Real.arctan Real.log) (sampleFresh
        (Arith.ofField Real.sin Real.cos Real.arctan Real.log)) (fun _ => 0) 5 0 3 = some cs ∧
      cs.rows = [0, 1, 2, 3]) ∧
    (pixel (Arith.ofField Real.sin Real.cos Real.arctan Real.log) (sampleFresh
        (Arith.ofField Real.sin Real.cos Real.arctan Real.log)) (fun _ => 0)).evals.length
        = 200 := by
  refine ⟨sampleFresh_run (Arith.ofField Real.sin Real.cos Real.arctan Real.log), rfl, ?_, ?_⟩
  · obtain ⟨cs, h1, _, h3, _⟩ := calcLoop_spec
      (Arith.ofField Real.sin Real.cos Real.arctan Real.log) (sampleFresh
      (Arith.ofField Real.sin Real.cos Real.arctan Real.log)) (fun _ => 0)
      (sampleFresh_gridOK
          (Arith.ofField Real.sin Real.cos Real.arctan Real.log)) 5 (by simp [sampleFresh]) 0 3
    refine ⟨cs, h1, ?_⟩
    rw [h3]
    simp [sampleFresh, calcClamp, toInt32, List.range']
  · rw [(pixel_phase (Arith.ofField Real.sin Real.cos Real.arctan Real.log) (sampleFresh
      (Arith.ofField Real.sin Real.cos Real.arctan Real.log)) (fun _ => 0)).1]
    simp [sampleFresh, Ljapunow.ctor, toUInt32]

/-- **C24 (amended).** When the last call that stored a sequence,
`setSequence` or `loadpar`, was given a string of at least one character whose
first 255 characters are among `a`, `b`, `A`, `B`, then after every sequence of
other calls that returns: `seqlen ≥ 1`, `seqlen` is the length of the string
(at most 255), every sequence position at which a pixel of the sampling pass
reads is below `seqlen`, and the symbol stored there is 0 or 1. -/
theorem C24_sequence_nonempty {α : Type} (A : Arith α) (L0 S0 M : Ljapunow α)
    (op0 : FieldOp α) (s : List Nat) (ops : List (FieldOp α))
    (hop0 : op0 = .setSequence s ∨ ∃ fresh p, op0 = .loadpar fresh p ∧ p.sequenz = s)
    (hs : ∀ c ∈ s.take 255, isAB c) (hl : 1 ≤ s.length)
    (h0 : L0.apply A op0 = some S0)
    (hops : ∀ op ∈ ops, op.storesSequence = false)
    (h : S0.run A ops = some M) :
    1 ≤ M.seqlen ∧ M.seqlen = min 255 s.length ∧
    ∀ (AB : Int → α) (k : Nat) (hk : k < (pixel A M AB).evals.length),
      ((pixel A M AB).evals[k]).seqpos < M.seqlen ∧
      (M.sequence ((pixel A M AB).evals[k]).seqpos = 0 ∨
        M.sequence ((pixel A M AB).evals[k]).seqpos = 1) := by
  have hS : S0.seqlen = (L0.setSequence s).seqlen ∧
      S0.sequence = (L0.setSequence s).sequence := by
    rcases hop0 with e | ⟨fresh, p, e, ep⟩
    · rw [e] at h0
      cases h0
      exact ⟨rfl, rfl⟩
    · rw [e] at h0
      obtain ⟨_, b2, b3⟩ := Ljapunow.loadpar_spec A L0 S0 fresh p h0
      rw [ep] at b2 b3
      exact ⟨b2, b3⟩
  obtain ⟨m1, m2⟩ := Ljapunow.run_no_sequence A ops S0 M h hops
  obtain ⟨v1, v2⟩ := Ljapunow.setSequence_valid L0 s hs
  have hlen : M.seqlen = min 255 s.length := by rw [m1, hS.1, v1]
  have hpos : 1 ≤ M.seqlen := by
    rw [hlen]
    omega
  refine ⟨hpos, hlen, ?_⟩
  intro AB k hk
  have hp := pixel_posInv A M AB hpos
  have h1 := AllIdx_getElem _ _ 0 hp.2 k hk
  simp only [Nat.zero_add] at h1
  have hlt : k % M.seqlen < M.seqlen := Nat.mod_lt _ (by omega)
  rw [h1.1]
  refine ⟨hlt, ?_⟩
  have hk2 : k % M.seqlen < (s.take 255).length := by
    rw [List.length_take, ← hlen]
    exact hlt
  rw [m2, hS.2, v2 _ hk2]
  exact (symbolOf_char _ (hs _ (List.getElem_mem hk2))).2

/-- Witness of C24 (amended): the sequence `AB` is stored in the field that
the constructor and `setlen(4,4)` leave, then `setiter(10, 20)` is called. -/
theorem C24_sequence_nonempty_witness :
    (sampleFresh (Arith.ofField Real.sin Real.cos Real.arctan Real.log)).apply
        (Arith.ofField Real.sin Real.cos Real.arctan Real.log) (.setSequence [65, 66])
      = some ((sampleFresh
          (Arith.ofField Real.sin Real.cos Real.arctan Real.log)).setSequence [65, 66]) ∧
    (((sampleFresh (Arith.ofField Real.sin Real.cos Real.arctan Real.log)).setSequence [65, 66]).run
        (Arith.ofField Real.sin Real.cos Real.arctan Real.log) [.setiter 10 20]
      = some (((sampleFresh
          (Arith.ofField Real.sin Real.cos Real.arctan Real.log)).setSequence [65, 66]).setiter
          (Arith.ofField Real.sin Real.cos Real.arctan Real.log) 10 20)) ∧
    1 ≤ (((sampleFresh
        (Arith.ofField Real.sin Real.cos Real.arctan Real.log)).setSequence [65, 66]).setiter
        (Arith.ofField Real.sin Real.cos Real.arctan Real.log) 10 20).seqlen := by
  refine ⟨rfl, rfl, ?_⟩
  exact (C24_sequence_nonempty (Arith.ofField Real.sin Real.cos Real.arctan Real.log) (sampleFresh
      (Arith.ofField Real.sin Real.cos Real.arctan Real.log)) _ _ (.setSequence [65, 66])
    [65, 66] [.setiter 10 20] (Or.inl rfl) (by decide) (by decide) rfl
    (by
      intro op hop
      rw [List.mem_singleton.mp hop]
      rfl)
    rfl).1

/-! ## The windows of `tile` -/

theorem tileLog_length {α : Type} (A : Arith α) (sic vx vy : Point32_t α)
    (xs ys : List Nat) :
    (tileLog A sic vx vy xs ys).length = xs.length * ys.length := by
  induction xs with
  | nil => simp [tileLog]
  | cons x xs ih =>
    have e : tileLog A sic vx vy (x :: xs) ys
        = ys.map (tileWindow A sic vx vy x) ++ tileLog A sic vx vy xs ys := rfl
    rw [e, List.length_append, ih, List.length_map, List.length_cons, Nat.succ_mul]
    omega

/-- The window logged at position `i * |ys| + j` is that of the `i`-th outer
and the `j`-th inner counter value. -/
theorem tileLog_getElem {α : Type} (A : Arith α) (sic vx vy : Point32_t α)
    (ys : List Nat) :
    ∀ (xs : List Nat) (i j : Nat) (hi : i < xs.length) (hj : j < ys.length),
      (tileLog A sic vx vy xs ys)[i * ys.length + j]?
        = some (tileWindow A sic vx vy xs[i] ys[j]) := by
  intro xs
  induction xs with
  | nil =>
    intro i j hi
    simp at hi
  | cons x xs ih =>
    intro i j hi hj
    have e : tileLog A sic vx vy (x :: xs) ys
        = ys.map (tileWindow A sic vx vy x) ++ tileLog A sic vx vy xs ys := rfl
    rw [e]
    cases i with
    | zero =>
      rw [Nat.zero_mul, Nat.zero_add,
        List.getElem?_append_left (by rw [List.length_map]; exact hj)]
      simp [List.getElem?_eq_getElem hj]
    | succ i =>
      have hi2 : i < xs.length := by simpa using hi
      rw [List.getElem?_append_right (by
        rw [List.length_map, Nat.succ_mul]
        omega)]
      have e2 : (i + 1) * ys.length + j - (ys.map (tileWindow A sic vx vy x)).length
          = i * ys.length + j := by
        rw [List.length_map, Nat.succ_mul]
        omega
      rw [e2, ih i j hi2 hj]
      simp

/-- The corners of a tile in exact arithmetic. -/
theorem tileWindow_exact {α : Type} [LinearOrderedField α] [FloorRing α]
    (sn cs atn lg : α → α) (L : Ljapunow α) (anzx anzy : Int) (i j : Nat) :
    ((tileWindow (Arith.ofField sn cs atn lg) L.lowerleft (tileVx
        (Arith.ofField sn cs atn lg) L anzx) (tileVy
        (Arith.ofField sn cs atn lg) L anzy) i j).lowerleft.x
        = L.lowerleft.x + (i : α) * ((L.lowerright.x - L.lowerleft.x) / (anzx : α))
          + (j : α) * ((L.upperleft.x - L.lowerleft.x) / (anzy : α)) ∧
      (tileWindow (Arith.ofField sn cs atn lg) L.lowerleft (tileVx
          (Arith.ofField sn cs atn lg) L anzx) (tileVy
          (Arith.ofField sn cs atn lg) L anzy) i j).lowerleft.y
        = L.lowerleft.y + (i : α) * ((L.lowerright.y - L.lowerleft.y) / (anzx : α))
          + (j : α) * ((L.upperleft.y - L.lowerleft.y) / (anzy : α))) ∧
    ((tileWindow (Arith.ofField sn cs atn lg) L.lowerleft (tileVx
        (Arith.ofField sn cs atn lg) L anzx) (tileVy
        (Arith.ofField sn cs atn lg) L anzy) i j).lowerright.x
        = L.lowerleft.x + ((i : α) + 1) * ((L.lowerright.x - L.lowerleft.x) / (anzx : α))
          + (j : α) * ((L.upperleft.x - L.lowerleft.x) / (anzy : α)) ∧
      (tileWindow (Arith.ofField sn cs atn lg) L.lowerleft (tileVx
          (Arith.ofField sn cs atn lg) L anzx) (tileVy
          (Arith.ofField sn cs atn lg) L anzy) i j).lowerright.y
        = L.lowerleft.y + ((i : α) + 1) * ((L.lowerright.y - L.lowerleft.y) / (anzx : α))
          + (j : α) * ((L.upperleft.y - L.lowerleft.y) / (anzy : α))) ∧
    ((tileWindow (Arith.ofField sn cs atn lg) L.lowerleft (tileVx
        (Arith.ofField sn cs atn lg) L anzx) (tileVy
        (Arith.ofField sn cs atn lg) L anzy) i j).upperleft.x
        = L.lowerleft.x + (i : α) * ((L.lowerright.x - L.lowerleft.x) / (anzx : α))
          + ((j : α) + 1) * ((L.upperleft.x - L.lowerleft.x) / (anzy : α)) ∧
      (tileWindow (Arith.ofField sn cs atn lg) L.lowerleft (tileVx
          (Arith.ofField sn cs atn lg) L anzx) (tileVy
          (Arith.ofField sn cs atn lg) L anzy) i j).upperleft.y
        = L.lowerleft.y + (i : α) * ((L.lowerright.y - L.lowerleft.y) / (anzx : α))
          + ((j : α) + 1) * ((L.upperleft.y - L.lowerleft.y) / (anzy : α))) := by
  refine ⟨⟨?_, ?_⟩, ⟨?_, ?_⟩, ⟨?_, ?_⟩⟩ <;>
  · simp only [tileWindow, tileVx, tileVy, Arith.ofField]
    push_cast
    ring

/-- **C29.** In exact arithmetic, for `anzx ≥ 1`, `anzy ≥ 1` on an addressable
grid with more fuel than rows, `tile` returns, and with `LL`, `LR`, `UL` the
corners before the call: the windows it assigns are, in order, those of the
pairs `(i, j)`, `0 ≤ i < anzx`, `0 ≤ j < anzy`, each once (`anzx*anzy` in all,
the window of `(i, j)` at position `i*anzy + j`); the window of `(i, j)` has
`lowerleft = LL + i*(LR-LL)/anzx + j*(UL-LL)/anzy` and the edges
`(LR-LL)/anzx` and `(UL-LL)/anzy`; the lower-right corner of a tile is the
lower-left corner of its right neighbour and its upper-left corner the
lower-left corner of its upper neighbour, and the two neighbours meet in the
fourth corner; the tiles `(0,0)`, `(anzx-1,0)`, `(0,anzy-1)` have `LL` as
lower-left, `LR` as lower-right and `UL` as upper-left corner; and
`tile(1,1)` assigns one window, with the corners `LL`, `LR`, `UL`. -/
theorem C29_tile_windows {α : Type} [LinearOrderedField α] [FloorRing α]
    (sn cs atn lg : α → α) (L : Ljapunow α) (AB : Int → α) (fuel : Nat)
    (anzx anzy : Int) (hx : 1 ≤ anzx) (hy : 1 ≤ anzy) (hg : L.gridOK)
    (hfuel : L.leny.toNat < fuel) :
    ∃ r, L.tile (Arith.ofField sn cs atn lg) AB fuel anzx anzy = some r ∧
      r.2 = tileLog (Arith.ofField sn cs atn lg) L.lowerleft (tileVx
          (Arith.ofField sn cs atn lg) L anzx) (tileVy (Arith.ofField sn cs atn lg) L anzy)
        (List.range anzx.toNat) (List.range anzy.toNat) ∧
      r.2.length = anzx.toNat * anzy.toNat ∧
      (∀ i j : Nat, i < anzx.toNat → j < anzy.toNat →
        r.2[i * anzy.toNat + j]? = some (tileWindow (Arith.ofField sn cs atn lg) L.lowerleft (tileVx
            (Arith.ofField sn cs atn lg) L anzx) (tileVy
            (Arith.ofField sn cs atn lg) L anzy) i j)) ∧
      (∀ i j : Nat,
        (tileWindow (Arith.ofField sn cs atn lg) L.lowerleft (tileVx
            (Arith.ofField sn cs atn lg) L anzx) (tileVy
            (Arith.ofField sn cs atn lg) L anzy) i j).lowerleft.x
          = L.lowerleft.x + (i : α) * ((L.lowerright.x - L.lowerleft.x) / (anzx : α))
            + (j : α) * ((L.upperleft.x - L.lowerleft.x) / (anzy : α)) ∧
        (tileWindow (Arith.ofField sn cs atn lg) L.lowerleft (tileVx
            (Arith.ofField sn cs atn lg) L anzx) (tileVy
            (Arith.ofField sn cs atn lg) L anzy) i j).lowerleft.y
          = L.lowerleft.y + (i : α) * ((L.lowerright.y - L.lowerleft.y) / (anzx : α))
            + (j : α) * ((L.upperleft.y - L.lowerleft.y) / (anzy : α)) ∧
        (tileWindow (Arith.ofField sn cs atn lg) L.lowerleft (tileVx
            (Arith.ofField sn cs atn lg) L anzx) (tileVy
            (Arith.ofField sn cs atn lg) L anzy) i j).lowerright.x - (tileWindow
            (Arith.ofField sn cs atn lg) L.lowerleft (tileVx (Arith.ofField sn cs atn lg) L anzx)
            (tileVy (Arith.ofField sn cs atn lg) L anzy) i j).lowerleft.x
          = (L.lowerright.x - L.lowerleft.x) / (anzx : α) ∧
        (tileWindow (Arith.ofField sn cs atn lg) L.lowerleft (tileVx
            (Arith.ofField sn cs atn lg) L anzx) (tileVy
            (Arith.ofField sn cs atn lg) L anzy) i j).lowerright.y - (tileWindow
            (Arith.ofField sn cs atn lg) L.lowerleft (tileVx (Arith.ofField sn cs atn lg) L anzx)
            (tileVy (Arith.ofField sn cs atn lg) L anzy) i j).lowerleft.y
          = (L.lowerright.y - L.lowerleft.y) / (anzx : α) ∧
        (tileWindow (Arith.ofField sn cs atn lg) L.lowerleft (tileVx
            (Arith.ofField sn cs atn lg) L anzx) (tileVy
            (Arith.ofField sn cs atn lg) L anzy) i j).upperleft.x - (tileWindow
            (Arith.ofField sn cs atn lg) L.lowerleft (tileVx (Arith.ofField sn cs atn lg) L anzx)
            (tileVy (Arith.ofField sn cs atn lg) L anzy) i j).lowerleft.x
          = (L.upperleft.x - L.lowerleft.x) / (anzy : α) ∧
        (tileWindow (Arith.ofField sn cs atn lg) L.lowerleft (tileVx
            (Arith.ofField sn cs atn lg) L anzx) (tileVy
            (Arith.ofField sn cs atn lg) L anzy) i j).upperleft.y - (tileWindow
            (Arith.ofField sn cs atn lg) L.lowerleft (tileVx (Arith.ofField sn cs atn lg) L anzx)
            (tileVy (Arith.ofField sn cs atn lg) L anzy) i j).lowerleft.y
          = (L.upperleft.y - L.lowerleft.y) / (anzy : α)) ∧
      (∀ i j : Nat,
        (tileWindow (Arith.ofField sn cs atn lg) L.lowerleft (tileVx
            (Arith.ofField sn cs atn lg) L anzx) (tileVy
            (Arith.ofField sn cs atn lg) L anzy) (i + 1) j).lowerleft = (tileWindow
            (Arith.ofField sn cs atn lg) L.lowerleft (tileVx (Arith.ofField sn cs atn lg) L anzx)
            (tileVy (Arith.ofField sn cs atn lg) L anzy) i j).lowerright ∧
        (tileWindow (Arith.ofField sn cs atn lg) L.lowerleft (tileVx
            (Arith.ofField sn cs atn lg) L anzx) (tileVy
            (Arith.ofField sn cs atn lg) L anzy) i (j + 1)).lowerleft = (tileWindow
            (Arith.ofField sn cs atn lg) L.lowerleft (tileVx (Arith.ofField sn cs atn lg) L anzx)
            (tileVy (Arith.ofField sn cs atn lg) L anzy) i j).upperleft ∧
        (tileWindow (Arith.ofField sn cs atn lg) L.lowerleft (tileVx
            (Arith.ofField sn cs atn lg) L anzx) (tileVy
            (Arith.ofField sn cs atn lg) L anzy) (i + 1) j).upperleft = (tileWindow
            (Arith.ofField sn cs atn lg) L.lowerleft (tileVx (Arith.ofField sn cs atn lg) L anzx)
            (tileVy (Arith.ofField sn cs atn lg) L anzy) i (j + 1)).lowerright) ∧
      ((tileWindow (Arith.ofField sn cs atn lg) L.lowerleft (tileVx
          (Arith.ofField sn cs atn lg) L anzx) (tileVy
          (Arith.ofField sn cs atn lg) L anzy) 0 0).lowerleft.x = L.lowerleft.x ∧
        (tileWindow (Arith.ofField sn cs atn lg) L.lowerleft (tileVx
            (Arith.ofField sn cs atn lg) L anzx) (tileVy
            (Arith.ofField sn cs atn lg) L anzy) 0 0).lowerleft.y = L.lowerleft.y ∧
        (tileWindow (Arith.ofField sn cs atn lg) L.lowerleft (tileVx
            (Arith.ofField sn cs atn lg) L anzx) (tileVy
            (Arith.ofField sn cs atn lg) L anzy) (anzx.toNat - 1) 0).lowerright.x = L.lowerright.x ∧
        (tileWindow (Arith.ofField sn cs atn lg) L.lowerleft (tileVx
            (Arith.ofField sn cs atn lg) L anzx) (tileVy
            (Arith.ofField sn cs atn lg) L anzy) (anzx.toNat - 1) 0).lowerright.y = L.lowerright.y ∧
        (tileWindow (Arith.ofField sn cs atn lg) L.lowerleft (tileVx
            (Arith.ofField sn cs atn lg) L anzx) (tileVy
            (Arith.ofField sn cs atn lg) L anzy) 0 (anzy.toNat - 1)).upperleft.x = L.upperleft.x ∧
        (tileWindow (Arith.ofField sn cs atn lg) L.lowerleft (tileVx
            (Arith.ofField sn cs atn lg) L anzx) (tileVy
            (Arith.ofField sn cs atn lg) L anzy) 0 (anzy.toNat - 1)).upperleft.y = L.upperleft.y) ∧
      (anzx = 1 → anzy = 1 → r.2 = [tileWindow (Arith.ofField sn cs atn lg) L.lowerleft (tileVx
          (Arith.ofField sn cs atn lg) L anzx) (tileVy
          (Arith.ofField sn cs atn lg) L anzy) 0 0]) := by
  obtain ⟨r, h1, _, h3, _⟩ := Ljapunow.tile_spec
      (Arith.ofField sn cs atn lg) L AB hg fuel hfuel anzx anzy
  have hxc : (anzx : α) ≠ 0 := by
    have : anzx ≠ 0 := by omega
    exact_mod_cast this
  have hyc : (anzy : α) ≠ 0 := by
    have : anzy ≠ 0 := by omega
    exact_mod_cast this
  have hxn : ((anzx.toNat - 1 : Nat) : α) + 1 = (anzx : α) := by
    have e : ((anzx.toNat - 1 : Nat) : Int) + 1 = anzx := by omega
    exact_mod_cast e
  have hyn : ((anzy.toNat - 1 : Nat) : α) + 1 = (anzy : α) := by
    have e : ((anzy.toNat - 1 : Nat) : Int) + 1 = anzy := by omega
    exact_mod_cast e
  refine ⟨r, h1, h3, ?_, ?_, ?_, ?_, ?_, ?_⟩
  · rw [h3, tileLog_length, List.length_range, List.length_range]
  · intro i j hi hj
    have := tileLog_getElem (Arith.ofField sn cs atn lg) L.lowerleft (tileVx
        (Arith.ofField sn cs atn lg) L anzx) (tileVy (Arith.ofField sn cs atn lg) L anzy)
      (List.range anzy.toNat) (List.range anzx.toNat) i j
      (by rw [List.length_range]; exact hi) (by rw [List.length_range]; exact hj)
    simp only [List.length_range, List.getElem_range] at this
    rw [h3]
    exact this
  · intro i j
    obtain ⟨⟨a1, a2⟩, ⟨b1, b2⟩, ⟨c1, c2⟩⟩ :=
      tileWindow_exact sn cs atn lg L anzx anzy i j
    refine ⟨a1, a2, ?_, ?_, ?_, ?_⟩
    · rw [b1, a1]; ring
    · rw [b2, a2]; ring
    · rw [c1, a1]; ring
    · rw [c2, a2]; ring
  · intro i j
    refine ⟨?_, ?_, ?_⟩ <;>
    · simp only [tileWindow]
      push_cast
      rfl
  · obtain ⟨⟨a1, a2⟩, _, _⟩ := tileWindow_exact sn cs atn lg L anzx anzy 0 0
    obtain ⟨_, ⟨b1, b2⟩, _⟩ :=
      tileWindow_exact sn cs atn lg L anzx anzy (anzx.toNat - 1) 0
    obtain ⟨_, _, ⟨c1, c2⟩⟩ :=
      tileWindow_exact sn cs atn lg L anzx anzy 0 (anzy.toNat - 1)
    refine ⟨?_, ?_, ?_, ?_, ?_, ?_⟩
    · rw [a1]; simp
    · rw [a2]; simp
    · rw [b1, hxn]; field_simp
    · rw [b2, hxn]; field_simp
    · rw [c1, hyn]; field_simp
    · rw [c2, hyn]; field_simp
  · intro ex ey
    rw [h3, ex, ey]
    rfl

/-- Witness of C29: the sample field in real arithmetic, `tile` with 2 by 2
tiles and five units of fuel: four windows. -/
theorem C29_tile_windows_witness :
    (sampleField (Arith.ofField Real.sin Real.cos Real.arctan Real.log)).gridOK ∧ (sampleField
        (Arith.ofField Real.sin Real.cos Real.arctan Real.log)).leny.toNat < 5 ∧
    ∃ r, (sampleField (Arith.ofField Real.sin Real.cos Real.arctan Real.log)).tile
        (Arith.ofField Real.sin Real.cos Real.arctan Real.log) (fun _ => 0) 5 2 2 = some r
        ∧ r.2.length = 4 := by
  have hg := sampleField_gridOK (Arith.ofField Real.sin Real.cos Real.arctan Real.log)
  have hf : (sampleField
      (Arith.ofField Real.sin Real.cos Real.arctan Real.log)).leny.toNat < 5 := by simp [sampleField]
  obtain ⟨r, h1, _, h3, _⟩ := C29_tile_windows Real.sin Real.cos Real.arctan Real.log
    (sampleField (Arith.ofField Real.sin Real.cos Real.arctan Real.log))
        (fun _ => 0) 5 2 2 (by decide) (by decide) hg hf
  exact ⟨hg, hf, r, h1, by rw [h3]; rfl⟩

/-- **C30 (the code at the failing input).** The sample field (window the unit
square, lower-left corner `(0, 0)`) in real arithmetic, `tile` with 2 by 2
tiles: the call returns and the lower-left corner of the field is then
`(1/2, 1/2)`, the lower-left corner of the last tile. -/
theorem C30_tile_keeps_last_window :
    (sampleField (Arith.ofField Real.sin Real.cos Real.arctan Real.log)).lowerleft.x = 0 ∧
        (sampleField (Arith.ofField Real.sin Real.cos Real.arctan Real.log)).lowerleft.y = 0 ∧
    ∃ r, (sampleField (Arith.ofField Real.sin Real.cos Real.arctan Real.log)).tile
        (Arith.ofField Real.sin Real.cos Real.arctan Real.log) (fun _ => 0) 5 2 2 = some r ∧
      r.1.lowerleft.x = 1 / 2 ∧ r.1.lowerleft.y = 1 / 2 := by
  obtain ⟨r, h1, _, _, h4⟩ := Ljapunow.tile_spec
      (Arith.ofField Real.sin Real.cos Real.arctan Real.log) (sampleField
      (Arith.ofField Real.sin Real.cos Real.arctan Real.log)) (fun _ => 0)
    (sampleField_gridOK
        (Arith.ofField Real.sin Real.cos Real.arctan Real.log)) 5 (by simp [sampleField]) 2 2
  have hw := h4 1 1 rfl rfl
  have hl : r.1.lowerleft
      = (tileWindow (Arith.ofField Real.sin Real.cos Real.arctan Real.log) (sampleField
          (Arith.ofField Real.sin Real.cos Real.arctan Real.log)).lowerleft (tileVx
          (Arith.ofField Real.sin Real.cos Real.arctan Real.log) (sampleField
          (Arith.ofField Real.sin Real.cos Real.arctan Real.log)) 2)
          (tileVy (Arith.ofField Real.sin Real.cos Real.arctan Real.log) (sampleField
              (Arith.ofField Real.sin Real.cos Real.arctan Real.log)) 2) 1 1).lowerleft :=
    congrArg Window.lowerleft hw
  refine ⟨?_, ?_, r, h1, ?_, ?_⟩
  · simp [sampleField, Arith.ofField]
  · simp [sampleField, Arith.ofField]
  · rw [hl]
    norm_num [tileWindow, tileVx, tileVy, sampleField, Arith.ofField]
  · rw [hl]
    norm_num [tileWindow, tileVx, tileVy, sampleField, Arith.ofField]

/-! ## A composed object over one plain class -/

/-- **C39.** For every plain object `c` (one of the nine classes that are
neither composed nor piecewise) and all `x`, `r`: the `FunctionMetaDet` whose
value child is `c` with `fwas = WAS_F` and whose derivative child is the same
`c` with `ablwas = WAS_ABL` returns, from its value-only evaluation, what the
value-only evaluation of `c` returns, and from its two-output evaluation the
pair that the two-output evaluation of `c` returns, operation by operation. -/
theorem C39_metadet_over_plain {α : Type} (A : Arith α) (c : Function α)
    (hc : c.isPlain = true) (b b2 x r : α) :
    Function.eval A (.MetaDet b b2 c c WAS_F WAS_ABL) x r = c.eval A x r ∧
    Function.eval2 A (.MetaDet b b2 c c WAS_F WAS_ABL) x r = c.eval2 A x r ∧
    (Function.eval2 A (.MetaDet b b2 c c WAS_F WAS_ABL) x r).1
      = (c.eval2 A x r).1 ∧
    (Function.eval2 A (.MetaDet b b2 c c WAS_F WAS_ABL) x r).2
      = (c.eval2 A x r).2 := by
  have h1 : Function.eval A (.MetaDet b b2 c c WAS_F WAS_ABL) x r = c.eval A x r := by
    simp only [Function.eval]
    rw [if_pos trivial]
  have h2 : Function.eval2 A (.MetaDet b b2 c c WAS_F WAS_ABL) x r
      = (c.eval A x r, c.evalabl A x r) := by
    simp only [Function.eval2]
    rw [if_pos trivial, if_neg (by decide)]
  have h3 : c.eval2 A x r = (c.eval A x r, c.evalabl A x r) := by
    rw [← plain_eval2_fst A c hc x r, ← plain_eval2_snd A c hc x r]
  refine ⟨h1, ?_, ?_, ?_⟩
  · rw [h2, h3]
  · rw [h2, h3]
  · rw [h2, h3]

/-- Witness of C39: the detached class `FunctionVII` with `b = 2.7` in real
arithmetic with the source's `fastsin`. -/
theorem C39_metadet_over_plain_witness :
    (Function.VII (2.7 : ℝ) 5.4).isPlain = true ∧
    Function.eval2
        (Arith.ofField Real.sin Real.cos Real.arctan Real.log).srcTrig (.MetaDet 2.7 5.4 (.VII 2.7 5.4) (.VII 2.7 5.4)
        WAS_F WAS_ABL) 1 2
      = Function.eval2
          (Arith.ofField Real.sin Real.cos Real.arctan Real.log).srcTrig (.VII 2.7 5.4) 1 2 :=
  ⟨rfl, (C39_metadet_over_plain
      (Arith.ofField Real.sin Real.cos Real.arctan Real.log).srcTrig (.VII 2.7 5.4) rfl 2.7 5.4 1 2).2.1⟩

/-! ## The width of a colour interval -/

theorem ColIntv.calls_breite {α : Type} (A : Arith α) (cs : List (ColIntvCall α)) :
    ∀ p : ColIntv α,
      (p.breite = A.sub p.gr p.gl ∨ ∃ c ∈ cs, c.isBound = true) →
      (p.calls A cs).breite = A.sub (p.calls A cs).gr (p.calls A cs).gl := by
  induction cs with
  | nil =>
    intro p h
    rcases h with h | ⟨c, hc, _⟩
    · exact h
    · simp at hc
  | cons c cs ih =>
    intro p h
    show ((p.call A c).calls A cs).breite = _
    apply ih
    rcases h with h | ⟨c1, hc1, hb⟩
    · exact Or.inl (ColIntv.call_breite A p c (Or.inr h))
    · rcases List.mem_cons.mp hc1 with e | e
      · subst e
        exact Or.inl (ColIntv.call_breite A p c1 (Or.inl hb))
      · exact Or.inr ⟨c1, e, hb⟩

/-- Truncation toward zero keeps a value between 0 and an integer bound. -/
theorem truncZero_range {α : Type} [LinearOrderedField α] [FloorRing α]
    (v : α) (d : Int) :
    (0 ≤ v → v ≤ (d : α) → 0 ≤ truncZero v ∧ truncZero v ≤ d) ∧
    (v ≤ 0 → (d : α) ≤ v → d ≤ truncZero v ∧ truncZero v ≤ 0) := by
  constructor
  · intro h0 h1
    unfold truncZero
    rw [if_pos h0]
    refine ⟨Int.floor_nonneg.mpr h0, ?_⟩
    have h2 : ((Int.floor v : Int) : α) ≤ (d : α) := le_trans (Int.floor_le v) h1
    exact_mod_cast h2
  · intro h0 h1
    unfold truncZero
    by_cases hv : 0 ≤ v
    · have e : v = 0 := le_antisymm h0 hv
      rw [if_pos hv, e, Int.floor_zero]
      refine ⟨?_, le_refl _⟩
      have h2 : (d : α) ≤ ((0 : Int) : α) := by
        rw [e] at h1
        simpa using h1
      exact_mod_cast h2
    · rw [if_neg hv]
      constructor
      · have h2 : (d : α) ≤ ((Int.ceil v : Int) : α) := le_trans h1 (Int.le_ceil v)
        exact_mod_cast h2
      · rw [Int.ceil_le]
        simpa using h0

/-- One channel of `ColIntv::farbe` in rounded arithmetic lies between its left
and right value, for a monotone rounding that leaves the integers of `int32_t`
as they are. -/
theorem channel_rounded {α : Type} [LinearOrderedField α] [FloorRing α]
    (rnd : α → α) (hm : Monotone rnd)
    (hz : ∀ z : Int, inInt32 z → rnd (z : α) = (z : α))
    (t : α) (l rgt : Int) (h0 : 0 ≤ t) (h1 : t ≤ 1)
    (hl : inInt32 l) (hr : inInt32 rgt) (hd : inInt32 (rgt - l)) :
    min l rgt ≤ toInt32 (l + truncZero (rnd (t * rnd ((toInt32 (rgt - l) : Int) : α)))) ∧
    toInt32 (l + truncZero (rnd (t * rnd ((toInt32 (rgt - l) : Int) : α))))
      ≤ max l rgt := by
  rw [toInt32_of_inInt32 _ hd, hz _ hd]
  have hz0 : rnd (0 : α) = 0 := by
    have h := hz 0 (by unfold inInt32; omega)
    simpa using h
  obtain ⟨b1, b2⟩ := truncZero_range (rnd (t * ((rgt - l : Int) : α))) (rgt - l)
  obtain ⟨hl0, hl1⟩ := hl
  obtain ⟨hr0, hr1⟩ := hr
  by_cases hs : 0 ≤ rgt - l
  · have hdc : (0 : α) ≤ ((rgt - l : Int) : α) := by exact_mod_cast hs
    have u0 : 0 ≤ rnd (t * ((rgt - l : Int) : α)) := by
      have h := hm (mul_nonneg h0 hdc)
      rw [hz0] at h
      exact h
    have u1 : rnd (t * ((rgt - l : Int) : α)) ≤ ((rgt - l : Int) : α) := by
      have h := hm (mul_le_of_le_one_left hdc h1)
      rw [hz _ hd] at h
      exact h
    obtain ⟨c1, c2⟩ := b1 u0 u1
    rw [toInt32_of_inInt32 _ (by unfold inInt32; omega)]
    constructor
    · exact le_trans (min_le_left _ _) (by omega)
    · exact le_trans (by omega) (le_max_right _ _)
  · have hdc : ((rgt - l : Int) : α) ≤ 0 := by exact_mod_cast (by omega : rgt - l ≤ 0)
    have u0 : rnd (t * ((rgt - l : Int) : α)) ≤ 0 := by
      have h := hm (mul_nonpos_of_nonneg_of_nonpos h0 hdc)
      rw [hz0] at h
      exact h
    have u1 : ((rgt - l : Int) : α) ≤ rnd (t * ((rgt - l : Int) : α)) := by
      have h2 : ((rgt - l : Int) : α) ≤ t * ((rgt - l : Int) : α) := by
        nlinarith
      have h := hm h2
      rw [hz _ hd] at h
      exact h
    obtain ⟨c1, c2⟩ := b2 u0 u1
    rw [toInt32_of_inInt32 _ (by unfold inInt32; omega)]
    constructor
    · exact le_trans (min_le_right _ _) (by omega)
    · exact le_trans (by omega) (le_max_left _ _)

theorem ColIntv.contains_rounded {α : Type} [LinearOrderedField α] [FloorRing α]
    (rnd sn cs atn lg : α → α) (p : ColIntv α) (w : α) :
    p.contains (Arith.rounded rnd sn cs atn lg) w = true ↔ (p.gl ≤ w ∧ w < p.gr) := by
  simp [ColIntv.contains, Arith.rounded]

/-- **C37 (as stated, refuted).** In exact arithmetic, the interval from 0 to 1
whose red channel is set to run from -1 to 2147483647, both bounds and both
colours set through the setters: `breite = gr - gl = 1`, the difference
`dr = rr - lr` leaves `int32_t` and is stored as -2147483648, and `farbe` at
`w = 1/2`, in range, writes the red channel -1073741825, below both the left
value -1 and the right value 2147483647. -/
theorem C37_counterexample :
    (sampleWide (Arith.ofField Real.sin Real.cos Real.arctan Real.log)).breite = (sampleWide
        (Arith.ofField Real.sin Real.cos Real.arctan Real.log)).gr - (sampleWide (Arith.ofField
            Real.sin Real.cos Real.arctan Real.log)).gl ∧
    (sampleWide (Arith.ofField Real.sin Real.cos Real.arctan Real.log)).gl ≤ 1 / 2 ∧ (1 / 2 :
        ℝ) < (sampleWide (Arith.ofField Real.sin Real.cos Real.arctan Real.log)).gr ∧
    (sampleWide (Arith.ofField Real.sin Real.cos Real.arctan Real.log)).lr = -1 ∧ (sampleWide
        (Arith.ofField Real.sin Real.cos Real.arctan Real.log)).rr = 2147483647 ∧
    (sampleWide (Arith.ofField Real.sin Real.cos Real.arctan Real.log)).dr = -2147483648 ∧
    ((sampleWide (Arith.ofField Real.sin Real.cos Real.arctan Real.log)).farbe (Arith.ofField
        Real.sin Real.cos Real.arctan Real.log) (1 / 2) { r := 0, g := 0, b := 0 }).1 = 1 ∧
    ((sampleWide (Arith.ofField Real.sin Real.cos Real.arctan Real.log)).farbe (Arith.ofField
        Real.sin Real.cos Real.arctan Real.log) (1 / 2) { r := 0, g := 0, b := 0 }).2.r =
            -1073741825 ∧
    ¬ (min (sampleWide (Arith.ofField Real.sin Real.cos Real.arctan Real.log)).lr (sampleWide
        (Arith.ofField Real.sin Real.cos Real.arctan Real.log)).rr
        ≤ ((sampleWide (Arith.ofField Real.sin Real.cos Real.arctan Real.log)).farbe
            (Arith.ofField Real.sin Real.cos Real.arctan Real.log) (1 / 2) { r := 0, g := 0, b
                := 0 }).2.r) := by
  have e4 : truncZero (-((2 : ℝ)⁻¹ * 2147483648)) = -1073741824 := by
    have h := @truncZero_intCast ℝ _ _ (-1073741824)
    have e : (((-1073741824 : Int) : Int) : ℝ) = -((2 : ℝ)⁻¹ * 2147483648) := by
      norm_num
    rw [e] at h
    exact h
  have tw : toInt32 (-1073741825) = -1073741825 := by decide
  have hlt : (2 : ℝ)⁻¹ < 1 := by norm_num
  have hf : ((sampleWide (Arith.ofField Real.sin Real.cos Real.arctan Real.log)).farbe
      (Arith.ofField Real.sin Real.cos Real.arctan Real.log) (1 / 2) { r := 0, g := 0, b := 0
          }).2.r
      = -1073741825 := by
    rw [sampleWide_real]
    simp [ColIntv.farbe, Arith.ofField, e4, tw, hlt]
  have h1 : ((sampleWide (Arith.ofField Real.sin Real.cos Real.arctan Real.log)).farbe
      (Arith.ofField Real.sin Real.cos Real.arctan Real.log) (1 / 2) { r := 0, g := 0, b := 0
          }).1 = 1 := by
    rw [sampleWide_real]
    simp [ColIntv.farbe, Arith.ofField, hlt]
  refine ⟨?_, ?_, ?_, ?_, ?_, ?_, h1, hf, ?_⟩
  · rw [sampleWide_real]
    norm_num
  · rw [sampleWide_real]
    norm_num
  · rw [sampleWide_real]
    norm_num
  · rw [sampleWide_real]
  · rw [sampleWide_real]
  · rw [sampleWide_real]
  · rw [hf, sampleWide_real]
    decide

/-- **C37 (amended).** In rounded arithmetic (exact arithmetic is the case
`rnd = id`), for an interval with `breite = gr - gl` as the bound setters
leave it, where the difference of the distinct bounds is not rounded to zero,
and every `w`: when the range test of `farbe` succeeds, that is when `farbe`
returns 1 and so has divided by `breite`, `breite` is positive; an interval
with `gr ≤ gl` matches no `w` (`farbe` returns 0 and leaves the channels);
when moreover the colour setters have left the differences `right - left` and
the channels and differences fit `int32_t`, then for a rounding that is
monotone and leaves the integers of `int32_t` as they are, each channel written
for `w` in range lies between the left and the right value of that channel,
both included.  After any sequence of setter calls that holds a bound setter,
`breite = gr - gl`. -/
theorem C37_width_positive_in_range {α : Type} [LinearOrderedField α] [FloorRing α]
    (rnd sn cs atn lg : α → α) (p : ColIntv α) (w : α) (out : RGB)
    (hb : p.breite = (Arith.rounded rnd sn cs atn lg).sub p.gr p.gl)
    (hp : p.gl < p.gr → 0 < rnd (p.gr - p.gl)) :
    (p.contains (Arith.rounded rnd sn cs atn lg) w = true → 0 < p.breite) ∧
    ((p.farbe (Arith.rounded rnd sn cs atn lg) w out).1 = 1 → 0 < p.breite) ∧
    (p.gr ≤ p.gl →
      p.contains (Arith.rounded rnd sn cs atn lg) w = false ∧
      p.farbe (Arith.rounded rnd sn cs atn lg) w out = (0, out)) ∧
    (Monotone rnd → (∀ z : Int, inInt32 z → rnd (z : α) = (z : α)) →
      p.dr = toInt32 (p.rr - p.lr) → p.dg = toInt32 (p.rg - p.lg) →
      p.db = toInt32 (p.rb - p.lb) → p.rgbOK →
      p.gl ≤ w → w < p.gr →
      (min p.lr p.rr ≤ (p.farbe (Arith.rounded rnd sn cs atn lg) w out).2.r ∧
        (p.farbe (Arith.rounded rnd sn cs atn lg) w out).2.r ≤ max p.lr p.rr) ∧
      (min p.lg p.rg ≤ (p.farbe (Arith.rounded rnd sn cs atn lg) w out).2.g ∧
        (p.farbe (Arith.rounded rnd sn cs atn lg) w out).2.g ≤ max p.lg p.rg) ∧
      (min p.lb p.rb ≤ (p.farbe (Arith.rounded rnd sn cs atn lg) w out).2.b ∧
        (p.farbe (Arith.rounded rnd sn cs atn lg) w out).2.b ≤ max p.lb p.rb)) ∧
    (∀ (p0 : ColIntv α) (calls : List (ColIntvCall α)),
      (∃ c ∈ calls, c.isBound = true) →
      (p0.calls (Arith.rounded rnd sn cs atn lg) calls).breite
        = (Arith.rounded rnd sn cs atn lg).sub
            (p0.calls (Arith.rounded rnd sn cs atn lg) calls).gr
            (p0.calls (Arith.rounded rnd sn cs atn lg) calls).gl) := by
  have hb2 : p.breite = rnd (p.gr - p.gl) := hb
  have hpos : p.contains (Arith.rounded rnd sn cs atn lg) w = true → 0 < p.breite := by
    intro h
    obtain ⟨h1, h2⟩ := (ColIntv.contains_rounded rnd sn cs atn lg p w).mp h
    rw [hb2]
    exact hp (lt_of_le_of_lt h1 h2)
  have hno : p.gr ≤ p.gl → p.contains (Arith.rounded rnd sn cs atn lg) w = false := by
    intro hd
    rw [Bool.eq_false_iff]
    intro h
    obtain ⟨h1, h2⟩ := (ColIntv.contains_rounded rnd sn cs atn lg p w).mp h
    exact absurd (lt_of_le_of_lt h1 h2) (not_lt.mpr hd)
  refine ⟨hpos, ?_, ?_, ?_, ?_⟩
  · intro h
    apply hpos
    by_contra hn
    rw [ColIntv.farbe_eq, if_neg hn] at h
    simp at h
  · intro hd
    refine ⟨hno hd, ?_⟩
    rw [ColIntv.farbe_eq, hno hd]
    simp
  · intro hm hz cr cg cb hr h1 h2
    obtain ⟨r1, r2, r3, r4, r5, r6, r7, r8, r9⟩ := hr
    have hz0 : rnd (0 : α) = 0 := by
      have h := hz 0 (by unfold inInt32; omega)
      simpa using h
    have hz1 : rnd (1 : α) = 1 := by
      have h := hz 1 (by unfold inInt32; omega)
      simpa using h
    have hB : 0 < rnd (p.gr - p.gl) := hp (lt_of_le_of_lt h1 h2)
    have hN0 : 0 ≤ rnd (w - p.gl) := by
      have h := hm (sub_nonneg.mpr h1)
      rw [hz0] at h
      exact h
    have hN1 : rnd (w - p.gl) ≤ rnd (p.gr - p.gl) := hm (by linarith)
    have t0 : 0 ≤ rnd (rnd (w - p.gl) / rnd (p.gr - p.gl)) := by
      have h := hm (div_nonneg hN0 (le_of_lt hB))
      rw [hz0] at h
      exact h
    have t1 : rnd (rnd (w - p.gl) / rnd (p.gr - p.gl)) ≤ 1 := by
      have h := hm ((div_le_one hB).mpr hN1)
      rw [hz1] at h
      exact h
    rw [ColIntv.farbe_eq,
      if_pos ((ColIntv.contains_rounded rnd sn cs atn lg p w).mpr ⟨h1, h2⟩)]
    simp only [ColIntv.colourAt, Arith.rounded, hb2, cr, cg, cb]
    exact ⟨channel_rounded rnd hm hz _ p.lr p.rr t0 t1 r1 r4 r7,
      channel_rounded rnd hm hz _ p.lg p.rg t0 t1 r2 r5 r8,
      channel_rounded rnd hm hz _ p.lb p.rb t0 t1 r3 r6 r9⟩
  · intro p0 calls hex
    exact ColIntv.calls_breite (Arith.rounded rnd sn cs atn lg) calls p0 (Or.inr hex)

/-- Witness of C37 (amended): the sample interval (0 to 1, black to white) under
the rounding of doubles: its width `1` is `gr - gl` rounded, the range test
succeeds at `w = 1/2`, and the width is positive. -/
theorem C37_width_positive_in_range_witness :
    (sampleInterval (Arith.rounded roundDouble id id id id)).breite = (Arith.rounded
        roundDouble id id id id).sub (sampleInterval (Arith.rounded roundDouble id id id
            id)).gr (sampleInterval (Arith.rounded roundDouble id id id id)).gl ∧
    ((sampleInterval (Arith.rounded roundDouble id id id id)).gl < (sampleInterval
        (Arith.rounded roundDouble id id id id)).gr →
      0 < roundDouble ((sampleInterval (Arith.rounded roundDouble id id id id)).gr -
          (sampleInterval (Arith.rounded roundDouble id id id id)).gl)) ∧
    (sampleInterval (Arith.rounded roundDouble id id id id)).contains (Arith.rounded
        roundDouble id id id id) (1 / 2) = true ∧
    0 < (sampleInterval (Arith.rounded roundDouble id id id id)).breite := by
  have hb : (sampleInterval (Arith.rounded roundDouble id id id id)).breite
      = (Arith.rounded roundDouble id id id id).sub (sampleInterval (Arith.rounded roundDouble
          id id id id)).gr (sampleInterval (Arith.rounded roundDouble id id id id)).gl := by
    rw [sampleInterval_rounded]
    simp [Arith.rounded, roundDouble_one]
  have hp : (sampleInterval (Arith.rounded roundDouble id id id id)).gl < (sampleInterval
      (Arith.rounded roundDouble id id id id)).gr →
      0 < roundDouble ((sampleInterval (Arith.rounded roundDouble id id id id)).gr -
          (sampleInterval (Arith.rounded roundDouble id id id id)).gl) := by
    intro _
    rw [sampleInterval_rounded]
    simp [roundDouble_one]
  have hc : (sampleInterval (Arith.rounded roundDouble id id id id)).contains (Arith.rounded
      roundDouble id id id id) (1 / 2) = true := by
    rw [sampleInterval_rounded]
    simp [ColIntv.contains, Arith.rounded]
    norm_num
  exact ⟨hb, hp, hc, (C37_width_positive_in_range roundDouble id id id id
    (sampleInterval (Arith.rounded roundDouble id id id id)) (1 / 2) { r := 0, g := 0, b := 0 }
        hb hp).1 hc⟩

/-! ## The colour at the global maximum -/

theorem IntervalColoring.addAll_full {α : Type} (A : Arith α)
    (ps : List (ColIntv α)) :
    ∀ C : IntervalColoring α, ¬ C.intanz < MAXINTANZ → C.addAll A ps = C := by
  induction ps with
  | nil => intro C _; rfl
  | cons p ps ih =>
    intro C h
    have e : (C.Addintervall A p).2 = C := by
      unfold IntervalColoring.Addintervall
      rw [if_neg h]
    rw [IntervalColoring.addAll_cons, e]
    exact ih C h

/-- Calls of `Addintervall` beyond the capacity change nothing. -/
theorem IntervalColoring.addAll_take {α : Type} (A : Arith α)
    (ps : List (ColIntv α)) :
    ∀ C : IntervalColoring α,
      C.addAll A ps = C.addAll A (ps.take (MAXINTANZ - C.intanz)) := by
  induction ps with
  | nil => intro C; simp
  | cons p ps ih =>
    intro C
    by_cases h : C.intanz < MAXINTANZ
    · have e : (C.Addintervall A p).2.intanz = C.intanz + 1 := by
        unfold IntervalColoring.Addintervall
        rw [if_pos h]
        simp [IntervalColoring.intanz]
      have e2 : MAXINTANZ - C.intanz = (MAXINTANZ - (C.intanz + 1)) + 1 := by omega
      rw [e2, List.take_succ_cons, IntervalColoring.addAll_cons,
        IntervalColoring.addAll_cons, ih, e]
    · have e2 : MAXINTANZ - C.intanz = 0 := by omega
      rw [e2, List.take_zero, IntervalColoring.addAll_full A _ C h]
      rfl

theorem createBmpCells_length {α : Type} (A : Arith α) (C : IntervalColoring α)
    (es : List α) : ∀ out : RGB, (createBmpCells A C es out).length = es.length := by
  induction es with
  | nil => intro out; rfl
  | cons e es ih =>
    intro out
    simp [createBmpCells, ih]

/-- The cells after a prefix are coloured starting from what the variables hold
after the prefix. -/
theorem createBmpCells_append {α : Type} (A : Arith α) (C : IntervalColoring α)
    (pre rest : List α) :
    ∀ out : RGB,
      createBmpCells A C (pre ++ rest) out
        = createBmpCells A C pre out
          ++ createBmpCells A C rest (createBmpState A C pre out) := by
  induction pre with
  | nil => intro out; rfl
  | cons e pre ih =>
    intro out
    show (C.farbe A e out).2 :: createBmpCells A C (pre ++ rest) (C.farbe A e out).2
      = (C.farbe A e out).2 :: (createBmpCells A C pre (C.farbe A e out).2
        ++ createBmpCells A C rest (createBmpState A C pre (C.farbe A e out).2))
    rw [ih]

/-- A colouring filled from empty with intervals `gl < gr`, at its `maxgl`. -/
theorem IntervalColoring.farbe_maxgl {α : Type} [LinearOrderedField α] [FloorRing α]
    (sn cs atn lg : α → α) (C0 : IntervalColoring α) (ps : List (ColIntv α))
    (h0 : C0.ints = []) (hne : ps ≠ []) (hlohi : ∀ p ∈ ps.take 32, p.gl < p.gr)
    (out : RGB) :
    (C0.addAll (Arith.ofField sn cs atn lg) ps).farbe (Arith.ofField sn cs atn lg) (C0.addAll
        (Arith.ofField sn cs atn lg) ps).maxgl out = (0, out) ∧
    (C0.addAll (Arith.ofField sn cs atn lg) ps).ints = ps.take 32 ∧
    (∃ p ∈ ps.take 32, (C0.addAll (Arith.ofField sn cs atn lg) ps).maxgl = p.gr) ∧
    (∀ p ∈ ps.take 32, p.gr ≤ (C0.addAll (Arith.ofField sn cs atn lg) ps).maxgl) := by
  have ht : C0.addAll (Arith.ofField sn cs atn lg) ps = C0.addAll
      (Arith.ofField sn cs atn lg) (ps.take 32) := by
    have := IntervalColoring.addAll_take (Arith.ofField sn cs atn lg) ps C0
    simpa [IntervalColoring.intanz, h0, MAXINTANZ] using this
  have hne2 : ps.take 32 ≠ [] := by
    cases ps with
    | nil => exact absurd rfl hne
    | cons p ps => simp
  obtain ⟨hi, m1, m2, m3, m4⟩ := IntervalColoring.filled sn cs atn lg C0 (ps.take 32)
    h0 hne2 (by simp)
  rw [← ht] at hi m1 m2 m3 m4
  rw [hi] at m1 m2 m3 m4
  refine ⟨?_, hi, m3, m4⟩
  obtain ⟨p, hp, _⟩ := m1
  have hle : (C0.addAll (Arith.ofField sn cs atn lg) ps).mingl ≤ (C0.addAll
      (Arith.ofField sn cs atn lg) ps).maxgl :=
    le_trans (m2 p hp) (le_trans (le_of_lt (hlohi p hp)) (m4 p hp))
  rw [IntervalColoring.farbe_inside sn cs atn lg _ _ out hle (le_refl _), hi]
  apply IntervalColoring.scan_none
  intro q hq
  exact ColIntv.contains_exact_false sn cs atn lg q _
    (fun h => absurd h.2 (not_lt.mpr (m4 q hq)))

/-- A cell for which `farbe` returns 0 gets the colour of the cell before it,
and as first cell what the uninitialised variables hold. -/
theorem createBmpCells_repeat {α : Type} (A : Arith α) (C : IntervalColoring α)
    (m : α) (hm : ∀ out : RGB, C.farbe A m out = (0, out))
    (pre post : List α) (e : α) (junk : RGB) :
    (createBmpCells A C (pre ++ e :: m :: post) junk)[pre.length + 1]?
      = (createBmpCells A C (pre ++ e :: m :: post) junk)[pre.length]? ∧
    (createBmpCells A C (pre ++ e :: m :: post) junk)[pre.length]?
      = some (C.farbe A e (createBmpState A C pre junk)).2 ∧
    (createBmpCells A C (m :: post) junk)[0]? = some junk := by
  have hl := createBmpCells_length A C pre junk
  refine ⟨?_, ?_, ?_⟩
  · rw [createBmpCells_append, List.getElem?_append_right (by omega),
      List.getElem?_append_right (by omega), hl]
    simp [createBmpCells, hm]
  · rw [createBmpCells_append, List.getElem?_append_right (by omega), hl]
    simp [createBmpCells]
  · simp [createBmpCells, hm]

/-- **C38 (as stated, refuted).** The colouring without intervals, blue below
and red above, to which the interval with left bound 5 and right bound 1 is
added, in real arithmetic: `maxgl = 1`, and `farbe` at `w = 1` returns 1 with
the below-colour `(0, 0, 255)`. -/
theorem C38_counterexample :
    ((sampleEmptyColoring (Arith.ofField Real.sin Real.cos Real.arctan Real.log)).addAll
        (Arith.ofField Real.sin Real.cos Real.arctan Real.log) [sampleBackward
        (Arith.ofField Real.sin Real.cos Real.arctan Real.log)]).maxgl = 1 ∧
    ((sampleEmptyColoring (Arith.ofField Real.sin Real.cos Real.arctan Real.log)).addAll
        (Arith.ofField Real.sin Real.cos Real.arctan Real.log) [sampleBackward
        (Arith.ofField Real.sin Real.cos Real.arctan Real.log)]).mingl = 5 ∧
    ((sampleEmptyColoring (Arith.ofField Real.sin Real.cos Real.arctan Real.log)).addAll
        (Arith.ofField Real.sin Real.cos Real.arctan Real.log) [sampleBackward
        (Arith.ofField Real.sin Real.cos Real.arctan Real.log)]).farbe
        (Arith.ofField Real.sin Real.cos Real.arctan Real.log) 1
      { r := 7, g := 7, b := 7 } = (1, { r := 0, g := 0, b := 255 }) := by
  refine ⟨?_, ?_, ?_⟩
  · simp [IntervalColoring.addAll, sampleEmptyColoring, sampleBackward,
      IntervalColoring.Addintervall, IntervalColoring.ctor,
      IntervalColoring.setfarbel, IntervalColoring.setfarber,
      IntervalColoring.intanz, MAXINTANZ, sampleInterval, ColIntv.setfarber,
      ColIntv.setfarbel, ColIntv.precalc, ColIntv.setgrenzer, ColIntv.setgrenzel,
      Arith.ofField]
  · simp [IntervalColoring.addAll, sampleEmptyColoring, sampleBackward,
      IntervalColoring.Addintervall, IntervalColoring.ctor,
      IntervalColoring.setfarbel, IntervalColoring.setfarber,
      IntervalColoring.intanz, MAXINTANZ, sampleInterval, ColIntv.setfarber,
      ColIntv.setfarbel, ColIntv.precalc, ColIntv.setgrenzer, ColIntv.setgrenzel,
      Arith.ofField]
  · simp [IntervalColoring.farbe, IntervalColoring.addAll, sampleEmptyColoring,
      sampleBackward, IntervalColoring.Addintervall, IntervalColoring.ctor,
      IntervalColoring.setfarbel, IntervalColoring.setfarber,
      IntervalColoring.intanz, MAXINTANZ, sampleInterval, ColIntv.setfarber,
      ColIntv.setfarbel, ColIntv.precalc, ColIntv.setgrenzer, ColIntv.setgrenzel,
      Arith.ofField]

/-- **C38 (amended).** In exact arithmetic, for a colouring built by at least
one `Addintervall` call from a state without intervals, with intervals that
satisfy `gl < gr` (those beyond the first 32 are not stored): `maxgl` is the
greatest stored right bound, `farbe` at `w = maxgl` returns 0 and leaves the
channels as they are, and `createBmp`, which does not look at the returned
value, colours a cell holding `maxgl` like the cell before it, and as first
cell with what its uninitialised variables hold.  The colouring that the
constructor leaves, without intervals, also returns 0 at its `maxgl`. -/
theorem C38_no_colour_at_maximum {α : Type} [LinearOrderedField α] [FloorRing α]
    (sn cs atn lg : α → α) (C0 junkC : IntervalColoring α) (ps : List (ColIntv α))
    (h0 : C0.ints = []) (hne : ps ≠ []) (hlohi : ∀ p ∈ ps.take 32, p.gl < p.gr)
    (out junk : RGB) (pre post : List α) (e : α) :
    (C0.addAll (Arith.ofField sn cs atn lg) ps).farbe (Arith.ofField sn cs atn lg) (C0.addAll
        (Arith.ofField sn cs atn lg) ps).maxgl out = (0, out) ∧
    (∃ p ∈ ps.take 32, (C0.addAll (Arith.ofField sn cs atn lg) ps).maxgl = p.gr) ∧
    (∀ p ∈ ps.take 32, p.gr ≤ (C0.addAll (Arith.ofField sn cs atn lg) ps).maxgl) ∧
    (createBmpCells (Arith.ofField sn cs atn lg) (C0.addAll (Arith.ofField sn cs atn lg) ps)
        (pre ++ e :: (C0.addAll
            (Arith.ofField sn cs atn lg) ps).maxgl :: post) junk)[pre.length + 1]?
      = (createBmpCells (Arith.ofField sn cs atn lg) (C0.addAll (Arith.ofField sn cs atn lg) ps)
        (pre ++ e :: (C0.addAll (Arith.ofField sn cs atn lg) ps).maxgl :: post) junk)[pre.length]? ∧
    (createBmpCells (Arith.ofField sn cs atn lg) (C0.addAll (Arith.ofField sn cs atn lg) ps)
        ((C0.addAll (Arith.ofField sn cs atn lg) ps).maxgl :: post) junk)[0]? = some junk ∧
    (IntervalColoring.ctor (Arith.ofField sn cs atn lg) junkC).farbe
        (Arith.ofField sn cs atn lg) (IntervalColoring.ctor
        (Arith.ofField sn cs atn lg) junkC).maxgl out
      = (0, out) := by
  have hm : ∀ o : RGB,
      (C0.addAll (Arith.ofField sn cs atn lg) ps).farbe (Arith.ofField sn cs atn lg) (C0.addAll
          (Arith.ofField sn cs atn lg) ps).maxgl o = (0, o) :=
    fun o => (IntervalColoring.farbe_maxgl sn cs atn lg C0 ps h0 hne hlohi o).1
  obtain ⟨_, _, m3, m4⟩ := IntervalColoring.farbe_maxgl sn cs atn lg C0 ps h0 hne hlohi out
  obtain ⟨c1, _, c3⟩ := createBmpCells_repeat (Arith.ofField sn cs atn lg) (C0.addAll
      (Arith.ofField sn cs atn lg) ps) _ hm pre post e junk
  refine ⟨hm out, m3, m4, c1, c3, ?_⟩
  simp [IntervalColoring.farbe, IntervalColoring.scan, IntervalColoring.ctor,
    Arith.ofField]

/-- Witness of C38 (amended): the sample colouring (one interval, 0 to 1) in
real arithmetic returns 0 at `w = 1`. -/
theorem C38_no_colour_at_maximum_witness :
    (sampleEmptyColoring (Arith.ofField Real.sin Real.cos Real.arctan Real.log)).ints = [] ∧
    (∀ p ∈ [sampleInterval
        (Arith.ofField Real.sin Real.cos Real.arctan Real.log)].take 32, p.gl < p.gr) ∧
    ((sampleEmptyColoring (Arith.ofField Real.sin Real.cos Real.arctan Real.log)).addAll
        (Arith.ofField Real.sin Real.cos Real.arctan Real.log) [sampleInterval
        (Arith.ofField Real.sin Real.cos Real.arctan Real.log)]).farbe
        (Arith.ofField Real.sin Real.cos Real.arctan Real.log)
      ((sampleEmptyColoring (Arith.ofField Real.sin Real.cos Real.arctan Real.log)).addAll
          (Arith.ofField Real.sin Real.cos Real.arctan Real.log) [sampleInterval
          (Arith.ofField Real.sin Real.cos Real.arctan Real.log)]).maxgl
      { r := 7, g := 7, b := 7 } = (0, { r := 7, g := 7, b := 7 }) := by
  have hl : ∀ p ∈ [sampleInterval
      (Arith.ofField Real.sin Real.cos Real.arctan Real.log)].take 32, p.gl < p.gr := by
    intro p hp
    have e : p = sampleInterval
        (Arith.ofField Real.sin Real.cos Real.arctan Real.log) := by simpa using hp
    rw [e]
    simp [sampleInterval, ColIntv.setfarber, ColIntv.setfarbel, ColIntv.precalc,
      ColIntv.setgrenzer, ColIntv.setgrenzel, Arith.ofField]
  exact ⟨rfl, hl, (C38_no_colour_at_maximum Real.sin Real.cos Real.arctan Real.log
    (sampleEmptyColoring
        (Arith.ofField Real.sin Real.cos Real.arctan Real.log)) (sampleEmptyColoring
        (Arith.ofField Real.sin Real.cos Real.arctan Real.log)) [sampleInterval
        (Arith.ofField Real.sin Real.cos Real.arctan Real.log)] rfl
    (by simp) hl { r := 7, g := 7, b := 7 } { r := 7, g := 7, b := 7 } [] [] 0).1⟩

/-! ## The row loop on a grid without rows -/

/-- With the end bound `4294967295` the loop condition `y<=ende` holds for
every value of the unsigned counter: no amount of fuel suffices. -/
theorem rowLoop_diverges {α : Type} (A : Arith α) (L : Ljapunow α)
    (vx vy : Point32_t α) :
    ∀ (fuel y : Nat) (cs : CalcState α), y < 4294967296 →
      rowLoop A L vx vy 4294967295 fuel y cs = none := by
  intro fuel
  induction fuel with
  | zero => intro y cs _; rfl
  | succ fuel ih =>
    intro y cs hy
    simp only [rowLoop]
    rw [if_pos (by omega)]
    exact ih _ _ (Nat.mod_lt _ (by decide))

theorem calcClamp_zero (v : Int) : calcClamp 0 v = -1 := by
  unfold calcClamp
  simp only []
  by_cases hv : v < 0
  · rw [if_pos hv, if_pos (by decide)]
    decide
  · rw [if_neg hv, if_pos (by omega)]
    decide

/-- On a field with `leny = 0` the row loop of `calc` never ends. -/
theorem calcLoop_diverges {α : Type} (A : Arith α) (L : Ljapunow α) (AB : Int → α)
    (fuel : Nat) (astart aende : Int) (h : L.leny = 0) :
    calcLoop A L AB fuel astart aende = none := by
  unfold calcLoop
  simp only [h, calcClamp_zero]
  have e : toUInt32 (-1) = 4294967295 := by decide
  rw [e]
  exact rowLoop_diverges A L _ _ fuel _ _ (by decide)

/-- **C36 (the code at the failing input).** The constructor followed by
`setlen(3, 3)` leaves `lenx = leny = 0`, and on this field, in real arithmetic,
`calc` does not return for any requested rows, whatever the number of loop
tests allowed: both clamped bounds are `-1`, the unsigned counter starts at
`4294967295` and is compared with the bound `4294967295`.  The same holds on
every field with `leny = 0`. -/
theorem C36_calc_diverges_without_rows (fuel : Nat) (astart aende : Int)
    (AB : Int → ℝ) :
    (∃ S, (Ljapunow.ctor (Arith.ofField Real.sin Real.cos Real.arctan Real.log) (sampleField
        (Arith.ofField Real.sin Real.cos Real.arctan Real.log))).setlen (fun _ => 0) 3 3 = some S ∧
      S.lenx = 0 ∧ S.leny = 0 ∧ S.calc
          (Arith.ofField Real.sin Real.cos Real.arctan Real.log) AB fuel astart aende = none) ∧
    calcClamp 0 astart = -1 ∧ calcClamp 0 aende = -1 ∧
    toUInt32 (-1) = 4294967295 ∧
    (∀ L : Ljapunow ℝ, L.leny = 0 → L.calc
        (Arith.ofField Real.sin Real.cos Real.arctan Real.log) AB fuel astart aende = none) := by
  have hall : ∀ L : Ljapunow ℝ, L.leny = 0 → L.calc
      (Arith.ofField Real.sin Real.cos Real.arctan Real.log) AB fuel astart aende = none := by
    intro L h
    unfold Ljapunow.calc
    rw [calcLoop_diverges
        (Arith.ofField Real.sin Real.cos Real.arctan Real.log) L AB fuel astart aende h]
  have e3 : setlenDim 3 = 0 := by
    rw [setlenDim_spec 3 (by decide) (by decide)]
    decide
  refine ⟨?_, calcClamp_zero astart, calcClamp_zero aende, by decide, hall⟩
  have hs : (Ljapunow.ctor (Arith.ofField Real.sin Real.cos Real.arctan Real.log) (sampleField
      (Arith.ofField Real.sin Real.cos Real.arctan Real.log))).setlen (fun _ => 0) 3 3
      = some { Ljapunow.ctor (Arith.ofField Real.sin Real.cos Real.arctan Real.log) (sampleField
          (Arith.ofField Real.sin Real.cos Real.arctan Real.log)) with lenx := 0, leny := 0, exps := [] } := by
    simp only [Ljapunow.setlen, e3]
    rfl
  exact ⟨_, hs, rfl, rfl, hall _ rfl⟩

/-! ## Determinism of the sampling pass -/

theorem SEQPOSINC_lt (seqlen pos : Nat) (h : 1 ≤ seqlen) :
    SEQPOSINC seqlen pos < seqlen := by
  unfold SEQPOSINC
  split_ifs <;> omega

theorem loopN_congr {σ : Type} (f g : σ → σ) (I : σ → Prop)
    (h : ∀ s, I s → f s = g s ∧ I (g s)) :
    ∀ (n : Nat) (s : σ), I s → loopN f n s = loopN g n s ∧ I (loopN g n s) := by
  intro n
  induction n with
  | zero => intro s hs; exact ⟨rfl, hs⟩
  | succ n ih =>
    intro s hs
    obtain ⟨e, hi⟩ := h s hs
    simp only [loopN]
    rw [e]
    exact ih (g s) hi

/-- The computation of a pixel reads the field only through the map function,
the sequence below its length, the halved counts and `x0`, and the array `AB`
only at the stored symbols. -/
theorem pixel_congr {α : Type} (A : Arith α) (L M : Ljapunow α) (AB AB2 : Int → α)
    (hlen : 1 ≤ L.seqlen) (hf : M.fkt = L.fkt) (hs : M.seqlen = L.seqlen)
    (hab : ∀ p, p < L.seqlen → AB2 (M.sequence p) = AB (L.sequence p))
    (h0 : M.iter0h = L.iter0h) (h1 : M.iter1h = L.iter1h) (hx : M.x0 = L.x0) :
    pixel A M AB2 = pixel A L AB := by
  have hset : ∀ s : PixelState α, s.seqpos < L.seqlen →
      settleStep A M AB2 s = settleStep A L AB s ∧
      (settleStep A L AB s).seqpos < L.seqlen := by
    intro s hp
    have hp1 := SEQPOSINC_lt L.seqlen s.seqpos hlen
    refine ⟨?_, SEQPOSINC_lt _ _ hlen⟩
    simp only [settleStep, hf, hs, hab _ hp, hab _ hp1]
  have hmea : ∀ s : PixelState α, s.seqpos < L.seqlen →
      measureStep A M AB2 s = measureStep A L AB s ∧
      (measureStep A L AB s).seqpos < L.seqlen := by
    intro s hp
    have hp1 := SEQPOSINC_lt L.seqlen s.seqpos hlen
    refine ⟨?_, SEQPOSINC_lt _ _ hlen⟩
    simp only [measureStep, hf, hs, hab _ hp, hab _ hp1]
  unfold pixel
  simp only [h0, h1, hx]
  obtain ⟨e1, i1⟩ := loopN_congr (settleStep A M AB2) (settleStep A L AB)
    (fun s => s.seqpos < L.seqlen) hset L.iter0h.toNat
    { px := L.x0, seqpos := 0, lambda := A.lit 0, evals := [], prods := [] }
    (by show 0 < L.seqlen; omega)
  rw [e1]
  exact (loopN_congr (measureStep A M AB2) (measureStep A L AB)
    (fun s => s.seqpos < L.seqlen) hmea (toUInt32 L.iter1h)
    { loopN (settleStep A L AB) L.iter0h.toNat
        { px := L.x0, seqpos := 0, lambda := A.lit 0, evals := [], prods := [] }
      with lambda := A.lit 0 } i1).1

/-- The exponent of a pixel on two fields with the same inputs, whatever the
uninitialised array `AB` of `calc` holds. -/
theorem pixelExp_sameInputs {α : Type} (A : Arith α) (L M : Ljapunow α)
    (AB AB2 : Int → α) (hlen : 1 ≤ L.seqlen)
    (hsym : ∀ p, p < L.seqlen → L.sequence p = 0 ∨ L.sequence p = 1)
    (h : L.SameInputs M) (x y : Nat) :
    pixelExp A M (sampleAB A M AB2 x y) = pixelExp A L (sampleAB A L AB x y) := by
  obtain ⟨hf, hs, hq, h0, h1, hi, hx, c1, c2, c3, g1, g2⟩ := h
  unfold pixelExp
  rw [hi]
  congr 2
  apply pixel_congr A L M _ _ hlen hf hs _ h0 h1 hx
  intro p hp
  rw [hq p hp]
  have hv : calcVx A M = calcVx A L := by
    simp only [calcVx, c1, c2, g1]
  have hw : calcVy A M = calcVy A L := by
    simp only [calcVy, c1, c3, g2]
  rcases hsym p hp with e | e
  · rw [e]
    simp only [sampleAB, mkAB, hv, hw, c1]
    rfl
  · rw [e]
    simp only [sampleAB, mkAB, hv, hw, c1]
    rfl

/-- The full pass `calc(0, leny-1)` fills every cell of the buffer with the
exponent of its pixel. -/
theorem calcLoop_full {α : Type} (A : Arith α) (L : Ljapunow α) (AB : Int → α)
    (hg : L.gridOK) (fuel : Nat) (hfuel : L.leny.toNat < fuel) :
    ∃ cs, calcLoop A L AB fuel 0 (L.leny - 1) = some cs ∧
      cs.exps.length = L.exps.length ∧
      ∀ k : Nat, cs.exps[k]? =
        if k < L.lenx.toNat * L.leny.toNat then
          some (pixelExp A L
            (sampleAB A L AB (k % L.lenx.toNat) (k / L.lenx.toNat)))
        else none := by
  obtain ⟨cs, h1, h2, _, h4⟩ := calcLoop_spec A L AB hg fuel hfuel 0 (L.leny - 1)
  obtain ⟨n1, n2, n3, n4, n5⟩ := gridOK_nat L hg
  obtain ⟨g1, g2, g3, g4, _⟩ := hg
  have s : calcClamp L.leny 0 = 0 := by
    rw [(calcClamp_spec L.leny 0 g2 g3).1]
    omega
  have e : calcClamp L.leny (L.leny - 1) = L.leny - 1 := by
    rw [(calcClamp_spec L.leny (L.leny - 1) g2 g3).1]
    omega
  have e2 : (L.leny - 1).toNat + 1 = L.leny.toNat := by omega
  refine ⟨cs, h1, h2, ?_⟩
  intro k
  rw [h4, s, e, e2]
  simp only [Int.toNat_zero, Nat.zero_mul, Nat.zero_le, true_and]
  by_cases hk : k < L.lenx.toNat * L.leny.toNat
  · rw [if_pos hk, if_pos (by rw [Nat.mul_comm]; exact hk)]
  · rw [if_neg hk, if_neg (by rw [Nat.mul_comm]; exact hk)]
    exact List.getElem?_eq_none (by omega)

/-- Two fields with the same inputs get the same buffer from the full pass. -/
theorem calcLoop_full_sameInputs {α : Type} (A : Arith α) (L M : Ljapunow α)
    (AB AB2 : Int → α) (hg : L.gridOK) (hg2 : M.gridOK)
    (fuel : Nat) (hfuel : L.leny.toNat < fuel) (hlen : 1 ≤ L.seqlen)
    (hsym : ∀ p, p < L.seqlen → L.sequence p = 0 ∨ L.sequence p = 1)
    (h : L.SameInputs M) :
    ∃ cs cs2, calcLoop A L AB fuel 0 (L.leny - 1) = some cs ∧
      calcLoop A M AB2 fuel 0 (M.leny - 1) = some cs2 ∧ cs2.exps = cs.exps := by
  have hx : M.lenx = L.lenx := h.2.2.2.2.2.2.2.2.2.2.1
  have hy : M.leny = L.leny := h.2.2.2.2.2.2.2.2.2.2.2
  obtain ⟨cs, a1, _, a3⟩ := calcLoop_full A L AB hg fuel hfuel
  obtain ⟨cs2, b1, _, b3⟩ := calcLoop_full A M AB2 hg2 fuel (by rw [hy]; exact hfuel)
  refine ⟨cs, cs2, a1, b1, ?_⟩
  apply List.ext_getElem?
  intro k
  rw [a3, b3, hx, hy, pixelExp_sameInputs A L M AB AB2 hlen hsym h]

/-- **C31.** On a field with an addressable grid, a sequence of at least one
symbol and more fuel than rows, the pass `calc(0, leny-1)` returns 1 with a
buffer `cs.exps` such that: every other field `M` with the same map function,
sequence, halved iteration counts (and reciprocal of the measuring count),
`x0`, three corners and grid size gets the same buffer, whatever its buffer
held before and whatever the uninitialised local array of `calc` holds;
running the pass again on the result leaves the buffer unchanged; and for
every requested pair of rows, a cell of a row that the call computes holds the
value that the full pass gives it. -/
theorem C31_calc_deterministic {α : Type} (A : Arith α) (L M : Ljapunow α)
    (AB AB2 AB3 : Int → α) (hg : L.gridOK) (hg2 : M.gridOK)
    (fuel : Nat) (hfuel : L.leny.toNat < fuel) (hlen : 1 ≤ L.seqlen)
    (hsym : ∀ p, p < L.seqlen → L.sequence p = 0 ∨ L.sequence p = 1)
    (h : L.SameInputs M) :
    ∃ cs, calcLoop A L AB fuel 0 (L.leny - 1) = some cs ∧
      L.calc A AB fuel 0 (L.leny - 1) = some (1, { L with exps := cs.exps }) ∧
      (∃ cs2, calcLoop A M AB2 fuel 0 (M.leny - 1) = some cs2 ∧
        cs2.exps = cs.exps) ∧
      ({ L with exps := cs.exps } : Ljapunow α).calc A AB3 fuel 0 (L.leny - 1)
        = some (1, { L with exps := cs.exps }) ∧
      ∀ astart aende : Int, ∃ cs3,
        calcLoop A M AB2 fuel astart aende = some cs3 ∧
        ∀ x y : Nat, x < L.lenx.toNat →
          (calcClamp L.leny astart).toNat ≤ y →
          y ≤ (calcClamp L.leny aende).toNat →
          cs3.exps[y * L.lenx.toNat + x]? = cs.exps[y * L.lenx.toNat + x]? := by
  have hx : M.lenx = L.lenx := h.2.2.2.2.2.2.2.2.2.2.1
  have hy : M.leny = L.leny := h.2.2.2.2.2.2.2.2.2.2.2
  obtain ⟨cs, cs2, a1, a2, a3⟩ :=
    calcLoop_full_sameInputs A L M AB AB2 hg hg2 fuel hfuel hlen hsym h
  obtain ⟨cs0, f1, f2, f3⟩ := calcLoop_full A L AB hg fuel hfuel
  have e0 : cs0 = cs := Option.some.inj (f1.symm.trans a1)
  subst e0
  refine ⟨cs0, a1, ?_, ⟨cs2, a2, a3⟩, ?_, ?_⟩
  · unfold Ljapunow.calc
    rw [a1]
  · have hg3 : ({ L with exps := cs0.exps } : Ljapunow α).gridOK :=
      ⟨hg.1, hg.2.1, hg.2.2.1, hg.2.2.2.1, f2.trans hg.2.2.2.2⟩
    have hs3 : L.SameInputs { L with exps := cs0.exps } :=
      ⟨rfl, rfl, fun _ _ => rfl, rfl, rfl, rfl, rfl, rfl, rfl, rfl, rfl, rfl⟩
    obtain ⟨c, c2, b1, b2, b3⟩ :=
      calcLoop_full_sameInputs A L { L with exps := cs0.exps } AB AB3 hg hg3
        fuel hfuel hlen hsym hs3
    have e1 : c = cs0 := Option.some.inj (b1.symm.trans a1)
    subst e1
    unfold Ljapunow.calc
    have b2b : calcLoop A { L with exps := c.exps } AB3 fuel 0 (L.leny - 1)
        = some c2 := b2
    rw [b2b]
    simp only [b3]
  · intro astart aende
    obtain ⟨cs3, d1, _, _, d4, _⟩ :=
      calcLoop_cells A M AB2 hg2 fuel (by rw [hy]; exact hfuel) astart aende
    refine ⟨cs3, d1, ?_⟩
    intro x y hxw hs he
    obtain ⟨n1, n2, n3, n4, n5⟩ := gridOK_nat L hg
    obtain ⟨_, g2, g3, _, _⟩ := hg
    have he2 := (calcClamp_spec L.leny aende g2 g3).2
    have hyl : y < L.leny.toNat := by omega
    have hk : y * L.lenx.toNat + x < L.lenx.toNat * L.leny.toNat := by
      have : (y + 1) * L.lenx.toNat ≤ L.leny.toNat * L.lenx.toNat :=
        Nat.mul_le_mul_right _ hyl
      rw [Nat.add_mul, Nat.one_mul] at this
      rw [Nat.mul_comm L.lenx.toNat]
      omega
    have d := d4 x y (by rw [hx]; exact hxw)
    rw [hx, hy, if_pos ⟨hs, he⟩] at d
    rw [d, f3, if_pos hk]
    obtain ⟨c1, c2⟩ := cell_coords L.lenx.toNat x y hxw
    rw [c1, c2, pixelExp_sameInputs A L M AB AB2 hlen hsym h]

/-- Witness of C31: the sample field and the same field with another buffer,
in real arithmetic, five units of fuel. -/
theorem C31_calc_deterministic_witness :
    (sampleField (Arith.ofField Real.sin Real.cos Real.arctan Real.log)).gridOK ∧
    (sampleDirty (Arith.ofField Real.sin Real.cos Real.arctan Real.log)).gridOK ∧
    (sampleField (Arith.ofField Real.sin Real.cos Real.arctan Real.log)).SameInputs (sampleDirty
        (Arith.ofField Real.sin Real.cos Real.arctan Real.log)) ∧
    ∃ cs, calcLoop (Arith.ofField Real.sin Real.cos Real.arctan Real.log) (sampleField
        (Arith.ofField Real.sin Real.cos Real.arctan Real.log)) (fun _ => 0) 5 0 3 = some cs ∧
      (∃ cs2, calcLoop (Arith.ofField Real.sin Real.cos Real.arctan Real.log) (sampleDirty
          (Arith.ofField Real.sin Real.cos Real.arctan Real.log)) (fun _ => 1) 5 0 3 = some cs2 ∧
        cs2.exps = cs.exps) ∧
      ({ sampleField
          (Arith.ofField Real.sin Real.cos Real.arctan Real.log) with exps := cs.exps } : Ljapunow Real).calc (Arith.ofField Real.sin Real.cos Real.arctan Real.log)
          (fun _ => 2) 5 0 3
        = some (1, { sampleField
            (Arith.ofField Real.sin Real.cos Real.arctan Real.log) with exps := cs.exps }) := by
  have hg := sampleField_gridOK (Arith.ofField Real.sin Real.cos Real.arctan Real.log)
  have hg2 : (sampleDirty (Arith.ofField Real.sin Real.cos Real.arctan Real.log)).gridOK := by
    refine ⟨?_, ?_, ?_, ?_, ?_⟩ <;> simp [sampleDirty, sampleField]
  have hs : (sampleField
      (Arith.ofField Real.sin Real.cos Real.arctan Real.log)).SameInputs (sampleDirty
      (Arith.ofField Real.sin Real.cos Real.arctan Real.log)) :=
    ⟨rfl, rfl, fun _ _ => rfl, rfl, rfl, rfl, rfl, rfl, rfl, rfl, rfl, rfl⟩
  have hf : (sampleField
      (Arith.ofField Real.sin Real.cos Real.arctan Real.log)).leny.toNat < 5 := by
    simp [sampleField]
  have hl : 1 ≤ (sampleField (Arith.ofField Real.sin Real.cos Real.arctan Real.log)).seqlen := by
    simp [sampleField]
  have hq : ∀ p, p < (sampleField (Arith.ofField Real.sin Real.cos Real.arctan Real.log)).seqlen →
      (sampleField
          (Arith.ofField Real.sin Real.cos Real.arctan Real.log)).sequence p = 0 ∨ (sampleField
          (Arith.ofField Real.sin Real.cos Real.arctan Real.log)).sequence p = 1 := by
    intro p _
    simp only [sampleField]
    split_ifs <;> simp
  obtain ⟨cs, a, _, b, c, _⟩ := C31_calc_deterministic
      (Arith.ofField Real.sin Real.cos Real.arctan Real.log) (sampleField
      (Arith.ofField Real.sin Real.cos Real.arctan Real.log))
    (sampleDirty
        (Arith.ofField Real.sin Real.cos Real.arctan Real.log)) (fun _ => 0) (fun _ => 1) (fun _ => 2) hg hg2 5 hf hl hq hs
  exact ⟨hg, hg2, hs, cs, a, b, c⟩

/-! ## Parameter files: functions -/

/-- The tokens of parameter files: `upper` keeps the comment mark. -/
theorem upperChar_hash (c : Nat) : upperChar c = 35 ↔ c = 35 := by
  constructor
  · intro h
    simp only [upperChar] at h
    split_ifs at h <;> omega
  · intro h
    subst h
    decide

theorem upper_head_hash (s : List Nat) :
    (upper s).head? = some 35 ↔ s.head? = some 35 := by
  cases s with
  | nil => simp [upper]
  | cons c cs =>
    simp only [upper, List.map_cons, List.head?_cons, Option.some.injEq]
    exact upperChar_hash c

theorem nextLineRaw_eq {α : Type} (toks : List (Tok α)) :
    nextLineRaw toks = nextLine toks := by
  induction toks with
  | nil => rfl
  | cons t ts ih =>
    simp only [nextLineRaw, nextLine, ih]
    by_cases h : t.line.head? = some 35
    · rw [if_pos h, if_pos ((upper_head_hash _).mpr h)]
    · rw [if_neg h, if_neg (fun h2 => h ((upper_head_hash _).mp h2))]

theorem nextLine_skip {α : Type} (cs ts : List (Tok α))
    (hc : ∀ t ∈ cs, t.line.head? = some 35) :
    nextLine (cs ++ ts) = nextLine ts := by
  induction cs with
  | nil => rfl
  | cons c cs ih =>
    have h1 : c.line.head? = some 35 := hc c (List.mem_cons_self _ _)
    simp only [List.cons_append, nextLine]
    rw [if_pos ((upper_head_hash _).mpr h1)]
    exact ih (fun t ht => hc t (List.mem_cons_of_mem _ ht))

theorem nextLine_key {α : Type} (s : List Nat) (ts : List (Tok α))
    (h1 : upper s = s) (h2 : s.head? ≠ some 35) :
    nextLine (Tok.text s :: ts) = some (s, ts) := by
  simp only [nextLine, Tok.line, h1]
  rw [if_neg h2]


theorem loadFunction_id {α : Type} (A : Arith α) (junk : Nat → α) (fuel : Nat)
    (cs : List (Tok α)) (aid : Int) (ts : List (Tok α))
    (hc : ∀ t ∈ cs, t.line.head? = some 35) :
    loadFunction A junk (fuel + 1) (cs ++ Tok.text kwID :: Tok.int aid :: ts)
      = loadObject A junk (loadFunction A junk fuel) aid ts := by
  simp only [loadFunction]
  rw [nextLine_skip _ _ hc, nextLine_key kwID _ (by decide) (by decide)]
  simp [scanI]

theorem nextLine_comment_key {α : Type} (cm s : List Nat) (ts : List (Tok α))
    (hcm : cm.head? = some 35) (h1 : upper s = s) (h2 : s.head? ≠ some 35) :
    nextLine (Tok.text cm :: Tok.text s :: ts) = some (s, ts) := by
  have h := nextLine_skip [Tok.text cm] (Tok.text s :: ts)
    (fun t ht => by
      rw [List.mem_singleton] at ht
      subst ht
      exact hcm)
  rw [List.singleton_append] at h
  rw [h, nextLine_key s ts h1 h2]

theorem loadObject_plain {α : Type} (A : Arith α) (junk : Nat → α)
    (loadF : List (Tok α) → Option (Loaded α × List (Tok α)))
    (aid : Int) (g : Function α) (cm : List Nat) (w : α) (rest : List (Tok α))
    (hg : getNewPlain A aid = some g) (hne : g ≠ .I)
    (hcm : cm.head? = some 35) :
    loadObject A junk loadF aid
        (Tok.text cm :: Tok.text kwB :: Tok.num w :: rest)
      = some (.obj 1 (g.set_b A w), rest) := by
  have h16 : aid ≠ ID_FKT_METADET := by
    intro h
    rw [h] at hg
    simp [getNewPlain, ID_FKT_METADET, ID_FKT_I, ID_FKT_II, ID_FKT_SICO, ID_FKT_III,
      ID_FKT_VII, ID_FKT_IX, ID_FKT_X, ID_FKT_LSIN, ID_FKT_ATAN] at hg
  have h17 : aid ≠ ID_FKT_METAABSC := by
    intro h
    rw [h] at hg
    simp [getNewPlain, ID_FKT_METAABSC, ID_FKT_I, ID_FKT_II, ID_FKT_SICO, ID_FKT_III,
      ID_FKT_VII, ID_FKT_IX, ID_FKT_X, ID_FKT_LSIN, ID_FKT_ATAN] at hg
  unfold loadObject
  rw [if_neg h16, if_neg h17, hg]
  have hk := nextLine_comment_key cm kwB (Tok.num w :: rest) hcm (by decide) (by decide)
  cases g <;>
    first
    | exact absurd rfl hne
    | simp [Function.loadPlain, FunctionII.load, FunctionSICO.load, nextLineRaw_eq, hk,
        scanE]


theorem loadFunction_plain {α : Type} (A : Arith α) (junk : Nat → α) (n : Nat)
    (cs : List (Tok α)) (aid : Int) (g : Function α) (cm : List Nat) (w : α)
    (rest : List (Tok α)) (hc : ∀ t ∈ cs, t.line.head? = some 35)
    (hg : getNewPlain A aid = some g) (hne : g ≠ .I)
    (hcm : cm.head? = some 35) :
    loadFunction A junk (n + 1)
        (cs ++ Tok.text kwID :: Tok.int aid ::
          Tok.text cm :: Tok.text kwB :: Tok.num w :: rest)
      = some (.obj 1 (g.set_b A w), rest) := by
  rw [loadFunction_id A junk n cs _ _ hc,
    loadObject_plain A junk _ aid g cm w rest hg hne hcm]

theorem FunctionMetaDet.loadLoop_saved {α : Type} (fwas ablwas : Int)
    (ts : List (Tok α)) :
    FunctionMetaDet.loadLoop 2 WAS_F WAS_F 0
        (Tok.text cmMETADET :: Tok.text kwFWAS :: Tok.int fwas ::
          Tok.text kwABLWAS :: Tok.int ablwas :: ts)
      = some (fwas, ablwas, 2, ts) := by
  have k1 := nextLine_comment_key cmMETADET kwFWAS
    (Tok.int fwas :: Tok.text kwABLWAS :: Tok.int ablwas :: ts) rfl
    (by decide) (by decide)
  have k2 := nextLine_key kwABLWAS (Tok.int ablwas :: ts) (by decide) (by decide)
  have k3 : kwABLWAS ≠ kwFWAS := by decide
  simp [FunctionMetaDet.loadLoop, nextLineRaw_eq, k1, k2, k3, scanI]

theorem FunctionMetaABSC.loadLoop_bounds {α : Type} (A : Arith α)
    (loadF : List (Tok α) → Option (Loaded α × List (Tok α)))
    (v : AbscVars α) (a b c d : α) (ts : List (Tok α)) :
    FunctionMetaABSC.loadLoop A loadF 6 v
        (Tok.text cmMETAABSC :: Tok.text kwI0MIN :: Tok.num a ::
          Tok.text kwI0MAX :: Tok.num b :: Tok.text kwI1MIN :: Tok.num c ::
          Tok.text kwI1MAX :: Tok.num d :: ts)
      = FunctionMetaABSC.loadLoop A loadF 2
          { v with I0MIN := a, I0MAX := b, I1MIN := c, I1MAX := d,
                   param := v.param + 1 + 1 + 1 + 1 } ts := by
  have k1 := nextLine_comment_key cmMETAABSC kwI0MIN
    (Tok.num a :: Tok.text kwI0MAX :: Tok.num b :: Tok.text kwI1MIN :: Tok.num c ::
      Tok.text kwI1MAX :: Tok.num d :: ts) rfl (by decide) (by decide)
  have k2 := nextLine_key kwI0MAX
    (Tok.num b :: Tok.text kwI1MIN :: Tok.num c :: Tok.text kwI1MAX :: Tok.num d :: ts)
    (by decide) (by decide)
  have k3 := nextLine_key kwI1MIN (Tok.num c :: Tok.text kwI1MAX :: Tok.num d :: ts)
    (by decide) (by decide)
  have k4 := nextLine_key kwI1MAX (Tok.num d :: ts) (by decide) (by decide)
  have n1 : kwI0MIN ≠ kwI0MAX := by decide
  have n2 : kwI0MIN ≠ kwFINT := by decide
  have n3 : kwI0MIN ≠ kwFEXT := by decide
  have n4 : kwI0MAX ≠ kwFINT := by decide
  have n5 : kwI0MAX ≠ kwFEXT := by decide
  have n6 : kwI1MIN ≠ kwI0MAX := by decide
  have n7 : kwI1MIN ≠ kwI0MIN := by decide
  have n8 : kwI1MIN ≠ kwI1MAX := by decide
  have n9 : kwI1MIN ≠ kwFINT := by decide
  have n10 : kwI1MIN ≠ kwFEXT := by decide
  have n11 : kwI1MAX ≠ kwI0MAX := by decide
  have n12 : kwI1MAX ≠ kwI0MIN := by decide
  have n13 : kwI1MAX ≠ kwFINT := by decide
  have n14 : kwI1MAX ≠ kwFEXT := by decide
  simp [FunctionMetaABSC.loadLoop, k1, k2, k3, k4, n1, n2, n3, n4, n5, n6, n7, n8, n9,
    n10, n11, n12, n13, n14, scanE]

theorem FunctionMetaABSC.loadLoop_fint {α : Type} (A : Arith α)
    (loadF : List (Tok α) → Option (Loaded α × List (Tok α)))
    (n : Nat) (v : AbscVars α) (cs ts ts2 : List (Tok α)) (st : Int)
    (g : Function α) (hc : ∀ t ∈ cs, t.line.head? = some 35)
    (hl : loadF ts = some (.obj st g, ts2)) :
    FunctionMetaABSC.loadLoop A loadF (n + 1) v (cs ++ Tok.text kwFINT :: ts)
      = FunctionMetaABSC.loadLoop A loadF n
          { v with fint := .obj st g, param := v.param + 1 } ts2 := by
  have k := nextLine_key kwFINT ts (by decide) (by decide)
  have n1 : kwFINT ≠ kwI0MAX := by decide
  have n2 : kwFINT ≠ kwI0MIN := by decide
  have n3 : kwFINT ≠ kwI1MAX := by decide
  have n4 : kwFINT ≠ kwI1MIN := by decide
  simp [FunctionMetaABSC.loadLoop, nextLine_skip _ _ hc, k, n1, n2, n3, n4, hl]

theorem FunctionMetaABSC.loadLoop_fext {α : Type} (A : Arith α)
    (loadF : List (Tok α) → Option (Loaded α × List (Tok α)))
    (n : Nat) (v : AbscVars α) (cs ts ts2 : List (Tok α)) (st : Int)
    (g : Function α) (hc : ∀ t ∈ cs, t.line.head? = some 35)
    (hl : loadF ts = some (.obj st g, ts2)) :
    FunctionMetaABSC.loadLoop A loadF (n + 1) v (cs ++ Tok.text kwFEXT :: ts)
      = FunctionMetaABSC.loadLoop A loadF n
          { v with fext := .obj st g, param := v.param + 1 } ts2 := by
  have k := nextLine_key kwFEXT ts (by decide) (by decide)
  have n1 : kwFEXT ≠ kwI0MAX := by decide
  have n2 : kwFEXT ≠ kwI0MIN := by decide
  have n3 : kwFEXT ≠ kwI1MAX := by decide
  have n4 : kwFEXT ≠ kwI1MIN := by decide
  have n5 : kwFEXT ≠ kwFINT := by decide
  simp [FunctionMetaABSC.loadLoop, nextLine_skip _ _ hc, k, n1, n2, n3, n4, n5, hl]

theorem leftover_comments {α : Type} (f : Function α) :
    ∀ t ∈ f.leftover, t.line.head? = some 35 := by
  induction f with
  | I =>
    intro t ht
    simp only [Function.leftover, List.mem_singleton] at ht
    subst ht
    rfl
  | MetaDet b b2 f abl fwas ablwas _ ih2 => exact ih2
  | MetaABSC b b2 i0 i1 i2 i3 fint fext _ ih2 => exact ih2
  | _ =>
    intro t ht
    simp [Function.leftover] at ht

theorem loadFunction_save {α : Type} (A : Arith α) (junk : Nat → α) (le : α → α)
    (f : Function α) :
    ∀ (fuel : Nat) (cs rest : List (Tok α)),
      (∀ t ∈ cs, t.line.head? = some 35) → f.depth < fuel →
      loadFunction A junk fuel (cs ++ (f.save le ++ rest))
        = some (.obj 1 (f.reload A le), f.leftover ++ rest) := by
  induction f with
  | I =>
    intro fuel cs rest hc hf
    obtain ⟨n, rfl⟩ : ∃ n, fuel = n + 1 := ⟨fuel - 1, by omega⟩
    show loadFunction A junk (n + 1)
      (cs ++ Tok.text kwID :: Tok.int ID_FKT_I :: (Tok.text cmI :: rest)) = _
    rw [loadFunction_id A junk n cs _ _ hc]
    simp [loadObject, getNewPlain, Function.loadPlain, ID_FKT_METADET, ID_FKT_METAABSC,
      ID_FKT_I, Function.reload, Function.leftover]
  | II b b2 =>
    intro fuel cs rest hc hf
    obtain ⟨n, rfl⟩ : ∃ n, fuel = n + 1 := ⟨fuel - 1, by omega⟩
    exact loadFunction_plain A junk n cs ID_FKT_II (.II (A.lit 2.7) (A.lit 5.4))
      cmII (le b) rest hc rfl (by simp) rfl
  | SICO b b2 =>
    intro fuel cs rest hc hf
    obtain ⟨n, rfl⟩ : ∃ n, fuel = n + 1 := ⟨fuel - 1, by omega⟩
    exact loadFunction_plain A junk n cs ID_FKT_SICO (.SICO (A.lit 2.7) (A.lit 5.4))
      cmSICO (le b) rest hc rfl (by simp) rfl
  | III b b2 =>
    intro fuel cs rest hc hf
    obtain ⟨n, rfl⟩ : ∃ n, fuel = n + 1 := ⟨fuel - 1, by omega⟩
    exact loadFunction_plain A junk n cs ID_FKT_III (.III (A.lit 2.7) (A.lit 5.4))
      cmIII (le b) rest hc rfl (by simp) rfl
  | LSIN b b2 =>
    intro fuel cs rest hc hf
    obtain ⟨n, rfl⟩ : ∃ n, fuel = n + 1 := ⟨fuel - 1, by omega⟩
    exact loadFunction_plain A junk n cs ID_FKT_LSIN (.LSIN (A.lit 2.7) (A.lit 5.4))
      cmLSIN (le b) rest hc rfl (by simp) rfl
  | ATAN b b2 =>
    intro fuel cs rest hc hf
    obtain ⟨n, rfl⟩ : ∃ n, fuel = n + 1 := ⟨fuel - 1, by omega⟩
    exact loadFunction_plain A junk n cs ID_FKT_ATAN (.ATAN (A.lit 2.7) (A.lit 5.4))
      cmATAN (le b) rest hc rfl (by simp) rfl
  | VII b b2 =>
    intro fuel cs rest hc hf
    obtain ⟨n, rfl⟩ : ∃ n, fuel = n + 1 := ⟨fuel - 1, by omega⟩
    exact loadFunction_plain A junk n cs ID_FKT_VII (.VII (A.lit 2.7) (A.add (A.lit 2.7) (A.lit 2.7)))
      cmVII (le b) rest hc rfl (by simp) rfl
  | IX b b2 =>
    intro fuel cs rest hc hf
    obtain ⟨n, rfl⟩ : ∃ n, fuel = n + 1 := ⟨fuel - 1, by omega⟩
    exact loadFunction_plain A junk n cs ID_FKT_IX (.IX (A.lit 2.7) (A.add (A.lit 2.7) (A.lit 2.7)))
      cmIX (le b) rest hc rfl (by simp) rfl
  | X b b2 =>
    intro fuel cs rest hc hf
    obtain ⟨n, rfl⟩ : ∃ n, fuel = n + 1 := ⟨fuel - 1, by omega⟩
    exact loadFunction_plain A junk n cs ID_FKT_X (.X (A.lit 2.7) (A.add (A.lit 2.7) (A.lit 2.7)))
      cmX (le b) rest hc rfl (by simp) rfl
  | MetaDet b b2 f abl fwas ablwas ih1 ih2 =>
    intro fuel cs rest hc hf
    obtain ⟨n, rfl⟩ : ∃ n, fuel = n + 1 := ⟨fuel - 1, by omega⟩
    have hd : max f.depth abl.depth < n := by
      simp only [Function.depth] at hf
      omega
    have h1 := ih1 n [Tok.text cmFKT]
      ([Tok.text cmABL] ++ (abl.save le ++ rest))
      (fun t ht => by
        rw [List.mem_singleton] at ht
        subst ht
        rfl)
      (by omega)
    have h2 := ih2 n (f.leftover ++ [Tok.text cmABL]) rest
      (fun t ht => by
        rcases List.mem_append.mp ht with h | h
        · exact leftover_comments f t h
        · rw [List.mem_singleton] at h
          subst h
          rfl)
      (by omega)
    have e : Function.save le (.MetaDet b b2 f abl fwas ablwas) ++ rest
        = Tok.text kwID :: Tok.int ID_FKT_METADET ::
          (Tok.text cmMETADET :: Tok.text kwFWAS :: Tok.int fwas ::
            Tok.text kwABLWAS :: Tok.int ablwas ::
            ([Tok.text cmFKT] ++ (f.save le ++
              ([Tok.text cmABL] ++ (abl.save le ++ rest))))) := by
      simp [Function.save]
    rw [List.append_assoc] at h2
    rw [e, loadFunction_id A junk n cs _ _ hc]
    unfold loadObject
    rw [if_pos rfl]
    unfold FunctionMetaDet.load
    rw [FunctionMetaDet.loadLoop_saved]
    simp only [h1, h2]
    simp [Function.reload, Function.leftover]
  | MetaABSC b b2 i0 i1 i2 i3 fint fext ih1 ih2 =>
    intro fuel cs rest hc hf
    obtain ⟨n, rfl⟩ : ∃ n, fuel = n + 1 := ⟨fuel - 1, by omega⟩
    have hd : max fint.depth fext.depth < n := by
      simp only [Function.depth] at hf
      omega
    have h1 := ih1 n [] ([Tok.text kwFEXT] ++ (fext.save le ++ rest))
      (fun t ht => by simp at ht) (by omega)
    have h2 := ih2 n [] rest (fun t ht => by simp at ht) (by omega)
    rw [List.nil_append] at h1 h2
    have e : Function.save le (.MetaABSC b b2 i0 i1 i2 i3 fint fext) ++ rest
        = Tok.text kwID :: Tok.int ID_FKT_METAABSC ::
          (Tok.text cmMETAABSC :: Tok.text kwI0MIN :: Tok.num (le i0) ::
            Tok.text kwI0MAX :: Tok.num (le i2) ::
            Tok.text kwI1MIN :: Tok.num (le i1) ::
            Tok.text kwI1MAX :: Tok.num (le i3) ::
            ([] ++ Tok.text kwFINT :: (fint.save le ++
              ([Tok.text kwFEXT] ++ (fext.save le ++ rest))))) := by
      simp [Function.save]
    rw [e, loadFunction_id A junk n cs _ _ hc]
    unfold loadObject
    rw [if_neg (by decide), if_pos rfl]
    unfold FunctionMetaABSC.load
    rw [FunctionMetaABSC.loadLoop_bounds,
      FunctionMetaABSC.loadLoop_fint A _ 1 _ [] _ _ 1 _ (fun t ht => by simp at ht) h1,
      List.singleton_append,
      FunctionMetaABSC.loadLoop_fext A _ 0 _ fint.leftover _ _ 1 _
        (leftover_comments fint) h2]
    simp [FunctionMetaABSC.loadLoop, Function.reload, Function.leftover]


theorem Function.reload_eq {α : Type} (A : Arith α) (le : α → α) (f : Function α)
    (hn : f.Normal A) (he : f.Exact le) : f.reload A le = f := by
  induction f with
  | I => rfl
  | MetaDet b b2 f abl fwas ablwas ih1 ih2 =>
    obtain ⟨n1, n2, n3, n4⟩ := hn
    obtain ⟨e1, e2⟩ := he
    simp only [Function.reload, ih1 n3 e1, ih2 n4 e2, n1, n2]
  | MetaABSC b b2 i0 i1 i2 i3 fint fext ih1 ih2 =>
    obtain ⟨n1, n2, n3, n4⟩ := hn
    obtain ⟨e1, e2, e3, e4, e5, e6⟩ := he
    simp only [Function.reload, ih1 n3 e5, ih2 n4 e6, n1, n2, e1, e2, e3, e4]
  | _ =>
    simp only [Function.Normal] at hn
    simp only [Function.Exact] at he
    simp only [Function.reload, he, hn]

theorem printLE_zero : printLE (0 : ℝ) = 0 := by
  simp [printLE]

theorem printLE_one : printLE (1 : ℝ) = 1 := by
  have hl : Int.log 10 |(1 : ℝ)| = 0 := by
    rw [abs_one, Int.log_one_right]
  unfold printLE
  rw [if_neg one_ne_zero, hl]
  have hf : Int.floor ((1 : ℝ) / (10 : ℝ) ^ ((0 : Int) - 6)) = 1000000 := by
    rw [Int.floor_eq_iff]
    norm_num
  unfold roundHalfEven
  rw [hf]
  norm_num

theorem printLE_near_one : printLE (1.0000001 : ℝ) = 1 := by
  have hl : Int.log 10 |(1.0000001 : ℝ)| = 0 := by
    rw [abs_of_pos (by norm_num), Int.log_of_one_le_right 10 (by norm_num)]
    have : ⌊(1.0000001 : ℝ)⌋₊ = 1 := by
      rw [Nat.floor_eq_iff (by norm_num)]
      norm_num
    rw [this]
    simp
  unfold printLE
  rw [if_neg (by norm_num), hl]
  have hf : Int.floor ((1.0000001 : ℝ) / (10 : ℝ) ^ ((0 : Int) - 6)) = 1000000 := by
    rw [Int.floor_eq_iff]
    norm_num
  unfold roundHalfEven
  rw [hf]
  norm_num


/-- **C32 (counterexample).** In real arithmetic with the source's `fastsin`,
and with `%le` writing seven significant digits: the composed object whose two
children are `FunctionII` with `b = 1.0000001` is as the constructors and
`set_b` leave it, and it is written and read back as the composed object whose
children have `b = 1`; at `x = 1`, `r = 0` the value that the object read back
returns differs from the value of the original, and so does the derivative. -/
theorem C32_counterexample :
    loadFunction (Arith.ofField Real.sin Real.cos Real.arctan Real.log).srcTrig
        (fun _ => 0) 2
        (Function.save printLE
          (.MetaDet 2.7 5.4 (.II 1.0000001 2.0000002) (.II 1.0000001 2.0000002)
            WAS_F WAS_ABL))
      = some (.obj 1 (.MetaDet 2.7 5.4 (.II 1 2) (.II 1 2) WAS_F WAS_ABL), []) ∧
    Function.Normal (Arith.ofField Real.sin Real.cos Real.arctan Real.log).srcTrig
      (.MetaDet 2.7 5.4 (.II 1.0000001 2.0000002) (.II 1.0000001 2.0000002)
        WAS_F WAS_ABL) ∧
    Function.eval (Arith.ofField Real.sin Real.cos Real.arctan Real.log).srcTrig
        (.MetaDet 2.7 5.4 (.II 1.0000001 2.0000002) (.II 1.0000001 2.0000002)
          WAS_F WAS_ABL) 1 0
      ≠ Function.eval (Arith.ofField Real.sin Real.cos Real.arctan Real.log).srcTrig
        (.MetaDet 2.7 5.4 (.II 1 2) (.II 1 2) WAS_F WAS_ABL) 1 0 ∧
    (Function.eval2 (Arith.ofField Real.sin Real.cos Real.arctan Real.log).srcTrig
        (.MetaDet 2.7 5.4 (.II 1.0000001 2.0000002) (.II 1.0000001 2.0000002)
          WAS_F WAS_ABL) 1 0).2
      ≠ (Function.eval2 (Arith.ofField Real.sin Real.cos Real.arctan Real.log).srcTrig
        (.MetaDet 2.7 5.4 (.II 1 2) (.II 1 2) WAS_F WAS_ABL) 1 0).2 := by
  refine ⟨?_, ?_, ?_, ?_⟩
  · have h := loadFunction_save
      (Arith.ofField Real.sin Real.cos Real.arctan Real.log).srcTrig (fun _ => 0)
      printLE
      (.MetaDet 2.7 5.4 (.II 1.0000001 2.0000002) (.II 1.0000001 2.0000002)
        WAS_F WAS_ABL) 2 [] [] (fun t ht => by simp at ht)
      (by simp [Function.depth])
    rw [List.nil_append, List.append_nil] at h
    rw [h]
    simp only [Function.reload, Function.leftover, printLE_near_one, Arith.ofField,
      Arith.srcTrig, List.append_nil]
    norm_num
  · simp only [Function.Normal, Arith.ofField, Arith.srcTrig]
    norm_num
  · simp [Function.eval, FunctionII.eval, Arith.srcTrig, Arith.ofField, fastsin]
    norm_num
  · simp [Function.eval2, Function.evalabl, FunctionII.evalabl, Arith.srcTrig,
      Arith.ofField, fastsin, fastcos, PI05, M_PI, WAS_F, WAS_ABL]
    norm_num

/-- **C32 (amended).** For every function object that is as the constructors
and `set_b` leave it, and whose parameters `b` and section bounds are numbers
that the text written by `%le` denotes exactly, and for more fuel than the
nesting depth: `loadFunction` on the lines written by `save` (followed by any
other lines) returns an object with load status 1 that is the original, so
that the value-only form and the value-and-derivative form return the same at
every `(x, r)`; the lines left are the comment that a trailing `FunctionI`
leaves unread and the lines that followed. -/
theorem C32_round_trip_exact {α : Type} (A : Arith α) (junk : Nat → α)
    (le : α → α) (f : Function α) (fuel : Nat) (rest : List (Tok α))
    (hn : f.Normal A) (he : f.Exact le) (hf : f.depth < fuel) :
    ∃ g, loadFunction A junk fuel (f.save le ++ rest)
        = some (.obj 1 g, f.leftover ++ rest) ∧ g = f ∧
      ∀ x r, Function.eval A g x r = Function.eval A f x r ∧
        Function.eval2 A g x r = Function.eval2 A f x r := by
  have h := loadFunction_save A junk le f fuel [] rest (fun t ht => by simp at ht) hf
  rw [List.nil_append, Function.reload_eq A le f hn he] at h
  exact ⟨f, h, rfl, fun _ _ => ⟨rfl, rfl⟩⟩

/-- Witness of C32: the piecewise object with the sections `[0, 1]`, inner
child `FunctionI` and outer child a composed object over `FunctionI`, in real
arithmetic with `%le` writing seven significant digits. -/
theorem C32_round_trip_exact_witness :
    Function.Normal (Arith.ofField Real.sin Real.cos Real.arctan Real.log)
      (.MetaABSC 2.7 5.4 0 0 1 1 .I (.MetaDet 2.7 5.4 .I .I WAS_F WAS_ABL)) ∧
    Function.Exact (printLE : ℝ → ℝ)
      (.MetaABSC 2.7 5.4 0 0 1 1 .I (.MetaDet 2.7 5.4 .I .I WAS_F WAS_ABL)) ∧
    ∃ g, loadFunction (Arith.ofField Real.sin Real.cos Real.arctan Real.log) (fun _ => 0) 3
        (Function.save printLE
          (.MetaABSC 2.7 5.4 0 0 1 1 .I (.MetaDet 2.7 5.4 .I .I WAS_F WAS_ABL)) ++ [])
        = some (.obj 1 g, [Tok.text cmI]) ∧
      g = .MetaABSC 2.7 5.4 0 0 1 1 .I (.MetaDet 2.7 5.4 .I .I WAS_F WAS_ABL) := by
  have hn : Function.Normal (Arith.ofField Real.sin Real.cos Real.arctan Real.log)
      (.MetaABSC 2.7 5.4 0 0 1 1 .I (.MetaDet 2.7 5.4 .I .I WAS_F WAS_ABL)) := by
    simp only [Function.Normal, Arith.ofField]
    norm_num
  have he : Function.Exact (printLE : ℝ → ℝ)
      (.MetaABSC 2.7 5.4 0 0 1 1 .I (.MetaDet 2.7 5.4 .I .I WAS_F WAS_ABL)) := by
    exact ⟨printLE_zero, printLE_zero, printLE_one, printLE_one, trivial, trivial,
      trivial⟩
  obtain ⟨g, h1, h2, _⟩ := C32_round_trip_exact
      (Arith.ofField Real.sin Real.cos Real.arctan Real.log) (fun _ => 0) printLE
    (.MetaABSC 2.7 5.4 0 0 1 1 .I (.MetaDet 2.7 5.4 .I .I WAS_F WAS_ABL)) 3 []
    hn he (by simp [Function.depth])
  exact ⟨hn, he, g, h1, h2⟩

/-- **C33 (the code at the failing inputs).** In real arithmetic, with one
unit of fuel: a record whose tag line is `X` gives the null pointer, and so
does a record with the unknown kind 99; but the record `ID`, `2`, `X` of a
`FunctionII` without its `B` field gives an object, the `FunctionII` of the
constructor, `load` having returned -1; the record `ID`, `16`, `X`, `Y` of a
`FunctionMetaDet` without `FWAS` and `ABLWAS` gives an object (with null
children), `load` having returned 0; and so does the record `ID`, `16`,
`FWAS`, `1`, `ABLWAS`, `1`, `X` without children. -/
theorem C33_load_status_dropped :
    loadFunction
        (Arith.ofField Real.sin Real.cos Real.arctan Real.log) (fun _ => 0) 1 [Tok.text [88]] = some (.null, []) ∧
    loadFunction
        (Arith.ofField Real.sin Real.cos Real.arctan Real.log) (fun _ => 0) 1 [Tok.text kwID, Tok.int 99] = some (.null, []) ∧
    loadFunction
        (Arith.ofField Real.sin Real.cos Real.arctan Real.log) (fun _ => 0) 1 [Tok.text kwID, Tok.int ID_FKT_II, Tok.text [88]]
      = some (.obj (-1) (.II 2.7 5.4), []) ∧
    loadFunction (Arith.ofField Real.sin Real.cos Real.arctan Real.log) (fun _ => 0) 1
        [Tok.text kwID, Tok.int ID_FKT_METADET, Tok.text [88], Tok.text [89]]
      = some (.torso 0 ID_FKT_METADET, []) ∧
    loadFunction (Arith.ofField Real.sin Real.cos Real.arctan Real.log) (fun _ => 0) 2
        [Tok.text kwID, Tok.int ID_FKT_METADET, Tok.text kwFWAS, Tok.int 1,
          Tok.text kwABLWAS, Tok.int 1, Tok.text [88]]
      = some (.torso 0 ID_FKT_METADET, []) := by
  have k0 : ∀ ts : List (Tok ℝ), nextLine (Tok.text [88] :: ts) = some ([88], ts) :=
    fun ts => nextLine_key [88] ts (by decide) (by decide)
  have k1 : ∀ ts : List (Tok ℝ), nextLine (Tok.text [89] :: ts) = some ([89], ts) :=
    fun ts => nextLine_key [89] ts (by decide) (by decide)
  have k2 : ∀ ts : List (Tok ℝ), nextLine (Tok.text kwID :: ts) = some (kwID, ts) :=
    fun ts => nextLine_key kwID ts (by decide) (by decide)
  have k3 : ∀ ts : List (Tok ℝ), nextLine (Tok.text kwFWAS :: ts) = some (kwFWAS, ts) :=
    fun ts => nextLine_key kwFWAS ts (by decide) (by decide)
  have k4 : ∀ ts : List (Tok ℝ),
      nextLine (Tok.text kwABLWAS :: ts) = some (kwABLWAS, ts) :=
    fun ts => nextLine_key kwABLWAS ts (by decide) (by decide)
  have n0 : ([88] : List Nat) ≠ kwID := by decide
  have n1 : ([88] : List Nat) ≠ kwB := by decide
  have n2 : ([88] : List Nat) ≠ kwFWAS := by decide
  have n3 : ([88] : List Nat) ≠ kwABLWAS := by decide
  have n4 : ([89] : List Nat) ≠ kwFWAS := by decide
  have n5 : ([89] : List Nat) ≠ kwABLWAS := by decide
  have n6 : kwABLWAS ≠ kwFWAS := by decide
  refine ⟨?_, ?_, ?_, ?_, ?_⟩
  · simp [loadFunction, k0, n0]
  · simp [loadFunction, k2, scanI, loadObject, getNewPlain, ID_FKT_METADET,
      ID_FKT_METAABSC, ID_FKT_I, ID_FKT_II, ID_FKT_SICO, ID_FKT_III, ID_FKT_VII,
      ID_FKT_IX, ID_FKT_X, ID_FKT_LSIN, ID_FKT_ATAN]
  · simp [loadFunction, k2, k0, n1, scanI, loadObject, getNewPlain, ID_FKT_METADET,
      ID_FKT_METAABSC, ID_FKT_I, ID_FKT_II, Function.loadPlain, FunctionII.load,
      Arith.ofField]
  · simp [loadFunction, k2, k0, k1, n2, n3, n4, n5, scanI, loadObject,
      FunctionMetaDet.load, FunctionMetaDet.loadLoop, nextLineRaw_eq]
  · simp [loadFunction, k2, k0, k3, k4, n0, n6, scanI, loadObject,
      FunctionMetaDet.load, FunctionMetaDet.loadLoop, nextLineRaw_eq]

/-! ## Parameter files: the field -/

/-- **C34 (the code at the failing input).** The sample field in real
arithmetic reads four records.  The complete record is accepted, with the grid
of 8 by 4 cells that it names.  The record without `LENY` is rejected, and so
is the complete record followed by the unknown key `BOGUS`.  But the record
without `LENY` in which `LENX` occurs twice is accepted: `loadpar` returns 1
and the field has the width of the second `LENX` and no rows. -/
theorem C34_duplicate_key_accepted :
    (∃ M C, Ljapunow.loadparLines
        (Arith.ofField Real.sin Real.cos Real.arctan Real.log) (fun _ => 0) (sampleEmptyColoring
        (Arith.ofField Real.sin Real.cos Real.arctan Real.log))
        (fun _ => sampleInterval
            (Arith.ofField Real.sin Real.cos Real.arctan Real.log)) (fun _ => 0) 1 20 (sampleField (Arith.ofField Real.sin Real.cos Real.arctan Real.log)) none
        (sampleRecord
            (Arith.ofField Real.sin Real.cos Real.arctan Real.log)) = some (1, M, some C) ∧ M.lenx = 8 ∧ M.leny = 4) ∧
    (∃ M C, Ljapunow.loadparLines
        (Arith.ofField Real.sin Real.cos Real.arctan Real.log) (fun _ => 0) (sampleEmptyColoring
        (Arith.ofField Real.sin Real.cos Real.arctan Real.log))
        (fun _ => sampleInterval
            (Arith.ofField Real.sin Real.cos Real.arctan Real.log)) (fun _ => 0) 1 20 (sampleField (Arith.ofField Real.sin Real.cos Real.arctan Real.log)) none
        (sampleRecordShort
            (Arith.ofField Real.sin Real.cos Real.arctan Real.log)) = some (0, M, C)) ∧
    (∃ M C, Ljapunow.loadparLines
        (Arith.ofField Real.sin Real.cos Real.arctan Real.log) (fun _ => 0) (sampleEmptyColoring
        (Arith.ofField Real.sin Real.cos Real.arctan Real.log))
        (fun _ => sampleInterval
            (Arith.ofField Real.sin Real.cos Real.arctan Real.log)) (fun _ => 0) 1 20 (sampleField (Arith.ofField Real.sin Real.cos Real.arctan Real.log)) none
        (sampleRecord
            (Arith.ofField Real.sin Real.cos Real.arctan Real.log) ++ [Tok.text [66, 79, 71, 85, 83]]) = some (0, M, C)) ∧
    (∃ M C, Ljapunow.loadparLines
        (Arith.ofField Real.sin Real.cos Real.arctan Real.log) (fun _ => 0) (sampleEmptyColoring
        (Arith.ofField Real.sin Real.cos Real.arctan Real.log))
        (fun _ => sampleInterval
            (Arith.ofField Real.sin Real.cos Real.arctan Real.log)) (fun _ => 0) 1 20 (sampleField (Arith.ofField Real.sin Real.cos Real.arctan Real.log)) none
        (sampleRecordTwice
            (Arith.ofField Real.sin Real.cos Real.arctan Real.log)) = some (1, M, some C) ∧ M.lenx = 4 ∧ M.leny = 0) :=
  ⟨⟨_, _, rfl, rfl, rfl⟩, ⟨_, _, rfl⟩, ⟨_, _, rfl⟩, ⟨_, _, rfl, rfl, rfl⟩⟩

/-- **C35 (the code at the failing inputs).** The sample field in real
arithmetic (`x0 = 1/2`, sequence `AB`, upper-left corner `(0, 1)`, no
colouring, 4 columns, `iter0 = 50`).  On the record with the line `BOGUS`
after `X0`, `SEQUENZ` and `OL`, `loadpar` returns 0 and the field then has
`x0 = 1/4`, the sequence `BA` and the upper-left corner `(0, 2)`.  On the
record without `LENY`, `loadpar` returns 0 and the field then has a colouring,
`x0 = 1/4` and the lower-right corner `(2, 0)`, while its grid size and
iteration counts, which the record names as 8 and 20, are as before. -/
theorem C35_partial_state_installed :
    (sampleField (Arith.ofField Real.sin Real.cos Real.arctan Real.log)).x0 = 1 / 2 ∧
    (sampleField (Arith.ofField Real.sin Real.cos Real.arctan Real.log)).sequence 0 = 0 ∧
    (sampleField (Arith.ofField Real.sin Real.cos Real.arctan Real.log)).upperleft = ⟨0, 1⟩ ∧
    (sampleField (Arith.ofField Real.sin Real.cos Real.arctan Real.log)).lowerright = ⟨1, 0⟩ ∧
    (∃ M, Ljapunow.loadparLines
        (Arith.ofField Real.sin Real.cos Real.arctan Real.log) (fun _ => 0) (sampleEmptyColoring
        (Arith.ofField Real.sin Real.cos Real.arctan Real.log))
        (fun _ => sampleInterval
            (Arith.ofField Real.sin Real.cos Real.arctan Real.log)) (fun _ => 0) 1 20 (sampleField (Arith.ofField Real.sin Real.cos Real.arctan Real.log)) none
        (sampleRecordBogus
            (Arith.ofField Real.sin Real.cos Real.arctan Real.log)) = some (0, M, none) ∧
      M.x0 = 1 / 4 ∧ M.seqlen = 2 ∧ M.sequence 0 = 1 ∧ M.sequence 1 = 0 ∧
      M.upperleft = ⟨0, 2⟩) ∧
    (∃ M C, Ljapunow.loadparLines
        (Arith.ofField Real.sin Real.cos Real.arctan Real.log) (fun _ => 0) (sampleEmptyColoring
        (Arith.ofField Real.sin Real.cos Real.arctan Real.log))
        (fun _ => sampleInterval
            (Arith.ofField Real.sin Real.cos Real.arctan Real.log)) (fun _ => 0) 1 20 (sampleField (Arith.ofField Real.sin Real.cos Real.arctan Real.log)) none
        (sampleRecordShort
            (Arith.ofField Real.sin Real.cos Real.arctan Real.log)) = some (0, M, some C) ∧
      M.x0 = 1 / 4 ∧ M.lowerright = ⟨2, 0⟩ ∧ M.lenx = 4 ∧ M.iter0 = 50) := by
  refine ⟨?_, rfl, ?_, ?_, ⟨_, rfl, ?_, rfl, rfl, rfl, ?_⟩,
    ⟨_, _, rfl, ?_, ?_, rfl, rfl⟩⟩
  · show ((0.5 : ℚ) : ℝ) = 1 / 2
    norm_num
  · show (⟨((0 : ℚ) : ℝ), ((1 : ℚ) : ℝ)⟩ : Point32_t ℝ) = ⟨0, 1⟩
    norm_num
  · show (⟨((1 : ℚ) : ℝ), ((0 : ℚ) : ℝ)⟩ : Point32_t ℝ) = ⟨1, 0⟩
    norm_num
  · show ((1 / 4 : ℚ) : ℝ) = 1 / 4
    norm_num
  · show (⟨((0 : Int) : ℝ), ((2 : Int) : ℝ)⟩ : Point32_t ℝ) = ⟨0, 2⟩
    norm_num
  · show ((1 / 4 : ℚ) : ℝ) = 1 / 4
    norm_num
  · show (⟨((2 : Int) : ℝ), ((0 : Int) : ℝ)⟩ : Point32_t ℝ) = ⟨2, 0⟩
    norm_num

end Lyapunov
